import Mathlib

/-!
# CPUPathTrace: a shallow embedding of the rendering core and its verified properties

The definitions follow the C++ sources (worker.cpp, scene.cpp, bounding_box.cpp, object.cpp,
propagation.cpp, camera.cpp, mesh.cpp, image_io.cpp, post_processing.cpp and their headers). The C++
int is modelled by Int (truncating division is Int.tdiv); the C++ float is modelled by an arbitrary linearly
ordered field with exact arithmetic, and std::sqrt and the other functions of cmath are
parameters of the functions that call them.
-/

namespace PathTrace


/-! ## Tiles
-/

/-- Tile descriptor of `struct WorkItem` (worker.h); the non-owning job pointer carries no data of
its own and is passed alongside wherever the item is processed. -/
structure WorkItem where
  offset_x : Int
  offset_y : Int
  width : Int
  height : Int
deriving DecidableEq, Repr

/-- Membership of the pixel `(x, y)` in the rectangle
`[offset_x, offset_x + width) x [offset_y, offset_y + height)` covered by a work item. -/
def WorkItem.covers (t : WorkItem) (x y : Int) : Bool :=
  decide (t.offset_x ≤ x ∧ x < t.offset_x + t.width ∧ t.offset_y ≤ y ∧ y < t.offset_y + t.height)

/-- Edge length of the tiles: `std::max(std::min(std::min(width, height) / 4, 32), 1)`
in `processJob` (worker.cpp). C++ `int` division truncates, hence `Int.tdiv`. -/
def tile_size (width height : Int) : Int :=
  max (min ((min width height).tdiv 4) 32) 1

/-- Tile counts along one axis: `(extent + (tile_size - 1)) / tile_size` in `processJob`. -/
def tile_count (extent tile_size : Int) : Int :=
  (extent + (tile_size - 1)).tdiv tile_size

/-- The queue of work items filled by the two nested loops of `processJob` (worker.cpp), in the
order in which they are emplaced. -/
def processJob_queue (width height : Int) : List WorkItem :=
  let ts := tile_size width height
  let horizontal_tiles := tile_count width ts
  let vertical_tiles := tile_count height ts
  (List.range vertical_tiles.toNat).flatMap fun (tile_y : Nat) =>
    (List.range horizontal_tiles.toNat).map fun (tile_x : Nat) =>
      let offset_x := (tile_x : Int) * ts
      let offset_y := (tile_y : Int) * ts
      let tile_width := min (width - offset_x) ts
      let tile_height := min (height - offset_y) ts
      { offset_x := offset_x, offset_y := offset_y, width := tile_width, height := tile_height }

/-! ## Vectors, rays and boxes

The C++ `float` is modelled by an arbitrary linearly ordered field `K` (exact arithmetic: rounding,
infinities and NaN are outside the model); `std::sqrt` is passed as a parameter `sqrt : K → K`. -/

/-- Counterpart of `vec3<float>` (util/vector.h). -/
structure Vec3 (K : Type) where
  x : K
  y : K
  z : K
deriving DecidableEq, Repr

namespace Vec3
variable {K : Type} [LinearOrderedField K]

/-- Component-wise `operator-`. -/
def sub (a b : Vec3 K) : Vec3 K := ⟨a.x - b.x, a.y - b.y, a.z - b.z⟩
/-- Component-wise `operator+`. -/
def add (a b : Vec3 K) : Vec3 K := ⟨a.x + b.x, a.y + b.y, a.z + b.z⟩
/-- Scaling `operator*(TYPE factor)`. -/
def scale (a : Vec3 K) (factor : K) : Vec3 K := ⟨a.x * factor, a.y * factor, a.z * factor⟩
/-- Unary `operator-`. -/
def neg (a : Vec3 K) : Vec3 K := ⟨-a.x, -a.y, -a.z⟩
/-- Function `dot` of vector.h. -/
def dot (a b : Vec3 K) : K := a.x * b.x + a.y * b.y + a.z * b.z
/-- Function `cross` of vector.h. -/
def cross (a b : Vec3 K) : Vec3 K :=
  ⟨a.y * b.z - a.z * b.y, a.z * b.x - a.x * b.z, a.x * b.y - a.y * b.x⟩
/-- Component-wise `min` of vector.h. -/
def min (a b : Vec3 K) : Vec3 K := ⟨Min.min a.x b.x, Min.min a.y b.y, Min.min a.z b.z⟩
/-- Component-wise `max` of vector.h. -/
def max (a b : Vec3 K) : Vec3 K := ⟨Max.max a.x b.x, Max.max a.y b.y, Max.max a.z b.z⟩
/-- Method `getLengthSquared`. -/
def getLengthSquared (a : Vec3 K) : K := a.x * a.x + a.y * a.y + a.z * a.z
/-- Method `getLength`. -/
def getLength (sqrt : K → K) (a : Vec3 K) : K := sqrt a.getLengthSquared
/-- Method `normalize`: scaling by `1 / length`. -/
def normalize (sqrt : K → K) (a : Vec3 K) : Vec3 K := a.scale (1 / a.getLength sqrt)
/-- Indexing `operator[]` for the indices 0, 1, 2. -/
def get (a : Vec3 K) (i : Nat) : K := if i = 0 then a.x else if i = 1 then a.y else a.z

end Vec3

/-- Counterpart of `struct Ray` (base.h). -/
structure Ray (K : Type) where
  origin : Vec3 K
  dir : Vec3 K
deriving DecidableEq, Repr

/-- Counterpart of `struct AABBArea` (bounding_box.h). -/
structure AABBArea (K : Type) where
  low : Vec3 K
  high : Vec3 K
deriving DecidableEq, Repr

/-- Counterpart of `class Sphere` (object.h): centre, radius and cached squared radius. -/
structure Sphere (K : Type) where
  origin : Vec3 K
  radius : K
  radius2 : K
deriving DecidableEq, Repr

/-- Counterpart of `class Triangle` (object.h). -/
structure Triangle (K : Type) where
  a : Vec3 K
  b : Vec3 K
  c : Vec3 K
  normal_a : Vec3 K
  normal_b : Vec3 K
  normal_c : Vec3 K
  cull_backface : Bool
deriving DecidableEq, Repr

/-- The closed set of geometries deriving from `class Object`. -/
inductive Geometry (K : Type) where
  | null : Geometry K
  | sphere : Sphere K → Geometry K
  | triangle : Triangle K → Geometry K
deriving DecidableEq, Repr

/-- Counterpart of `class Object` (object.h): a geometry together with the identity of the shared
`MaterialHandler` it points to. -/
structure Object (K : Type) where
  material_handler : Nat
  geometry : Geometry K
deriving DecidableEq, Repr

/-- Counterpart of `class AABB` (bounding_box.h): a leaf owning one object or an inner node owning two
children (the `leaf` flag is the constructor tag). -/
inductive AABB (K : Type) where
  | leafNode : AABBArea K → Object K → AABB K
  | innerNode : AABBArea K → AABB K → AABB K → AABB K
deriving Repr

section Geometry
variable {K : Type} [LinearOrderedField K]

/-- Value of `std::numeric_limits<float>::max()`, that is `(2 - 2^-23) * 2^127`. -/
@[irreducible] def float_max : K := (2 ^ 24 - 1) * 2 ^ 104

/-- Constructor `Sphere::Sphere(origin, radius)`. -/
def Sphere.new (origin : Vec3 K) (radius : K) : Sphere K :=
  { origin := origin, radius := radius, radius2 := radius * radius }

/-- Constructor `Triangle::Triangle(a, b, c, cull_backface)`. -/
def Triangle.new (sqrt : K → K) (a b c : Vec3 K) (cull_backface : Bool) : Triangle K :=
  let face_normal := ((b.sub a).cross (c.sub a)).normalize sqrt
  { a := a, b := b, c := c, normal_a := face_normal, normal_b := face_normal,
    normal_c := face_normal, cull_backface := cull_backface }

/-- Method `Sphere::getIntersection` (object.cpp). -/
def Sphere.getIntersection (sqrt : K → K) (s : Sphere K) (ray : Ray K) : K :=
  let co := ray.origin.sub s.origin
  let d := ray.dir.dot co
  let discriminant := d * d - co.getLengthSquared + s.radius2
  if discriminant ≥ 0 then
    -(d + sqrt discriminant)
  else
    -1

/-- The constant `epsilon = 1E-6F` of `Triangle::getIntersection`. -/
def Triangle.epsilon : K := 1 / 1000000

/-- Determinant `det = dot(ab, cross(ray.dir, ac))` of `Triangle::getIntersection`. -/
def Triangle.det (t : Triangle K) (ray : Ray K) : K :=
  (t.b.sub t.a).dot (ray.dir.cross (t.c.sub t.a))

/-- Method `Triangle::getIntersection` (object.cpp). -/
def Triangle.getIntersection (t : Triangle K) (ray : Ray K) : K :=
  let ab := t.b.sub t.a
  let ac := t.c.sub t.a
  let pvec := ray.dir.cross ac
  let det := ab.dot pvec
  if (if t.cull_backface then det ≤ Triangle.epsilon else |det| ≤ Triangle.epsilon) then
    -1
  else
    let inv_det := 1 / det
    let tvec := ray.origin.sub t.a
    let u := tvec.dot pvec * inv_det
    if u < 0 ∨ u > 1 then
      -1
    else
      let qvec := tvec.cross ab
      let v := ray.dir.dot qvec * inv_det
      if v < 0 ∨ u + v > 1 then
        -1
      else
        ac.dot qvec * inv_det

/-- Virtual method `Object::getIntersection`, dispatched on the geometry
(`NullObject::getIntersection` returns `-1.0F`). -/
def Object.getIntersection (sqrt : K → K) (o : Object K) (ray : Ray K) : K :=
  match o.geometry with
  | .null => -1
  | .sphere s => s.getIntersection sqrt ray
  | .triangle t => t.getIntersection ray

/-- Member `area` of an `AABB` node. -/
def AABB.area : AABB K → AABBArea K
  | .leafNode area _ => area
  | .innerNode area _ _ => area

/-- Function `impl::combineAreas` (bounding_box.cpp). -/
def combineAreas (a b : AABBArea K) : AABBArea K :=
  { low := a.low.min b.low, high := a.high.max b.high }

/-- Constructor `AABB::AABB(AABB &&left, AABB &&right)` of an inner node. -/
def AABB.combine (left right : AABB K) : AABB K :=
  .innerNode (combineAreas left.area right.area) left right

/-- Method `AABB::getIntersection` (bounding_box.cpp): the slab test against the node's box. -/
def AABB.getIntersection (aabb : AABB K) (ray : Ray K) : K :=
  let ix := if |ray.dir.x| > 0 then 1 / ray.dir.x else float_max
  let iy := if |ray.dir.y| > 0 then 1 / ray.dir.y else float_max
  let iz := if |ray.dir.z| > 0 then 1 / ray.dir.z else float_max
  let ld := aabb.area.low.sub ray.origin
  let hd := aabb.area.high.sub ray.origin
  let t1 := ld.x * ix
  let t2 := hd.x * ix
  let t3 := ld.y * iy
  let t4 := hd.y * iy
  let t5 := ld.z * iz
  let t6 := hd.z * iz
  let t_min := max (max (min t1 t2) (min t3 t4)) (min t5 t6)
  let t_max := min (min (max t1 t2) (max t3 t4)) (max t5 t6)
  if t_max < 0 ∨ t_min > t_max then
    -1
  else if t_min < 0 ∧ t_min ≤ t_max ∧ t_max ≥ 0 then
    0
  else
    t_min

/-- Function `impl::getChildIntersection` (scene.cpp); `none` is the `nullptr` object. -/
def getChildIntersection (sqrt : K → K) : AABB K → Ray K → K → K × Option (Object K)
  | .leafNode _ child, ray, _ => (child.getIntersection sqrt ray, some child)
  | .innerNode _ left right, ray, t_max =>
    let left_t := left.getIntersection ray
    let right_t := right.getIntersection ray
    let close_t := min left_t right_t
    let far_t := max left_t right_t
    let close := if left_t < right_t then getChildIntersection sqrt left else getChildIntersection sqrt right
    let far := if left_t < right_t then getChildIntersection sqrt right else getChildIntersection sqrt left
    let close_intersection : K × Option (Object K) :=
      if close_t ≥ 0 ∧ close_t < t_max then close ray t_max else (-1, none)
    let close_intersection_t := close_intersection.1
    if close_intersection_t ≥ 0 ∧ close_intersection_t < far_t then
      close_intersection
    else
      let t_max := if close_intersection_t ≥ 0 then min t_max close_intersection_t else t_max
      if far_t ≥ 0 ∧ far_t < t_max then
        let far_intersection := far ray t_max
        let far_intersection_t := far_intersection.1
        if far_intersection_t < 0 ∨ (close_intersection_t ≥ 0 ∧ close_intersection_t < far_intersection_t) then
          close_intersection
        else
          far_intersection
      else
        close_intersection

/-- Identity of the global `default_material_handler` (object.cpp) used by `Object::Object()`. -/
def default_material_handler : Nat := 0

/-- The object `NullObject()`. -/
def NullObject : Object K := { material_handler := default_material_handler, geometry := .null }

/-- Virtual method `Object::getBoundingVolume` (`NullObject` returns the value-initialised area). -/
def Object.getBoundingVolume (o : Object K) : AABBArea K :=
  match o.geometry with
  | .null => { low := ⟨0, 0, 0⟩, high := ⟨0, 0, 0⟩ }
  | .sphere s =>
    let d : Vec3 K := ⟨s.radius, s.radius, s.radius⟩
    { low := s.origin.sub d, high := s.origin.add d }
  | .triangle t => { low := (t.a.min t.b).min t.c, high := (t.a.max t.b).max t.c }

/-- The value `*median_location` after `std::nth_element` at position `size / 2 - 1`: the element of
that rank in sorted order. -/
def median (coords : List K) : K :=
  (coords.insertionSort (· ≤ ·)).getD (coords.length / 2 - 1) 0

/-- One accumulation step `combined_low = min(combined_low, low); combined_high = max(combined_high, high)`
of `constructBVH`; `none` is the initial pair `(inf, -inf)` of an empty side. -/
def extendBounds (acc : Option (AABBArea K)) (a : AABBArea K) : Option (AABBArea K) :=
  match acc with
  | none => some a
  | some c => some { low := c.low.min a.low, high := c.high.max a.high }

/-- Summand `2 * (d[0] * d[1] + d[1] * d[2] + d[0] * d[2])` of `constructBVH`; the result `none` is the
float `+inf` obtained for a side that stayed at `(inf, -inf)`. -/
def boundsSurface (acc : Option (AABBArea K)) : Option K :=
  match acc with
  | none => none
  | some c =>
    let d := c.high.sub c.low
    some (2 * (d.x * d.y + d.y * d.z + d.x * d.z))

/-- Entry `surface_areas[dim]` of `constructBVH`: total surface of the two aggregate boxes of the
split at the median of dimension `dim` (`none` is `+inf`). -/
def splitSurface (boxes : List (AABB K)) (dim : Nat) (cutoff : K) : Option K :=
  let combined := boxes.foldl
    (fun (acc : Option (AABBArea K) × Option (AABBArea K)) (aabb : AABB K) =>
      if aabb.area.low.get dim ≤ cutoff then (extendBounds acc.1 aabb.area, acc.2)
      else (acc.1, extendBounds acc.2 aabb.area))
    (none, none)
  match boundsSurface combined.1, boundsSurface combined.2 with
  | some s0, some s1 => some (0 + s0 + s1)
  | _, _ => none

/-- Comparison `a < b` of two surface values where `none` is `+inf`. -/
def surfaceLt (a b : Option K) : Bool :=
  match a, b with
  | some x, some y => decide (x < y)
  | some _, none => true
  | none, _ => false

/-- The rebalancing loop of `constructBVH`: while the left side has more than one element and more
than twice the size of the right side, its last element is moved to the end of the right side. The
first argument bounds the number of iterations (the left length suffices). -/
def rebalance {α : Type} : Nat → List α → List α → List α × List α
  | 0, left, right => (left, right)
  | n + 1, left, right =>
    if left.length > 1 ∧ left.length > 2 * right.length then
      match left.getLast? with
      | some last => rebalance n left.dropLast (right ++ [last])
      | none => (left, right)
    else
      (left, right)

/-- Function `impl::constructBVH` (scene.cpp). `uninit` is the indeterminate `area` left by the
default constructor `AABB::AABB()`, which does not initialise it. The recursion is bounded by a
fuel argument; `none` means the fuel ran out. -/
def constructBVH (uninit : AABBArea K) : Nat → List (AABB K) → Option (AABB K)
  | _, [] => some (.leafNode uninit NullObject)
  | _, [b] => some b
  | 0, _ :: _ :: _ => none
  | fuel + 1, b0 :: b1 :: rest =>
    let bounding_boxes := b0 :: b1 :: rest
    let medians : Nat → K := fun dim => median (bounding_boxes.map fun aabb => aabb.area.low.get dim)
    let surface_areas : Nat → Option K := fun dim => splitSurface bounding_boxes dim (medians dim)
    let min_index0 := 0
    let min_surface0 := surface_areas 0
    let min_index1 := if surfaceLt (surface_areas 1) min_surface0 then 1 else min_index0
    let min_surface1 := if surfaceLt (surface_areas 1) min_surface0 then surface_areas 1 else min_surface0
    let min_index := if surfaceLt (surface_areas 2) min_surface1 then 2 else min_index1
    let left_children := bounding_boxes.filter fun aabb => decide (aabb.area.low.get min_index ≤ medians min_index)
    let right_children := bounding_boxes.filter fun aabb => !decide (aabb.area.low.get min_index ≤ medians min_index)
    let balanced := rebalance left_children.length left_children right_children
    match constructBVH uninit fuel balanced.1, constructBVH uninit fuel balanced.2 with
    | some left_child, some right_child => some (AABB.combine left_child right_child)
    | _, _ => none

/-- Counterpart of `class Scene` (scene.h), restricted to the acceleration structure it owns. -/
structure Scene (K : Type) where
  bounding_box : AABB K

/-- Constructor `Scene::Scene(objects, light_sources)`: every object is wrapped into a leaf carrying
its bounding volume and the hierarchy is built over the leaves. -/
def Scene.new (uninit : AABBArea K) (objects : List (Object K)) : Option (Scene K) :=
  let aabbs := objects.map fun object => AABB.leafNode object.getBoundingVolume object
  (constructBVH uninit aabbs.length aabbs).map Scene.mk

/-- Method `Scene::getIntersection` (scene.cpp). -/
def Scene.getIntersection (sqrt : K → K) (scene : Scene K) (ray : Ray K) : K × Option (Object K) :=
  let t := scene.bounding_box.getIntersection ray
  if t ≥ 0 then
    getChildIntersection sqrt scene.bounding_box ray float_max
  else
    (t, none)

end Geometry


/-! ## Colours, spectra and images -/

/-- Counterpart of `Color<float>` (util/color.h): an RGBA quadruple. -/
structure Color (K : Type) where
  r : K
  g : K
  b : K
  a : K
deriving DecidableEq, Repr

namespace Color
variable {K : Type} [LinearOrderedField K]

/-- Value-initialised colour `Color<float>{}`. -/
def zero : Color K := ⟨0, 0, 0, 0⟩
/-- Component-wise `operator+`. -/
def add (p q : Color K) : Color K := ⟨p.r + q.r, p.g + q.g, p.b + q.b, p.a + q.a⟩
/-- Component-wise `operator-`. -/
def sub (p q : Color K) : Color K := ⟨p.r - q.r, p.g - q.g, p.b - q.b, p.a - q.a⟩
/-- Component-wise product `operator*(const rt_vector &)`. -/
def mul (p q : Color K) : Color K := ⟨p.r * q.r, p.g * q.g, p.b * q.b, p.a * q.a⟩
/-- Scaling `operator*(TYPE factor)`. -/
def scale (p : Color K) (factor : K) : Color K := ⟨p.r * factor, p.g * factor, p.b * factor, p.a * factor⟩
/-- Division `operator/(TYPE divisor)`. -/
def div (p : Color K) (divisor : K) : Color K := ⟨p.r / divisor, p.g / divisor, p.b / divisor, p.a / divisor⟩

end Color

/-- Counterpart of `class Spectrum` (light.h). -/
structure Spectrum (K : Type) where
  color : Color K
deriving DecidableEq, Repr

namespace Spectrum
variable {K : Type} [LinearOrderedField K]

/-- Default argument `{0.0F, 0.0F, 0.0F, 0.0F}` of the `Spectrum` constructor. -/
def dark : Spectrum K := ⟨⟨0, 0, 0, 0⟩⟩
/-- Method `Spectrum::operator+`. -/
def add (s o : Spectrum K) : Spectrum K := ⟨s.color.add o.color⟩
/-- Method `Spectrum::operator*(Spectrum)`. -/
def mul (s o : Spectrum K) : Spectrum K := ⟨s.color.mul o.color⟩
/-- Method `Spectrum::operator*(float)`. -/
def scale (s : Spectrum K) (factor : K) : Spectrum K := ⟨s.color.scale factor⟩
/-- Method `Spectrum::operator/(float)`. -/
def div (s : Spectrum K) (divisor : K) : Spectrum K := ⟨s.color.div divisor⟩

end Spectrum

/-- Counterpart of `class Image<Color<float>>` (image/image.h): row-major pixel storage. -/
structure Image (K : Type) where
  width : Int
  height : Int
  data : List (Color K)
deriving DecidableEq, Repr

namespace Image
variable {K : Type} [LinearOrderedField K]

/-- Constructor `Image(width, height)`: `width * height` value-initialised pixels. -/
def new (width height : Int) : Image K :=
  { width := width, height := height, data := List.replicate (width * height).toNat Color.zero }

/-- Predicate checked by `assertContainsPoint`. -/
def containsPoint (img : Image K) (x y : Int) : Bool :=
  decide (0 ≤ x ∧ x < img.width ∧ 0 ≤ y ∧ y < img.height)

/-- Read access `operator()(x, y) const`, reading `data_[y * width + x]`. -/
def get (img : Image K) (x y : Int) : Color K :=
  img.data.getD (y * img.width + x).toNat Color.zero

/-- Write access through `operator()(x, y)`, writing `data_[y * width + x]`; a write outside the
image (excluded by `assertContainsPoint`) leaves the image untouched. -/
def set (img : Image K) (x y : Int) (value : Color K) : Image K :=
  if img.containsPoint x y then
    { img with data := img.data.set (y * img.width + x).toNat value }
  else
    img

end Image

/-! ## The path integrator `impl::getSample` -/

/-- Counterpart of `struct RenderOptions` (worker.h). -/
structure RenderOptions (K : Type) where
  image_width : Int
  image_height : Int
  min_sample_count : Int
  max_sample_count : Int
  epsilon : K
  allow_bias : Bool

/-- Counterpart of `struct FrameRenderJob` (worker.h). The camera is reached through
`Shading.shootRay`. -/
structure FrameRenderJob (K : Type) where
  scene : Scene K
  options : RenderOptions K

/-- The virtual and random interfaces `getSample` calls into, over an engine state `R`: the camera,
the uniform distribution on `[0, 1)`, the materials and BSDFs selected through an object's
material handler, and the light sampler of the scene. Every call that draws random bits returns
the advanced engine state. -/
structure Shading (K R : Type) where
  /-- Method `Camera::shootRay(x, y, pixel_width, pixel_height, re)`. -/
  shootRay : K → K → K → K → R → Ray K × R
  /-- Call `dist(re)` of `std::uniform_real_distribution<float> dist(0, 1)`. -/
  dist : R → K × R
  /-- Call `getMaterial(pos)->getEmission(ray, pos)` on a material handler. -/
  getEmission : Nat → Ray K → Vec3 K → Spectrum K
  /-- Method `Scene::sampleLights(pos, n, re)`. -/
  sampleLights : Vec3 K → Vec3 K → R → List (Vec3 K × Spectrum K × K) × R
  /-- Call `getBSDF(pos)->getSpectrum(from_camera, to_light, pos, normal, light_spectrum, material,
  synthetic)` on a material handler. -/
  getSpectrum : Nat → Ray K → Ray K → Vec3 K → Vec3 K → Spectrum K → Bool → Spectrum K × K × K
  /-- Call `getBSDF(pos)->propagateRay(ray, pos, normal, epsilon, re, material)` on a material
  handler. -/
  propagateRay : Nat → Ray K → Vec3 K → Vec3 K → K → R → (Ray K × K × K) × R

section Render
variable {K R : Type} [LinearOrderedField K]

/-- Method `Triangle::getSurfaceNormal` (object.cpp). -/
def Triangle.getSurfaceNormal (sqrt : K → K) (t : Triangle K) (pos : Vec3 K) : Vec3 K :=
  let ab := t.b.sub t.a
  let ac := t.c.sub t.a
  let ap := pos.sub t.a
  let d00 := ab.dot ab
  let d01 := ab.dot ac
  let d11 := ac.dot ac
  let d20 := ap.dot ab
  let d21 := ap.dot ac
  let inv_d := 1 / (d00 * d11 - d01 * d01)
  let v := (d11 * d20 - d01 * d21) * inv_d
  let w := (d00 * d21 - d01 * d20) * inv_d
  let u := 1 - v - w
  (((t.normal_a.scale u).add (t.normal_b.scale v)).add (t.normal_c.scale w)).normalize sqrt

/-- Virtual method `Object::getSurfaceNormal`. -/
def Object.getSurfaceNormal (sqrt : K → K) (o : Object K) (pos : Vec3 K) : Vec3 K :=
  match o.geometry with
  | .null => ⟨0, 1, 0⟩
  | .sphere s => (pos.sub s.origin).normalize sqrt
  | .triangle t => t.getSurfaceNormal sqrt pos

/-- Function `impl::getContribution(Color<float>)` (worker.cpp). -/
def getContribution (color : Color K) : K := (color.r + color.g + color.b) / 3

/-- The local variables of `impl::getSample` that live across loop iterations. -/
structure PathState (K : Type) where
  ray : Ray K
  sample_collected : Bool
  contribution_unweighted : K
  sample_divisor : K
  sample_bounce_pd : K
  sample_spectrum : Spectrum K
  out_spectrum : Spectrum K
  path_length : Int

/-- The loop over the sampled lights in `impl::getSample`: the next-event contribution of every
unoccluded light is added to `out_spectrum`. -/
def accumulateLights (sqrt : K → K) (sh : Shading K R) (job : FrameRenderJob K) (st : PathState K)
    (material_handler : Nat) (pos n : Vec3 K) :
    List (Vec3 K × Spectrum K × K) → Spectrum K → Spectrum K
  | [], out_spectrum => out_spectrum
  | (light_pos, light_spectrum, lpd) :: rest, out_spectrum =>
    let epsilon := job.options.epsilon
    let to_light := light_pos.sub pos
    let light_dir := to_light.normalize sqrt
    let light_ray : Ray K := { origin := pos.add (light_dir.scale epsilon), dir := light_dir }
    let light_t := (job.scene.getIntersection sqrt light_ray).1
    let out_spectrum :=
      if light_t < 0 ∨ light_t ≥ to_light.getLength sqrt - epsilon then
        let res := sh.getSpectrum material_handler st.ray light_ray pos n light_spectrum true
        let base_spectrum := res.1
        let shading_factor := res.2.1
        let shadow_ray_pd := res.2.2
        if shadow_ray_pd > 0 then
          let combined_spectrum := (base_spectrum.scale shading_factor).mul st.sample_spectrum
          let weighed_spectrum :=
            combined_spectrum.div (st.sample_divisor * st.sample_bounce_pd * lpd * shadow_ray_pd)
          out_spectrum.add weighed_spectrum
        else out_spectrum
      else out_spectrum
    accumulateLights sqrt sh job st material_handler pos n rest out_spectrum

/-- The `for(;;)` loop of `impl::getSample` (worker.cpp). The result is the state at the `break`
together with the engine state. The source loop has no static bound, so the iterations are bounded
by a fuel argument; `none` means that the fuel ran out, or that a null object was dereferenced
after a non-negative intersection distance. -/
def getSample.loop (sqrt : K → K) (sh : Shading K R) (job : FrameRenderJob K) :
    Nat → PathState K → R → Option (PathState K × R)
  | 0, _, _ => none
  | fuel + 1, st, re =>
    let epsilon := job.options.epsilon
    let hit := job.scene.getIntersection sqrt st.ray
    let t := hit.1
    if t < 0 then
      some (st, re)
    else
      match hit.2 with
      | none => none
      | some object =>
        let path_length := st.path_length + 1
        let pos := st.ray.origin.add (st.ray.dir.scale t)
        let n := object.getSurfaceNormal sqrt pos
        let emission := sh.getEmission object.material_handler st.ray pos
        let out_spectrum :=
          st.out_spectrum.add ((st.sample_spectrum.mul emission).div (st.sample_divisor * st.sample_bounce_pd))
        let bounce_probability : K :=
          if path_length ≤ 4 then 1
          else 1 / 10 + 1 / 10 * min (st.contribution_unweighted * getContribution st.sample_spectrum.color) 1
        let drawn := sh.dist re
        let do_bounce := decide (drawn.1 < bounce_probability)
        let lights := sh.sampleLights pos n drawn.2
        let out_spectrum :=
          accumulateLights sqrt sh job st object.material_handler pos n lights.1 out_spectrum
        let re := lights.2
        if !do_bounce then
          some ({ st with sample_collected := true, path_length := path_length, out_spectrum := out_spectrum,
                          sample_bounce_pd := st.sample_bounce_pd * (1 - bounce_probability) }, re)
        else
          let sample_bounce_pd := st.sample_bounce_pd * bounce_probability
          if sample_bounce_pd ≤ 1 / 10 ^ 20 then
            some ({ st with sample_collected := true, path_length := path_length,
                            out_spectrum := out_spectrum, sample_bounce_pd := sample_bounce_pd }, re)
          else
            let next := sh.propagateRay object.material_handler st.ray pos n epsilon re
            let next_ray := next.1.1
            let ray_factor := next.1.2.1
            let ray_pd := next.1.2.2
            let re := next.2
            let sample_divisor := st.sample_divisor * ray_pd / ray_factor
            let contribution_unweighted := st.contribution_unweighted * ray_factor
            let shaded :=
              sh.getSpectrum object.material_handler st.ray next_ray pos n st.sample_spectrum false
            let shading_factor := shaded.2.1
            let shading_pd := shaded.2.2
            let sample_divisor := sample_divisor * shading_pd / shading_factor
            let contribution_unweighted := contribution_unweighted * shading_factor
            let st' : PathState K :=
              { ray := st.ray, sample_collected := true, contribution_unweighted := contribution_unweighted,
                sample_divisor := sample_divisor, sample_bounce_pd := sample_bounce_pd,
                sample_spectrum := shaded.1, out_spectrum := out_spectrum, path_length := path_length }
            if sample_divisor ≤ 1 / 10 ^ 20 then
              some (st', re)
            else
              getSample.loop sqrt sh job fuel { st' with ray := next_ray } re

/-- Function `impl::getSample` (worker.cpp): one path sample for the camera coordinate
`(x_camera, y_camera)`; the result is `(out_spectrum, sample_collected)` and the engine state. -/
def getSample (sqrt : K → K) (sh : Shading K R) (job : FrameRenderJob K) (fuel : Nat)
    (x_camera y_camera : K) (re : R) : Option ((Spectrum K × Bool) × R) :=
  let pixel_width : K := 1 / (job.options.image_width : K)
  let pixel_height : K := 1 / (job.options.image_height : K)
  let shot := sh.shootRay x_camera y_camera pixel_width pixel_height re
  let init : PathState K :=
    { ray := shot.1, sample_collected := false, contribution_unweighted := 1, sample_divisor := 1,
      sample_bounce_pd := 1, sample_spectrum := ⟨⟨1, 1, 1, 1⟩⟩, out_spectrum := Spectrum.dark,
      path_length := 0 }
  match getSample.loop sqrt sh job fuel init shot.2 with
  | none => none
  | some (st, re) =>
    let out_color := st.out_spectrum.color
    let out_color := { out_color with a := if st.sample_collected then 1 else 0 }
    some ((⟨out_color⟩, st.sample_collected), re)

/-! ## The adaptive per-pixel sampler `processItem` -/

/-- Local `stats_sample_count` of `processItem` (worker.cpp). -/
def stats_sample_count (options : RenderOptions K) : Int :=
  min (max (options.min_sample_count.tdiv 4) 1) 64

/-- Local `candidate_batch_count` of `processItem`. -/
def candidate_batch_count (options : RenderOptions K) : Int :=
  max ((max options.min_sample_count (options.max_sample_count.tdiv 4)).tdiv (stats_sample_count options)) 2

/-- Local `check_sample_count` of `processItem`. -/
def check_sample_count (options : RenderOptions K) : Int :=
  (min (max (max (max (options.min_sample_count.tdiv 2)
      ((options.max_sample_count - options.min_sample_count).tdiv 8)) 8) (stats_sample_count options)) 1024).tdiv
    (stats_sample_count options)

/-- The per-pixel local variables of `processItem` that live across the sample loop. -/
structure PixelState (K : Type) where
  pixel_value : Color K
  collected_sample_count : Int
  previous_pixel_value : Color K
  contribution_mean : Color K
  contribution_m2 : Color K
  contribution_count : Int
  stats_sample_index : Int
  sample_aggregate : Color K
  candidate_means : List (Color K)
  candidate_m2s : List (Color K)
  candidate_counts : List Int
  candidate_mean : Color K
  candidate_m2 : Color K
  candidate_count : Int
  remaining_checks : Int
  accepted_candidate : Bool

/-- The initial values of the per-pixel variables. -/
def PixelState.init (options : RenderOptions K) : PixelState K :=
  { pixel_value := Color.zero, collected_sample_count := 0, previous_pixel_value := Color.zero,
    contribution_mean := Color.zero, contribution_m2 := Color.zero, contribution_count := 0,
    stats_sample_index := 0, sample_aggregate := Color.zero,
    candidate_means := [], candidate_m2s := [], candidate_counts := [],
    candidate_mean := Color.zero, candidate_m2 := Color.zero, candidate_count := 0,
    remaining_checks := check_sample_count options, accepted_candidate := false }

/-- The block `if(stats_sample_index == stats_sample_count) { ... }` of `processItem`: the online
(Welford) update of the running statistics and of the current candidate batch. -/
def PixelState.completeBatch (options : RenderOptions K) (st : PixelState K) : PixelState K :=
  let sample_aggregate := st.sample_aggregate.div ((stats_sample_count options : Int) : K)
  let delta := sample_aggregate.sub st.contribution_mean
  let contribution_mean :=
    st.contribution_mean.add (delta.div ((st.contribution_count.tdiv (stats_sample_count options) : Int) : K))
  let delta2 := sample_aggregate.sub contribution_mean
  let contribution_m2 := st.contribution_m2.add (delta.mul delta2)
  let pushed := decide (st.candidate_count = candidate_batch_count options)
  let candidate_means := if pushed then st.candidate_means ++ [st.candidate_mean] else st.candidate_means
  let candidate_m2s := if pushed then st.candidate_m2s ++ [st.candidate_m2] else st.candidate_m2s
  let candidate_counts := if pushed then st.candidate_counts ++ [st.candidate_count] else st.candidate_counts
  let candidate_mean0 := if pushed then Color.zero else st.candidate_mean
  let candidate_m20 := if pushed then Color.zero else st.candidate_m2
  let candidate_count0 := if pushed then 0 else st.candidate_count
  let candidate_count := candidate_count0 + 1
  let candidate_delta := sample_aggregate.sub candidate_mean0
  let candidate_mean := candidate_mean0.add (candidate_delta.div ((candidate_count : Int) : K))
  let candidate_delta2 := sample_aggregate.sub candidate_mean
  let candidate_m2 := candidate_m20.add (candidate_delta.mul candidate_delta2)
  { st with contribution_mean := contribution_mean, contribution_m2 := contribution_m2,
            candidate_means := candidate_means, candidate_m2s := candidate_m2s,
            candidate_counts := candidate_counts, candidate_mean := candidate_mean,
            candidate_m2 := candidate_m2, candidate_count := candidate_count,
            stats_sample_index := 0, sample_aggregate := Color.zero }

/-- The convergence test of `processItem` on the running statistics: whether the standard
deviation is below `1E-4F` or below 20% of the relative contribution. -/
def PixelState.passesCheck (sqrt : K → K) (options : RenderOptions K) (st : PixelState K) : Bool :=
  if st.contribution_count.tdiv (stats_sample_count options) ≥ 2 then
    let m2_weighted :=
      st.contribution_m2.div (((st.contribution_count.tdiv (stats_sample_count options) - 1 : Int)) : K)
    let stddev := sqrt (m2_weighted.r + m2_weighted.g + m2_weighted.b)
    decide (stddev < 1 / 10000 ∨ stddev / (3 * 3 * getContribution st.contribution_mean + 1 / 100000) < 2 / 10)
  else
    false

/-- First part of the body of the sample loop of `processItem` for a collected sample with colour
`color_contribution`: the sample enters the current batch, a full batch is completed, and the
sample is added to the pixel sum. -/
def PixelState.recordSample (options : RenderOptions K) (st : PixelState K)
    (color_contribution : Color K) : PixelState K :=
  let st := { st with contribution_count := st.contribution_count + 1,
                      stats_sample_index := st.stats_sample_index + 1,
                      sample_aggregate := st.sample_aggregate.add color_contribution }
  let st := if st.stats_sample_index = stats_sample_count options then st.completeBatch options else st
  { st with previous_pixel_value := st.pixel_value,
            pixel_value := st.pixel_value.add color_contribution,
            collected_sample_count := st.collected_sample_count + 1 }

/-- Second part of the body of the sample loop of `processItem`: the convergence check after a
completed batch once enough samples are collected; the flag tells whether the loop is left
through `break`. -/
def PixelState.checkConvergence (sqrt : K → K) (options : RenderOptions K) (st : PixelState K) :
    PixelState K × Bool :=
  if st.stats_sample_index = 0 ∧ st.collected_sample_count ≥ max options.min_sample_count 2 then
    if st.passesCheck sqrt options then
      let st := { st with remaining_checks := st.remaining_checks - 1 }
      if st.remaining_checks ≤ 0 then
        ({ st with accepted_candidate := true }, true)
      else
        (st, false)
    else
      ({ st with remaining_checks := check_sample_count options }, false)
  else
    (st, false)

/-- The body of the sample loop of `processItem` for a collected sample with colour
`color_contribution`; the flag tells whether the loop is left through `break`. -/
def PixelState.addSample (sqrt : K → K) (options : RenderOptions K) (st : PixelState K)
    (color_contribution : Color K) : PixelState K × Bool :=
  (st.recordSample options color_contribution).checkConvergence sqrt options

/-- Local `struct PixelCandidate` of `processItem`. -/
structure PixelCandidate (K : Type) where
  color : Color K
  stddev : K

/-- The loop of `processItem` that collects the candidate batches holding at least
`max(candidate_batch_count * 3 / 4, 2)` batches, over the three parallel vectors. -/
def pixelCandidates (sqrt : K → K) (options : RenderOptions K) :
    List (Color K) → List (Color K) → List Int → List (PixelCandidate K)
  | mean :: means, m2 :: m2s, count :: counts =>
    if count < max ((candidate_batch_count options * 3).tdiv 4) 2 then
      pixelCandidates sqrt options means m2s counts
    else
      let m2_weighted := m2.div ((count : Int) : K)
      let stddev := sqrt (m2_weighted.r + m2_weighted.g + m2_weighted.b)
      { color := mean, stddev := stddev } :: pixelCandidates sqrt options means m2s counts
  | _, _, _ => []

/-- The loop of `processItem` that averages the lowest-deviation candidates, starting at index
`i`, until a candidate falls outside the tolerance. -/
def mergeCandidates : List (PixelCandidate K) → Int → Color K → K → Color K
  | [], _, pixel_value, _ => pixel_value
  | other :: rest, i, pixel_value, stddev =>
    if other.stddev < max (stddev + 5 / 1000) (stddev * (101 / 100)) then
      mergeCandidates rest (i + 1) (pixel_value.add ((other.color.sub pixel_value).div ((i + 1 : Int) : K)))
        other.stddev
    else
      pixel_value

/-- The code of `processItem` after the sample loop: the final value of the pixel. `std::sort` is
modelled by insertion sort on the deviations. -/
def PixelState.finish (sqrt : K → K) (options : RenderOptions K) (st : PixelState K) : Color K :=
  let pixel_value :=
    if st.collected_sample_count > 0 then
      st.pixel_value.scale (1 / ((st.collected_sample_count : Int) : K))
    else st.pixel_value
  let pushed := decide (st.candidate_count > 0)
  let candidate_means := if pushed then st.candidate_means ++ [st.candidate_mean] else st.candidate_means
  let candidate_m2s := if pushed then st.candidate_m2s ++ [st.candidate_m2] else st.candidate_m2s
  let candidate_counts := if pushed then st.candidate_counts ++ [st.candidate_count] else st.candidate_counts
  if !st.accepted_candidate then
    let pixel_candidates := pixelCandidates sqrt options candidate_means candidate_m2s candidate_counts
    match pixel_candidates.insertionSort (fun a b => a.stddev ≤ b.stddev) with
    | [] => pixel_value
    | first :: rest => mergeCandidates rest 1 first.color first.stddev
  else
    pixel_value

/-- The sample loop `for(pixel_sample = 0; pixel_sample < max_sample_count; pixel_sample++)` of
`processItem`; the first argument is the number of iterations that remain. -/
def samplePixel (sqrt : K → K) (sh : Shading K R) (job : FrameRenderJob K) (fuel : Nat)
    (x_camera y_camera : K) : Nat → PixelState K → R → Option (PixelState K × R)
  | 0, st, re => some (st, re)
  | remaining + 1, st, re =>
    match getSample sqrt sh job fuel x_camera y_camera re with
    | none => none
    | some ((out_spectrum, sample_collected), re) =>
      if sample_collected then
        let next := st.addSample sqrt job.options out_spectrum.color
        if next.2 then some (next.1, re)
        else samplePixel sqrt sh job fuel x_camera y_camera remaining next.1 re
      else
        samplePixel sqrt sh job fuel x_camera y_camera remaining st re

/-- The body of the pixel loops of `processItem` for the pixel `(x, y)` of the image: the value
stored for the pixel, its `collected_sample_count`, and the engine state. -/
def processPixel (sqrt : K → K) (sh : Shading K R) (job : FrameRenderJob K) (fuel : Nat)
    (x y : Int) (re : R) : Option ((Color K × Int) × R) :=
  let one_half : K := 1 / 2
  let x_camera := 2 * (((x : K) + one_half) / (job.options.image_width : K) - one_half)
  let y_camera := 2 * (((y : K) + one_half) / (job.options.image_height : K) - one_half)
  let y_camera := -y_camera
  match samplePixel sqrt sh job fuel x_camera y_camera job.options.max_sample_count.toNat
      (PixelState.init job.options) re with
  | none => none
  | some (st, re) => some ((st.finish sqrt job.options, st.collected_sample_count), re)

/-- The inner loop `for(x = item.offset_x; x < item.offset_x + item.width; x++)` of `processItem`
over the listed column offsets. -/
def processItem.row (sqrt : K → K) (sh : Shading K R) (job : FrameRenderJob K) (fuel : Nat)
    (item : WorkItem) (y : Int) : List Nat → Image K → R → Option (Image K × R)
  | [], image, re => some (image, re)
  | i :: rest, image, re =>
    let x := item.offset_x + (i : Int)
    match processPixel sqrt sh job fuel x y re with
    | none => none
    | some ((pixel_value, _), re) =>
      processItem.row sqrt sh job fuel item y rest
        (image.set (x - item.offset_x) (y - item.offset_y) pixel_value) re

/-- The outer loop `for(y = item.offset_y; y < item.offset_y + item.height; y++)` of
`processItem` over the listed row offsets. -/
def processItem.rows (sqrt : K → K) (sh : Shading K R) (job : FrameRenderJob K) (fuel : Nat)
    (item : WorkItem) : List Nat → Image K → R → Option (Image K × R)
  | [], image, re => some (image, re)
  | j :: rest, image, re =>
    let y := item.offset_y + (j : Int)
    match processItem.row sqrt sh job fuel item y (List.range item.width.toNat) image re with
    | none => none
    | some (image, re) => processItem.rows sqrt sh job fuel item rest image re

/-- Function `processItem` (worker.cpp): renders one tile into an image of the tile's extent. -/
def processItem (sqrt : K → K) (sh : Shading K R) (job : FrameRenderJob K) (fuel : Nat)
    (item : WorkItem) (re : R) : Option (Image K × R) :=
  processItem.rows sqrt sh job fuel item (List.range item.height.toNat)
    (Image.new item.width item.height) re

/-- The copy loops of `doWork` (worker.cpp): the tile image is written into the output image at
the tile's offset. -/
def copyTile (item : WorkItem) (tile_image output_image : Image K) : Image K :=
  (List.range item.height.toNat).foldl
    (fun (out : Image K) (y : Nat) =>
      (List.range item.width.toNat).foldl
        (fun (out : Image K) (x : Nat) =>
          out.set (item.offset_x + (x : Int)) (item.offset_y + (y : Int)) (tile_image.get (x : Int) (y : Int)))
        out)
    output_image

end Render

section Predicates
variable {K : Type} [LinearOrderedField K]

/-- An image of the given extent all of whose stored pixels are transparent black. -/
def Image.isBlank (img : Image K) (width height : Int) : Prop :=
  img.width = width ∧ img.height = height ∧ img.data.length = (width * height).toNat ∧
    ∀ c ∈ img.data, c = Color.zero

end Predicates

section History
variable {K R : Type} [LinearOrderedField K]

/-- The `sample_collected` flags of the samples drawn by the sample loop of `processItem` for one
pixel, in the order in which they are drawn: a history of the loop `samplePixel`, following the
same control flow. -/
def samplePixel.flags (sqrt : K → K) (sh : Shading K R) (job : FrameRenderJob K) (fuel : Nat)
    (x_camera y_camera : K) : Nat → PixelState K → R → List Bool
  | 0, _, _ => []
  | remaining + 1, st, re =>
    match getSample sqrt sh job fuel x_camera y_camera re with
    | none => []
    | some ((out_spectrum, sample_collected), re) =>
      if sample_collected then
        let next := st.addSample sqrt job.options out_spectrum.color
        if next.2 then [true]
        else true :: samplePixel.flags sqrt sh job fuel x_camera y_camera remaining next.1 re
      else
        false :: samplePixel.flags sqrt sh job fuel x_camera y_camera remaining st re

/-- The `sample_collected` flags of the samples drawn for the pixel `(x, y)` by `processPixel`. -/
def processPixel.flags (sqrt : K → K) (sh : Shading K R) (job : FrameRenderJob K) (fuel : Nat)
    (x y : Int) (re : R) : List Bool :=
  let one_half : K := 1 / 2
  let x_camera := 2 * (((x : K) + one_half) / (job.options.image_width : K) - one_half)
  let y_camera := 2 * (((y : K) + one_half) / (job.options.image_height : K) - one_half)
  let y_camera := -y_camera
  samplePixel.flags sqrt sh job fuel x_camera y_camera job.options.max_sample_count.toNat
    (PixelState.init job.options) re

/-- Invariant of the per-pixel variables while every collected sample has alpha 1: the alpha
channels of the accumulators count the samples they hold. -/
def PixelState.Inv (options : RenderOptions K) (st : PixelState K) : Prop :=
  0 ≤ st.collected_sample_count ∧ st.pixel_value.a = ((st.collected_sample_count : Int) : K) ∧
  0 ≤ st.stats_sample_index ∧ st.stats_sample_index < stats_sample_count options ∧
  st.sample_aggregate.a = ((st.stats_sample_index : Int) : K) ∧
  0 ≤ st.candidate_count ∧ (0 < st.candidate_count → st.candidate_mean.a = 1) ∧
  (∀ c ∈ st.candidate_means, c.a = 1) ∧
  (st.collected_sample_count = 0 → st = PixelState.init options)

end History

/-! ### Concrete inputs -/

/-- A shading environment over the rationals without lights and emission: the camera shoots
along `+z` from the origin and the uniform draw is the constant 1, which ends every path after
its first vertex. -/
def plainShading : Shading ℚ Unit :=
  { shootRay := fun _ _ _ _ re => ({ origin := ⟨0, 0, 0⟩, dir := ⟨0, 0, 1⟩ }, re)
    dist := fun re => (1, re)
    getEmission := fun _ _ _ => Spectrum.dark
    sampleLights := fun _ _ re => ([], re)
    getSpectrum := fun _ _ _ _ _ light_spectrum _ => (light_spectrum, 1, 1)
    propagateRay := fun _ ray _ _ _ re => ((ray, 1, 1), re) }

/-- A unit sphere in front of the camera of `plainShading`, with the default material. -/
def frontSphere : Object ℚ :=
  { material_handler := default_material_handler, geometry := .sphere (Sphere.new ⟨0, 0, 5⟩ 1) }

/-- A one-pixel job over the scene holding `frontSphere` alone, one sample per pixel. -/
def frontSphereJob : FrameRenderJob ℚ :=
  { scene := ⟨.leafNode frontSphere.getBoundingVolume frontSphere⟩
    options := { image_width := 1, image_height := 1, min_sample_count := 1, max_sample_count := 1,
                 epsilon := 1 / 1000, allow_bias := false } }

section GeometryPredicates
variable {K : Type} [LinearOrderedField K]

/-- The point `ray.origin + ray.dir * t` at distance `t` along a ray. -/
def Ray.pointAt (ray : Ray K) (t : K) : Vec3 K := ray.origin.add (ray.dir.scale t)

/-- Membership of a point in the closed box spanned by the corners `low` and `high`. -/
def AABBArea.contains (area : AABBArea K) (p : Vec3 K) : Prop :=
  area.low.x ≤ p.x ∧ p.x ≤ area.high.x ∧ area.low.y ≤ p.y ∧ p.y ≤ area.high.y ∧
    area.low.z ≤ p.z ∧ p.z ≤ area.high.z

/-- Membership of a point in the surface of a sphere: its squared distance to the centre is the
squared radius. -/
def Sphere.onSurface (s : Sphere K) (p : Vec3 K) : Prop :=
  (p.sub s.origin).getLengthSquared = s.radius2

/-- Local `discriminant` of `Sphere::getIntersection`. -/
def Sphere.discriminant (s : Sphere K) (ray : Ray K) : K :=
  (ray.dir.dot (ray.origin.sub s.origin)) * (ray.dir.dot (ray.origin.sub s.origin)) -
    (ray.origin.sub s.origin).getLengthSquared + s.radius2

end GeometryPredicates

/-- The unit sphere at the origin, with the default material. -/
def unitSphere : Object ℚ :=
  { material_handler := default_material_handler, geometry := .sphere (Sphere.new ⟨0, 0, 0⟩ 1) }

/-- The leaf that the scene constructor builds for the unit sphere. -/
def unitSphereLeaf : AABB ℚ := .leafNode { low := ⟨-1, -1, -1⟩, high := ⟨1, 1, 1⟩ } unitSphere

/-- The all-zero box area, standing in for the uninitialised area of the empty hierarchy. -/
def zeroArea : AABBArea ℚ := { low := ⟨0, 0, 0⟩, high := ⟨0, 0, 0⟩ }

/-- A ray along `+z` that touches the unit sphere in the point `(1, 0, 0)`; it runs inside the
face `x = 1` of the sphere's bounding box. -/
def tangentRay : Ray ℚ := { origin := ⟨1, 0, -5⟩, dir := ⟨0, 0, 1⟩ }

/-- A ray along `+z` that crosses the bounding box of the unit sphere near an edge and passes
beside the sphere. -/
def cornerRay : Ray ℚ := { origin := ⟨7 / 8, 7 / 8, -5⟩, dir := ⟨0, 0, 1⟩ }

/-- A ray along `+z` that starts at the centre of the unit sphere. -/
def centreRay : Ray ℚ := { origin := ⟨0, 0, 0⟩, dir := ⟨0, 0, 1⟩ }

/-- A leaf whose box is the cube `[0, 1]^3`. -/
def unitCube : AABB ℚ := .leafNode { low := ⟨0, 0, 0⟩, high := ⟨1, 1, 1⟩ } NullObject

/-- A ray along `+z` that runs inside the face `x = 1` of the unit cube. -/
def faceRay : Ray ℚ := { origin := ⟨1, 1 / 2, -5⟩, dir := ⟨0, 0, 1⟩ }

/-- A ray along `+z` that passes the unit cube outside, at the distance `2^-126` (the least
normal `float`) from its face `x = 0`. -/
def outsideRay : Ray ℚ := { origin := ⟨-(1 / 2 ^ 126), 1 / 2, -5⟩, dir := ⟨0, 0, 1⟩ }

section TrianglePredicates
variable {K : Type} [LinearOrderedField K]

/-- Local `u` of `Triangle::getIntersection`: the first barycentric coordinate of the hit. -/
def Triangle.baryU (t : Triangle K) (ray : Ray K) : K :=
  (ray.origin.sub t.a).dot (ray.dir.cross (t.c.sub t.a)) * (1 / t.det ray)

/-- Local `v` of `Triangle::getIntersection`: the second barycentric coordinate of the hit. -/
def Triangle.baryV (t : Triangle K) (ray : Ray K) : K :=
  ray.dir.dot ((ray.origin.sub t.a).cross (t.b.sub t.a)) * (1 / t.det ray)

/-- Local `t` of `Triangle::getIntersection`: the distance returned when every test passes. -/
def Triangle.hitDistance (t : Triangle K) (ray : Ray K) : K :=
  (t.c.sub t.a).dot ((ray.origin.sub t.a).cross (t.b.sub t.a)) * (1 / t.det ray)

/-- The determinant test of `Triangle::getIntersection`: whether the ray is rejected by the
first early return (`det <= epsilon` with backface culling, `abs(det) <= epsilon` without). -/
def Triangle.detRejects (t : Triangle K) (ray : Ray K) : Prop :=
  if t.cull_backface then t.det ray ≤ Triangle.epsilon else |t.det ray| ≤ Triangle.epsilon

instance Triangle.decidableDetRejects (t : Triangle K) (ray : Ray K) : Decidable (t.detRejects ray) := by
  unfold Triangle.detRejects
  infer_instance

/-- The ray passes the determinant test and both barycentric tests of
`Triangle::getIntersection`, that is, none of the three early returns is taken. -/
def Triangle.passesTests (t : Triangle K) (ray : Ray K) : Prop :=
  ¬ t.detRejects ray ∧ ¬ (t.baryU ray < 0 ∨ t.baryU ray > 1) ∧
    ¬ (t.baryV ray < 0 ∨ t.baryU ray + t.baryV ray > 1)

/-- The point `a + u * (b - a) + v * (c - a)` of the plane of a triangle. -/
def Triangle.pointAt (t : Triangle K) (u v : K) : Vec3 K :=
  (t.a.add ((t.b.sub t.a).scale u)).add ((t.c.sub t.a).scale v)

end TrianglePredicates

/-- The triangle `(0,0,0), (1,0,0), (0,1,0)` with geometric normal `+z`, with or without backface
culling. -/
def flatTriangle (cull_backface : Bool) : Triangle ℚ :=
  Triangle.new id ⟨0, 0, 0⟩ ⟨1, 0, 0⟩ ⟨0, 1, 0⟩ cull_backface

/-- A ray from above the flat triangle straight down onto it (against the normal). -/
def downRay : Ray ℚ := { origin := ⟨1 / 4, 1 / 4, 1⟩, dir := ⟨0, 0, -1⟩ }

/-- A ray from below the flat triangle straight up onto it (along the normal). -/
def upRay : Ray ℚ := { origin := ⟨1 / 4, 1 / 4, -1⟩, dir := ⟨0, 0, 1⟩ }

/-- The ray from `(0, 0, 5)` along the z axis towards the origin. -/
def axisRay : Ray ℚ := { origin := ⟨0, 0, 5⟩, dir := ⟨0, 0, -1⟩ }

/-! ## Fresnel reflectance, worker threads and aperture sampling -/

section Fresnel
variable {K : Type} [LinearOrderedField K]

/-- Function `impl::getFresnelReflectance` (propagation.cpp): the unpolarised reflectance and the
cosine of the transmission angle. -/
def getFresnelReflectance (sqrt : K → K) (ray_dot ri_leaving ri_entering : K) : K × K :=
  let sin_theta_i := sqrt (max (1 - ray_dot * ray_dot) 0)
  let sin_theta_t := ri_leaving / ri_entering * sin_theta_i
  if sin_theta_t ≥ 1 then
    (1, 0)
  else
    let cos_theta_t := sqrt (max (1 - sin_theta_t * sin_theta_t) 0)
    let r_parallel :=
      ((ri_entering * ray_dot) - (ri_leaving * cos_theta_t)) /
        ((ri_entering * ray_dot) + (ri_leaving * cos_theta_t))
    let r_perpendicular :=
      ((ri_leaving * ray_dot) - (ri_entering * cos_theta_t)) /
        ((ri_leaving * ray_dot) + (ri_entering * cos_theta_t))
    let reflectance := (r_parallel * r_parallel + r_perpendicular * r_perpendicular) / 2
    (reflectance, cos_theta_t)

end Fresnel

/-- The worker accounting of `doWorkParallel` (worker.cpp) as called by `processJob`: the number
of additional threads the spawn loop creates, for the argument `worker_count` and the value
returned by `std::thread::hardware_concurrency()`. The calling thread always runs `doWork` after
the loop. The result is `none` when `extra_threads.reserve(worker_count - 1)` is called with a
negative count, which converts to a size above `max_size()` and throws `std::length_error`. -/
def doWorkParallel_extra_threads (worker_count : Int) (hardware_concurrency : Nat) : Option Nat :=
  let worker_count := if worker_count ≤ 0 then (hardware_concurrency : Int) - 1 else worker_count
  if worker_count - 1 < 0 then
    none
  else
    some ((List.range (worker_count - 1).toNat).length)

/-- Counterpart of `class HexagonalApertureSampler` (camera.h). -/
structure HexagonalApertureSampler (K : Type) where
  horizontal_ratio : K

section Aperture
variable {K R : Type} [LinearOrderedField K]

/-- Constructor `HexagonalApertureSampler(horizontal_ratio)`, clamping the ratio to `[0, 1]`. -/
def HexagonalApertureSampler.new (horizontal_ratio : K) : HexagonalApertureSampler K :=
  { horizontal_ratio := min (max horizontal_ratio 0) 1 }

/-- Method `HexagonalApertureSampler::sampleAperture` (camera.cpp). `dist` is the call `dist(re)` of
the uniform distribution on `[0, 1)` and `flip` the call `dist_flip(re)` of the Bernoulli
distribution; the rejection loop is bounded by a fuel argument (`none` when it runs out). -/
def HexagonalApertureSampler.sampleAperture (s : HexagonalApertureSampler K) (dist : R → K × R)
    (flip : R → Bool × R) : Nat → R → Option ((K × K) × R)
  | 0, _ => none
  | fuel + 1, re =>
    let dx := dist re
    let dy := dist dx.2
    let x := dx.1
    let y := dy.1
    let relative_x := x - s.horizontal_ratio
    let in_polygon := decide (relative_x ≤ 0 ∨ relative_x / (1 - s.horizontal_ratio) ≥ y)
    if in_polygon then
      let fx := flip dy.2
      let x := if fx.1 then -x else x
      let fy := flip fx.2
      let y := if fy.1 then -y else y
      some ((x, y), fy.2)
    else
      HexagonalApertureSampler.sampleAperture s dist flip fuel dy.2

/-- Membership of `(x, y)` in the hexagon with flat top and bottom segments of relative length
`horizontal_ratio` and tips at `(-1, 0)` and `(1, 0)`. -/
def inHexagon (horizontal_ratio x y : K) : Prop :=
  |x| ≤ horizontal_ratio + (1 - horizontal_ratio) * (1 - |y|)

end Aperture

/-- A random source that replays a script of uniform draws: `dist(re)` returns the next value. -/
def scriptedDist (re : List ℚ) : ℚ × List ℚ := (re.headD 0, re.tail)

/-- The Bernoulli distribution with probability 1/2 on a scripted source: true when the next
uniform draw is below 1/2. -/
def scriptedFlip (re : List ℚ) : Bool × List ℚ := (decide (re.headD 0 < 1 / 2), re.tail)

/-! ## Materials and the scattering functions of propagation.cpp -/

/-- The functions and constants of `<cmath>` the sources call on `float`. -/
structure FloatMath (K : Type) where
  /-- Function `std::sqrt`. -/
  sqrt : K → K
  /-- Function `std::pow`. -/
  pow : K → K → K
  /-- Function `std::cos`. -/
  cos : K → K
  /-- Function `std::sin`. -/
  sin : K → K
  /-- Function `std::acos`. -/
  acos : K → K
  /-- Constant `static_cast<float>(M_PI)`. -/
  pi : K

/-- Counterpart of `class Material` (material.h): the colours and the refractive index at a surface
position. -/
structure Material (K : Type) where
  getDiffuseColor : Vec3 K → Color K
  getSpecularColor : Vec3 K → Color K
  getRefractiveIndex : Vec3 K → K

section Propagation
variable {K R : Type} [LinearOrderedField K]

/-- Function `reflect` (vector.h). -/
def reflect (v n : Vec3 K) : Vec3 K :=
  let d := Vec3.dot v n
  let r := v.sub ((n.scale 2).scale d)
  r

/-- Function `impl::importanceSampleCosine` (propagation.cpp). -/
def importanceSampleCosine (m : FloatMath K) (r1 r2 e : K) : Vec3 K × K :=
  let fac := m.sqrt (1 - m.pow r2 (2 / (e + 1)))
  let cos_theta := m.pow r2 (1 / (e + 1))
  let vec : Vec3 K := ⟨fac * m.cos (2 * m.pi * r1), fac * m.sin (2 * m.pi * r1), cos_theta⟩
  let p := (e + 1) * m.pow cos_theta e / (2 * m.pi)
  (vec, p)

/-- Function `impl::localToGlobal` (propagation.cpp): tangent space to world coordinates. -/
def localToGlobal (sqrt : K → K) (vec n : Vec3 K) : Vec3 K :=
  let d : Vec3 K :=
    if |n.get 0| > 0 then
      if |n.get 1| > 0 then ⟨0, -n.get 0, n.get 1⟩ else ⟨0, -n.get 0, n.get 2⟩
    else
      if |n.get 1| > 0 then ⟨-n.get 1, n.get 2, 0⟩ else ⟨1, 0, 0⟩
  let d := d.normalize sqrt
  let b1 := (Vec3.cross d n).normalize sqrt
  let b2 := (Vec3.cross b1 n).normalize sqrt
  let vx : Vec3 K := ⟨b1.get 0, b2.get 0, n.get 0⟩
  let vy : Vec3 K := ⟨b1.get 1, b2.get 1, n.get 1⟩
  let vz : Vec3 K := ⟨b1.get 2, b2.get 2, n.get 2⟩
  ⟨Vec3.dot vx vec, Vec3.dot vy vec, Vec3.dot vz vec⟩

/-- Method `LambertianBRDF::propagateRay`: the outgoing ray, the radiance factor and the probability
density, with the advanced engine. `dist` is the call `dist(re)` of the uniform distribution on
`[0, 1)`; of the two argument expressions `dist(re)`, whose evaluation order C++ leaves open, the
first draw is passed as `r1`. -/
def LambertianBRDF.propagateRay (m : FloatMath K) (dist : R → K × R) (_ray : Ray K)
    (pos normal : Vec3 K) (epsilon : K) (re : R) : (Ray K × K × K) × R :=
  let d1 := dist re
  let d2 := dist d1.2
  let sample := importanceSampleCosine m d1.1 d2.1 1
  let local_dir := sample.1
  let p := sample.2
  let dir := localToGlobal m.sqrt local_dir normal
  let out_ray : Ray K := ⟨pos.add (dir.scale epsilon), dir⟩
  ((out_ray, 1, p), d2.2)

/-- Method `LambertianBRDF::getSpectrum`: the spectrum, the shading factor and the density. -/
def LambertianBRDF.getSpectrum (m : FloatMath K) (_from_camera to_light : Ray K)
    (pos normal : Vec3 K) (light_spectrum : Spectrum K) (material : Material K)
    (_synthetic : Bool) : Spectrum K × K × K :=
  let shade_factor := max (Vec3.dot normal to_light.dir) 0 / m.pi
  let spectrum_multiplier : Spectrum K := ⟨material.getDiffuseColor pos⟩
  (spectrum_multiplier.mul light_spectrum, shade_factor, 1)

/-- Method `GlassBDF::propagateRay`. `bernoulli p` is the call `d(re)` of
`std::bernoulli_distribution d(p)`. -/
def GlassBDF.propagateRay (sqrt : K → K) (bernoulli : K → R → Bool × R) (ray : Ray K)
    (pos normal : Vec3 K) (epsilon : K) (re : R) (material : Material K) : (Ray K × K × K) × R :=
  let ray_dot := -Vec3.dot ray.dir normal
  let refractive_index := material.getRefractiveIndex pos
  let ri_leaving := if ray_dot ≥ 0 then 1 else refractive_index
  let ri_entering := if ray_dot ≥ 0 then refractive_index else 1
  let fresnel := getFresnelReflectance sqrt |ray_dot| ri_leaving ri_entering
  let rat := fresnel.1
  let cosThetaT := fresnel.2
  let d := bernoulli rat re
  if d.1 then
    let dir := reflect ray.dir (normal.scale (if ray_dot < 0 then -1 else 1))
    let out_ray : Ray K := ⟨pos.add (dir.scale epsilon), dir⟩
    ((out_ray, rat, rat), d.2)
  else
    let ri_ratio := ri_leaving / ri_entering
    let out_dir := (ray.dir.scale ri_ratio).add
      ((normal.scale (ri_ratio * |ray_dot| - cosThetaT)).scale (if ray_dot < 0 then -1 else 1))
    let out_dir := out_dir.normalize sqrt
    let ri_fac := (ri_entering * ri_entering) / (ri_leaving * ri_leaving)
    let out_ray : Ray K := ⟨pos.add (out_dir.scale epsilon), out_dir⟩
    ((out_ray, ri_fac * (1 - rat), 1 - rat), d.2)

/-- Method `GlassBDF::getSpectrum`. -/
def GlassBDF.getSpectrum (from_camera to_light : Ray K) (pos _normal : Vec3 K)
    (light_spectrum : Spectrum K) (material : Material K) (synthetic : Bool) :
    Spectrum K × K × K :=
  let out_spectrum :=
    if Vec3.dot from_camera.dir to_light.dir ≤ 0 then
      light_spectrum.mul ⟨material.getSpecularColor pos⟩
    else
      light_spectrum.mul ⟨material.getDiffuseColor pos⟩
  let p : K := if synthetic then 0 else 1
  (out_spectrum, 1, p)

/-- Counterpart of `class MirrorBRDF` (propagation.h). -/
structure MirrorBRDF where
  one_way : Bool
deriving DecidableEq, Repr

/-- Method `MirrorBRDF::propagateRay` (the engine is not used). -/
def MirrorBRDF.propagateRay (self : MirrorBRDF) (ray : Ray K) (pos normal : Vec3 K)
    (epsilon : K) (re : R) : (Ray K × K × K) × R :=
  let unaligned := decide (Vec3.dot ray.dir normal > 0)
  if self.one_way && unaligned then
    let out_dir := ray.dir
    let out_ray : Ray K := ⟨pos.add (out_dir.scale epsilon), out_dir⟩
    ((out_ray, 1, 1), re)
  else
    let normal_dir := if !self.one_way && unaligned then normal.scale (-1) else normal
    let dir := reflect ray.dir normal_dir
    let out_ray : Ray K := ⟨pos.add (dir.scale epsilon), dir⟩
    ((out_ray, 1, 1), re)

/-- Method `MirrorBRDF::getSpectrum`. -/
def MirrorBRDF.getSpectrum (self : MirrorBRDF) (from_camera to_light : Ray K)
    (pos _normal : Vec3 K) (light_spectrum : Spectrum K) (material : Material K)
    (synthetic : Bool) : Spectrum K × K × K :=
  let out_spectrum :=
    if !self.one_way || decide (Vec3.dot from_camera.dir to_light.dir ≤ 0) then
      light_spectrum.mul ⟨material.getSpecularColor pos⟩
    else
      light_spectrum
  let p : K := if synthetic then 0 else 1
  (out_spectrum, 1, p)

/-- All four channels of a spectrum are non-negative (`assertNonNegative`). -/
def Spectrum.nonNegative (s : Spectrum K) : Prop :=
  0 ≤ s.color.r ∧ 0 ≤ s.color.g ∧ 0 ≤ s.color.b ∧ 0 ≤ s.color.a

end Propagation

/-- Rational stand-ins for the `<cmath>` functions: the square root rounds down on numerator and
denominator, the power is exact for the exponents 1 and 2 and zero at base zero, the trigonometric
functions are their lowest-order approximations. -/
def rationalMath : FloatMath ℚ where
  sqrt := Rat.sqrt
  pow := fun x y =>
    if y = 1 then x else if y = 2 then x * x else if x = 0 ∧ 0 < y then 0 else 1
  cos := fun x => 1 - x * x / 2
  sin := fun x => x
  acos := fun x => 11 / 7 - x
  pi := 22 / 7

/-- A source of uniform draws that returns the same value on every call. -/
def constantDist (value : ℚ) (re : Unit) : ℚ × Unit := (value, re)

/-! ## PNG encoding and decoding (image/image_io.cpp) -/

/-- The two calls into libpng, which is not part of the repository, over a type `S` of stream
contents. `write width height rows` is `png_write_png` on an 8-bit RGBA header of the given size
and the given rows of bytes; it yields the content written to the stream, or `none` when libpng
reports an error. `read stream` is `png_read_png` followed by the queries for width, height,
channel count and rows. -/
structure PNGCodec (S : Type) where
  write : Int → Int → List (List Int) → Option S
  read : S → Option (Int × Int × Int × List (List Int))

section ImageIO
variable {K S : Type} [LinearOrderedField K] [FloorRing K]

/-- The conversion `static_cast<int>(std::round(v))`: rounding to the nearest integer, halfway
cases away from zero. -/
def round_to_int (v : K) : Int :=
  if 0 ≤ v then ⌊v + 1 / 2⌋ else -⌊-v + 1 / 2⌋

/-- The byte `std::min(std::max(static_cast<int>(std::round(255.0 * v)), 0), 255)` stored for a
channel value `v` by `writePNGImage`. -/
def encodeChannel (v : K) : Int :=
  min (max (round_to_int (255 * v)) 0) 255

/-- The row loop of `writePNGImage`: the `4 * width` bytes of row `y`. -/
def writePNGImage.row (image : Image K) (y : Nat) : List Int :=
  (List.range image.width.toNat).flatMap fun (x : Nat) =>
    [encodeChannel (image.get (x : Int) (y : Int)).r, encodeChannel (image.get (x : Int) (y : Int)).g,
      encodeChannel (image.get (x : Int) (y : Int)).b, encodeChannel (image.get (x : Int) (y : Int)).a]

/-- The rows `row_data` built by `writePNGImage`. -/
def writePNGImage.rows (image : Image K) : List (List Int) :=
  (List.range image.height.toNat).map fun (y : Nat) => writePNGImage.row image y

/-- Function `io::impl::writePNGImage`: the bytes written to the stream, `none` when the function
throws. -/
def writePNGImage (codec : PNGCodec S) (image : Image K) : Option S :=
  let width := image.width
  let height := image.height
  codec.write width height (writePNGImage.rows image)

/-- The body of the pixel loops of `readPNGImage` for the pixel `(x, y)`. -/
def readPNGImage.pixel (channel_count : Int) (row_pointers : List (List Int)) (y x : Nat)
    (image : Image K) : Image K :=
  let row := row_pointers.getD y []
  if channel_count = 3 then
    let r : K := ((row.getD (3 * x + 0) 0 : Int) : K) / 255
    let g : K := ((row.getD (3 * x + 1) 0 : Int) : K) / 255
    let b : K := ((row.getD (3 * x + 2) 0 : Int) : K) / 255
    image.set (x : Int) (y : Int) ⟨r, g, b, 1⟩
  else if channel_count = 4 then
    let r : K := ((row.getD (4 * x + 0) 0 : Int) : K) / 255
    let g : K := ((row.getD (4 * x + 1) 0 : Int) : K) / 255
    let b : K := ((row.getD (4 * x + 2) 0 : Int) : K) / 255
    let a : K := ((row.getD (4 * x + 3) 0 : Int) : K) / 255
    image.set (x : Int) (y : Int) ⟨r, g, b, a⟩
  else
    image

/-- Function `io::impl::readPNGImage`: the decoded image, `none` when the function throws. -/
def readPNGImage (codec : PNGCodec S) (stream : S) : Option (Image K) :=
  match codec.read stream with
  | none => none
  | some (width, height, channel_count, row_pointers) =>
    let image : Image K := Image.new width height
    some ((List.range height.toNat).foldl
      (fun (image : Image K) (y : Nat) =>
        (List.range width.toNat).foldl
          (fun (image : Image K) (x : Nat) =>
            readPNGImage.pixel channel_count row_pointers y x image)
          image)
      image)

/-- Function `io::readRGBImage` on a stream. -/
def readRGBImage (codec : PNGCodec S) (stream : S) : Option (Image K) :=
  readPNGImage codec stream

/-- Function `io::writeRGBImage` on a stream. -/
def writeRGBImage (codec : PNGCodec S) (image : Image K) : Option S :=
  writePNGImage codec image

/-- The class invariant of `Image`: non-negative extents and `width * height` stored pixels. -/
def Image.wellFormed (image : Image K) : Prop :=
  0 ≤ image.width ∧ 0 ≤ image.height ∧ image.data.length = (image.width * image.height).toNat

/-- All four channels of a colour lie in `[0, 1]`. -/
def Color.inUnitRange (c : Color K) : Prop :=
  (0 ≤ c.r ∧ c.r ≤ 1) ∧ (0 ≤ c.g ∧ c.g ≤ 1) ∧ (0 ≤ c.b ∧ c.b ≤ 1) ∧ (0 ≤ c.a ∧ c.a ≤ 1)

/-- Every channel of `c` differs from the same channel of `d` by less than `eps`. -/
def Color.near (eps : K) (c d : Color K) : Prop :=
  |c.r - d.r| < eps ∧ |c.g - d.g| < eps ∧ |c.b - d.b| < eps ∧ |c.a - d.a| < eps

end ImageIO

/-- A codec whose stream content is the header and the rows themselves, standing in for a
lossless PNG stream. -/
def rawCodec : PNGCodec (Int × Int × List (List Int)) where
  write := fun width height rows => some (width, height, rows)
  read := fun stream => some (stream.1, stream.2.1, 4, stream.2.2)

/-- A 2 x 1 image with one grey and one white pixel. -/
def twoPixelImage : Image ℚ :=
  { width := 2, height := 1, data := [⟨1 / 2, 1 / 2, 1 / 2, 1⟩, ⟨1, 1, 1, 1⟩] }

/-! ## Light sources and light sampling (scene/scene.cpp, scene/object.cpp) -/

/-- Counterpart of the interface `class LightSource` (light.h). -/
structure LightSource (K : Type) where
  importanceSample : Vec3 K → Vec3 K × K
  getSpectrum : Ray K → Spectrum K

/-- The members of `class Scene` that hold its lights: the explicit light sources, the registered
emissive objects and their table of cumulative selection probabilities. -/
structure SceneLights (K : Type) where
  light_sources : List (LightSource K)
  object_light_sources : List (Object K)
  object_light_source_probabilities : List K

section Lights
variable {K R : Type} [LinearOrderedField K]

/-- Virtual method `Object::getSurfaceArea` (object.cpp). -/
def Object.getSurfaceArea (m : FloatMath K) (o : Object K) : K :=
  match o.geometry with
  | .null => 0
  | .sphere s => 4 * m.pi * s.radius2
  | .triangle t => ((t.b.sub t.a).cross (t.c.sub t.a)).getLength m.sqrt / 2

/-- Virtual method `Object::sampleSurface` (object.cpp): the sampled surface position, its
density and the culling flag, with the advanced engine. -/
def Object.sampleSurface (m : FloatMath K) (dist : R → K × R) (o : Object K) (re : R) :
    (Vec3 K × K × Bool) × R :=
  match o.geometry with
  | .null => ((⟨0, 0, 0⟩, 0, false), re)
  | .sphere s =>
    let d1 := dist re
    let theta := 2 * m.pi * d1.1
    let d2 := dist d1.2
    let phi := m.acos (1 - 2 * d2.1)
    let x := m.sin phi * m.cos theta
    let y := m.sin phi * m.sin theta
    let z := m.cos phi
    let pos := s.origin.add ((⟨x, y, z⟩ : Vec3 K).scale s.radius)
    let p := 1 / (4 * m.pi * s.radius2)
    ((pos, p, false), d2.2)
  | .triangle t =>
    let d1 := dist re
    let r1 := d1.1
    let d2 := dist d1.2
    let r2 := d2.1
    let rr1 := m.sqrt r1
    let pos := ((t.a.scale (1 - rr1)).add (t.b.scale (rr1 * (1 - r2)))).add (t.c.scale (rr1 * r2))
    let area := ((t.b.sub t.a).cross (t.c.sub t.a)).getLength m.sqrt / 2
    let p := 1 / area
    ((pos, p, t.cull_backface), d2.2)

/-- The quantity `emissive_power` of `Scene::registerEmissiveObjects` for the object's probed
emission. `probeEmission h` is `probeMaterial()->probeEmission()` on material handler `h`. -/
def emissivePower (probeEmission : Nat → Spectrum K) (object : Object K) : K :=
  let emission := probeEmission object.material_handler
  let emission_color := emission.color
  (emission_color.r + emission_color.g + emission_color.b) * emission_color.a

/-- Method `Scene::registerEmissiveObjects` (scene.cpp) on the members `object_light_sources` and
`object_light_source_probabilities`, passed and returned as a pair. -/
def Scene.registerEmissiveObjects (m : FloatMath K) (probeEmission : Nat → Spectrum K) :
    AABB K → List (Object K) × List K → List (Object K) × List K
  | .leafNode _ object, members =>
    let emissive_power := emissivePower probeEmission object
    if emissive_power ≤ 0 then
      members
    else
      let object_probability := emissive_power * object.getSurfaceArea m
      if object_probability ≤ 0 then
        members
      else
        (members.1 ++ [object], members.2 ++ [object_probability])
  | .innerNode _ left right, members =>
    Scene.registerEmissiveObjects m probeEmission right
      (Scene.registerEmissiveObjects m probeEmission left members)

/-- The first loop of the constructor `Scene::Scene` over the probability table: every entry is
replaced by itself plus the sum of the entries before it. Returns the table and the final
`cumulative_probability`. -/
def Scene.cumulate : List K → K → List K × K
  | [], cumulative_probability => ([], cumulative_probability)
  | probability :: rest, cumulative_probability =>
    let r := Scene.cumulate rest (cumulative_probability + probability)
    ((probability + cumulative_probability) :: r.1, r.2)

/-- The part of the constructor `Scene::Scene(objects, light_sources)` that follows the
construction of the bounding volume hierarchy: registration of the emissive objects,
accumulation and normalisation of their probabilities. -/
def Scene.initLights (m : FloatMath K) (probeEmission : Nat → Spectrum K)
    (light_sources : List (LightSource K)) (scene : Scene K) : SceneLights K :=
  let members := Scene.registerEmissiveObjects m probeEmission scene.bounding_box ([], [])
  let accumulated := Scene.cumulate members.2 0
  let cumulative_probability := accumulated.2
  { light_sources := light_sources
    object_light_sources := members.1
    object_light_source_probabilities := accumulated.1.map fun p => p / cumulative_probability }

/-- Function `std::lower_bound` on a sorted table: the index of the first entry that is not less
than `r`, or the length of the table when there is none. -/
def lower_bound (table : List K) (r : K) : Nat :=
  table.findIdx fun p => decide (¬ p < r)

/-- The value `selection_p` of `Scene::sampleLights` before it is scaled by the sample count:
the table entry of the object minus the entry before it. -/
def SceneLights.selectionProbability (lights : SceneLights K) (object_index : Nat) : K :=
  let selection_p := lights.object_light_source_probabilities.getD object_index 0
  if object_index > 0 then
    selection_p - lights.object_light_source_probabilities.getD (object_index - 1) 0
  else
    selection_p

/-- The number `object_sample_count` of `Scene::sampleLights`;
`static_cast<int>(std::log10(n))` is the integer logarithm to base 10. -/
def SceneLights.object_sample_count (lights : SceneLights K) : Nat :=
  let emissive_object_count := lights.object_light_sources.length
  min (2 + Nat.log 10 (emissive_object_count + 1)) emissive_object_count

/-- The tuple a surface sample of `Scene::sampleLights` contributes: `none` when the iteration
is skipped by `continue`. `getEmission h` is `getMaterial(pos)->getEmission(ray, pos)` on
material handler `h`. -/
def Scene.sampleLights.surfaceTuple (sqrt : K → K) (getEmission : Nat → Ray K → Vec3 K → Spectrum K)
    (pos : Vec3 K) (object : Object K) (selection_p : K) (sample : Vec3 K × K × Bool) :
    Option (Vec3 K × Spectrum K × K) :=
  let surface_pos := sample.1
  let surface_p := sample.2.1
  let surface_cull := sample.2.2
  let surface_n := object.getSurfaceNormal sqrt surface_pos
  let to_light := surface_pos.sub pos
  let dir := to_light.normalize sqrt
  let abs_dot := |Vec3.dot dir.neg surface_n|
  if ¬ (abs_dot > 0) then
    none
  else if ¬ (to_light.getLengthSquared > 0) then
    none
  else if surface_cull ∧ ¬ (Vec3.dot dir surface_n < 0) then
    none
  else
    let conversion_factor := to_light.getLengthSquared / abs_dot
    let ray : Ray K := ⟨pos, dir⟩
    some (surface_pos, getEmission object.material_handler ray surface_pos,
      selection_p * surface_p * conversion_factor)

/-- The loop `for(int i = 0; i < object_sample_count; i++)` of `Scene::sampleLights` with
`remaining` iterations to go. The result is `none` when `std::lower_bound` returns the end of
the table, where the source reads outside its vectors. -/
def Scene.sampleLights.objectLoop (m : FloatMath K) (dist : R → K × R)
    (getEmission : Nat → Ray K → Vec3 K → Spectrum K) (lights : SceneLights K) (pos : Vec3 K) :
    Nat → List (Vec3 K × Spectrum K × K) → R → Option (List (Vec3 K × Spectrum K × K) × R)
  | 0, out, re => some (out, re)
  | remaining + 1, out, re =>
    let d := dist re
    let r := d.1
    let object_index := lower_bound lights.object_light_source_probabilities r
    match lights.object_light_sources.get? object_index with
    | none => none
    | some object =>
      let selection_p := lights.selectionProbability object_index
      let selection_p := selection_p * ((lights.object_sample_count : Nat) : K)
      let s := object.sampleSurface m dist d.2
      match Scene.sampleLights.surfaceTuple m.sqrt getEmission pos object selection_p s.1 with
      | none => Scene.sampleLights.objectLoop m dist getEmission lights pos remaining out s.2
      | some tuple =>
        Scene.sampleLights.objectLoop m dist getEmission lights pos remaining (out ++ [tuple]) s.2

/-- The tuples `Scene::sampleLights` emits for the explicit light sources. -/
def Scene.sampleLights.lightTuples (sqrt : K → K) (lights : SceneLights K) (pos : Vec3 K) :
    List (Vec3 K × Spectrum K × K) :=
  lights.light_sources.map fun light =>
    let sample := light.importanceSample pos
    let target := sample.1
    let pd := sample.2
    let ray : Ray K := ⟨pos, (target.sub pos).normalize sqrt⟩
    (target, light.getSpectrum ray, pd)

/-- Method `Scene::sampleLights(pos, n, re)` (scene.cpp). -/
def Scene.sampleLights (m : FloatMath K) (dist : R → K × R)
    (getEmission : Nat → Ray K → Vec3 K → Spectrum K) (lights : SceneLights K) (pos _n : Vec3 K)
    (re : R) : Option (List (Vec3 K × Spectrum K × K) × R) :=
  let object_sample_count := lights.object_sample_count
  let out := Scene.sampleLights.lightTuples m.sqrt lights pos
  Scene.sampleLights.objectLoop m dist getEmission lights pos object_sample_count out re

/-- The weight `emissive_power * getSurfaceArea()` by which an object is registered. -/
def emissiveWeight (m : FloatMath K) (probeEmission : Nat → Spectrum K) (object : Object K) : K :=
  emissivePower probeEmission object * object.getSurfaceArea m

end Lights

/-- A probe that reports the emission `(1, 1, 1, 1)` for every material handler. -/
def whiteEmission (_handler : Nat) : Spectrum ℚ := ⟨⟨1, 1, 1, 1⟩⟩

/-- The scene whose hierarchy is the single leaf of the unit sphere. -/
def unitSphereScene : Scene ℚ := ⟨unitSphereLeaf⟩

/-! ## Wavefront OBJ loading (scene/mesh.cpp) -/

/-- Counterpart of `vec4<float>` (util/vector.h). -/
structure Vec4 (K : Type) where
  x : K
  y : K
  z : K
  w : K
deriving DecidableEq, Repr

/-- Counterpart of `struct mat4` (util/matrix.h): four rows. -/
structure Mat4 (K : Type) where
  row0 : Vec4 K
  row1 : Vec4 K
  row2 : Vec4 K
  row3 : Vec4 K
deriving DecidableEq, Repr

/-- The state of `class ObjParser` (mesh.cpp): the unread rest of the stream and the members.
A vertex is `none` when one of its coordinates failed to parse: `readFloat` then returns NaN and
the product with the transformation has NaN in every component. -/
structure ObjParser (K : Type) where
  stream : List Char
  transformation : Mat4 K
  vertices : List (Option (Vec3 K))
  vertex_faces : List (List (Nat × Nat))
  faces : List (Triangle K)
  cull_backface : Bool
  smooth : Bool

section Mesh
variable {K : Type} [LinearOrderedField K]

/-- Function `dot` of vector.h on four components. -/
def Vec4.dot (a b : Vec4 K) : K := a.x * b.x + a.y * b.y + a.z * b.z + a.w * b.w

/-- The operator `mat4::operator*(vec3)`: the product with the affine vector `(x, y, z, 1)`,
scaled by the reciprocal of its fourth component. -/
def Mat4.mulVec (mat : Mat4 K) (vec : Vec3 K) : Vec3 K :=
  let v : Vec4 K := ⟨vec.x, vec.y, vec.z, 1⟩
  let affine : Vec4 K := ⟨mat.row0.dot v, mat.row1.dot v, mat.row2.dot v, mat.row3.dot v⟩
  let factor := 1 / affine.w
  ⟨affine.x * factor, affine.y * factor, affine.z * factor⟩

/-- The constant `mat4_identity<float>`. -/
def mat4_identity : Mat4 K :=
  ⟨⟨1, 0, 0, 0⟩, ⟨0, 1, 0, 0⟩, ⟨0, 0, 1, 0⟩, ⟨0, 0, 0, 1⟩⟩

/-- The value of a string of decimal digits. -/
def digitsValue (digits : List Char) : Nat :=
  digits.foldl (fun (n : Nat) (c : Char) => 10 * n + (c.toNat - 48)) 0

/-- An optional leading sign: whether it is a minus, and the rest. -/
def splitSign : List Char → Bool × List Char
  | '-' :: rest => (true, rest)
  | '+' :: rest => (false, rest)
  | word => (false, word)

/-- Function `std::stoi` on a word without white space: the integer made of the optional sign
and the leading digits; `none` when the function throws (`std::invalid_argument` without a
digit, `std::out_of_range` outside the range of `int`). -/
def stoi (word : List Char) : Option Int :=
  let signed := splitSign word
  let digits := signed.2.takeWhile Char.isDigit
  if digits.isEmpty then
    none
  else
    let value : Int := if signed.1 then -(digitsValue digits : Int) else (digitsValue digits : Int)
    if value < -2147483648 ∨ value > 2147483647 then none else some value

/-- Function `std::stof` on a word without white space: optional sign, digits with an optional
decimal point, optional exponent; `none` when the function throws `std::invalid_argument`. (The
words the parser collects hold no letters besides `e` and `E`.) -/
def stof (word : List Char) : Option K :=
  let signed := splitSign word
  let whole := signed.2.takeWhile Char.isDigit
  let afterWhole := signed.2.dropWhile Char.isDigit
  let fraction := match afterWhole with
    | '.' :: rest => rest.takeWhile Char.isDigit
    | _ => []
  let afterFraction := match afterWhole with
    | '.' :: rest => rest.dropWhile Char.isDigit
    | _ => afterWhole
  if whole.isEmpty && fraction.isEmpty then
    none
  else
    let mantissa : K := (digitsValue whole : K) + (digitsValue fraction : K) / 10 ^ fraction.length
    let exponent : Int := match afterFraction with
      | c :: rest =>
        if c = 'e' ∨ c = 'E' then
          let signedExponent := splitSign rest
          let digits := signedExponent.2.takeWhile Char.isDigit
          if signedExponent.1 then -(digitsValue digits : Int) else (digitsValue digits : Int)
        else 0
      | [] => 0
    some ((if signed.1 then -1 else 1) * mantissa * 10 ^ exponent)

/-- Method `ObjParser::expect`: whether the next character is `c`, which is then consumed. -/
def ObjParser.expect (c : Char) : List Char → Bool × List Char
  | [] => (false, [])
  | d :: rest => if d = c then (true, rest) else (false, d :: rest)

/-- Method `ObjParser::eatSpace`. -/
def ObjParser.eatSpace : List Char → List Char
  | [] => []
  | d :: rest => if d = ' ' then ObjParser.eatSpace rest else d :: rest

/-- Method `ObjParser::skipLine`: reads up to and including the next `\r` or `\n`. -/
def ObjParser.skipLine : List Char → List Char
  | [] => []
  | c :: rest => if c = '\r' ∨ c = '\n' then rest else ObjParser.skipLine rest

/-- The reading loop shared by `readInt` and `readFloat`: characters are read into the buffer
while they are accepted; the first character that is not accepted is read as well and dropped. -/
def ObjParser.readWord (accept : Char → Bool) : List Char → List Char × List Char
  | [] => ([], [])
  | c :: rest =>
    if accept c then
      let r := ObjParser.readWord accept rest
      (c :: r.1, r.2)
    else
      ([], rest)

/-- The characters `readInt` collects (`c >= '0' && c <= '9'` is `Char.isDigit`). -/
def ObjParser.isIntChar (c : Char) : Bool :=
  c.isDigit || c == '-' || c == '+' || c == 'e' || c == 'E'

/-- The characters `readFloat` collects. -/
def ObjParser.isFloatChar (c : Char) : Bool :=
  c.isDigit || c == '.' || c == '-' || c == '+' || c == 'e' || c == 'E'

/-- Method `ObjParser::readInt`: the value and the rest of the stream. -/
def ObjParser.readInt (stream : List Char) : Int × List Char :=
  let stream := ObjParser.eatSpace stream
  let r := ObjParser.readWord ObjParser.isIntChar stream
  let word := r.1
  match stoi word with
  | some value => (value, r.2)
  | none => (-1, r.2)

/-- Method `ObjParser::readFloat`: the value (`none` for NaN) and the rest of the stream. -/
def ObjParser.readFloat (stream : List Char) : Option K × List Char :=
  let stream := ObjParser.eatSpace stream
  let r := ObjParser.readWord ObjParser.isFloatChar stream
  let word := r.1
  (stof word, r.2)

/-- The loop `while(expect('/')) { readInt(); }` of `processFace`, bounded by a fuel argument
(every iteration consumes a character). -/
def ObjParser.skipReferences : Nat → List Char → List Char
  | 0, stream => stream
  | fuel + 1, stream =>
    let e := ObjParser.expect '/' stream
    if e.1 then ObjParser.skipReferences fuel (ObjParser.readInt e.2).2 else stream

/-- Method `ObjParser::processVertex`. -/
def ObjParser.processVertex (p : ObjParser K) : ObjParser K :=
  let x : Option K × List Char := ObjParser.readFloat p.stream
  let y : Option K × List Char := ObjParser.readFloat x.2
  let z : Option K × List Char := ObjParser.readFloat y.2
  let vertex : Option (Vec3 K) :=
    match x.1, y.1, z.1 with
    | some x, some y, some z => some (p.transformation.mulVec ⟨x, y, z⟩)
    | _, _, _ => none
  { p with stream := z.2, vertices := p.vertices ++ [vertex],
           vertex_faces := p.vertex_faces ++ [[]] }

/-- The statement `vertex_faces[index].push_back(descriptor)`. -/
def pushFace (vertex_faces : List (List (Nat × Nat))) (index : Nat) (descriptor : Nat × Nat) :
    List (List (Nat × Nat)) :=
  vertex_faces.set index (vertex_faces.getD index [] ++ [descriptor])

/-- The statements `int a = readInt() - 1; while(expect('/')) { readInt(); }` that `processFace`
repeats for each of its three indices: the index and the rest of the stream. -/
def ObjParser.readIndex (stream : List Char) : Int × List Char :=
  let r := ObjParser.readInt stream
  (r.1 - 1, ObjParser.skipReferences r.2.length r.2)

/-- Method `ObjParser::processFace`. -/
def ObjParser.processFace (sqrt : K → K) (p : ObjParser K) : ObjParser K :=
  let ra := ObjParser.readIndex p.stream
  let a := ra.1
  let rb := ObjParser.readIndex ra.2
  let b := rb.1
  let rc := ObjParser.readIndex rb.2
  let c := rc.1
  let p := { p with stream := rc.2 }
  let vertex_count : Int := (p.vertices.length : Int)
  if a < 0 ∨ a ≥ vertex_count then
    p
  else if b < 0 ∨ b ≥ vertex_count then
    p
  else if c < 0 ∨ c ≥ vertex_count then
    p
  else
    match p.vertices.getD a.toNat none, p.vertices.getD b.toNat none,
      p.vertices.getD c.toNat none with
    | some vertex_a, some vertex_b, some vertex_c =>
      if ¬ ((vertex_b.sub vertex_a).getLengthSquared > 0 ∧
          (vertex_c.sub vertex_a).getLengthSquared > 0 ∧
          (vertex_c.sub vertex_b).getLengthSquared > 0) then
        p
      else if ((vertex_b.sub vertex_a).cross (vertex_c.sub vertex_a)).getLengthSquared ≤ 0 then
        p
      else
        let triangle := Triangle.new sqrt vertex_a vertex_b vertex_c p.cull_backface
        { p with
          vertex_faces :=
            pushFace (pushFace (pushFace p.vertex_faces a.toNat (p.faces.length, 0)) b.toNat
              (p.faces.length, 1)) c.toNat (p.faces.length, 2)
          faces := p.faces ++ [triangle] }
    | _, _, _ => p

/-- Method `ObjParser::processLine`. At the end of the stream `read()` returns -1 and the
default branch skips nothing. -/
def ObjParser.processLine (sqrt : K → K) (p : ObjParser K) : ObjParser K :=
  match ObjParser.eatSpace p.stream with
  | [] => { p with stream := [] }
  | c :: rest =>
    if c = '\r' ∨ c = '\n' then
      { p with stream := rest }
    else if c = '#' then
      { p with stream := ObjParser.skipLine rest }
    else if c = 'v' then
      let e := ObjParser.expect ' ' rest
      if e.1 then ObjParser.processVertex { p with stream := e.2 }
      else { p with stream := ObjParser.skipLine e.2 }
    else if c = 'f' then
      let e := ObjParser.expect ' ' rest
      if e.1 then ObjParser.processFace sqrt { p with stream := e.2 }
      else { p with stream := ObjParser.skipLine e.2 }
    else
      { p with stream := ObjParser.skipLine rest }

/-- The loop `while(hasNext()) { processLine(); }` of `ObjParser::parse`, bounded by a fuel
argument (every iteration consumes a character). -/
def ObjParser.parseLines (sqrt : K → K) : Nat → ObjParser K → ObjParser K
  | 0, p => p
  | fuel + 1, p =>
    if p.stream.isEmpty then p else ObjParser.parseLines sqrt fuel (ObjParser.processLine sqrt p)

/-- The assignment to `normal_a`, `normal_b` or `normal_c` of face `face_index` in the smoothing
pass of `ObjParser::parse`. -/
def ObjParser.setNormal (faces : List (Triangle K)) (vertex_normal : Vec3 K)
    (descriptor : Nat × Nat) : List (Triangle K) :=
  match faces.get? descriptor.1 with
  | none => faces
  | some face =>
    if descriptor.2 = 0 then faces.set descriptor.1 { face with normal_a := vertex_normal }
    else if descriptor.2 = 1 then faces.set descriptor.1 { face with normal_b := vertex_normal }
    else if descriptor.2 = 2 then faces.set descriptor.1 { face with normal_c := vertex_normal }
    else faces

/-- The smoothing pass of `ObjParser::parse`: every vertex normal becomes the normalised sum of
the unit normals of the faces that share the vertex. -/
def ObjParser.smoothNormals (sqrt : K → K) (vertex_faces : List (List (Nat × Nat)))
    (faces : List (Triangle K)) : List (Triangle K) :=
  let face_normals := faces.map fun face => (face.b.sub face.a).cross (face.c.sub face.a)
  vertex_faces.foldl
    (fun (faces : List (Triangle K)) (face_descriptors : List (Nat × Nat)) =>
      let vertex_normal := face_descriptors.foldl
        (fun (vertex_normal : Vec3 K) (descriptor : Nat × Nat) =>
          vertex_normal.add ((face_normals.getD descriptor.1 ⟨0, 0, 0⟩).normalize sqrt))
        ⟨0, 0, 0⟩
      if vertex_normal.getLengthSquared ≤ 0 then
        faces
      else
        let vertex_normal := vertex_normal.normalize sqrt
        face_descriptors.foldl
          (fun (faces : List (Triangle K)) (descriptor : Nat × Nat) =>
            ObjParser.setNormal faces vertex_normal descriptor)
          faces)
    faces

/-- Method `ObjParser::parse`. -/
def ObjParser.parse (sqrt : K → K) (p : ObjParser K) : List (Triangle K) :=
  let p := ObjParser.parseLines sqrt p.stream.length p
  if p.smooth then ObjParser.smoothNormals sqrt p.vertex_faces p.faces else p.faces

/-- Constructor `ObjParser(stream, transformation, cull_backface, smooth)`. -/
def ObjParser.new (stream : List Char) (transformation : Mat4 K) (cull_backface : Bool)
    (smooth : Bool) : ObjParser K :=
  { stream := stream, transformation := transformation, vertices := [], vertex_faces := [],
    faces := [], cull_backface := cull_backface, smooth := smooth }

/-- Function `io::loadMesh(stream, transformation, cull_backface, smooth)`. -/
def loadMesh (sqrt : K → K) (stream : List Char) (transformation : Mat4 K) (cull_backface : Bool)
    (smooth : Bool) : List (Triangle K) :=
  ObjParser.parse sqrt (ObjParser.new stream transformation cull_backface smooth)

end Mesh

/-! ## The worker loop of `doWork` under interleaving (worker.cpp)

The threads of `doWorkParallel` run the loop of `doWork` concurrently. Each thread is modelled
by its position in the loop; a schedule is the sequence in which the threads perform their next
atomic action. A thread whose next action is to lock a mutex that is held does not advance. -/

/-- The positions of a thread in the loop of `doWork`. -/
inductive WorkerPhase where
  /-- At the top of the loop, about to lock `mutex_queue`. -/
  | loopTop : WorkerPhase
  /-- Holding `mutex_queue`, about to test `queue.empty()`. -/
  | queueLocked : WorkerPhase
  /-- Owning an item, `mutex_queue` released: `processItem`, the copy loops, then about to lock
  `mutex_callback`. -/
  | rendering : WorkerPhase
  /-- Holding `mutex_callback`, about to execute `processed_tiles.fetch_add(1)`. -/
  | callbackLocked : WorkerPhase
  /-- Holding `mutex_callback` with the value `previous_progress`, about to call
  `progress_callback(previous_progress + 1)`. -/
  | fetched : Int → WorkerPhase
  /-- Inside the call of `progress_callback`, holding `mutex_callback`. -/
  | inCallback : WorkerPhase
  /-- Left the loop through `break`. -/
  | finished : WorkerPhase
deriving DecidableEq, Repr

/-- The state shared by the threads of `doWorkParallel`, the positions of the threads, and the
log of the invocations `progress_callback(completed_tiles, total_tile_count)` of the callback
handed to `processJob`, in the order in which they start. -/
structure WorkState where
  queue : List WorkItem
  phases : List WorkerPhase
  mutex_queue : Option Nat
  mutex_callback : Option Nat
  processed_tiles : Int
  calls : List (Int × Int)

/-- The next atomic action of thread `i` in the loop of `doWork`; `total_tile_count` is the
value bound into `bound_progress_callback` by `processJob`. -/
def doWork.step (total_tile_count : Int) (s : WorkState) (i : Nat) : WorkState :=
  match s.phases.get? i with
  | none => s
  | some .loopTop =>
    if s.mutex_queue.isNone then
      { s with phases := s.phases.set i .queueLocked, mutex_queue := some i }
    else s
  | some .queueLocked =>
    match s.queue with
    | [] => { s with phases := s.phases.set i .finished, mutex_queue := none }
    | _ :: rest =>
      { s with queue := rest, phases := s.phases.set i .rendering, mutex_queue := none }
  | some .rendering =>
    if s.mutex_callback.isNone then
      { s with phases := s.phases.set i .callbackLocked, mutex_callback := some i }
    else s
  | some .callbackLocked =>
    { s with phases := s.phases.set i (.fetched s.processed_tiles),
             processed_tiles := s.processed_tiles + 1 }
  | some (.fetched previous_progress) =>
    { s with phases := s.phases.set i .inCallback,
             calls := s.calls ++ [(previous_progress + 1, total_tile_count)] }
  | some .inCallback =>
    { s with phases := s.phases.set i .loopTop, mutex_callback := none }
  | some .finished => s

/-- The state in which `doWorkParallel` starts its threads: `extra_threads` spawned threads and
the calling thread, all at the top of the loop. -/
def doWorkParallel.start (queue : List WorkItem) (extra_threads : Nat) : WorkState :=
  { queue := queue, phases := List.replicate (extra_threads + 1) .loopTop, mutex_queue := none,
    mutex_callback := none, processed_tiles := 0, calls := [] }

/-- The state reached from the start of `doWorkParallel` under a schedule. -/
def doWorkParallel.run (total_tile_count : Int) (queue : List WorkItem) (extra_threads : Nat)
    (schedule : List Nat) : WorkState :=
  schedule.foldl (doWork.step total_tile_count) (doWorkParallel.start queue extra_threads)

/-- The value `total_tile_count` of `processJob` for an image of the given extent. -/
def total_tile_count (width height : Int) : Int :=
  tile_count width (tile_size width height) * tile_count height (tile_size width height)

/-- The threads that own an item whose completion has not been reported yet. -/
def WorkerPhase.inFlight : WorkerPhase → Bool
  | .rendering => true
  | .callbackLocked => true
  | .fetched _ => true
  | _ => false

/-- The threads that hold `mutex_callback`. -/
def WorkerPhase.holdsCallback : WorkerPhase → Bool
  | .callbackLocked => true
  | .fetched _ => true
  | .inCallback => true
  | _ => false

/-- The invariant of the worker loop: only the holder of `mutex_callback` is between locking it
and returning from the callback; the log is `(1, total), (2, total), ...`; the counter equals the
number of logged calls, plus one for the thread that has incremented it without having called
yet; every queued item is still queued, in flight or reported; and a thread finishes only when
the queue is empty. -/
def WorkState.Inv (total_tile_count : Int) (total : Nat) (s : WorkState) : Prop :=
  (∀ i ph, s.phases.get? i = some ph → ph.holdsCallback = true → s.mutex_callback = some i) ∧
  s.calls = (List.range s.calls.length).map (fun (n : Nat) => (((n : Nat) : Int) + 1, total_tile_count)) ∧
  (∀ i previous, s.phases.get? i = some (.fetched previous) →
    previous = (s.calls.length : Int) ∧ s.processed_tiles = (s.calls.length : Int) + 1) ∧
  ((∀ i previous, s.phases.get? i ≠ some (.fetched previous)) →
    s.processed_tiles = (s.calls.length : Int)) ∧
  s.queue.length + s.phases.countP WorkerPhase.inFlight + s.calls.length = total ∧
  (∀ i, s.phases.get? i = some .finished → s.queue = [])

/-- The state reached by the threads `processJob` starts for an image of the given extent with
the given number of spawned threads, under a schedule. -/
def processJob.reached (width height : Int) (extra_threads : Nat) (schedule : List Nat) :
    WorkState :=
  doWorkParallel.run (total_tile_count width height) (processJob_queue width height) extra_threads
    schedule

/-! ## The random engine, the camera and the assignment of tiles to worker threads -/

/-- Constructor `xorshift(uint64_t seed)` (base.h): the 64-bit state `seed ^ (~seed << 32)`. -/
def xorshift.new (seed : Nat) : Nat :=
  let seed := seed % 2 ^ 64
  seed ^^^ (((2 ^ 64 - 1 - seed) <<< 32) % 2 ^ 64)

/-- The call operator of `class xorshift` (base.h): the 32-bit output and the next state. -/
def xorshift.next (m_seed : Nat) : Nat × Nat :=
  let result := (m_seed * 0xD989BCACC137DCD5) % 2 ^ 64
  let m_seed := m_seed ^^^ (m_seed >>> 11)
  let m_seed := m_seed ^^^ ((m_seed <<< 31) % 2 ^ 64)
  let m_seed := m_seed ^^^ (m_seed >>> 18)
  ((result >>> 32) % 2 ^ 32, m_seed)

/-- The engines `doWorkParallel` hands to its workers, in the order of their creation: each is
`RandomEngine{re()}` for the next output of the master engine `re`. -/
def doWorkParallel.engines : Nat → Nat → List Nat
  | 0, _ => []
  | workers + 1, re =>
    let drawn := xorshift.next re
    xorshift.new drawn.1 :: doWorkParallel.engines workers drawn.2

/-- Counterpart of `class Camera` (camera.h) over an engine state `R`; the aperture sampler is
the method `sampleAperture` of the owned sampler, if there is one. -/
structure Camera (K R : Type) where
  origin : Vec3 K
  forward : Vec3 K
  up : Vec3 K
  right : Vec3 K
  aperture_width_half : K
  aperture_height_half : K
  aperture_sampler : Option (R → (K × K) × R)
  focal_plane_dist : K

/-- Counterpart of `class ConstantMaterial` (material.h). -/
structure ConstantMaterial (K : Type) where
  diffuse_color : Color K
  refractive_index : K
  emission : Spectrum K

/-- The scattering functions of propagation.h that a material handler can own. -/
inductive BSDF where
  | lambertian : BSDF
  | glass : BSDF
  | mirror : MirrorBRDF → BSDF

/-- Counterpart of `class ConstantMaterialHandler` (object.h). -/
structure ConstantMaterialHandler (K : Type) where
  material : ConstantMaterial K
  bsdf : BSDF

section Engine
variable {K R : Type} [LinearOrderedField K]

/-- The call `dist(re)` of `std::uniform_real_distribution<float> dist(a, b)` on the engine:
one 32-bit output scaled to `[0, 1)`, then to `[a, b)`. -/
def uniform_real_distribution (a b : K) (re : Nat) : K × Nat :=
  let drawn := xorshift.next re
  let canonical : K := (drawn.1 : K) / 2 ^ 32
  (canonical * (b - a) + a, drawn.2)

/-- The call `d(re)` of `std::bernoulli_distribution d(p)` on the engine: two 32-bit outputs
form a number of `[0, 1)` with 64 binary digits, which is compared with `p`. -/
def bernoulli_distribution (p : K) (re : Nat) : Bool × Nat :=
  let low := xorshift.next re
  let high := xorshift.next low.2
  let canonical : K := ((low.1 : K) + (high.1 : K) * 2 ^ 32) / 2 ^ 64
  (decide (canonical < p), high.2)

/-- The ten-argument constructor of `Camera` (camera.cpp). -/
def Camera.newAperture (sqrt : K → K) (origin look_at up : Vec3 K)
    (focal_length height aspect_ratio aperture_width aperture_height : K)
    (aperture_sampler : Option (R → (K × K) × R)) (focal_plane_dist : K) : Camera K R :=
  let forward_dir := (look_at.sub origin).normalize sqrt
  let forward := forward_dir.scale focal_length
  let up_dir := up.normalize sqrt
  let height_half := height / 2
  let up := up_dir.scale height_half
  let right_dir := (Vec3.cross forward up).normalize sqrt
  let width_half := height_half * aspect_ratio
  let right := right_dir.scale width_half
  { origin := origin, forward := forward, up := up, right := right,
    aperture_width_half := aperture_width / 2, aperture_height_half := aperture_height / 2,
    aperture_sampler := aperture_sampler, focal_plane_dist := focal_plane_dist }

/-- The six-argument constructor of `Camera`: a pinhole camera. -/
def Camera.new (sqrt : K → K) (origin look_at up : Vec3 K) (focal_length height aspect_ratio : K) :
    Camera K R :=
  Camera.newAperture sqrt origin look_at up focal_length height aspect_ratio 0 0 none 0

/-- Method `Camera::shootRay` (camera.cpp); `uniform a b` is the call of
`std::uniform_real_distribution<float>(a, b)` on the engine. -/
def Camera.shootRay (sqrt : K → K) (uniform : K → K → R → K × R) (camera : Camera K R)
    (x y pixel_width pixel_height : K) (re : R) : Ray K × R :=
  let dx := uniform (-pixel_width / 2) (pixel_width / 2) re
  let offset_x := dx.1
  let dy := uniform (-pixel_height / 2) (pixel_height / 2) dx.2
  let offset_y := dy.1
  let sensor_x := x + offset_x
  let sensor_y := y + offset_y
  let sensor_pos :=
    ((camera.origin.sub camera.forward).sub (camera.up.scale sensor_y)).sub
      (camera.right.scale sensor_x)
  let sampled : (K × K) × R :=
    match camera.aperture_sampler with
    | some sampleAperture =>
      let s := sampleAperture dy.2
      ((s.1.1 * camera.aperture_width_half, s.1.2 * camera.aperture_height_half), s.2)
    | none => ((0, 0), dy.2)
  let aperture_offset_x := sampled.1.1
  let aperture_offset_y := sampled.1.2
  let ray_origin :=
    (camera.origin.add (camera.up.scale aperture_offset_x)).add
      (camera.right.scale aperture_offset_y)
  let ray_dir :=
    if camera.focal_plane_dist > 0 then
      let base_dir := (camera.origin.sub sensor_pos).normalize sqrt
      let ray_target :=
        camera.origin.add (base_dir.scale (camera.focal_plane_dist / Vec3.dot camera.forward base_dir))
      (ray_target.sub ray_origin).normalize sqrt
    else
      (ray_origin.sub sensor_pos).normalize sqrt
  (⟨ray_origin, ray_dir⟩, sampled.2)

/-- The interface `class Material` of a constant material; the specular colour is the default of
the base class. -/
def ConstantMaterial.toMaterial (material : ConstantMaterial K) : Material K :=
  { getDiffuseColor := fun _ => material.diffuse_color
    getSpecularColor := fun _ => ⟨1, 1, 1, 1⟩
    getRefractiveIndex := fun _ => material.refractive_index }

/-- The interfaces `getSample` calls into, for a camera, the material handlers of the objects
(by their identity) and the lights of the scene; `uniform a b` and `bernoulli p` are the calls of
`std::uniform_real_distribution<float>(a, b)` and `std::bernoulli_distribution(p)` on the
engine. -/
def Shading.ofScene (m : FloatMath K) (uniform : K → K → R → K × R)
    (bernoulli : K → R → Bool × R) (camera : Camera K R)
    (handlers : Nat → ConstantMaterialHandler K) (lights : SceneLights K) : Shading K R :=
  { shootRay := fun x y pixel_width pixel_height re =>
      camera.shootRay m.sqrt uniform x y pixel_width pixel_height re
    dist := uniform 0 1
    getEmission := fun handler _ _ => (handlers handler).material.emission
    sampleLights := fun pos n re =>
      match Scene.sampleLights m (uniform 0 1)
          (fun handler _ _ => (handlers handler).material.emission) lights pos n re with
      | some sampled => sampled
      | none => ([], re)
    getSpectrum := fun handler from_camera to_light pos normal light_spectrum synthetic =>
      match (handlers handler).bsdf with
      | .lambertian =>
        LambertianBRDF.getSpectrum m from_camera to_light pos normal light_spectrum
          (handlers handler).material.toMaterial synthetic
      | .glass =>
        GlassBDF.getSpectrum from_camera to_light pos normal light_spectrum
          (handlers handler).material.toMaterial synthetic
      | .mirror mirror =>
        mirror.getSpectrum from_camera to_light pos normal light_spectrum
          (handlers handler).material.toMaterial synthetic
    propagateRay := fun handler ray pos normal epsilon re =>
      match (handlers handler).bsdf with
      | .lambertian => LambertianBRDF.propagateRay m (uniform 0 1) ray pos normal epsilon re
      | .glass =>
        GlassBDF.propagateRay m.sqrt bernoulli ray pos normal epsilon re
          (handlers handler).material.toMaterial
      | .mirror mirror => mirror.propagateRay ray pos normal epsilon re }

end Engine

section Parallel
variable {K R : Type} [LinearOrderedField K]

/-- The loop of `doWork` run by the workers of `doWorkParallel`: the items leave the queue in
order, item `k` is taken by the worker `assignment[k]`, which renders it with its own engine and
keeps the advanced engine for its next item. The result is `none` when the assignment names no
worker for an item or a render does not return. -/
def doWorkParallel.render (sqrt : K → K) (sh : Shading K R) (job : FrameRenderJob K) (fuel : Nat) :
    List WorkItem → List Nat → List R → Image K → Option (Image K)
  | [], _, _, output_image => some output_image
  | _ :: _, [], _, _ => none
  | item :: queue, worker :: assignment, engines, output_image =>
    match engines.get? worker with
    | none => none
    | some re =>
      match processItem sqrt sh job fuel item re with
      | none => none
      | some (tile_image, re) =>
        doWorkParallel.render sqrt sh job fuel queue assignment (engines.set worker re)
          (copyTile item tile_image output_image)

end Parallel

section ParallelJob
variable {K : Type} [LinearOrderedField K]

/-- Function `processJob` (worker.cpp) with the outcome of `std::random_device` (`master_seed`),
of `std::thread::hardware_concurrency()` and of the scheduling (`assignment`: the worker that
takes each item of the queue) as arguments. The result is `none` when `doWorkParallel` throws
(`doWorkParallel_extra_threads`), when the assignment names no worker for an item, or when a
render does not return. -/
def processJob (sqrt : K → K) (sh : Shading K Nat) (job : FrameRenderJob K) (fuel : Nat)
    (worker_count : Int) (hardware_concurrency master_seed : Nat) (assignment : List Nat) :
    Option (Image K) :=
  let width := max job.options.image_width 0
  let height := max job.options.image_height 0
  let output_image : Image K := Image.new width height
  if width = 0 ∨ height = 0 then
    some output_image
  else
    match doWorkParallel_extra_threads worker_count hardware_concurrency with
    | none => none
    | some extra_threads =>
      let re := xorshift.new master_seed
      doWorkParallel.render sqrt sh job fuel (processJob_queue width height) assignment
        (doWorkParallel.engines (extra_threads + 1) re) output_image

end ParallelJob

/-- The integer square root by Newton iteration from above, with a bound on the number of
steps. -/
def isqrt.iterate : Nat → Nat → Nat → Nat
  | 0, _, guess => guess
  | fuel + 1, n, guess =>
    let next := (guess + n / guess) / 2
    if next < guess then isqrt.iterate fuel n next else guess

/-- The integer square root, rounded down, by at most 256 Newton steps. -/
def isqrt (n : Nat) : Nat :=
  if n ≤ 1 then n else isqrt.iterate 256 n n

/-- A rational square root for evaluating examples: the square root rounded down to a multiple
of `2^-32`, and 0 for negative arguments. -/
def dyadicSqrt (q : ℚ) : ℚ :=
  if q ≤ 0 then 0 else (isqrt ((q.num.toNat * 2 ^ 64) / q.den) : ℚ) / 2 ^ 32

/-- The `<cmath>` stand-ins of `rationalMath` with the square root `dyadicSqrt`. -/
def dyadicMath : FloatMath ℚ := { rationalMath with sqrt := dyadicSqrt }

/-- A triangle in the plane `z = 1` whose edge `x = 1/2` runs through the first pixel of
`edgeJob`, with a mirror surface (material handler 1). -/
def edgeTriangle : Object ℚ :=
  { material_handler := 1
    geometry := .triangle (Triangle.new dyadicSqrt ⟨1 / 2, -10, 1⟩ ⟨1 / 2, 10, 1⟩ ⟨20, 0, 1⟩ false) }

/-- The material handlers of the example: handler 1 is a white constant material with a
two-sided mirror, every other identity is the default handler (white, Lambertian). -/
def edgeHandlers (handler : Nat) : ConstantMaterialHandler ℚ :=
  if handler = 1 then
    { material := ⟨⟨1, 1, 1, 1⟩, 1, Spectrum.dark⟩, bsdf := .mirror ⟨false⟩ }
  else
    { material := ⟨⟨1, 1, 1, 1⟩, 1, Spectrum.dark⟩, bsdf := .lambertian }

/-- The scene holding `edgeTriangle` alone: its hierarchy is the leaf of the triangle. -/
def edgeScene : Scene ℚ := ⟨.leafNode edgeTriangle.getBoundingVolume edgeTriangle⟩

/-- A pinhole camera at the origin looking along `+z`. -/
def edgeCamera : Camera ℚ Nat := Camera.new dyadicSqrt ⟨0, 0, 0⟩ ⟨0, 0, 1⟩ ⟨0, 1, 0⟩ 1 2 1

/-- A 2 x 1 render of `edgeScene` with one sample per pixel: two tiles of one pixel each. -/
def edgeJob : FrameRenderJob ℚ :=
  { scene := edgeScene
    options := { image_width := 2, image_height := 1, min_sample_count := 1, max_sample_count := 1,
                 epsilon := 1 / 1000, allow_bias := false } }

/-- The interfaces of `edgeJob`: its camera, its material handlers and the lights of its scene
(no explicit light source), over the engine `xorshift`. -/
def edgeShading : Shading ℚ Nat :=
  Shading.ofScene dyadicMath uniform_real_distribution bernoulli_distribution edgeCamera
    edgeHandlers
    (Scene.initLights dyadicMath (fun handler => (edgeHandlers handler).material.emission) []
      edgeScene)

/-! ## The threads of `doWorkParallel` with their engines and the output image -/

section Threads
variable {K : Type} [LinearOrderedField K]

/-- The threads of `doWorkParallel` together with the data they work on: the positions of the
threads and the shared queue (`work`), the log of the threads that took the items, in the order
in which the items left the queue (`taken`), and the output image with the engine `re` of every
thread (`render`), which is `none` once a call of `processItem` has not returned. -/
structure RenderState (K : Type) where
  work : WorkState
  taken : List Nat
  render : Option (Image K × List Nat)

/-- The next atomic action of thread `i` in the loop of `doWork` (worker.cpp), as in
`doWork.step`, with its effect on the engines and on the output image. When the thread takes an
item from the queue, the effect of the statements up to the next lock is recorded:
`processItem(item, re)` advances the engine of the thread and the copy loops write the tile into
the output image. `processItem` reads the job and the engine of its own thread only, and the copy
loops of different threads write different pixels, so the moment at which the effect is recorded
makes no difference. -/
def doWork.renderStep (sqrt : K → K) (sh : Shading K Nat) (job : FrameRenderJob K) (fuel : Nat)
    (total_tile_count : Int) (s : RenderState K) (i : Nat) : RenderState K :=
  match s.work.phases.get? i, s.work.queue with
  | some .queueLocked, item :: _ =>
    { work := doWork.step total_tile_count s.work i
      taken := s.taken ++ [i]
      render :=
        match s.render with
        | none => none
        | some (output_image, engines) =>
          match engines.get? i with
          | none => none
          | some re =>
            match processItem sqrt sh job fuel item re with
            | none => none
            | some (tile_image, re) =>
              some (copyTile item tile_image output_image, engines.set i re) }
  | _, _ => { s with work := doWork.step total_tile_count s.work i }

/-- The state in which `doWorkParallel` starts its threads, with their engines and the output
image. -/
def doWorkParallel.startRender (queue : List WorkItem) (extra_threads : Nat)
    (engines : List Nat) (output_image : Image K) : RenderState K :=
  { work := doWorkParallel.start queue extra_threads, taken := [],
    render := some (output_image, engines) }

/-- The state the threads of `doWorkParallel` reach under a schedule. -/
def doWorkParallel.runRender (sqrt : K → K) (sh : Shading K Nat) (job : FrameRenderJob K)
    (fuel : Nat) (total_tile_count : Int) (queue : List WorkItem) (extra_threads : Nat)
    (engines : List Nat) (output_image : Image K) (schedule : List Nat) : RenderState K :=
  schedule.foldl (doWork.renderStep sqrt sh job fuel total_tile_count)
    (doWorkParallel.startRender queue extra_threads engines output_image)

/-- Every thread has left the loop of `doWork`: the calling thread has returned from `doWork`
and the joins of `doWorkParallel` return. -/
def RenderState.joined (s : RenderState K) : Prop :=
  ∀ phase ∈ s.work.phases, phase = WorkerPhase.finished

instance RenderState.decidableJoined (s : RenderState K) : Decidable s.joined := by
  unfold RenderState.joined
  infer_instance

/-- The output image of a state of the threads, if every render has returned. -/
def RenderState.output_image (s : RenderState K) : Option (Image K) :=
  s.render.map fun r => r.1

/-- Function `processJob` (worker.cpp) with its threads: the state the threads of
`doWorkParallel` reach under a schedule, with the output image. For an image without pixels
`processJob` returns the image before it starts a thread, which is the state without threads;
the result is `none` when `doWorkParallel` throws before it starts a thread
(`doWorkParallel_extra_threads`). `processJob` returns the output image once every thread has
left the loop (`RenderState.joined`). -/
def processJob.threads (sqrt : K → K) (sh : Shading K Nat) (job : FrameRenderJob K) (fuel : Nat)
    (worker_count : Int) (hardware_concurrency master_seed : Nat) (schedule : List Nat) :
    Option (RenderState K) :=
  let width := max job.options.image_width 0
  let height := max job.options.image_height 0
  let output_image : Image K := Image.new width height
  if width = 0 ∨ height = 0 then
    some { work := { queue := [], phases := [], mutex_queue := none, mutex_callback := none,
                     processed_tiles := 0, calls := [] },
           taken := [], render := some (output_image, []) }
  else
    match doWorkParallel_extra_threads worker_count hardware_concurrency with
    | none => none
    | some extra_threads =>
      let re := xorshift.new master_seed
      some (doWorkParallel.runRender sqrt sh job fuel (total_tile_count width height)
        (processJob_queue width height) extra_threads
        (doWorkParallel.engines (extra_threads + 1) re) output_image schedule)

/-- The invariant that ties the threads to the loop of `doWorkParallel.render`: the items that
have left the queue are a prefix of the queue, the log names a thread for each of them, and the
output image and the engines are those of `doWorkParallel.render` on that prefix under the log
(whatever workers take the remaining items). -/
def RenderState.Inv (sqrt : K → K) (sh : Shading K Nat) (job : FrameRenderJob K) (fuel : Nat)
    (queue : List WorkItem) (engines : List Nat) (output_image : Image K) (s : RenderState K) :
    Prop :=
  s.work.queue = queue.drop s.taken.length ∧ s.taken.length ≤ queue.length ∧
  (∀ worker ∈ s.taken, worker < s.work.phases.length) ∧
  ∀ rest, doWorkParallel.render sqrt sh job fuel queue (s.taken ++ rest) engines output_image =
    match s.render with
    | none => none
    | some r => doWorkParallel.render sqrt sh job fuel s.work.queue rest r.2 r.1

end Threads

/-- A schedule of two threads for two items: thread 0 takes the first item, thread 1 the
second. -/
def firstThreadFirst : List Nat := [0, 0, 1, 1, 0, 0, 0, 0, 1, 1, 1, 1, 0, 0, 1, 1]

/-- A schedule of two threads for two items: thread 1 takes the first item, thread 0 the
second. -/
def secondThreadFirst : List Nat := [1, 1, 0, 0, 1, 1, 1, 1, 0, 0, 0, 0, 1, 1, 0, 0]

/-- A schedule in which thread 0 performs all 14 actions of a render of two items. -/
def oneThread : List Nat := List.replicate 14 0

/-- A schedule in which thread 0 performs the 14 actions of a render of two items between
turns of threads that do not exist, and is scheduled again after it has finished. -/
def oneThreadInterrupted : List Nat :=
  [3, 0, 0, 1, 0, 0, 0, 2, 0, 0, 0, 0, 5, 0, 0, 0, 0, 0, 0, 0]

/-- A schedule of two threads for two items in which thread 0 takes the first item and reports
it before thread 1 takes the second. -/
def firstThreadAlone : List Nat := [0, 0, 0, 0, 0, 0, 1, 1, 1, 1, 1, 1, 0, 0, 1, 1]

/-- The job of the test `RenderTest.EmptySceneRenderTest`: the scene built from no object, a
1 x 1 image, one sample per pixel. -/
def emptySceneJob : FrameRenderJob ℚ :=
  { scene := ⟨.leafNode zeroArea NullObject⟩
    options := { image_width := 1, image_height := 1, min_sample_count := 1, max_sample_count := 1,
                 epsilon := 1 / 1000, allow_bias := false } }

/-- The threads of a render of `edgeJob` with master seed 2 and the given number of spawned
threads, in the state they reach under a schedule. -/
def edgeThreads (extra_threads : Nat) (schedule : List Nat) : RenderState ℚ :=
  doWorkParallel.runRender dyadicSqrt edgeShading edgeJob 8 (total_tile_count 2 1)
    (processJob_queue 2 1) extra_threads
    (doWorkParallel.engines (extra_threads + 1) (xorshift.new 2)) (Image.new 2 1) schedule

/-! ## The continuation probability of a path -/

section Bounce
variable {K : Type} [LinearOrderedField K]

/-- The value `bounce_probability` of `impl::getSample` (worker.cpp):
`path_length <= 4 ? 1.0F : 0.1F + 0.1F * std::min(contribution_unweighted *
getContribution(sample_spectrum), 1.0F)`, for the path length after its increment. -/
def getSample.bounce_probability (path_length : Int) (contribution_unweighted : K)
    (sample_spectrum : Spectrum K) : K :=
  if path_length ≤ 4 then 1
  else 1 / 10 + 1 / 10 * min (contribution_unweighted * getContribution sample_spectrum.color) 1

end Bounce

/-! ## Post-processing: gamma correction -/

section PostProcessing
variable {K : Type} [LinearOrderedField K]

/-- Function `getBrightness` (post_processing.cpp): `std::max({color[0], color[1], color[2]})`. -/
def getBrightness (color : Color K) : K :=
  max (max color.r color.g) color.b

/-- The body of the pixel loop of `gammaCorrect`: the first three channels of the pixel `(x, y)`
are multiplied by `std::pow(brightness, 1.0F / gamma - 1.0F)`. -/
def gammaCorrect.pixel (pow : K → K → K) (gamma : K) (image : Image K) (x y : Int) : Image K :=
  let brightness := getBrightness (image.get x y)
  let factor := pow brightness (1 / gamma - 1)
  let image := image.set x y { image.get x y with r := (image.get x y).r * factor }
  let image := image.set x y { image.get x y with g := (image.get x y).g * factor }
  image.set x y { image.get x y with b := (image.get x y).b * factor }

/-- Function `gammaCorrect` (post_processing.cpp); `pow` stands for `std::pow`. The two loops run
over the rows and the columns of the image, whose extents no iteration changes. -/
def gammaCorrect (pow : K → K → K) (image : Image K) (gamma : K) : Image K :=
  (List.range image.height.toNat).foldl (fun (image : Image K) (y : Nat) =>
    (List.range image.width.toNat).foldl (fun (image : Image K) (x : Nat) =>
      gammaCorrect.pixel pow gamma image (x : Int) (y : Int)) image) image

end PostProcessing

/-! ## Interpolated surface normals of a triangle -/

section TriangleNormals
variable {K : Type} [LinearOrderedField K]

/-- The vertices of the triangle are not collinear: `cross(b - a, c - a)` is not the zero
vector. -/
def Triangle.nonDegenerate (t : Triangle K) : Prop :=
  ((t.b.sub t.a).cross (t.c.sub t.a)).getLengthSquared ≠ 0

/-- The normalised combination of the vertex normals with the weights `wa`, `wb`, `wc` for the
vertices `a`, `b`, `c`. -/
def Triangle.interpolatedNormal (sqrt : K → K) (t : Triangle K) (wa wb wc : K) : Vec3 K :=
  (((t.normal_a.scale wa).add (t.normal_b.scale wb)).add (t.normal_c.scale wc)).normalize sqrt

end TriangleNormals

/-! ## The shape of the bounding volume hierarchy -/

section Hierarchy
variable {K : Type} [LinearOrderedField K]

/-- The two sides `left_children` and `right_children` that one call of `impl::constructBVH`
(scene.cpp) hands to its recursive calls: the partition of the boxes at the median of the chosen
dimension, after the rebalancing loop. -/
def constructBVH.split (bounding_boxes : List (AABB K)) : List (AABB K) × List (AABB K) :=
  let medians : Nat → K := fun dim => median (bounding_boxes.map fun aabb => aabb.area.low.get dim)
  let surface_areas : Nat → Option K := fun dim => splitSurface bounding_boxes dim (medians dim)
  let min_index0 := 0
  let min_surface0 := surface_areas 0
  let min_index1 := if surfaceLt (surface_areas 1) min_surface0 then 1 else min_index0
  let min_surface1 := if surfaceLt (surface_areas 1) min_surface0 then surface_areas 1 else min_surface0
  let min_index := if surfaceLt (surface_areas 2) min_surface1 then 2 else min_index1
  let left_children := bounding_boxes.filter fun aabb => decide (aabb.area.low.get min_index ≤ medians min_index)
  let right_children := bounding_boxes.filter fun aabb => !decide (aabb.area.low.get min_index ≤ medians min_index)
  rebalance left_children.length left_children right_children

/-- The leaves of a hierarchy from left to right: the box of each leaf and the object it owns. -/
def AABB.leaves : AABB K → List (AABBArea K × Object K)
  | .leafNode area child => [(area, child)]
  | .innerNode _ left right => left.leaves ++ right.leaves

/-- The box of every inner node is the component-wise minimum and maximum of the boxes of its two
children. -/
def AABB.boxesAreUnions : AABB K → Prop
  | .leafNode _ _ => True
  | .innerNode area left right =>
    area = combineAreas left.area right.area ∧ left.boxesAreUnions ∧ right.boxesAreUnions

/-- The box `outer` contains the box `inner`: its low corner is component-wise at most, and its
high corner component-wise at least, the corner of `inner`. -/
def AABBArea.includes (outer inner : AABBArea K) : Prop :=
  (outer.low.x ≤ inner.low.x ∧ outer.low.y ≤ inner.low.y ∧ outer.low.z ≤ inner.low.z) ∧
    (inner.high.x ≤ outer.high.x ∧ inner.high.y ≤ outer.high.y ∧ inner.high.z ≤ outer.high.z)

end Hierarchy

/-- Three unit spheres along the x axis, the third with another material. -/
def threeSpheres : List (Object ℚ) :=
  [{ material_handler := 0, geometry := .sphere (Sphere.new ⟨0, 0, 0⟩ 1) },
   { material_handler := 0, geometry := .sphere (Sphere.new ⟨4, 0, 0⟩ 1) },
   { material_handler := 1, geometry := .sphere (Sphere.new ⟨8, 0, 0⟩ 1) }]

/-! ## The running statistics of a pixel -/

section Statistics
variable {K R : Type} [LinearOrderedField K]

/-- The arithmetic mean of a list of numbers (0 for the empty list). -/
def arithmeticMean (xs : List K) : K :=
  xs.sum / (xs.length : K)

/-- The sum of the squared deviations of a list of numbers from their arithmetic mean. -/
def squaredDeviations (xs : List K) : K :=
  (xs.map fun x => (x - arithmeticMean xs) * (x - arithmeticMean xs)).sum

/-- The arithmetic mean of a list of colours, per channel. -/
def Color.mean (xs : List (Color K)) : Color K :=
  ⟨arithmeticMean (xs.map Color.r), arithmeticMean (xs.map Color.g),
    arithmeticMean (xs.map Color.b), arithmeticMean (xs.map Color.a)⟩

/-- The sum of the squared deviations of a list of colours from their mean, per channel. -/
def Color.squaredDeviations (xs : List (Color K)) : Color K :=
  ⟨PathTrace.squaredDeviations (xs.map Color.r), PathTrace.squaredDeviations (xs.map Color.g),
    PathTrace.squaredDeviations (xs.map Color.b), PathTrace.squaredDeviations (xs.map Color.a)⟩

/-- The first part of the body of the sample loop of `processItem`, for the colours of the
collected samples one after the other. -/
def PixelState.recordSamples (options : RenderOptions K) (st : PixelState K)
    (samples : List (Color K)) : PixelState K :=
  samples.foldl (fun st color_contribution => st.recordSample options color_contribution) st

/-- The batch averages (the values of `sample_aggregate` after its division by
`stats_sample_count`) of the batches that are completed while the colours of the collected
samples are recorded one after the other, oldest first. -/
def PixelState.batchAverages (options : RenderOptions K) :
    PixelState K → List (Color K) → List (Color K)
  | _, [] => []
  | st, color_contribution :: rest =>
    (if st.stats_sample_index + 1 = stats_sample_count options then
      [(st.sample_aggregate.add color_contribution).div ((stats_sample_count options : Int) : K)]
    else []) ++
      PixelState.batchAverages options (st.recordSample options color_contribution) rest

/-- The colours of the samples collected by the sample loop of `processItem` for one pixel, in
the order in which they are drawn: a history of the loop `samplePixel`, following the same
control flow. -/
def samplePixel.colors (sqrt : K → K) (sh : Shading K R) (job : FrameRenderJob K) (fuel : Nat)
    (x_camera y_camera : K) : Nat → PixelState K → R → List (Color K)
  | 0, _, _ => []
  | remaining + 1, st, re =>
    match getSample sqrt sh job fuel x_camera y_camera re with
    | none => []
    | some ((out_spectrum, sample_collected), re) =>
      if sample_collected then
        let next := st.addSample sqrt job.options out_spectrum.color
        if next.2 then [out_spectrum.color]
        else out_spectrum.color ::
          samplePixel.colors sqrt sh job fuel x_camera y_camera remaining next.1 re
      else
        samplePixel.colors sqrt sh job fuel x_camera y_camera remaining st re

/-- The per-pixel variables without the two variables of the convergence check, which the
statistics do not depend on. -/
def PixelState.statistics (st : PixelState K) : PixelState K :=
  { st with remaining_checks := 0, accepted_candidate := false }

/-- Invariant of the running statistics of a pixel: `xs` are the averages of the batches
completed so far, `groups` the candidate batches already pushed and `current` the candidate batch
that is being filled. -/
def PixelState.Welford (options : RenderOptions K) (st : PixelState K) (xs : List (Color K))
    (groups : List (List (Color K))) (current : List (Color K)) : Prop :=
  0 ≤ st.stats_sample_index ∧ st.stats_sample_index < stats_sample_count options ∧
  st.contribution_count =
    stats_sample_count options * ((xs.length : Nat) : Int) + st.stats_sample_index ∧
  st.contribution_mean = Color.mean xs ∧ st.contribution_m2 = Color.squaredDeviations xs ∧
  xs = groups.flatten ++ current ∧
  (∀ g ∈ groups, ((g.length : Nat) : Int) = candidate_batch_count options) ∧
  ((current.length : Nat) : Int) ≤ candidate_batch_count options ∧
  (xs ≠ [] → current ≠ []) ∧
  st.candidate_means = groups.map Color.mean ∧
  st.candidate_m2s = groups.map Color.squaredDeviations ∧
  st.candidate_counts = groups.map (fun (g : List (Color K)) => ((g.length : Nat) : Int)) ∧
  st.candidate_mean = Color.mean current ∧
  st.candidate_m2 = Color.squaredDeviations current ∧
  st.candidate_count = ((current.length : Nat) : Int)

end Statistics

/-- Render options with `stats_sample_count = 2` and `candidate_batch_count = 4`. -/
def pairedOptions : RenderOptions ℚ :=
  { image_width := 1, image_height := 1, min_sample_count := 8, max_sample_count := 16,
    epsilon := 1 / 1000, allow_bias := false }

/-- Eleven sample colours: five full batches of two samples and one sample of a sixth. -/
def elevenSamples : List (Color ℚ) :=
  [⟨1, 0, 0, 1⟩, ⟨3, 2, 0, 1⟩, ⟨5, 1, 1, 1⟩, ⟨7, 1, 3, 1⟩, ⟨0, 0, 0, 1⟩, ⟨2, 6, 4, 1⟩,
    ⟨4, 4, 4, 1⟩, ⟨6, 0, 2, 1⟩, ⟨1, 1, 1, 1⟩, ⟨3, 5, 7, 1⟩, ⟨9, 9, 9, 1⟩]

/-! ## The convergence checks of a pixel -/

section Checks
variable {K R : Type} [LinearOrderedField K]

/-- The outcome of the convergence check that `processItem` makes after a recorded sample: no
entry when the condition `stats_sample_index == 0 && collected_sample_count >=
std::max(min_sample_count, 2)` is false, otherwise the value of `passed_check`. -/
def PixelState.checkOutcome (sqrt : K → K) (options : RenderOptions K) (st : PixelState K) :
    List Bool :=
  if st.stats_sample_index = 0 ∧ st.collected_sample_count ≥ max options.min_sample_count 2 then
    [st.passesCheck sqrt options]
  else
    []

/-- The outcomes of the convergence checks made by the sample loop of `processItem` for one
pixel, oldest first: a history of the loop `samplePixel`, following the same control flow. -/
def samplePixel.checks (sqrt : K → K) (sh : Shading K R) (job : FrameRenderJob K) (fuel : Nat)
    (x_camera y_camera : K) : Nat → PixelState K → R → List Bool
  | 0, _, _ => []
  | remaining + 1, st, re =>
    match getSample sqrt sh job fuel x_camera y_camera re with
    | none => []
    | some ((out_spectrum, sample_collected), re) =>
      if sample_collected then
        let next := st.addSample sqrt job.options out_spectrum.color
        let outcome := (st.recordSample job.options out_spectrum.color).checkOutcome sqrt
          job.options
        if next.2 then outcome
        else outcome ++ samplePixel.checks sqrt sh job fuel x_camera y_camera remaining next.1 re
      else
        samplePixel.checks sqrt sh job fuel x_camera y_camera remaining st re

/-- The number of passed checks at the end of a history of check outcomes. -/
def trailingPasses (checks : List Bool) : Nat :=
  (checks.reverse.takeWhile fun passed => passed).length

end Checks

deriving instance DecidableEq for PixelState

/-- The job of `frontSphereJob` with up to 20 samples per pixel: `stats_sample_count = 1` and
`check_sample_count = 8`. -/
def steadyJob : FrameRenderJob ℚ :=
  { scene := frontSphereJob.scene
    options := { image_width := 1, image_height := 1, min_sample_count := 1,
                 max_sample_count := 20, epsilon := 1 / 1000, allow_bias := false } }

/-- The per-pixel variables at the end of the sample loop of `steadyJob`. -/
def steadyState : PixelState ℚ :=
  { pixel_value := ⟨0, 0, 0, 9⟩, collected_sample_count := 9,
    previous_pixel_value := ⟨0, 0, 0, 8⟩,
    contribution_mean := ⟨0, 0, 0, 1⟩, contribution_m2 := ⟨0, 0, 0, 0⟩, contribution_count := 9,
    stats_sample_index := 0, sample_aggregate := ⟨0, 0, 0, 0⟩,
    candidate_means := [⟨0, 0, 0, 1⟩], candidate_m2s := [⟨0, 0, 0, 0⟩], candidate_counts := [5],
    candidate_mean := ⟨0, 0, 0, 1⟩, candidate_m2 := ⟨0, 0, 0, 0⟩, candidate_count := 4,
    remaining_checks := 0, accepted_candidate := true }

/-! # Theorems -/

theorem float_max_pos {K : Type} [LinearOrderedField K] : (0 : K) < float_max := by
  unfold float_max; norm_num

theorem tile_size_pos (width height : Int) : 1 ≤ tile_size width height := by
  unfold tile_size; exact le_max_right _ _

/-- Counting over a grid built by two nested loops factors into the two axis counts. -/
theorem countP_grid {α β γ : Type} (l₁ : List α) (l₂ : List β) (f : α → β → γ) (P : γ → Bool)
    (p : α → Bool) (q : β → Bool) (h : ∀ a b, P (f a b) = (q b && p a)) :
    List.countP P (l₁.flatMap fun a => l₂.map (f a)) = List.countP p l₁ * List.countP q l₂ := by
  induction l₁ with
  | nil => simp
  | cons a l ih =>
    rw [List.flatMap_cons, List.countP_append, ih, List.countP_cons, List.countP_map]
    have : List.countP (P ∘ f a) l₂ = if p a = true then List.countP q l₂ else 0 := by
      by_cases hp : p a = true
      · rw [if_pos hp]
        apply List.countP_congr
        intro b _
        simp [h, hp]
      · rw [if_neg hp, List.countP_eq_zero]
        intro b _
        simp [h, hp]
    rw [this]
    split <;> ring

/-- Along one axis exactly one tile index covers a given coordinate. -/
theorem countP_axis (extent ts x : Int) (hts : 1 ≤ ts) (hx0 : 0 ≤ x) (hx : x < extent) :
    List.countP (fun i : Nat => decide ((i : Int) * ts ≤ x ∧ x < (i : Int) * ts + min (extent - (i : Int) * ts) ts))
      (List.range (tile_count extent ts).toNat) = 1 := by
  have hpos : 0 < ts := by omega
  have hq0 : 0 ≤ x / ts := Int.ediv_nonneg hx0 (by omega)
  have hmod := Int.emod_nonneg x (show ts ≠ 0 by omega)
  have hmodlt := Int.emod_lt_of_pos x hpos
  have hdiv := Int.ediv_add_emod x ts
  have hcnt : tile_count extent ts = (extent + (ts - 1)) / ts := by
    unfold tile_count
    rw [Int.tdiv_eq_ediv] <;> omega
  have hmod2 := Int.emod_nonneg (extent + (ts - 1)) (show ts ≠ 0 by omega)
  have hmodlt2 := Int.emod_lt_of_pos (extent + (ts - 1)) hpos
  have hdiv2 := Int.ediv_add_emod (extent + (ts - 1)) ts
  -- the covering index is below the tile count
  have hlt : x / ts < (extent + (ts - 1)) / ts := by
    by_contra hcon
    push_neg at hcon
    have := mul_le_mul_of_nonneg_left hcon (show 0 ≤ ts by omega)
    omega
  have hmem : (x / ts).toNat ∈ List.range (tile_count extent ts).toNat := by
    rw [List.mem_range, hcnt]; omega
  have hcongr : List.countP (fun i : Nat => decide ((i : Int) * ts ≤ x ∧ x < (i : Int) * ts + min (extent - (i : Int) * ts) ts))
      (List.range (tile_count extent ts).toNat) = List.countP (fun i : Nat => i == (x / ts).toNat) (List.range (tile_count extent ts).toNat) := by
    apply List.countP_congr
    intro i _
    simp only [decide_eq_true_eq, beq_iff_eq]
    have hm1 := min_le_right (extent - (i : Int) * ts) ts
    constructor
    · rintro ⟨h1, h3⟩
      have hi : (i : Int) = x / ts := by
        rcases lt_trichotomy (i : Int) (x / ts) with h | h | h
        · have := mul_le_mul_of_nonneg_left (show (i : Int) + 1 ≤ x / ts by omega) (show 0 ≤ ts by omega)
          nlinarith
        · exact h
        · have := mul_le_mul_of_nonneg_left (show x / ts + 1 ≤ (i : Int) by omega) (show 0 ≤ ts by omega)
          nlinarith
      omega
    · intro hi
      have hi' : (i : Int) = x / ts := by omega
      rw [hi']
      refine ⟨by nlinarith, ?_⟩
      rcases min_choice (extent - x / ts * ts) ts with h | h <;> rw [h] <;> nlinarith
  rw [hcongr]
  exact List.count_eq_one_of_mem (List.nodup_range _) hmem

/-- C1. For every image width >= 1 and height >= 1 the work items queued by `processJob` tile the
image exactly: every pixel lies in exactly one queued tile rectangle (counted with multiplicity),
and every queued tile lies inside the image. -/
theorem processJob_queue_exactly_tiles (width height : Int) (hw : 1 ≤ width) (hh : 1 ≤ height) :
    (∀ x y : Int, 0 ≤ x → x < width → 0 ≤ y → y < height →
        ((processJob_queue width height).filter fun t => t.covers x y).length = 1) ∧
    (∀ t ∈ processJob_queue width height,
        0 ≤ t.offset_x ∧ 0 ≤ t.offset_y ∧
        t.offset_x + t.width ≤ width ∧ t.offset_y + t.height ≤ height) := by
  have hts := tile_size_pos width height
  constructor
  · intro x y hx0 hx hy0 hy
    rw [← List.countP_eq_length_filter]
    unfold processJob_queue
    simp only []
    rw [countP_grid _ _ _ _
      (fun j : Nat => decide ((j : Int) * tile_size width height ≤ y ∧
        y < (j : Int) * tile_size width height + min (height - (j : Int) * tile_size width height) (tile_size width height)))
      (fun i : Nat => decide ((i : Int) * tile_size width height ≤ x ∧
        x < (i : Int) * tile_size width height + min (width - (i : Int) * tile_size width height) (tile_size width height)))]
    · rw [countP_axis width _ x hts hx0 hx, countP_axis height _ y hts hy0 hy]
    · intro a b
      simp only [WorkItem.covers, Bool.decide_and, Bool.and_assoc]
  · intro t ht
    unfold processJob_queue at ht
    simp only [List.mem_flatMap, List.mem_map, List.mem_range] at ht
    obtain ⟨j, _, i, _, rfl⟩ := ht
    simp only []
    have hi : (0 : Int) ≤ (i : Int) * tile_size width height :=
      mul_nonneg (Int.natCast_nonneg _) (by omega)
    have hj : (0 : Int) ≤ (j : Int) * tile_size width height :=
      mul_nonneg (Int.natCast_nonneg _) (by omega)
    have h1 := min_le_left (width - (i : Int) * tile_size width height) (tile_size width height)
    have h2 := min_le_left (height - (j : Int) * tile_size width height) (tile_size width height)
    refine ⟨hi, hj, by linarith, by linarith⟩

theorem processJob_queue_exactly_tiles_witness :
    (∀ x y : Int, 0 ≤ x → x < 9 → 0 ≤ y → y < 8 →
        ((processJob_queue 9 8).filter fun t => t.covers x y).length = 1) ∧
    (∀ t ∈ processJob_queue 9 8,
        0 ≤ t.offset_x ∧ 0 ≤ t.offset_y ∧
        t.offset_x + t.width ≤ 9 ∧ t.offset_y + t.height ≤ 8) :=
  processJob_queue_exactly_tiles 9 8 (by decide) (by decide)


section RenderProofs
variable {K R : Type} [LinearOrderedField K]

theorem Scene.new_nil (uninit : AABBArea K) :
    Scene.new uninit ([] : List (Object K)) = some ⟨.leafNode uninit NullObject⟩ := by
  simp [Scene.new, constructBVH]

/-- A leaf holding the null object never reports a hit. -/
theorem Scene.getIntersection_null_leaf (sqrt : K → K) (area : AABBArea K) (ray : Ray K) :
    (Scene.getIntersection sqrt ⟨.leafNode area NullObject⟩ ray).1 < 0 := by
  unfold Scene.getIntersection
  simp only []
  split
  · simp [getChildIntersection, Object.getIntersection, NullObject]
  · rename_i h
    simpa using h

/-- When the first intersection test of a path misses, the loop stops at once. -/
theorem getSample.loop_miss (sqrt : K → K) (sh : Shading K R) (job : FrameRenderJob K) (fuel : Nat)
    (st : PathState K) (re : R) (h : (job.scene.getIntersection sqrt st.ray).1 < 0) :
    getSample.loop sqrt sh job (fuel + 1) st re = some (st, re) := by
  simp [getSample.loop, h]

/-- In a scene without any intersection every sample is the transparent dark spectrum. -/
theorem getSample_miss (sqrt : K → K) (sh : Shading K R) (job : FrameRenderJob K) (fuel : Nat)
    (x_camera y_camera : K) (re : R)
    (h : ∀ ray, (job.scene.getIntersection sqrt ray).1 < 0) :
    ∃ re', getSample sqrt sh job (fuel + 1) x_camera y_camera re = some ((⟨Color.zero⟩, false), re') := by
  unfold getSample
  simp only []
  rw [getSample.loop_miss sqrt sh job fuel _ _ (h _)]
  exact ⟨_, rfl⟩

theorem samplePixel_miss (sqrt : K → K) (sh : Shading K R) (job : FrameRenderJob K) (fuel : Nat)
    (x_camera y_camera : K) (h : ∀ ray, (job.scene.getIntersection sqrt ray).1 < 0)
    (remaining : Nat) (st : PixelState K) (re : R) :
    ∃ re', samplePixel sqrt sh job (fuel + 1) x_camera y_camera remaining st re = some (st, re') := by
  induction remaining generalizing re with
  | zero => exact ⟨re, rfl⟩
  | succ n ih =>
    obtain ⟨re1, h1⟩ := getSample_miss sqrt sh job fuel x_camera y_camera re h
    obtain ⟨re2, h2⟩ := ih re1
    refine ⟨re2, ?_⟩
    rw [samplePixel, h1]
    simpa using h2

theorem PixelState.finish_init (sqrt : K → K) (options : RenderOptions K) :
    (PixelState.init options).finish sqrt options = Color.zero := by
  simp [PixelState.finish, PixelState.init, pixelCandidates]

theorem processPixel_miss (sqrt : K → K) (sh : Shading K R) (job : FrameRenderJob K) (fuel : Nat)
    (h : ∀ ray, (job.scene.getIntersection sqrt ray).1 < 0) (x y : Int) (re : R) :
    ∃ re', processPixel sqrt sh job (fuel + 1) x y re = some ((Color.zero, 0), re') := by
  unfold processPixel
  simp only []
  obtain ⟨re', h'⟩ := samplePixel_miss sqrt sh job fuel
    (2 * (((x : K) + 1 / 2) / (job.options.image_width : K) - 1 / 2))
    (-(2 * (((y : K) + 1 / 2) / (job.options.image_height : K) - 1 / 2))) h
    job.options.max_sample_count.toNat (PixelState.init job.options) re
  refine ⟨re', ?_⟩
  rw [h']
  simp only [PixelState.finish_init]
  rfl

theorem Image.isBlank_new (width height : Int) : (Image.new width height : Image K).isBlank width height := by
  refine ⟨rfl, rfl, by simp [Image.new], ?_⟩
  intro c hc
  simp only [Image.new, List.mem_replicate] at hc
  exact hc.2

theorem Image.isBlank_set (img : Image K) (width height x y : Int) (h : img.isBlank width height) :
    (img.set x y Color.zero).isBlank width height := by
  unfold Image.set
  split
  · obtain ⟨hw, hh, hl, hz⟩ := h
    refine ⟨hw, hh, by simpa using hl, ?_⟩
    intro c hc
    rcases List.mem_or_eq_of_mem_set hc with h1 | h1
    · exact hz c h1
    · exact h1
  · exact h

theorem Image.get_of_isBlank (img : Image K) (width height x y : Int) (h : img.isBlank width height) :
    img.get x y = Color.zero := by
  unfold Image.get
  rw [List.getD_eq_getElem?_getD]
  cases hget : img.data[(y * img.width + x).toNat]? with
  | none => rfl
  | some c => exact h.2.2.2 c (List.getElem?_mem hget)

theorem processItem.row_miss (sqrt : K → K) (sh : Shading K R) (job : FrameRenderJob K) (fuel : Nat)
    (h : ∀ ray, (job.scene.getIntersection sqrt ray).1 < 0) (item : WorkItem) (y : Int) (w ht : Int)
    (cols : List Nat) (image : Image K) (re : R) (hb : image.isBlank w ht) :
    ∃ image' re', processItem.row sqrt sh job (fuel + 1) item y cols image re = some (image', re') ∧
      image'.isBlank w ht := by
  induction cols generalizing image re with
  | nil => exact ⟨image, re, rfl, hb⟩
  | cons i rest ih =>
    obtain ⟨re1, h1⟩ := processPixel_miss sqrt sh job fuel h (item.offset_x + (i : Int)) y re
    obtain ⟨image2, re2, h2, hb2⟩ := ih (image.set (item.offset_x + (i : Int) - item.offset_x) (y - item.offset_y) Color.zero) re1
      (Image.isBlank_set _ _ _ _ _ hb)
    refine ⟨image2, re2, ?_, hb2⟩
    rw [processItem.row]
    simp only [h1]
    exact h2

theorem processItem.rows_miss (sqrt : K → K) (sh : Shading K R) (job : FrameRenderJob K) (fuel : Nat)
    (h : ∀ ray, (job.scene.getIntersection sqrt ray).1 < 0) (item : WorkItem) (w ht : Int)
    (rows : List Nat) (image : Image K) (re : R) (hb : image.isBlank w ht) :
    ∃ image' re', processItem.rows sqrt sh job (fuel + 1) item rows image re = some (image', re') ∧
      image'.isBlank w ht := by
  induction rows generalizing image re with
  | nil => exact ⟨image, re, rfl, hb⟩
  | cons j rest ih =>
    obtain ⟨image1, re1, h1, hb1⟩ := processItem.row_miss sqrt sh job fuel h item
      (item.offset_y + (j : Int)) w ht (List.range item.width.toNat) image re hb
    obtain ⟨image2, re2, h2, hb2⟩ := ih image1 re1 hb1
    refine ⟨image2, re2, ?_, hb2⟩
    rw [processItem.rows]
    simp only [h1]
    exact h2

theorem copyTile_blank (item : WorkItem) (tile_image output_image : Image K) (tw th w ht : Int)
    (htile : tile_image.isBlank tw th) (hout : output_image.isBlank w ht) :
    (copyTile item tile_image output_image).isBlank w ht := by
  unfold copyTile
  generalize List.range item.height.toNat = rows
  induction rows generalizing output_image with
  | nil => exact hout
  | cons j rest ih =>
    rw [List.foldl_cons]
    apply ih
    generalize List.range item.width.toNat = cols
    clear ih
    induction cols generalizing output_image with
    | nil => exact hout
    | cons i rest2 ih2 =>
      rw [List.foldl_cons]
      apply ih2
      rw [Image.get_of_isBlank tile_image tw th _ _ htile]
      exact Image.isBlank_set _ _ _ _ _ hout

end RenderProofs

section SamplerProofs
variable {K R : Type} [LinearOrderedField K]

theorem stats_sample_count_pos (options : RenderOptions K) : 1 ≤ stats_sample_count options := by
  unfold stats_sample_count
  exact le_min (le_max_right _ _) (by norm_num)

theorem candidate_batch_count_ge (options : RenderOptions K) : 2 ≤ candidate_batch_count options := by
  unfold candidate_batch_count
  exact le_max_right _ _

/-- A collected sample carries alpha 1, an uncollected one alpha 0. -/
theorem getSample_alpha (sqrt : K → K) (sh : Shading K R) (job : FrameRenderJob K) (fuel : Nat)
    (x_camera y_camera : K) (re re' : R) (out : Spectrum K) (collected : Bool)
    (h : getSample sqrt sh job fuel x_camera y_camera re = some ((out, collected), re')) :
    out.color.a = if collected then 1 else 0 := by
  unfold getSample at h
  simp only [] at h
  split at h
  · exact absurd h (by simp)
  · simp only [Option.some.injEq, Prod.mk.injEq] at h
    obtain ⟨⟨h1, h2⟩, _⟩ := h
    rw [← h1, ← h2]

theorem PixelState.init_inv (options : RenderOptions K) : (PixelState.init options).Inv options := by
  have := stats_sample_count_pos options
  refine ⟨le_refl _, ?_, le_refl _, ?_, ?_, le_refl _, ?_, ?_, fun _ => rfl⟩
  · simp [PixelState.init, Color.zero]
  · simp only [PixelState.init]; omega
  · simp [PixelState.init, Color.zero]
  · intro h; simp [PixelState.init] at h
  · intro c hc; simp [PixelState.init] at hc

theorem PixelState.completeBatch_inv (options : RenderOptions K) (st : PixelState K)
    (hagg : st.sample_aggregate.a = ((stats_sample_count options : Int) : K))
    (h6 : 0 ≤ st.candidate_count) (h7 : 0 < st.candidate_count → st.candidate_mean.a = 1)
    (h8 : ∀ c ∈ st.candidate_means, c.a = 1) :
    (st.completeBatch options).pixel_value = st.pixel_value ∧
    (st.completeBatch options).collected_sample_count = st.collected_sample_count ∧
    (st.completeBatch options).stats_sample_index = 0 ∧
    (st.completeBatch options).sample_aggregate.a = 0 ∧
    0 < (st.completeBatch options).candidate_count ∧
    (st.completeBatch options).candidate_mean.a = 1 ∧
    (∀ c ∈ (st.completeBatch options).candidate_means, c.a = 1) := by
  have hs := stats_sample_count_pos options
  have hb := candidate_batch_count_ge options
  have hsK : ((stats_sample_count options : Int) : K) ≠ 0 := by
    have : (0 : Int) < stats_sample_count options := by omega
    exact_mod_cast this.ne'
  have hone : (st.sample_aggregate.div ((stats_sample_count options : Int) : K)).a = 1 := by
    simp only [Color.div, hagg]
    exact div_self hsK
  refine ⟨rfl, rfl, rfl, rfl, ?_, ?_, ?_⟩
  · simp only [PixelState.completeBatch]
    split <;> omega
  · simp only [PixelState.completeBatch, Color.add, Color.sub] at hone ⊢
    simp only [Color.div] at hone ⊢
    rw [hone]
    by_cases hp : st.candidate_count = candidate_batch_count options
    · simp [hp, Color.zero]
    · simp only [hp, decide_False, Bool.false_eq_true, if_false]
      rcases eq_or_lt_of_le h6 with h0 | hpos
      · rw [← h0]; simp
      · rw [h7 hpos]; simp
  · intro c hc
    simp only [PixelState.completeBatch] at hc
    by_cases hp : st.candidate_count = candidate_batch_count options
    · simp only [hp, decide_True, if_true, List.mem_append, List.mem_singleton] at hc
      rcases hc with hc | hc
      · exact h8 c hc
      · rw [hc]; exact h7 (by omega)
    · simp only [hp, decide_False, Bool.false_eq_true, if_false] at hc
      exact h8 c hc

theorem PixelState.recordSample_inv (options : RenderOptions K) (st : PixelState K)
    (cc : Color K) (hcc : cc.a = 1) (h : st.Inv options) :
    (st.recordSample options cc).Inv options ∧
      (st.recordSample options cc).collected_sample_count = st.collected_sample_count + 1 := by
  obtain ⟨h1, h2, h3, h4, h5, h6, h7, h8, _⟩ := h
  have hs := stats_sample_count_pos options
  have hpv : (st.pixel_value.add cc).a = ((st.collected_sample_count + 1 : Int) : K) := by
    simp only [Color.add, h2, hcc]
    push_cast
    rfl
  have hagg : (st.sample_aggregate.add cc).a = ((st.stats_sample_index + 1 : Int) : K) := by
    simp only [Color.add, h5, hcc]
    push_cast
    rfl
  unfold PixelState.recordSample
  simp only []
  by_cases hidx : st.stats_sample_index + 1 = stats_sample_count options
  · rw [if_pos hidx]
    obtain ⟨c1, c2, c3, c4, c5, c6, c7⟩ := PixelState.completeBatch_inv options
      { st with contribution_count := st.contribution_count + 1,
                stats_sample_index := st.stats_sample_index + 1,
                sample_aggregate := st.sample_aggregate.add cc } (by rw [← hidx]; exact hagg) h6 h7 h8
    refine ⟨⟨?_, ?_, ?_, ?_, ?_, ?_, ?_, ?_, ?_⟩, ?_⟩
    · simp only [c2]; omega
    · simp only [c1, c2]; exact hpv
    · simp only [c3]; exact le_refl _
    · simp only [c3]; omega
    · simp only [c4, c3]; simp
    · exact le_of_lt c5
    · exact fun _ => c6
    · exact c7
    · intro h0; simp only [c2] at h0; omega
    · simp only [c2]
  · rw [if_neg hidx]
    refine ⟨⟨?_, hpv, ?_, ?_, hagg, h6, h7, h8, ?_⟩, rfl⟩
    · simp only []; omega
    · simp only []; omega
    · simp only []; omega
    · intro h0; simp only [] at h0; omega

theorem PixelState.checkConvergence_inv (sqrt : K → K) (options : RenderOptions K) (st : PixelState K)
    (hpos : 0 < st.collected_sample_count) (h : st.Inv options) :
    (st.checkConvergence sqrt options).1.Inv options ∧
      (st.checkConvergence sqrt options).1.collected_sample_count = st.collected_sample_count := by
  obtain ⟨h1, h2, h3, h4, h5, h6, h7, h8, _⟩ := h
  unfold PixelState.checkConvergence
  simp only []
  split_ifs <;>
    exact ⟨⟨h1, h2, h3, h4, h5, h6, h7, h8, fun h0 => absurd h0 (ne_of_gt hpos)⟩, rfl⟩

theorem PixelState.addSample_inv (sqrt : K → K) (options : RenderOptions K) (st : PixelState K)
    (cc : Color K) (hcc : cc.a = 1) (h : st.Inv options) :
    (st.addSample sqrt options cc).1.Inv options ∧
      (st.addSample sqrt options cc).1.collected_sample_count = st.collected_sample_count + 1 := by
  obtain ⟨hi, hc⟩ := PixelState.recordSample_inv options st cc hcc h
  obtain ⟨hi2, hc2⟩ := PixelState.checkConvergence_inv sqrt options _ (by rw [hc]; have := h.1; omega) hi
  exact ⟨hi2, by rw [PixelState.addSample, hc2, hc]⟩


theorem pixelCandidates_color_mem (sqrt : K → K) (options : RenderOptions K)
    (means m2s : List (Color K)) (counts : List Int) (c : PixelCandidate K)
    (h : c ∈ pixelCandidates sqrt options means m2s counts) : c.color ∈ means := by
  induction means generalizing m2s counts with
  | nil => simp [pixelCandidates] at h
  | cons mean means ih =>
    cases m2s with
    | nil => simp [pixelCandidates] at h
    | cons m2 m2s =>
      cases counts with
      | nil => simp [pixelCandidates] at h
      | cons count counts =>
        rw [pixelCandidates] at h
        split at h
        · exact List.mem_cons_of_mem _ (ih _ _ h)
        · rcases List.mem_cons.mp h with h1 | h1
          · rw [h1]; exact List.mem_cons_self _ _
          · exact List.mem_cons_of_mem _ (ih _ _ h1)

theorem mergeCandidates_alpha (cands : List (PixelCandidate K)) (i : Int) (pixel_value : Color K)
    (stddev : K) (hpv : pixel_value.a = 1) (h : ∀ c ∈ cands, c.color.a = 1) :
    (mergeCandidates cands i pixel_value stddev).a = 1 := by
  induction cands generalizing i pixel_value stddev with
  | nil => exact hpv
  | cons other rest ih =>
    rw [mergeCandidates]
    split
    · apply ih
      · simp [Color.add, Color.sub, Color.div, hpv, h other (List.mem_cons_self _ _)]
      · exact fun c hc => h c (List.mem_cons_of_mem _ hc)
    · exact hpv

/-- Once a sample is collected, the final pixel value has alpha exactly 1. -/
theorem PixelState.finish_alpha (sqrt : K → K) (options : RenderOptions K) (st : PixelState K)
    (hpos : 0 < st.collected_sample_count) (h : st.Inv options) :
    (st.finish sqrt options).a = 1 := by
  obtain ⟨h1, h2, h3, h4, h5, h6, h7, h8, _⟩ := h
  have hK : ((st.collected_sample_count : Int) : K) ≠ 0 := by exact_mod_cast hpos.ne'
  have hpv : (st.pixel_value.scale (1 / ((st.collected_sample_count : Int) : K))).a = 1 := by
    simp only [Color.scale, h2]
    field_simp
  have hmeans : ∀ c ∈ (if decide (st.candidate_count > 0) = true then st.candidate_means ++ [st.candidate_mean]
      else st.candidate_means), c.a = 1 := by
    intro c hc
    by_cases hp : st.candidate_count > 0
    · simp only [hp, decide_True, if_true, List.mem_append, List.mem_singleton] at hc
      rcases hc with hc | hc
      · exact h8 c hc
      · rw [hc]; exact h7 hp
    · simp only [hp, decide_False, Bool.false_eq_true, if_false] at hc
      exact h8 c hc
  unfold PixelState.finish
  simp only [hpos, if_true, gt_iff_lt]
  split
  · split
    · exact hpv
    · rename_i first rest hsort
      have hperm := List.perm_insertionSort (fun a b : PixelCandidate K => a.stddev ≤ b.stddev)
        (pixelCandidates sqrt options
          (if decide (0 < st.candidate_count) = true then st.candidate_means ++ [st.candidate_mean]
            else st.candidate_means)
          (if decide (0 < st.candidate_count) = true then st.candidate_m2s ++ [st.candidate_m2]
            else st.candidate_m2s)
          (if decide (0 < st.candidate_count) = true then st.candidate_counts ++ [st.candidate_count]
            else st.candidate_counts))
      rw [hsort] at hperm
      have hall : ∀ c ∈ first :: rest, c.color.a = 1 := by
        intro c hc
        exact hmeans _ (pixelCandidates_color_mem sqrt options _ _ _ c (hperm.subset hc))
      exact mergeCandidates_alpha rest 1 first.color first.stddev (hall first (List.mem_cons_self _ _))
        (fun c hc => hall c (List.mem_cons_of_mem _ hc))
  · exact hpv

theorem samplePixel_inv (sqrt : K → K) (sh : Shading K R) (job : FrameRenderJob K) (fuel : Nat)
    (x_camera y_camera : K) (remaining : Nat) (st st' : PixelState K) (re re' : R)
    (h : st.Inv job.options)
    (hs : samplePixel sqrt sh job fuel x_camera y_camera remaining st re = some (st', re')) :
    st'.Inv job.options ∧
      st'.collected_sample_count = st.collected_sample_count +
        ((samplePixel.flags sqrt sh job fuel x_camera y_camera remaining st re).count true : Nat) := by
  induction remaining generalizing st re with
  | zero =>
    simp only [samplePixel, Option.some.injEq, Prod.mk.injEq] at hs
    rw [← hs.1]
    exact ⟨h, by simp [samplePixel.flags]⟩
  | succ n ih =>
    rw [samplePixel] at hs
    rw [samplePixel.flags]
    cases hg : getSample sqrt sh job fuel x_camera y_camera re with
    | none => rw [hg] at hs; exact absurd hs (by simp)
    | some res =>
      obtain ⟨⟨out, collected⟩, re1⟩ := res
      rw [hg] at hs
      simp only [] at hs ⊢
      have halpha := getSample_alpha sqrt sh job fuel x_camera y_camera re re1 out collected hg
      cases collected with
      | false =>
        simp only [Bool.false_eq_true, if_false] at hs ⊢
        obtain ⟨hi, hc⟩ := ih st re1 h hs
        refine ⟨hi, ?_⟩
        rw [hc]
        simp
      | true =>
        simp only [if_true] at hs halpha ⊢
        obtain ⟨hi1, hc1⟩ := PixelState.addSample_inv sqrt job.options st out.color halpha h
        by_cases hbrk : (st.addSample sqrt job.options out.color).2 = true
        · simp only [hbrk, if_true, Option.some.injEq, Prod.mk.injEq] at hs ⊢
          rw [← hs.1]
          exact ⟨hi1, by rw [hc1]; simp⟩
        · simp only [hbrk, if_false, Bool.false_eq_true] at hs ⊢
          obtain ⟨hi, hc⟩ := ih _ re1 hi1 hs
          refine ⟨hi, ?_⟩
          rw [hc, hc1]
          simp only [List.count_cons_self]
          push_cast
          ring

/-- The loop of `getSample` ends with `sample_collected` set exactly when it was set before or the
first intersection test of the loop hit the scene. -/
theorem getSample.loop_collected (sqrt : K → K) (sh : Shading K R) (job : FrameRenderJob K)
    (fuel : Nat) (st st' : PathState K) (re re' : R)
    (h : getSample.loop sqrt sh job fuel st re = some (st', re')) :
    st'.sample_collected = true ↔
      (st.sample_collected = true ∨ 0 ≤ (job.scene.getIntersection sqrt st.ray).1) := by
  induction fuel generalizing st re with
  | zero => simp [getSample.loop] at h
  | succ n ih =>
    rw [getSample.loop] at h
    simp only [] at h
    by_cases ht : (job.scene.getIntersection sqrt st.ray).1 < 0
    · rw [if_pos ht] at h
      simp only [Option.some.injEq, Prod.mk.injEq] at h
      rw [← h.1]
      constructor
      · exact fun hc => Or.inl hc
      · rintro (hc | hc)
        · exact hc
        · exact absurd ht (not_lt.mpr hc)
    · rw [if_neg ht] at h
      have hge : 0 ≤ (job.scene.getIntersection sqrt st.ray).1 := not_lt.mp ht
      refine ⟨fun _ => Or.inr hge, fun _ => ?_⟩
      split at h
      · exact absurd h (by simp)
      · split_ifs at h
        all_goals first
          | exact (ih _ _ h).mpr (Or.inl rfl)
          | (simp only [Option.some.injEq, Prod.mk.injEq] at h
             rw [← h.1])

/-- The flag of a sample tells whether the first intersection test of its path hit the scene. -/
theorem getSample_collected_iff (sqrt : K → K) (sh : Shading K R) (job : FrameRenderJob K) (fuel : Nat)
    (x_camera y_camera : K) (re re' : R) (out : Spectrum K) (collected : Bool)
    (h : getSample sqrt sh job fuel x_camera y_camera re = some ((out, collected), re')) :
    collected = true ↔
      0 ≤ (job.scene.getIntersection sqrt
        (sh.shootRay x_camera y_camera (1 / (job.options.image_width : K))
          (1 / (job.options.image_height : K)) re).1).1 := by
  unfold getSample at h
  simp only [] at h
  split at h
  · exact absurd h (by simp)
  · rename_i st re1 hl
    simp only [Option.some.injEq, Prod.mk.injEq] at h
    rw [← h.1.2, getSample.loop_collected sqrt sh job fuel _ st _ re1 hl]
    simp

/-- C5. For every pixel rendered by `processItem`, the alpha channel of the stored value is greater
than 0 if and only if at least one of the samples drawn for the pixel was collected, that is, had
an intersection with the scene; when no sample of the pixel was collected, the pixel is exactly
`(0, 0, 0, 0)`. The count `collected_sample_count` is the number of collected samples. -/
theorem processPixel_alpha_iff_sample_collected (sqrt : K → K) (sh : Shading K R)
    (job : FrameRenderJob K) (fuel : Nat) (x y : Int) (re re' : R) (pixel_value : Color K)
    (collected_sample_count : Int)
    (h : processPixel sqrt sh job fuel x y re = some ((pixel_value, collected_sample_count), re')) :
    (pixel_value.a > 0 ↔ true ∈ processPixel.flags sqrt sh job fuel x y re) ∧
    (true ∉ processPixel.flags sqrt sh job fuel x y re → pixel_value = Color.zero) ∧
    collected_sample_count = ((processPixel.flags sqrt sh job fuel x y re).count true : Nat) := by
  unfold processPixel at h
  unfold processPixel.flags
  simp only [] at h ⊢
  split at h
  · exact absurd h (by simp)
  · rename_i st re1 hs
    simp only [Option.some.injEq, Prod.mk.injEq] at h
    obtain ⟨⟨hv, hc⟩, _⟩ := h
    obtain ⟨hi, hcount⟩ := samplePixel_inv sqrt sh job fuel _ _ _ _ _ _ _
      (PixelState.init_inv job.options) hs
    have hcount' : st.collected_sample_count = ((List.count true (samplePixel.flags sqrt sh job fuel
        (2 * (((x : K) + 1 / 2) / (job.options.image_width : K) - 1 / 2))
        (-(2 * (((y : K) + 1 / 2) / (job.options.image_height : K) - 1 / 2)))
        job.options.max_sample_count.toNat (PixelState.init job.options) re) : Nat) : Int) := by
      rw [hcount]; simp [PixelState.init]
    by_cases hmem : true ∈ samplePixel.flags sqrt sh job fuel
        (2 * (((x : K) + 1 / 2) / (job.options.image_width : K) - 1 / 2))
        (-(2 * (((y : K) + 1 / 2) / (job.options.image_height : K) - 1 / 2)))
        job.options.max_sample_count.toNat (PixelState.init job.options) re
    · have hpos : 0 < st.collected_sample_count := by
        rw [hcount']
        exact_mod_cast List.count_pos_iff.mpr hmem
      have ha := PixelState.finish_alpha sqrt job.options st hpos hi
      refine ⟨⟨fun _ => hmem, fun _ => by rw [← hv, ha]; exact one_pos⟩, fun hn => absurd hmem hn, ?_⟩
      rw [← hc, hcount']
    · have hzero : st.collected_sample_count = 0 := by
        rw [hcount', List.count_eq_zero_of_not_mem hmem]; rfl
      have hst := hi.2.2.2.2.2.2.2.2 hzero
      have hfin : pixel_value = Color.zero := by
        rw [← hv, hst, PixelState.finish_init]
      refine ⟨⟨fun hgt => ?_, fun hm => absurd hm hmem⟩, fun _ => hfin, ?_⟩
      · rw [hfin] at hgt
        simp [Color.zero] at hgt
      · rw [← hc, hcount']

end SamplerProofs

section Witness

theorem frontSphere_hit :
    frontSphereJob.scene.getIntersection id { origin := ⟨0, 0, 0⟩, dir := ⟨0, 0, 1⟩ } = (4, some frontSphere) := by
  have hM : (0 : ℚ) < float_max := float_max_pos
  have hbox : AABB.getIntersection (AABB.leafNode frontSphere.getBoundingVolume frontSphere)
      { origin := ⟨0, 0, 0⟩, dir := ⟨0, 0, 1⟩ } = 4 := by
    unfold AABB.getIntersection
    lift_lets
    extract_lets ix iy iz ld hd t1 t2 t3 t4 t5 t6 t_min t_max
    have hix : ix = float_max := by simp [ix]
    have hiy : iy = float_max := by simp [iy]
    have hiz : iz = 1 := by simp [iz]
    have h1 : t1 = -float_max := by
      simp [t1, ld, hix, AABB.area, frontSphere, Object.getBoundingVolume, Sphere.new, Vec3.sub]
    have h2 : t2 = float_max := by
      simp [t2, hd, hix, AABB.area, frontSphere, Object.getBoundingVolume, Sphere.new, Vec3.sub, Vec3.add]
    have h3 : t3 = -float_max := by
      simp [t3, ld, hiy, AABB.area, frontSphere, Object.getBoundingVolume, Sphere.new, Vec3.sub]
    have h4 : t4 = float_max := by
      simp [t4, hd, hiy, AABB.area, frontSphere, Object.getBoundingVolume, Sphere.new, Vec3.sub, Vec3.add]
    have h5 : t5 = 4 := by
      simp [t5, ld, hiz, AABB.area, frontSphere, Object.getBoundingVolume, Sphere.new, Vec3.sub]; norm_num
    have h6 : t6 = 6 := by
      simp [t6, hd, hiz, AABB.area, frontSphere, Object.getBoundingVolume, Sphere.new, Vec3.sub, Vec3.add]; norm_num
    have hmin : t_min = 4 := by
      simp only [t_min, h1, h2, h3, h4, h5, h6]
      rw [min_eq_left (by linarith), max_self, min_eq_left (by norm_num), max_eq_right (by linarith)]
    have hmax : t_max = min float_max 6 := by
      simp only [t_max, h1, h2, h3, h4, h5, h6]
      rw [max_eq_right (by linarith), min_self, max_eq_right (by norm_num)]
    have hmax0 : 4 ≤ t_max := by rw [hmax]; exact le_min (by unfold float_max; norm_num) (by norm_num)
    rw [hmin]
    rw [if_neg (by rintro (h | h) <;> linarith), if_neg (by rintro ⟨h, _⟩; linarith)]
  unfold Scene.getIntersection
  simp only [frontSphereJob, hbox]
  norm_num [getChildIntersection, Object.getIntersection, frontSphere, Sphere.getIntersection,
    Sphere.new, Vec3.sub, Vec3.dot, Vec3.getLengthSquared]


/-- A path whose first vertex is hit within the first four bounces and whose uniform draw is at
least 1 ends after that vertex. -/
theorem getSample.loop_first_vertex {K R : Type} [LinearOrderedField K] (sqrt : K → K)
    (sh : Shading K R) (job : FrameRenderJob K) (fuel : Nat) (st : PathState K) (re : R) (t : K)
    (object : Object K) (hhit : job.scene.getIntersection sqrt st.ray = (t, some object))
    (ht : 0 ≤ t) (hlen : st.path_length + 1 ≤ 4) (hdist : 1 ≤ (sh.dist re).1) :
    ∃ st' re', getSample.loop sqrt sh job (fuel + 1) st re = some (st', re') ∧
      st'.sample_collected = true ∧
      st'.out_spectrum =
        accumulateLights sqrt sh job st object.material_handler (st.ray.origin.add (st.ray.dir.scale t))
          (object.getSurfaceNormal sqrt (st.ray.origin.add (st.ray.dir.scale t)))
          (sh.sampleLights (st.ray.origin.add (st.ray.dir.scale t))
            (object.getSurfaceNormal sqrt (st.ray.origin.add (st.ray.dir.scale t))) (sh.dist re).2).1
          (st.out_spectrum.add ((st.sample_spectrum.mul
            (sh.getEmission object.material_handler st.ray (st.ray.origin.add (st.ray.dir.scale t)))).div
            (st.sample_divisor * st.sample_bounce_pd))) := by
  rw [getSample.loop]
  simp only [hhit, if_neg (not_lt.mpr ht), if_pos hlen, decide_eq_false (not_lt.mpr hdist)]
  exact ⟨_, _, rfl, rfl, rfl⟩


theorem frontSphere_loop :
    ∃ st', getSample.loop id plainShading frontSphereJob 1
      { ray := { origin := ⟨0, 0, 0⟩, dir := ⟨0, 0, 1⟩ }, sample_collected := false,
        contribution_unweighted := 1, sample_divisor := 1, sample_bounce_pd := 1,
        sample_spectrum := ⟨⟨1, 1, 1, 1⟩⟩, out_spectrum := Spectrum.dark, path_length := 0 } () =
        some (st', ()) ∧
      st'.sample_collected = true ∧ st'.out_spectrum = Spectrum.dark := by
  have hh : (0 : ℚ) ≤ 4 := by norm_num
  have hl : (0 : Int) + 1 ≤ 4 := by norm_num
  obtain ⟨st', re', h1, h2, h3⟩ := getSample.loop_first_vertex id plainShading frontSphereJob 0
    { ray := { origin := ⟨0, 0, 0⟩, dir := ⟨0, 0, 1⟩ }, sample_collected := false,
      contribution_unweighted := 1, sample_divisor := 1, sample_bounce_pd := 1,
      sample_spectrum := ⟨⟨1, 1, 1, 1⟩⟩, out_spectrum := Spectrum.dark, path_length := 0 }
    () 4 frontSphere frontSphere_hit hh hl (le_refl _)
  refine ⟨st', h1, h2, ?_⟩
  rw [h3]
  have hl : ∀ (a b : Vec3 ℚ) (re : Unit), (plainShading.sampleLights a b re).1 = [] := fun _ _ _ => rfl
  have he : ∀ (m : Nat) (r : Ray ℚ) (p : Vec3 ℚ), plainShading.getEmission m r p = Spectrum.dark :=
    fun _ _ _ => rfl
  rw [hl, he, accumulateLights]
  simp only [Spectrum.add, Spectrum.mul, Spectrum.div, Spectrum.dark, Color.add, Color.mul, Color.div]
  norm_num


/-- The result of `getSample` in terms of the final state of its loop. -/
theorem getSample_of_loop {K R : Type} [LinearOrderedField K] (sqrt : K → K) (sh : Shading K R)
    (job : FrameRenderJob K) (fuel : Nat) (x_camera y_camera : K) (re re' : R) (st : PathState K)
    (h : getSample.loop sqrt sh job fuel
      { ray := (sh.shootRay x_camera y_camera (1 / (job.options.image_width : K))
          (1 / (job.options.image_height : K)) re).1,
        sample_collected := false, contribution_unweighted := 1, sample_divisor := 1,
        sample_bounce_pd := 1, sample_spectrum := ⟨⟨1, 1, 1, 1⟩⟩, out_spectrum := Spectrum.dark,
        path_length := 0 }
      (sh.shootRay x_camera y_camera (1 / (job.options.image_width : K))
          (1 / (job.options.image_height : K)) re).2 = some (st, re')) :
    getSample sqrt sh job fuel x_camera y_camera re =
      some ((⟨{ st.out_spectrum.color with a := if st.sample_collected then 1 else 0 }⟩,
        st.sample_collected), re') := by
  unfold getSample
  simp only []
  rw [h]

/-- A sample loop of one iteration whose sample is collected adds that sample. -/
theorem samplePixel_one {K R : Type} [LinearOrderedField K] (sqrt : K → K) (sh : Shading K R)
    (job : FrameRenderJob K) (fuel : Nat) (x_camera y_camera : K) (st : PixelState K) (re re' : R)
    (out : Spectrum K)
    (h : getSample sqrt sh job fuel x_camera y_camera re = some ((out, true), re')) :
    samplePixel sqrt sh job fuel x_camera y_camera 1 st re =
      some ((st.addSample sqrt job.options out.color).1, re') := by
  rw [samplePixel, h]
  simp only [if_true, samplePixel]
  split <;> rfl

/-- The result of `processPixel` in terms of the final state of its sample loop. -/
theorem processPixel_of_samplePixel {K R : Type} [LinearOrderedField K] (sqrt : K → K)
    (sh : Shading K R) (job : FrameRenderJob K) (fuel : Nat) (x y : Int) (re re' : R)
    (st : PixelState K)
    (h : samplePixel sqrt sh job fuel
      (2 * (((x : K) + 1 / 2) / (job.options.image_width : K) - 1 / 2))
      (-(2 * (((y : K) + 1 / 2) / (job.options.image_height : K) - 1 / 2)))
      job.options.max_sample_count.toNat (PixelState.init job.options) re = some (st, re')) :
    processPixel sqrt sh job fuel x y re =
      some ((st.finish sqrt job.options, st.collected_sample_count), re') := by
  unfold processPixel
  simp only []
  rw [h]

theorem frontSphere_getSample (x_camera y_camera : ℚ) :
    getSample id plainShading frontSphereJob 1 x_camera y_camera () =
      some ((⟨⟨0, 0, 0, 1⟩⟩, true), ()) := by
  obtain ⟨st', h1, h2, h3⟩ := frontSphere_loop
  have h := getSample_of_loop id plainShading frontSphereJob 1 x_camera y_camera () () st' h1
  rw [h, h2, h3]
  rfl


theorem frontSphere_pixelState :
    ∃ st : PixelState ℚ,
      ((PixelState.init frontSphereJob.options).addSample id frontSphereJob.options ⟨0, 0, 0, 1⟩).1 = st ∧
      st.finish id frontSphereJob.options = ⟨0, 0, 0, 1⟩ ∧ st.collected_sample_count = 1 := by
  have hssc : stats_sample_count frontSphereJob.options = 1 := by decide
  have hcbc : candidate_batch_count frontSphereJob.options = 2 := by decide
  have hmin : frontSphereJob.options.min_sample_count = 1 := rfl
  refine ⟨_, rfl, ?_, ?_⟩
  · simp only [PixelState.addSample, PixelState.recordSample, PixelState.checkConvergence,
      PixelState.init, PixelState.completeBatch, PixelState.finish, hssc, hcbc, hmin]
    norm_num [pixelCandidates, Color.add, Color.sub, Color.mul, Color.div, Color.scale, Color.zero]
  · simp only [PixelState.addSample, PixelState.recordSample, PixelState.checkConvergence,
      PixelState.init, PixelState.completeBatch, hssc, hcbc, hmin]
    norm_num


theorem frontSphere_processPixel :
    processPixel id plainShading frontSphereJob 1 0 0 () = some ((⟨0, 0, 0, 1⟩, 1), ()) := by
  obtain ⟨st, h1, h2, h3⟩ := frontSphere_pixelState
  have hs := samplePixel_one id plainShading frontSphereJob 1
    (2 * ((((0 : Int) : ℚ) + 1 / 2) / (frontSphereJob.options.image_width : ℚ) - 1 / 2))
    (-(2 * ((((0 : Int) : ℚ) + 1 / 2) / (frontSphereJob.options.image_height : ℚ) - 1 / 2)))
    (PixelState.init frontSphereJob.options) () () _ (frontSphere_getSample _ _)
  rw [h1] at hs
  have hp := processPixel_of_samplePixel id plainShading frontSphereJob 1 0 0 () () st hs
  rw [hp, h2, h3]

theorem processPixel_alpha_iff_sample_collected_witness :
    (((⟨0, 0, 0, 1⟩ : Color ℚ).a > 0 ↔ true ∈ processPixel.flags id plainShading frontSphereJob 1 0 0 ()) ∧
    (true ∉ processPixel.flags id plainShading frontSphereJob 1 0 0 () →
      (⟨0, 0, 0, 1⟩ : Color ℚ) = Color.zero) ∧
    (1 : Int) = ((processPixel.flags id plainShading frontSphereJob 1 0 0 ()).count true : Nat)) :=
  processPixel_alpha_iff_sample_collected id plainShading frontSphereJob 1 0 0 () () ⟨0, 0, 0, 1⟩ 1
    frontSphere_processPixel

end Witness

section GeometryEvaluation

theorem float_max_ge_hundred {K : Type} [LinearOrderedField K] : (100 : K) ≤ float_max := by
  unfold float_max; norm_num

theorem Scene.new_singleton {K : Type} [LinearOrderedField K] (uninit : AABBArea K) (o : Object K) :
    Scene.new uninit [o] = some ⟨.leafNode o.getBoundingVolume o⟩ := by
  simp [Scene.new, constructBVH]

theorem unitSphere_leaf :
    AABB.leafNode unitSphere.getBoundingVolume unitSphere = unitSphereLeaf := by
  simp [unitSphereLeaf, unitSphere, Object.getBoundingVolume, Sphere.new, Vec3.sub, Vec3.add]

/-- The slab test misses the bounding box of the unit sphere for the tangent ray. -/
theorem unitSphere_box_tangentRay :
    AABB.getIntersection unitSphereLeaf tangentRay = -1 := by
  have hM : (0 : ℚ) < float_max := float_max_pos
  unfold AABB.getIntersection
  lift_lets
  extract_lets ix iy iz ld hd t1 t2 t3 t4 t5 t6 t_min t_max
  have hix : ix = float_max := by simp [ix, tangentRay]
  have hiy : iy = float_max := by simp [iy, tangentRay]
  have hiz : iz = 1 := by simp [iz, tangentRay]
  have h2 : t2 = 0 := by simp [t2, hd, hix, AABB.area, unitSphereLeaf, tangentRay, Vec3.sub]
  have h5 : t5 = 4 := by simp [t5, ld, hiz, AABB.area, unitSphereLeaf, tangentRay, Vec3.sub]; norm_num
  have h6 : t6 = 6 := by simp [t6, hd, hiz, AABB.area, unitSphereLeaf, tangentRay, Vec3.sub]; norm_num
  have h1 : t1 = -2 * float_max := by
    simp [t1, ld, hix, AABB.area, unitSphereLeaf, tangentRay, Vec3.sub]; norm_num
  have hmax : t_max ≤ 0 := by
    simp only [t_max, h1, h2]
    exact le_trans (min_le_left _ _) (le_trans (min_le_left _ _) (max_le (by linarith) (le_refl _)))
  have hmin : 4 ≤ t_min := by
    simp only [t_min, h5, h6]
    exact le_max_of_le_right (le_min (le_refl _) (by norm_num))
  rw [if_pos (Or.inr (by linarith))]

theorem unitSphere_tangentRay : unitSphere.getIntersection Rat.sqrt tangentRay = 5 := by
  simp [unitSphere, tangentRay, Object.getIntersection, Sphere.getIntersection, Sphere.new,
    Vec3.sub, Vec3.dot, Vec3.getLengthSquared]

/-- C2 (failing input). For the scene holding the unit sphere alone and the ray from `(1, 0, -5)`
along `+z`, the sphere's own `getIntersection` is `5`, so a linear scan reports a hit at distance
5, but `Scene::getIntersection` returns the distance `-1` and no object. -/
theorem Scene_getIntersection_misses_tangent_ray :
    ∃ scene, Scene.new zeroArea [unitSphere] = some scene ∧
      scene.getIntersection Rat.sqrt tangentRay = (-1, none) ∧
      unitSphere.getIntersection Rat.sqrt tangentRay = 5 := by
  refine ⟨_, Scene.new_singleton _ _, ?_, unitSphere_tangentRay⟩
  unfold Scene.getIntersection
  simp only [unitSphere_leaf, unitSphere_box_tangentRay]
  norm_num

/-- The slab test hits the bounding box of the unit sphere at distance 4 for the corner ray. -/
theorem unitSphere_box_cornerRay :
    AABB.getIntersection unitSphereLeaf cornerRay = 4 := by
  have hM : (100 : ℚ) ≤ float_max := float_max_ge_hundred
  unfold AABB.getIntersection
  lift_lets
  extract_lets ix iy iz ld hd t1 t2 t3 t4 t5 t6 t_min t_max
  have hix : ix = float_max := by simp [ix, cornerRay]
  have hiy : iy = float_max := by simp [iy, cornerRay]
  have hiz : iz = 1 := by simp [iz, cornerRay]
  have h1 : t1 = -(15 / 8) * float_max := by
    simp only [t1, ld, hix, AABB.area, unitSphereLeaf, cornerRay, Vec3.sub]; ring
  have h2 : t2 = 1 / 8 * float_max := by
    simp only [t2, hd, hix, AABB.area, unitSphereLeaf, cornerRay, Vec3.sub]; ring
  have h3 : t3 = -(15 / 8) * float_max := by
    simp only [t3, ld, hiy, AABB.area, unitSphereLeaf, cornerRay, Vec3.sub]; ring
  have h4 : t4 = 1 / 8 * float_max := by
    simp only [t4, hd, hiy, AABB.area, unitSphereLeaf, cornerRay, Vec3.sub]; ring
  have h5 : t5 = 4 := by simp [t5, ld, hiz, AABB.area, unitSphereLeaf, cornerRay, Vec3.sub]; norm_num
  have h6 : t6 = 6 := by simp [t6, hd, hiz, AABB.area, unitSphereLeaf, cornerRay, Vec3.sub]; norm_num
  have hmin : t_min = 4 := by
    simp only [t_min, h1, h2, h3, h4, h5, h6]
    rw [min_eq_left (by linarith), max_self, min_eq_left (by norm_num), max_eq_right (by linarith)]
  have hmax : t_max = 6 := by
    simp only [t_max, h1, h2, h3, h4, h5, h6]
    rw [max_eq_right (by linarith), min_self, max_eq_right (by norm_num), min_eq_right (by linarith)]
  rw [hmin, hmax]
  norm_num

theorem unitSphere_cornerRay : unitSphere.getIntersection Rat.sqrt cornerRay = -1 := by
  simp [unitSphere, cornerRay, Object.getIntersection, Sphere.getIntersection, Sphere.new,
    Vec3.sub, Vec3.dot, Vec3.getLengthSquared]
  norm_num

/-- C3 (failing input). For the scene holding the unit sphere alone and the ray from
`(7/8, 7/8, -5)` along `+z`, which crosses the bounding box but passes beside the sphere,
`Scene::getIntersection` returns the negative distance `-1` together with the sphere, not with
a null object. -/
theorem Scene_getIntersection_negative_with_object :
    ∃ scene, Scene.new zeroArea [unitSphere] = some scene ∧
      scene.getIntersection Rat.sqrt cornerRay = (-1, some unitSphere) := by
  refine ⟨_, Scene.new_singleton _ _, ?_⟩
  unfold Scene.getIntersection
  simp only [unitSphere_leaf, unitSphere_box_cornerRay]
  rw [if_pos (by norm_num)]
  simp only [unitSphereLeaf, getChildIntersection, unitSphere_cornerRay]


/-- C6 (failing input). For the cube `[0, 1]^3` and the ray from `(1, 1/2, -5)` along `+z`, which
runs inside the face `x = 1` of the cube and enters it at distance 5, `AABB::getIntersection`
returns `-1`; and for the ray from `(-2^-126, 1/2, -5)` along `+z`, no point of which lies in the
cube, it returns the non-negative distance 5. -/
theorem AABB_getIntersection_axis_parallel_defect :
    (unitCube.getIntersection faceRay = -1 ∧ unitCube.area.contains (faceRay.pointAt 5)) ∧
    (unitCube.getIntersection outsideRay = 5 ∧ ∀ t : ℚ, ¬ unitCube.area.contains (outsideRay.pointAt t)) := by
  have hM : (100 : ℚ) ≤ float_max := float_max_ge_hundred
  refine ⟨⟨?_, ?_⟩, ?_, ?_⟩
  · unfold AABB.getIntersection
    lift_lets
    extract_lets ix iy iz ld hd t1 t2 t3 t4 t5 t6 t_min t_max
    have hix : ix = float_max := by simp [ix, faceRay]
    have hiz : iz = 1 := by simp [iz, faceRay]
    have h1 : t1 = -float_max := by
      simp only [t1, ld, hix, AABB.area, unitCube, faceRay, Vec3.sub]; ring
    have h2 : t2 = 0 := by simp [t2, hd, hix, AABB.area, unitCube, faceRay, Vec3.sub]
    have h5 : t5 = 5 := by simp [t5, ld, hiz, AABB.area, unitCube, faceRay, Vec3.sub]
    have h6 : t6 = 6 := by simp [t6, hd, hiz, AABB.area, unitCube, faceRay, Vec3.sub]; norm_num
    have hmax : t_max ≤ 0 := by
      simp only [t_max, h1, h2]
      exact le_trans (min_le_left _ _) (le_trans (min_le_left _ _) (max_le (by linarith) (le_refl _)))
    have hmin : 5 ≤ t_min := by
      simp only [t_min, h5, h6]
      exact le_max_of_le_right (le_min (le_refl _) (by norm_num))
    rw [if_pos (Or.inr (by linarith))]
  · simp [AABBArea.contains, Ray.pointAt, unitCube, AABB.area, faceRay, Vec3.add, Vec3.scale]
    norm_num
  · unfold AABB.getIntersection
    lift_lets
    extract_lets ix iy iz ld hd t1 t2 t3 t4 t5 t6 t_min t_max
    have hix : ix = float_max := by simp [ix, outsideRay]
    have hiy : iy = float_max := by simp [iy, outsideRay]
    have hiz : iz = 1 := by simp [iz, outsideRay]
    have h1 : t1 = 4 - 1 / 2 ^ 22 := by
      simp only [t1, ld, hix, AABB.area, unitCube, outsideRay, Vec3.sub]
      unfold float_max
      norm_num
    have h2 : t2 = (1 + 1 / 2 ^ 126) * float_max := by
      simp only [t2, hd, hix, AABB.area, unitCube, outsideRay, Vec3.sub]; ring
    have h3 : t3 = -(1 / 2) * float_max := by
      simp only [t3, ld, hiy, AABB.area, unitCube, outsideRay, Vec3.sub]; ring
    have h4 : t4 = 1 / 2 * float_max := by
      simp only [t4, hd, hiy, AABB.area, unitCube, outsideRay, Vec3.sub]; ring
    have h5 : t5 = 5 := by simp [t5, ld, hiz, AABB.area, unitCube, outsideRay, Vec3.sub]
    have h6 : t6 = 6 := by simp [t6, hd, hiz, AABB.area, unitCube, outsideRay, Vec3.sub]; norm_num
    have hpos : (0 : ℚ) < 1 / 2 ^ 126 := by positivity
    have hsmall : (1 : ℚ) / 2 ^ 22 ≤ 1 := by
      rw [div_le_one (by positivity)]; norm_num
    have h1le : t1 ≤ 5 := by rw [h1]; linarith
    have h3le : t3 ≤ 5 := by rw [h3]; linarith
    have h2ge : 6 ≤ t2 := by rw [h2]; nlinarith
    have h4ge : 6 ≤ t4 := by rw [h4]; linarith
    have hmin : t_min = 5 := by
      apply le_antisymm
      · exact max_le (max_le (le_trans (min_le_left _ _) h1le) (le_trans (min_le_left _ _) h3le))
          (le_trans (min_le_left _ _) (le_of_eq h5))
      · exact le_max_of_le_right (le_min (le_of_eq h5.symm) (by rw [h6]; norm_num))
    have hmax : t_max = 6 := by
      apply le_antisymm
      · exact le_trans (min_le_right _ _) (max_le (by rw [h5]; norm_num) (le_of_eq h6))
      · exact le_min (le_min (le_max_of_le_right h2ge) (le_max_of_le_right h4ge))
          (le_max_of_le_right (le_of_eq h6.symm))
    rw [hmin, hmax]
    norm_num
  · intro t h
    have h1 := h.1
    simp only [AABBArea.contains, Ray.pointAt, unitCube, AABB.area, outsideRay, Vec3.add, Vec3.scale] at h1
    have hpos : (0 : ℚ) < 1 / 2 ^ 126 := by positivity
    linarith

/-- C7 (failing input). For the unit sphere and the ray from its centre along `+z`, which meets
the sphere in the point `(0, 0, 1)` at distance 1, `Sphere::getIntersection` returns the
negative value `-1`. -/
theorem Sphere_getIntersection_negative_from_inside :
    (Sphere.new (⟨0, 0, 0⟩ : Vec3 ℚ) 1).getIntersection Rat.sqrt centreRay = -1 ∧
    centreRay.dir.getLengthSquared = 1 ∧
    (Sphere.new (⟨0, 0, 0⟩ : Vec3 ℚ) 1).onSurface (centreRay.pointAt 1) := by
  refine ⟨?_, ?_, ?_⟩
  · simp [centreRay, Sphere.getIntersection, Sphere.new, Vec3.sub, Vec3.dot, Vec3.getLengthSquared]
  · simp [centreRay, Vec3.getLengthSquared]
  · simp [Sphere.onSurface, Ray.pointAt, centreRay, Sphere.new, Vec3.sub, Vec3.add, Vec3.scale,
      Vec3.getLengthSquared]

end GeometryEvaluation

section PrimitiveProofs
variable {K : Type} [LinearOrderedField K]

theorem Sphere.getIntersection_unfold (sqrt : K → K) (s : Sphere K) (ray : Ray K) :
    s.getIntersection sqrt ray =
      if s.discriminant ray ≥ 0 then
        -(ray.dir.dot (ray.origin.sub s.origin) + sqrt (s.discriminant ray))
      else -1 := rfl

/-- C8. For the sphere with centre `c` and radius `r`, a ray with unit direction and a square root
that is exact at the discriminant: when the discriminant is non-negative,
`Sphere::getIntersection` returns a root `t` of `|o + t*dir - c|^2 = r^2` that is below every
other root (the point at distance `t` lies on the sphere); when it is negative the result is
`-1`; and the unit sphere at the origin hit from `(0, 0, 5)` along the z axis yields `t = 4`. -/
theorem Sphere_getIntersection_smaller_root (sqrt : K → K) (c : Vec3 K) (r : K) (ray : Ray K)
    (hr : 0 ≤ r) (hdir : ray.dir.getLengthSquared = 1)
    (hsqrt : 0 ≤ (Sphere.new c r).discriminant ray →
      0 ≤ sqrt ((Sphere.new c r).discriminant ray) ∧
      sqrt ((Sphere.new c r).discriminant ray) * sqrt ((Sphere.new c r).discriminant ray) =
        (Sphere.new c r).discriminant ray) :
    (0 ≤ (Sphere.new c r).discriminant ray →
      (Sphere.new c r).onSurface (ray.pointAt ((Sphere.new c r).getIntersection sqrt ray)) ∧
      ∀ t' : K, (Sphere.new c r).onSurface (ray.pointAt t') →
        (Sphere.new c r).getIntersection sqrt ray ≤ t') ∧
    ((Sphere.new c r).discriminant ray < 0 → (Sphere.new c r).getIntersection sqrt ray = -1) ∧
    (Sphere.new (⟨0, 0, 0⟩ : Vec3 ℚ) 1).getIntersection Rat.sqrt axisRay = 4 := by
  refine ⟨fun hD => ?_, fun hD => ?_, ?_⟩
  · obtain ⟨hs0, hs⟩ := hsqrt hD
    rw [Sphere.getIntersection_unfold, if_pos hD]
    generalize sqrt ((Sphere.new c r).discriminant ray) = s at hs0 hs
    simp only [Sphere.discriminant, Sphere.new, Vec3.dot, Vec3.sub, Vec3.getLengthSquared] at hs hdir ⊢
    constructor
    · simp only [Sphere.onSurface, Ray.pointAt, Vec3.add, Vec3.scale, Vec3.sub, Vec3.getLengthSquared]
      linear_combination
        ((ray.dir.x * (ray.origin.x - c.x) + ray.dir.y * (ray.origin.y - c.y) +
          ray.dir.z * (ray.origin.z - c.z) + s) ^ 2) * hdir + hs
    · intro t' ht'
      simp only [Sphere.onSurface, Ray.pointAt, Vec3.add, Vec3.scale, Vec3.sub, Vec3.getLengthSquared] at ht'
      have hq : (t' + (ray.dir.x * (ray.origin.x - c.x) + ray.dir.y * (ray.origin.y - c.y) +
          ray.dir.z * (ray.origin.z - c.z))) ^ 2 = s ^ 2 := by
        linear_combination ht' - (t' ^ 2) * hdir - hs
      by_contra hlt
      push_neg at hlt
      nlinarith
  · rw [Sphere.getIntersection_unfold, if_neg (not_le.mpr hD)]
  · simp [axisRay, Sphere.getIntersection, Sphere.new, Vec3.sub, Vec3.dot, Vec3.getLengthSquared]
    norm_num


theorem Sphere_getIntersection_smaller_root_witness :
    (0 ≤ (Sphere.new (⟨0, 0, 0⟩ : Vec3 ℚ) 1).discriminant axisRay →
      (Sphere.new (⟨0, 0, 0⟩ : Vec3 ℚ) 1).onSurface
        (axisRay.pointAt ((Sphere.new (⟨0, 0, 0⟩ : Vec3 ℚ) 1).getIntersection Rat.sqrt axisRay)) ∧
      ∀ t' : ℚ, (Sphere.new (⟨0, 0, 0⟩ : Vec3 ℚ) 1).onSurface (axisRay.pointAt t') →
        (Sphere.new (⟨0, 0, 0⟩ : Vec3 ℚ) 1).getIntersection Rat.sqrt axisRay ≤ t') ∧
    ((Sphere.new (⟨0, 0, 0⟩ : Vec3 ℚ) 1).discriminant axisRay < 0 →
      (Sphere.new (⟨0, 0, 0⟩ : Vec3 ℚ) 1).getIntersection Rat.sqrt axisRay = -1) ∧
    (Sphere.new (⟨0, 0, 0⟩ : Vec3 ℚ) 1).getIntersection Rat.sqrt axisRay = 4 :=
  Sphere_getIntersection_smaller_root Rat.sqrt ⟨0, 0, 0⟩ 1 axisRay (by norm_num)
    (by simp [axisRay, Vec3.getLengthSquared])
    (by
      have hD : (Sphere.new (⟨0, 0, 0⟩ : Vec3 ℚ) 1).discriminant axisRay = 1 := by
        simp [Sphere.discriminant, axisRay, Sphere.new, Vec3.sub, Vec3.dot, Vec3.getLengthSquared]
      intro _
      rw [hD]
      simp)

theorem Triangle.getIntersection_cases (t : Triangle K) (ray : Ray K) :
    t.getIntersection ray =
      if t.detRejects ray then -1
      else if t.baryU ray < 0 ∨ t.baryU ray > 1 then -1
      else if t.baryV ray < 0 ∨ t.baryU ray + t.baryV ray > 1 then -1
      else t.hitDistance ray := by
  unfold Triangle.getIntersection Triangle.detRejects Triangle.baryU Triangle.baryV
    Triangle.hitDistance Triangle.det
  rfl

theorem Triangle.getIntersection_of_passesTests (t : Triangle K) (ray : Ray K)
    (h : t.passesTests ray) : t.getIntersection ray = t.hitDistance ray := by
  rw [Triangle.getIntersection_cases, if_neg h.1, if_neg h.2.1, if_neg h.2.2]

theorem Triangle.getIntersection_of_not_passesTests (t : Triangle K) (ray : Ray K)
    (h : ¬ t.passesTests ray) : t.getIntersection ray = -1 := by
  rw [Triangle.getIntersection_cases]
  split_ifs with h1 h2 h3
  · rfl
  · rfl
  · rfl
  · exact absurd ⟨h1, h2, h3⟩ h

theorem Triangle.det_ne_zero_of_not_detRejects (t : Triangle K) (ray : Ray K)
    (h : ¬ t.detRejects ray) : t.det ray ≠ 0 := by
  intro h0
  apply h
  unfold Triangle.detRejects
  have heps : (0 : K) ≤ Triangle.epsilon := by unfold Triangle.epsilon; positivity
  split
  · rw [h0]; exact heps
  · rw [h0]; simpa using heps

/-- The hit point of Moeller-Trumbore: when the determinant does not vanish, the point at the
computed distance along the ray is the point of the triangle's plane with the computed
barycentric coordinates. -/
theorem Triangle.pointAt_hitDistance (t : Triangle K) (ray : Ray K) (h : t.det ray ≠ 0) :
    ray.pointAt (t.hitDistance ray) = t.pointAt (t.baryU ray) (t.baryV ray) := by
  have h' := h
  simp only [Triangle.det, Vec3.dot, Vec3.cross, Vec3.sub] at h'
  simp only [Ray.pointAt, Triangle.pointAt, Triangle.hitDistance, Triangle.baryU, Triangle.baryV,
    Triangle.det, Vec3.dot, Vec3.cross, Vec3.sub, Vec3.add, Vec3.scale, Vec3.mk.injEq]
  refine ⟨?_, ?_, ?_⟩ <;> field_simp <;> ring

/-- C9. Whenever `Triangle::getIntersection` passes its determinant and barycentric tests, it
returns the computed distance `t`, and there are `u >= 0` and `v >= 0` with `u + v <= 1` such
that `origin + t*dir = a + u*(b - a) + v*(c - a)`: the reported hit point lies on the triangle.
When a test fails the result is `-1`; in particular a ray whose line has no point on the triangle
yields `-1`. -/
theorem Triangle_getIntersection_hit_on_triangle (t : Triangle K) (ray : Ray K) :
    (t.passesTests ray →
      t.getIntersection ray = t.hitDistance ray ∧
      ∃ u v : K, 0 ≤ u ∧ 0 ≤ v ∧ u + v ≤ 1 ∧
        ray.pointAt (t.getIntersection ray) = t.pointAt u v) ∧
    (¬ t.passesTests ray → t.getIntersection ray = -1) ∧
    ((∀ τ u v : K, 0 ≤ u → 0 ≤ v → u + v ≤ 1 → ray.pointAt τ ≠ t.pointAt u v) →
      t.getIntersection ray = -1) := by
  have hpass : t.passesTests ray →
      t.getIntersection ray = t.hitDistance ray ∧
      ∃ u v : K, 0 ≤ u ∧ 0 ≤ v ∧ u + v ≤ 1 ∧
        ray.pointAt (t.getIntersection ray) = t.pointAt u v := by
    intro h
    have heq := Triangle.getIntersection_of_passesTests t ray h
    refine ⟨heq, t.baryU ray, t.baryV ray, ?_, ?_, ?_, ?_⟩
    · exact not_lt.mp (fun hu => h.2.1 (Or.inl hu))
    · exact not_lt.mp (fun hv => h.2.2 (Or.inl hv))
    · exact not_lt.mp (fun huv => h.2.2 (Or.inr huv))
    · rw [heq]
      exact Triangle.pointAt_hitDistance t ray (Triangle.det_ne_zero_of_not_detRejects t ray h.1)
  refine ⟨hpass, Triangle.getIntersection_of_not_passesTests t ray, fun hmiss => ?_⟩
  by_cases h : t.passesTests ray
  · obtain ⟨_, u, v, hu, hv, huv, hp⟩ := hpass h
    exact absurd hp (hmiss _ u v hu hv huv)
  · exact Triangle.getIntersection_of_not_passesTests t ray h

theorem flatTriangle_downRay (cull : Bool) :
    (flatTriangle cull).det downRay = 1 ∧ (flatTriangle cull).baryU downRay = 1 / 4 ∧
    (flatTriangle cull).baryV downRay = 1 / 4 ∧ (flatTriangle cull).hitDistance downRay = 1 := by
  have hdet : (flatTriangle cull).det downRay = 1 := by
    simp [flatTriangle, Triangle.new, downRay, Triangle.det, Vec3.dot, Vec3.cross, Vec3.sub]
  refine ⟨hdet, ?_, ?_, ?_⟩
  · rw [Triangle.baryU, hdet]
    simp [flatTriangle, Triangle.new, downRay, Vec3.dot, Vec3.cross, Vec3.sub]
  · rw [Triangle.baryV, hdet]
    simp [flatTriangle, Triangle.new, downRay, Vec3.dot, Vec3.cross, Vec3.sub]
  · rw [Triangle.hitDistance, hdet]
    simp [flatTriangle, Triangle.new, downRay, Vec3.dot, Vec3.cross, Vec3.sub]

theorem flatTriangle_upRay (cull : Bool) :
    (flatTriangle cull).det upRay = -1 ∧ (flatTriangle cull).baryU upRay = 1 / 4 ∧
    (flatTriangle cull).baryV upRay = 1 / 4 ∧ (flatTriangle cull).hitDistance upRay = 1 := by
  have hdet : (flatTriangle cull).det upRay = -1 := by
    simp [flatTriangle, Triangle.new, upRay, Triangle.det, Vec3.dot, Vec3.cross, Vec3.sub]
  refine ⟨hdet, ?_, ?_, ?_⟩
  · rw [Triangle.baryU, hdet]
    simp [flatTriangle, Triangle.new, upRay, Vec3.dot, Vec3.cross, Vec3.sub]
  · rw [Triangle.baryV, hdet]
    simp [flatTriangle, Triangle.new, upRay, Vec3.dot, Vec3.cross, Vec3.sub]
  · rw [Triangle.hitDistance, hdet]
    simp [flatTriangle, Triangle.new, upRay, Vec3.dot, Vec3.cross, Vec3.sub]

theorem Triangle.epsilon_lt_one : (Triangle.epsilon : ℚ) < 1 := by
  unfold Triangle.epsilon; norm_num

theorem flatTriangle_passes_downRay (cull : Bool) : (flatTriangle cull).passesTests downRay := by
  obtain ⟨hd, hu, hv, _⟩ := flatTriangle_downRay cull
  have he := Triangle.epsilon_lt_one
  refine ⟨?_, ?_, ?_⟩
  · unfold Triangle.detRejects
    rw [hd]
    split
    · exact not_le.mpr he
    · rw [abs_one]; exact not_le.mpr he
  · rw [hu]; norm_num
  · rw [hu, hv]; norm_num

theorem Triangle_getIntersection_hit_on_triangle_witness :
    (flatTriangle false).getIntersection downRay = (flatTriangle false).hitDistance downRay ∧
      ∃ u v : ℚ, 0 ≤ u ∧ 0 ≤ v ∧ u + v ≤ 1 ∧
        downRay.pointAt ((flatTriangle false).getIntersection downRay) = (flatTriangle false).pointAt u v :=
  (Triangle_getIntersection_hit_on_triangle (flatTriangle false) downRay).1
    (flatTriangle_passes_downRay false)


/-- The determinant of `Triangle::getIntersection` is the negated dot product of the ray
direction with the geometric normal `cross(b - a, c - a)`. -/
theorem Triangle.det_eq_neg_dot_normal (t : Triangle K) (ray : Ray K) :
    t.det ray = -(ray.dir.dot ((t.b.sub t.a).cross (t.c.sub t.a))) := by
  simp only [Triangle.det, Vec3.dot, Vec3.cross, Vec3.sub]
  ring

theorem flatTriangle_cull (cull : Bool) : (flatTriangle cull).cull_backface = cull := rfl

/-- C10. With `cull_backface = true`, `Triangle::getIntersection` rejects in its determinant test,
and so returns the negative value `-1` for, every ray whose direction does not oppose the
geometric normal `cross(b - a, c - a)` (`dot(dir, normal) >= 0`). With `cull_backface = false` the
determinant test rejects a ray exactly when `|det| <= 1e-6`, and both orientations can hit: the
flat triangle without culling is hit at distance 1 by a ray against its normal (`det = 1`) and by
a ray along its normal (`det = -1`), while with culling the latter is rejected. -/
theorem Triangle_getIntersection_backface_culling (t : Triangle K) (ray : Ray K) :
    (t.cull_backface = true → 0 ≤ ray.dir.dot ((t.b.sub t.a).cross (t.c.sub t.a)) →
      t.detRejects ray ∧ t.getIntersection ray = -1 ∧ t.getIntersection ray < 0) ∧
    (t.cull_backface = false → (t.detRejects ray ↔ |t.det ray| ≤ Triangle.epsilon)) ∧
    ((flatTriangle false).det downRay = 1 ∧ (flatTriangle false).getIntersection downRay = 1 ∧
      (flatTriangle false).det upRay = -1 ∧ (flatTriangle false).getIntersection upRay = 1 ∧
      (flatTriangle true).getIntersection downRay = 1 ∧
      (flatTriangle true).getIntersection upRay = -1) := by
  have he : (Triangle.epsilon : ℚ) < 1 := Triangle.epsilon_lt_one
  have he0 : (0 : ℚ) ≤ Triangle.epsilon := by unfold Triangle.epsilon; positivity
  have hup : (flatTriangle false).passesTests upRay := by
    obtain ⟨hd, hu, hv, _⟩ := flatTriangle_upRay false
    refine ⟨?_, ?_, ?_⟩
    · unfold Triangle.detRejects
      rw [hd, flatTriangle_cull]
      simp only [Bool.false_eq_true, if_false, abs_neg, abs_one]
      exact not_le.mpr he
    · rw [hu]; norm_num
    · rw [hu, hv]; norm_num
  have hupc : (flatTriangle true).detRejects upRay := by
    unfold Triangle.detRejects
    rw [(flatTriangle_upRay true).1, flatTriangle_cull]
    simp only [if_true]
    linarith
  refine ⟨fun hc hdot => ?_, fun hc => ?_, (flatTriangle_downRay false).1, ?_,
    (flatTriangle_upRay false).1, ?_, ?_, ?_⟩
  · have heps : (0 : K) ≤ Triangle.epsilon := by unfold Triangle.epsilon; positivity
    have hrej : t.detRejects ray := by
      unfold Triangle.detRejects
      rw [hc, if_pos rfl, Triangle.det_eq_neg_dot_normal]
      linarith
    have hres : t.getIntersection ray = -1 := by
      rw [Triangle.getIntersection_cases, if_pos hrej]
    exact ⟨hrej, hres, by rw [hres]; norm_num⟩
  · unfold Triangle.detRejects
    rw [hc]
    simp
  · rw [Triangle.getIntersection_of_passesTests _ _ (flatTriangle_passes_downRay false)]
    exact (flatTriangle_downRay false).2.2.2
  · rw [Triangle.getIntersection_of_passesTests _ _ hup]
    exact (flatTriangle_upRay false).2.2.2
  · rw [Triangle.getIntersection_of_passesTests _ _ (flatTriangle_passes_downRay true)]
    exact (flatTriangle_downRay true).2.2.2
  · rw [Triangle.getIntersection_cases, if_pos hupc]

end PrimitiveProofs

section BoxProofs
variable {K : Type} [LinearOrderedField K]

/-- One slab of the box test: for a non-zero direction component the points of the ray between
the two planes are those whose distance lies between the two plane distances. -/
theorem slab_iff (l h o d t : K) (hd : d ≠ 0) (hlh : l ≤ h) :
    (l ≤ o + d * t ∧ o + d * t ≤ h) ↔
      (min ((l - o) * (1 / d)) ((h - o) * (1 / d)) ≤ t ∧ t ≤ max ((l - o) * (1 / d)) ((h - o) * (1 / d))) := by
  rcases lt_or_gt_of_ne hd with hneg | hpos
  · have hle : (h - o) * (1 / d) ≤ (l - o) * (1 / d) := by
      rw [mul_one_div, mul_one_div, div_le_div_right_of_neg hneg]; linarith
    rw [min_eq_right hle, max_eq_left hle, mul_one_div, mul_one_div, div_le_iff_of_neg hneg,
      le_div_iff_of_neg hneg]
    constructor
    · rintro ⟨h1, h2⟩; constructor <;> linarith
    · rintro ⟨h1, h2⟩; constructor <;> linarith
  · have hle : (l - o) * (1 / d) ≤ (h - o) * (1 / d) := by
      rw [mul_one_div, mul_one_div, div_le_div_iff_of_pos_right hpos]; linarith
    rw [min_eq_left hle, max_eq_right hle, mul_one_div, mul_one_div, div_le_iff₀ hpos,
      le_div_iff₀ hpos]
    constructor
    · rintro ⟨h1, h2⟩; constructor <;> linarith
    · rintro ⟨h1, h2⟩; constructor <;> linarith

/-- For a ray none of whose direction components vanishes, `AABB::getIntersection` is the exact
slab test: the result is non-negative exactly when the half-line meets the box, it is then the
least distance of a point of the half-line in the box (0 when the origin lies in the box), and
it is `-1` otherwise. -/
theorem AABB.getIntersection_of_nonparallel (aabb : AABB K) (ray : Ray K)
    (hx : ray.dir.x ≠ 0) (hy : ray.dir.y ≠ 0) (hz : ray.dir.z ≠ 0)
    (hlx : aabb.area.low.x ≤ aabb.area.high.x) (hly : aabb.area.low.y ≤ aabb.area.high.y)
    (hlz : aabb.area.low.z ≤ aabb.area.high.z) :
    (0 ≤ aabb.getIntersection ray ↔ ∃ t, 0 ≤ t ∧ aabb.area.contains (ray.pointAt t)) ∧
    (0 ≤ aabb.getIntersection ray →
      aabb.area.contains (ray.pointAt (aabb.getIntersection ray)) ∧
      ∀ t, 0 ≤ t → aabb.area.contains (ray.pointAt t) → aabb.getIntersection ray ≤ t) ∧
    (aabb.area.contains (ray.pointAt 0) → aabb.getIntersection ray = 0) ∧
    (¬ 0 ≤ aabb.getIntersection ray → aabb.getIntersection ray = -1) := by
  unfold AABB.getIntersection
  lift_lets
  extract_lets ix iy iz ld hd t1 t2 t3 t4 t5 t6 t_min t_max
  have hix : ix = 1 / ray.dir.x := if_pos (abs_pos.mpr hx)
  have hiy : iy = 1 / ray.dir.y := if_pos (abs_pos.mpr hy)
  have hiz : iz = 1 / ray.dir.z := if_pos (abs_pos.mpr hz)
  have hin : ∀ t, aabb.area.contains (ray.pointAt t) ↔ (t_min ≤ t ∧ t ≤ t_max) := by
    intro t
    have sx := slab_iff aabb.area.low.x aabb.area.high.x ray.origin.x ray.dir.x t hx hlx
    have sy := slab_iff aabb.area.low.y aabb.area.high.y ray.origin.y ray.dir.y t hy hly
    have sz := slab_iff aabb.area.low.z aabb.area.high.z ray.origin.z ray.dir.z t hz hlz
    simp only [AABBArea.contains, Ray.pointAt, Vec3.add, Vec3.scale]
    simp only [t_min, t_max, t1, t2, t3, t4, t5, t6, ld, hd, hix, hiy, hiz, Vec3.sub,
      max_le_iff, le_min_iff]
    constructor
    · rintro ⟨a1, a2, a3, a4, a5, a6⟩
      have bx := sx.mp ⟨a1, a2⟩
      have by' := sy.mp ⟨a3, a4⟩
      have bz := sz.mp ⟨a5, a6⟩
      exact ⟨⟨⟨bx.1, by'.1⟩, bz.1⟩, ⟨bx.2, by'.2⟩, bz.2⟩
    · rintro ⟨⟨⟨b1, b2⟩, b3⟩, ⟨b4, b5⟩, b6⟩
      have ax := sx.mpr ⟨b1, b4⟩
      have ay := sy.mpr ⟨b2, b5⟩
      have az := sz.mpr ⟨b3, b6⟩
      exact ⟨ax.1, ax.2, ay.1, ay.2, az.1, az.2⟩
  clear_value t_min t_max
  by_cases hmiss : t_max < 0 ∨ t_min > t_max
  · rw [if_pos hmiss]
    have hnone : ¬ ∃ t, 0 ≤ t ∧ aabb.area.contains (ray.pointAt t) := by
      rintro ⟨t, ht0, ht⟩
      obtain ⟨h1, h2⟩ := (hin t).mp ht
      rcases hmiss with h | h <;> linarith
    refine ⟨⟨fun h => absurd h (by norm_num), fun h => absurd h hnone⟩,
      fun h => absurd h (by norm_num), fun h => absurd ⟨0, le_refl _, h⟩ hnone, fun _ => rfl⟩
  · rw [if_neg hmiss]
    push_neg at hmiss
    obtain ⟨hmax, hle⟩ := hmiss
    by_cases hneg : t_min < 0 ∧ t_min ≤ t_max ∧ t_max ≥ 0
    · rw [if_pos hneg]
      have h0 : aabb.area.contains (ray.pointAt 0) := (hin 0).mpr ⟨le_of_lt hneg.1, hmax⟩
      exact ⟨⟨fun _ => ⟨0, le_refl _, h0⟩, fun _ => le_refl _⟩, fun _ => ⟨h0, fun t ht _ => ht⟩,
        fun _ => rfl, fun h => absurd (le_refl _) h⟩
    · rw [if_neg hneg]
      have hge : 0 ≤ t_min := by
        by_contra hlt
        exact hneg ⟨not_le.mp hlt, hle, hmax⟩
      have hself : aabb.area.contains (ray.pointAt t_min) := (hin t_min).mpr ⟨le_refl _, hle⟩
      refine ⟨⟨fun _ => ⟨t_min, hge, hself⟩, fun _ => hge⟩,
        fun _ => ⟨hself, fun t _ ht => ((hin t).mp ht).1⟩, fun h => ?_, fun h => absurd hge h⟩
      exact le_antisymm ((hin 0).mp h).1 hge

/-- A non-negative distance returned by `impl::getChildIntersection` comes with an object. -/
theorem getChildIntersection_object_of_nonneg (sqrt : K → K) (aabb : AABB K) (ray : Ray K) (t_max : K)
    (h : 0 ≤ (getChildIntersection sqrt aabb ray t_max).1) :
    (getChildIntersection sqrt aabb ray t_max).2 ≠ none := by
  induction aabb generalizing t_max with
  | leafNode area child => simp [getChildIntersection]
  | innerNode area left right ihl ihr =>
    rw [getChildIntersection] at h ⊢
    simp only [] at h ⊢
    split_ifs at h ⊢ <;> first
      | exact ihl _ h
      | exact ihr _ h
      | (exfalso; revert h; norm_num)

end BoxProofs

section FresnelProofs
variable {K : Type} [LinearOrderedField K]

/-- The square of a quotient `(a - b) / (a + b)` of non-negative numbers with positive sum is at
most 1. -/
theorem sq_ratio_le_one (a b : K) (ha : 0 ≤ a) (hb : 0 ≤ b) (hab : 0 < a + b) :
    (a - b) / (a + b) * ((a - b) / (a + b)) ≤ 1 := by
  rw [div_mul_div_comm, div_le_one (mul_pos hab hab)]
  nlinarith [mul_nonneg ha hb]

/-- C11. For every incidence cosine `ray_dot` in `[0, 1]`, every pair of positive refractive
indices and every square root that is non-negative on non-negative and positive on positive
arguments, `getFresnelReflectance` returns a reflectance within `[0, 1]`; and whenever
`sin(theta_t) = ri_leaving / ri_entering * sqrt(1 - ray_dot^2)` is at least 1 (total internal
reflection) the reflectance is exactly 1. -/
theorem getFresnelReflectance_in_unit_interval (sqrt : K → K) (ray_dot ri_leaving ri_entering : K)
    (h0 : 0 ≤ ray_dot) (h1 : ray_dot ≤ 1) (hl : 0 < ri_leaving) (he : 0 < ri_entering)
    (hs0 : ∀ x, 0 ≤ x → 0 ≤ sqrt x) (hspos : ∀ x, 0 < x → 0 < sqrt x) :
    0 ≤ (getFresnelReflectance sqrt ray_dot ri_leaving ri_entering).1 ∧
    (getFresnelReflectance sqrt ray_dot ri_leaving ri_entering).1 ≤ 1 ∧
    (ri_leaving / ri_entering * sqrt (1 - ray_dot ^ 2) ≥ 1 →
      (getFresnelReflectance sqrt ray_dot ri_leaving ri_entering).1 = 1) := by
  have hsq : 0 ≤ 1 - ray_dot * ray_dot := by nlinarith
  have hmax : max (1 - ray_dot * ray_dot) 0 = 1 - ray_dot * ray_dot := max_eq_left hsq
  unfold getFresnelReflectance
  simp only [hmax]
  by_cases hT : ri_leaving / ri_entering * sqrt (1 - ray_dot * ray_dot) ≥ 1
  · rw [if_pos hT]
    exact ⟨zero_le_one, le_refl _, fun _ => rfl⟩
  · rw [if_neg hT]
    push_neg at hT
    have hsin0 : 0 ≤ ri_leaving / ri_entering * sqrt (1 - ray_dot * ray_dot) :=
      mul_nonneg (le_of_lt (div_pos hl he)) (hs0 _ hsq)
    have hpos : 0 < 1 - ri_leaving / ri_entering * sqrt (1 - ray_dot * ray_dot) *
        (ri_leaving / ri_entering * sqrt (1 - ray_dot * ray_dot)) := by nlinarith
    rw [max_eq_left (le_of_lt hpos)]
    have hc := hspos _ hpos
    have hp := sq_ratio_le_one (ri_entering * ray_dot) (ri_leaving * sqrt (1 -
        ri_leaving / ri_entering * sqrt (1 - ray_dot * ray_dot) *
        (ri_leaving / ri_entering * sqrt (1 - ray_dot * ray_dot))))
      (mul_nonneg (le_of_lt he) h0) (le_of_lt (mul_pos hl hc))
      (add_pos_of_nonneg_of_pos (mul_nonneg (le_of_lt he) h0) (mul_pos hl hc))
    have hq := sq_ratio_le_one (ri_leaving * ray_dot) (ri_entering * sqrt (1 -
        ri_leaving / ri_entering * sqrt (1 - ray_dot * ray_dot) *
        (ri_leaving / ri_entering * sqrt (1 - ray_dot * ray_dot))))
      (mul_nonneg (le_of_lt hl) h0) (le_of_lt (mul_pos he hc))
      (add_pos_of_nonneg_of_pos (mul_nonneg (le_of_lt hl) h0) (mul_pos he hc))
    refine ⟨?_, ?_, fun hge => ?_⟩
    · exact div_nonneg (add_nonneg (mul_self_nonneg _) (mul_self_nonneg _)) (by norm_num)
    · rw [div_le_one (by norm_num)]
      linarith
    · rw [pow_two] at hge
      exact absurd hge (not_le.mpr hT)

theorem getFresnelReflectance_in_unit_interval_witness :
    0 ≤ (getFresnelReflectance (id : ℚ → ℚ) 1 1 (3 / 2)).1 ∧
    (getFresnelReflectance (id : ℚ → ℚ) 1 1 (3 / 2)).1 ≤ 1 ∧
    ((1 : ℚ) / (3 / 2) * id (1 - 1 ^ 2) ≥ 1 →
      (getFresnelReflectance (id : ℚ → ℚ) 1 1 (3 / 2)).1 = 1) :=
  getFresnelReflectance_in_unit_interval id 1 1 (3 / 2) (by norm_num) (by norm_num) (by norm_num)
    (by norm_num) (fun _ h => h) (fun _ h => h)

end FresnelProofs

section WorkerProofs

/-- C13 (counterexample). With `worker_count = 0` and a hardware concurrency of 4 the spawn loop
of `doWorkParallel` creates 2 additional threads, not `4 - 1 = 3`; with a hardware concurrency of
1 it creates none because `reserve` throws. -/
theorem doWorkParallel_extra_threads_counterexample :
    doWorkParallel_extra_threads 0 4 = some 2 ∧ doWorkParallel_extra_threads 0 4 ≠ some (4 - 1) ∧
    doWorkParallel_extra_threads 0 1 = none := by
  decide

/-- C13 (amended). When `processJob` is called with `worker_count <= 0` and the hardware
concurrency `h` is at least 2, `doWorkParallel` spawns `h - 2` additional worker threads and
additionally runs the calling thread as a worker, `h - 1` workers in total. -/
theorem doWorkParallel_extra_threads_default (worker_count : Int) (hardware_concurrency : Nat)
    (hw : worker_count ≤ 0) (hc : 2 ≤ hardware_concurrency) :
    doWorkParallel_extra_threads worker_count hardware_concurrency = some (hardware_concurrency - 2) ∧
    (hardware_concurrency - 2) + 1 = hardware_concurrency - 1 := by
  unfold doWorkParallel_extra_threads
  simp only [hw, if_true, List.length_range]
  rw [if_neg (by omega)]
  refine ⟨?_, by omega⟩
  congr 1
  omega

theorem doWorkParallel_extra_threads_default_witness :
    doWorkParallel_extra_threads 0 8 = some (8 - 2) ∧ (8 - 2) + 1 = 8 - 1 :=
  doWorkParallel_extra_threads_default 0 8 (by decide) (by decide)

end WorkerProofs

section ApertureProofs

/-- Every point `sampleAperture` returns lies in `[-1, 1] x [-1, 1]` when the uniform draws lie
in `[0, 1)`. -/
theorem HexagonalApertureSampler.sampleAperture_in_square {K R : Type} [LinearOrderedField K]
    (s : HexagonalApertureSampler K) (dist : R → K × R) (flip : R → Bool × R)
    (hdist : ∀ re : R, 0 ≤ (dist re).1 ∧ (dist re).1 < 1) :
    ∀ (fuel : Nat) (re : R) (x y : K) (re1 : R),
      s.sampleAperture dist flip fuel re = some ((x, y), re1) →
      (-1 ≤ x ∧ x ≤ 1) ∧ (-1 ≤ y ∧ y ≤ 1) := by
  intro fuel
  induction fuel with
  | zero =>
    intro re x y re1 h
    simp [HexagonalApertureSampler.sampleAperture] at h
  | succ fuel ih =>
    intro re x y re1 h
    unfold HexagonalApertureSampler.sampleAperture at h
    simp only [] at h
    obtain ⟨hx0, hx1⟩ := hdist re
    obtain ⟨hy0, hy1⟩ := hdist (dist re).2
    split_ifs at h
    all_goals first
      | exact ih _ x y re1 h
      | (simp only [Option.some.injEq, Prod.mk.injEq] at h
         obtain ⟨⟨hx, hy⟩, _⟩ := h
         rw [← hx, ← hy]
         refine ⟨?_, ?_⟩ <;> constructor <;> linarith)


/-- C19 (failing input). For `horizontal_ratio = 0` and the uniform draws `x = 9/10`, `y = 4/5`
(both coin flips false), `HexagonalApertureSampler::sampleAperture` accepts the first draw and
returns `(9/10, 4/5)`, a point of `[-1, 1] x [-1, 1]` outside the hexagon
`|x| <= horizontal_ratio + (1 - horizontal_ratio) * (1 - |y|)`. -/
theorem HexagonalApertureSampler_sample_outside_hexagon :
    (HexagonalApertureSampler.new (0 : ℚ)).horizontal_ratio = 0 ∧
    (HexagonalApertureSampler.new (0 : ℚ)).sampleAperture scriptedDist scriptedFlip 1
      [9 / 10, 4 / 5, 3 / 4, 3 / 4] = some ((9 / 10, 4 / 5), []) ∧
    ¬ inHexagon (0 : ℚ) (9 / 10) (4 / 5) := by
  refine ⟨?_, ?_, ?_⟩
  · simp [HexagonalApertureSampler.new]
  · simp only [HexagonalApertureSampler.sampleAperture, HexagonalApertureSampler.new, scriptedDist,
      scriptedFlip, List.headD_cons, List.tail_cons]
    norm_num
  · unfold inHexagon
    rw [abs_of_pos (by norm_num), abs_of_pos (by norm_num)]
    norm_num

end ApertureProofs

section PropagationProofs
variable {K R : Type} [LinearOrderedField K]

/-- The product of two non-negative spectra is non-negative. -/
theorem Spectrum.nonNegative_mul (s o : Spectrum K) (hs : s.nonNegative) (ho : o.nonNegative) :
    (s.mul o).nonNegative :=
  ⟨mul_nonneg hs.1 ho.1, mul_nonneg hs.2.1 ho.2.1, mul_nonneg hs.2.2.1 ho.2.2.1,
    mul_nonneg hs.2.2.2 ho.2.2.2⟩

/-- The density returned by `GlassBDF::propagateRay` is positive for every Bernoulli
distribution that never returns true for a probability of 0 or less and never returns false for
a probability of 1 or more. -/
theorem GlassBDF.propagateRay_density_pos (sqrt : K → K) (bernoulli : K → R → Bool × R)
    (ray : Ray K) (pos normal : Vec3 K) (epsilon : K) (re : R) (material : Material K)
    (htrue : ∀ (p : K) (re : R), (bernoulli p re).1 = true → 0 < p)
    (hfalse : ∀ (p : K) (re : R), (bernoulli p re).1 = false → p < 1) :
    0 < (GlassBDF.propagateRay sqrt bernoulli ray pos normal epsilon re material).1.2.2 := by
  have key : ∀ (c : Prop) [Decidable c] (a b : (Ray K × K × K) × R),
      (c → 0 < a.1.2.2) → (¬ c → 0 < b.1.2.2) → 0 < (if c then a else b).1.2.2 := by
    intro c _ a b ha hb
    split_ifs with h
    exacts [ha h, hb h]
  unfold GlassBDF.propagateRay
  simp only []
  apply key
  · intro h
    exact htrue _ _ h
  · intro h
    show 0 < 1 - _
    have := hfalse _ _ (Bool.eq_false_iff.mpr h)
    linarith

/-- The density returned by `MirrorBRDF::propagateRay` is 1. -/
theorem MirrorBRDF.propagateRay_density (self : MirrorBRDF) (ray : Ray K) (pos normal : Vec3 K)
    (epsilon : K) (re : R) :
    (self.propagateRay ray pos normal epsilon re).1.2.2 = 1 := by
  unfold MirrorBRDF.propagateRay
  simp only []
  split_ifs <;> rfl

/-- Evaluated non-synthetically on a non-negative spectrum with non-negative material colours,
`getSpectrum` of each of the three scattering functions returns a non-negative spectrum and the
density 1. -/
theorem getSpectrum_density_one (m : FloatMath K) (self : MirrorBRDF) (from_camera to_light : Ray K)
    (pos normal : Vec3 K) (light_spectrum : Spectrum K) (material : Material K)
    (hl : light_spectrum.nonNegative)
    (hd : (Spectrum.mk (material.getDiffuseColor pos)).nonNegative)
    (hsp : (Spectrum.mk (material.getSpecularColor pos)).nonNegative) :
    ((LambertianBRDF.getSpectrum m from_camera to_light pos normal light_spectrum material
        false).1.nonNegative ∧
      (LambertianBRDF.getSpectrum m from_camera to_light pos normal light_spectrum material
        false).2.2 = 1) ∧
    ((GlassBDF.getSpectrum from_camera to_light pos normal light_spectrum material
        false).1.nonNegative ∧
      (GlassBDF.getSpectrum from_camera to_light pos normal light_spectrum material
        false).2.2 = 1) ∧
    ((self.getSpectrum from_camera to_light pos normal light_spectrum material
        false).1.nonNegative ∧
      (self.getSpectrum from_camera to_light pos normal light_spectrum material
        false).2.2 = 1) := by
  refine ⟨⟨?_, rfl⟩, ⟨?_, ?_⟩, ⟨?_, ?_⟩⟩
  · exact Spectrum.nonNegative_mul _ _ hd hl
  · unfold GlassBDF.getSpectrum
    simp only []
    split_ifs
    · exact Spectrum.nonNegative_mul _ _ hl hsp
    · exact Spectrum.nonNegative_mul _ _ hl hd
  · simp [GlassBDF.getSpectrum]
  · unfold MirrorBRDF.getSpectrum
    simp only []
    split_ifs
    · exact Spectrum.nonNegative_mul _ _ hl hsp
    · exact hl
  · simp [MirrorBRDF.getSpectrum]

/-- C12 (failing input). When both uniform draws are 0 (a value of `[0, 1)`) and `std::pow`
returns 0 for base 0 and a positive exponent, `LambertianBRDF::propagateRay` returns the
probability density 0, for every incoming ray and normal: the density is not positive. -/
theorem LambertianBRDF_propagateRay_zero_density (m : FloatMath K) (dist : R → K × R)
    (ray : Ray K) (pos normal : Vec3 K) (epsilon : K) (re : R)
    (hpow : ∀ y, 0 < y → m.pow 0 y = 0)
    (h1 : (dist re).1 = 0) (h2 : (dist (dist re).2).1 = 0) :
    (LambertianBRDF.propagateRay m dist ray pos normal epsilon re).1.2.2 = 0 ∧
    ¬ 0 < (LambertianBRDF.propagateRay m dist ray pos normal epsilon re).1.2.2 := by
  have h : (LambertianBRDF.propagateRay m dist ray pos normal epsilon re).1.2.2 = 0 := by
    simp only [LambertianBRDF.propagateRay, importanceSampleCosine, h2]
    rw [hpow _ (by norm_num), hpow _ (by norm_num)]
    simp
  exact ⟨h, by rw [h]; exact lt_irrefl _⟩

theorem LambertianBRDF_propagateRay_zero_density_witness :
    (LambertianBRDF.propagateRay rationalMath (constantDist 0) ⟨⟨0, 0, 1⟩, ⟨0, 0, -1⟩⟩
      ⟨0, 0, 0⟩ ⟨0, 0, 1⟩ (1 / 1000) ()).1.2.2 = 0 ∧
    ¬ 0 < (LambertianBRDF.propagateRay rationalMath (constantDist 0) ⟨⟨0, 0, 1⟩, ⟨0, 0, -1⟩⟩
      ⟨0, 0, 0⟩ ⟨0, 0, 1⟩ (1 / 1000) ()).1.2.2 :=
  LambertianBRDF_propagateRay_zero_density rationalMath (constantDist 0) ⟨⟨0, 0, 1⟩, ⟨0, 0, -1⟩⟩
    ⟨0, 0, 0⟩ ⟨0, 0, 1⟩ (1 / 1000) ()
    (by
      intro y hy
      show (if y = 1 then (0 : ℚ) else if y = 2 then 0 * 0 else
        if (0 : ℚ) = 0 ∧ 0 < y then 0 else 1) = 0
      by_cases ha : y = 1
      · rw [if_pos ha]
      · rw [if_neg ha]
        by_cases hb : y = 2
        · rw [if_pos hb]
          ring
        · rw [if_neg hb, if_pos ⟨rfl, hy⟩])
    rfl rfl

end PropagationProofs

section ImageAccessProofs
variable {K : Type} [LinearOrderedField K]

/-- Row-major indices of pixels inside the image are distinct for distinct pixels. -/
theorem index_injective (w x y x1 y1 : Int) (hx : 0 ≤ x) (hxw : x < w) (hy : 0 ≤ y)
    (hx1 : 0 ≤ x1) (hx1w : x1 < w) (hy1 : 0 ≤ y1)
    (h : (y * w + x).toNat = (y1 * w + x1).toNat) : x = x1 ∧ y = y1 := by
  have hw : 0 < w := by omega
  have h1 : 0 ≤ y * w := mul_nonneg hy (le_of_lt hw)
  have h2 : 0 ≤ y1 * w := mul_nonneg hy1 (le_of_lt hw)
  have h3 : y * w + x = y1 * w + x1 := by omega
  have hyy : y = y1 := by
    rcases lt_trichotomy y y1 with hlt | heq | hgt
    · exfalso
      have : (y + 1) * w ≤ y1 * w := mul_le_mul_of_nonneg_right (by omega) (le_of_lt hw)
      nlinarith
    · exact heq
    · exfalso
      have : (y1 + 1) * w ≤ y * w := mul_le_mul_of_nonneg_right (by omega) (le_of_lt hw)
      nlinarith
  subst hyy
  exact ⟨by omega, rfl⟩

/-- The row-major index of a pixel inside the image is below `width * height`. -/
theorem index_lt (w h x y : Int) (hx : 0 ≤ x) (hxw : x < w) (hy : 0 ≤ y) (hyh : y < h) :
    (y * w + x).toNat < (w * h).toNat := by
  have hw : 0 < w := by omega
  have h1 : 0 ≤ y * w := mul_nonneg hy (le_of_lt hw)
  have h2 : (y + 1) * w ≤ h * w := mul_le_mul_of_nonneg_right (by omega) (le_of_lt hw)
  have h3 : y * w + x < w * h := by nlinarith
  omega

/-- Writing a pixel keeps the extents and the number of stored pixels. -/
theorem Image.set_wellFormed (img : Image K) (x y : Int) (v : Color K) :
    (img.set x y v).width = img.width ∧ (img.set x y v).height = img.height ∧
    (img.set x y v).data.length = img.data.length := by
  unfold Image.set
  split_ifs
  · exact ⟨rfl, rfl, by simp⟩
  · exact ⟨rfl, rfl, rfl⟩

/-- Reading a pixel after writing a pixel of a well-formed image. -/
theorem Image.get_set (img : Image K) (hwf : img.wellFormed) (x y x1 y1 : Int) (v : Color K)
    (hx : 0 ≤ x) (hxw : x < img.width) (hy : 0 ≤ y) (hyh : y < img.height)
    (hx1 : 0 ≤ x1) (hx1w : x1 < img.width) (hy1 : 0 ≤ y1) :
    (img.set x y v).get x1 y1 = if x1 = x ∧ y1 = y then v else img.get x1 y1 := by
  have hc : img.containsPoint x y = true := by
    simp [Image.containsPoint, hx, hxw, hy, hyh]
  have hlt := index_lt img.width img.height x y hx hxw hy hyh
  unfold Image.set Image.get
  rw [if_pos hc]
  simp only [List.getD_eq_getElem?_getD, List.getElem?_set]
  by_cases hxy : x1 = x ∧ y1 = y
  · rw [if_pos hxy, hxy.1, hxy.2]
    simp [hwf.2.2, hlt]
  · rw [if_neg hxy]
    have hne : (y * img.width + x).toNat ≠ (y1 * img.width + x1).toNat := by
      intro heq
      have := index_injective img.width x y x1 y1 hx hxw hy hx1 hx1w hy1 heq
      exact hxy ⟨this.1.symm, this.2.symm⟩
    rw [if_neg hne]

end ImageAccessProofs

section ImageFoldProofs
variable {K : Type} [LinearOrderedField K]

/-- Writing a pixel of a well-formed image gives a well-formed image. -/
theorem Image.wellFormed_set (img : Image K) (hwf : img.wellFormed) (x y : Int)
    (v : Color K) : (img.set x y v).wellFormed := by
  obtain ⟨h1, h2, h3⟩ := Image.set_wellFormed img x y v
  unfold Image.wellFormed
  rw [h1, h2, h3]
  exact hwf

/-- The inner pixel loop over the columns `xs` of row `y`: afterwards the listed pixels of the
row hold their new values and every other pixel is unchanged. -/
theorem Image.foldl_set_row (f : Nat → Color K) (y : Nat) (xs : List Nat) :
    ∀ (img : Image K), img.wellFormed → (y : Int) < img.height →
      (∀ x ∈ xs, (x : Int) < img.width) →
      (xs.foldl (fun (im : Image K) (x : Nat) => im.set (x : Int) (y : Int) (f x)) img).wellFormed ∧
      (xs.foldl (fun (im : Image K) (x : Nat) => im.set (x : Int) (y : Int) (f x)) img).width =
        img.width ∧
      (xs.foldl (fun (im : Image K) (x : Nat) => im.set (x : Int) (y : Int) (f x)) img).height =
        img.height ∧
      ∀ x1 y1 : Nat, (x1 : Int) < img.width →
        (xs.foldl (fun (im : Image K) (x : Nat) => im.set (x : Int) (y : Int) (f x)) img).get
          (x1 : Int) (y1 : Int) = if y1 = y ∧ x1 ∈ xs then f x1 else img.get (x1 : Int) (y1 : Int) := by
  induction xs with
  | nil =>
    intro img hwf _ _
    exact ⟨hwf, rfl, rfl, fun x1 y1 _ => by simp⟩
  | cons x xs ih =>
    intro img hwf hy hxs
    have hx : (x : Int) < img.width := hxs x (List.mem_cons_self _ _)
    obtain ⟨s1, s2, _⟩ := Image.set_wellFormed img (x : Int) (y : Int) (f x)
    have hwf1 := Image.wellFormed_set img hwf (x : Int) (y : Int) (f x)
    obtain ⟨r1, r2, r3, r4⟩ := ih (img.set (x : Int) (y : Int) (f x)) hwf1 (by rw [s2]; exact hy)
      (fun z hz => by rw [s1]; exact hxs z (List.mem_cons_of_mem _ hz))
    rw [List.foldl_cons]
    refine ⟨r1, r2.trans s1, r3.trans s2, fun x1 y1 hx1 => ?_⟩
    rw [r4 x1 y1 (by rw [s1]; exact hx1)]
    rw [Image.get_set img hwf (x : Int) (y : Int) (x1 : Int) (y1 : Int) (f x)
      (Int.natCast_nonneg _) hx (Int.natCast_nonneg _) hy (Int.natCast_nonneg _) hx1
      (Int.natCast_nonneg _)]
    by_cases hyy : y1 = y
    · by_cases hmem : x1 ∈ xs
      · simp [hyy, hmem]
      · by_cases hxx : x1 = x
        · simp [hyy, hxx]
        · simp [hyy, hmem, hxx]
    · simp [hyy]

/-- The nested pixel loops over the rows `ys` and the columns `xs`. -/
theorem Image.foldl_set_rows (f : Nat → Nat → Color K) (xs ys : List Nat) :
    ∀ (img : Image K), img.wellFormed → (∀ y ∈ ys, (y : Int) < img.height) →
      (∀ x ∈ xs, (x : Int) < img.width) →
      (ys.foldl (fun (im : Image K) (y : Nat) =>
        xs.foldl (fun (im : Image K) (x : Nat) => im.set (x : Int) (y : Int) (f y x)) im)
        img).width = img.width ∧
      (ys.foldl (fun (im : Image K) (y : Nat) =>
        xs.foldl (fun (im : Image K) (x : Nat) => im.set (x : Int) (y : Int) (f y x)) im)
        img).height = img.height ∧
      ∀ x1 y1 : Nat, (x1 : Int) < img.width →
        (ys.foldl (fun (im : Image K) (y : Nat) =>
          xs.foldl (fun (im : Image K) (x : Nat) => im.set (x : Int) (y : Int) (f y x)) im)
          img).get (x1 : Int) (y1 : Int) =
        if y1 ∈ ys ∧ x1 ∈ xs then f y1 x1 else img.get (x1 : Int) (y1 : Int) := by
  induction ys with
  | nil =>
    intro img _ _ _
    exact ⟨rfl, rfl, fun x1 y1 _ => by simp⟩
  | cons y ys ih =>
    intro img hwf hys hxs
    have hy : (y : Int) < img.height := hys y (List.mem_cons_self _ _)
    obtain ⟨q1, q2, q3, q4⟩ := Image.foldl_set_row (f y) y xs img hwf hy hxs
    obtain ⟨r1, r2, r3⟩ := ih _ q1 (fun z hz => by rw [q3]; exact hys z (List.mem_cons_of_mem _ hz))
      (fun z hz => by rw [q2]; exact hxs z hz)
    rw [List.foldl_cons]
    refine ⟨r1.trans q2, r2.trans q3, fun x1 y1 hx1 => ?_⟩
    rw [r3 x1 y1 (by rw [q2]; exact hx1), q4 x1 y1 hx1]
    by_cases hyy : y1 = y
    · by_cases hmem : x1 ∈ xs
      · simp [hyy, hmem]
      · simp [hmem]
    · by_cases hmem : y1 ∈ ys
      · simp [hyy, hmem]
      · simp [hyy, hmem]

end ImageFoldProofs

section ImageIOProofs
variable {K S : Type} [LinearOrderedField K] [FloorRing K]

/-- A channel value of `[0, 1]` is read back from its byte with an error of at most `1 / 510`. -/
theorem encodeChannel_near (v : K) (h0 : 0 ≤ v) (h1 : v ≤ 1) :
    |((encodeChannel v : Int) : K) / 255 - v| < 4 / 1000 := by
  have hv : (0 : K) ≤ 255 * v := by positivity
  have hfl := Int.floor_le (255 * v + 1 / 2)
  have hfl2 := Int.lt_floor_add_one (255 * v + 1 / 2)
  have hlo : (0 : Int) ≤ ⌊255 * v + 1 / 2⌋ := Int.floor_nonneg.mpr (by linarith)
  have hhi : ⌊255 * v + 1 / 2⌋ ≤ 255 := by
    have : ⌊255 * v + 1 / 2⌋ < 256 := by
      rw [Int.floor_lt]
      push_cast
      linarith
    omega
  have henc : encodeChannel v = ⌊255 * v + 1 / 2⌋ := by
    unfold encodeChannel round_to_int
    rw [if_pos hv, max_eq_left hlo, min_eq_left hhi]
  rw [henc, abs_lt]
  constructor
  · rw [lt_sub_iff_add_lt, lt_div_iff₀ (by norm_num)]
    linarith
  · rw [sub_lt_iff_lt_add, div_lt_iff₀ (by norm_num)]
    linarith

/-- The bytes of a written row: the four bytes of pixel `x` stand at the indices `4 * x`,
`4 * x + 1`, `4 * x + 2` and `4 * x + 3`. -/
theorem flatMap_four_getD (a b c d : Nat → Int) (n x : Nat) (hx : x < n) :
    ((List.range n).flatMap fun (i : Nat) => [a i, b i, c i, d i]).getD (4 * x + 0) 0 = a x ∧
    ((List.range n).flatMap fun (i : Nat) => [a i, b i, c i, d i]).getD (4 * x + 1) 0 = b x ∧
    ((List.range n).flatMap fun (i : Nat) => [a i, b i, c i, d i]).getD (4 * x + 2) 0 = c x ∧
    ((List.range n).flatMap fun (i : Nat) => [a i, b i, c i, d i]).getD (4 * x + 3) 0 = d x := by
  have hlen : ∀ m : Nat,
      ((List.range m).flatMap fun (i : Nat) => [a i, b i, c i, d i]).length = 4 * m := by
    intro m
    induction m with
    | zero => rfl
    | succ m ih =>
      rw [List.range_succ, List.flatMap_append, List.length_append, ih]
      simp
      omega
  induction n with
  | zero => omega
  | succ n ih =>
    rw [List.range_succ, List.flatMap_append]
    simp only [List.getD_eq_getElem?_getD] at ih ⊢
    by_cases hlt : x < n
    · obtain ⟨i0, i1, i2, i3⟩ := ih hlt
      have hl := hlen n
      refine ⟨?_, ?_, ?_, ?_⟩
      · rw [List.getElem?_append_left (by omega)]
        exact i0
      · rw [List.getElem?_append_left (by omega)]
        exact i1
      · rw [List.getElem?_append_left (by omega)]
        exact i2
      · rw [List.getElem?_append_left (by omega)]
        exact i3
    · have hxn : x = n := by omega
      subst hxn
      have hl := hlen x
      refine ⟨?_, ?_, ?_, ?_⟩
      · rw [List.getElem?_append_right (by omega), hl]
        simp
      · rw [List.getElem?_append_right (by omega), hl]
        simp
      · rw [List.getElem?_append_right (by omega), hl]
        simp
      · rw [List.getElem?_append_right (by omega), hl]
        simp

/-- C20. For every codec that reads back the header and the rows it was given to write, and
every well-formed image whose channel values lie in `[0, 1]` and which `writeRGBImage` writes,
`readRGBImage` applied to the written stream returns an image of the same width and height in
which every channel of every pixel differs from the original by less than 0.004. -/
theorem readRGBImage_writeRGBImage_near (codec : PNGCodec S) (image : Image K) (stream : S)
    (hcodec : ∀ (w h : Int) (rows : List (List Int)) (s : S),
      codec.write w h rows = some s → codec.read s = some (w, h, 4, rows))
    (hwf : image.wellFormed)
    (hrange : ∀ x y : Nat, (x : Int) < image.width → (y : Int) < image.height →
      (image.get (x : Int) (y : Int)).inUnitRange)
    (hw : writeRGBImage codec image = some stream) :
    ∃ decoded : Image K, readRGBImage codec stream = some decoded ∧
      decoded.width = image.width ∧ decoded.height = image.height ∧
      ∀ x y : Nat, (x : Int) < image.width → (y : Int) < image.height →
        Color.near (4 / 1000) (decoded.get (x : Int) (y : Int)) (image.get (x : Int) (y : Int)) := by
  have hr := hcodec _ _ _ _ hw
  unfold readRGBImage readPNGImage
  rw [hr]
  simp only []
  refine ⟨_, rfl, ?_⟩
  have hnew : (Image.new image.width image.height : Image K).wellFormed :=
    ⟨hwf.1, hwf.2.1, by simp [Image.new]⟩
  have hfold := Image.foldl_set_rows
    (fun (y x : Nat) => (⟨(((writePNGImage.rows image).getD y []).getD (4 * x + 0) 0 : K) / 255,
      (((writePNGImage.rows image).getD y []).getD (4 * x + 1) 0 : K) / 255,
      (((writePNGImage.rows image).getD y []).getD (4 * x + 2) 0 : K) / 255,
      (((writePNGImage.rows image).getD y []).getD (4 * x + 3) 0 : K) / 255⟩ : Color K))
    (List.range image.width.toNat) (List.range image.height.toNat)
    (Image.new image.width image.height) hnew
    (fun y hy => by
      have := List.mem_range.mp hy
      show (y : Int) < image.height
      omega)
    (fun x hx => by
      have := List.mem_range.mp hx
      show (x : Int) < image.width
      omega)
  have hpix : ∀ (y x : Nat) (im : Image K),
      readPNGImage.pixel 4 (writePNGImage.rows image) y x im =
      im.set (x : Int) (y : Int)
        ⟨(((writePNGImage.rows image).getD y []).getD (4 * x + 0) 0 : K) / 255,
        (((writePNGImage.rows image).getD y []).getD (4 * x + 1) 0 : K) / 255,
        (((writePNGImage.rows image).getD y []).getD (4 * x + 2) 0 : K) / 255,
        (((writePNGImage.rows image).getD y []).getD (4 * x + 3) 0 : K) / 255⟩ := by
    intro y x im
    unfold readPNGImage.pixel
    simp
  simp only [hpix]
  obtain ⟨f1, f2, f3⟩ := hfold
  refine ⟨f1, f2, fun x y hx hy => ?_⟩
  rw [f3 x y hx]
  have hxn : x < image.width.toNat := by omega
  have hyn : y < image.height.toNat := by omega
  rw [if_pos ⟨List.mem_range.mpr hyn, List.mem_range.mpr hxn⟩]
  have hrow : (writePNGImage.rows image).getD y [] = writePNGImage.row image y := by
    unfold writePNGImage.rows
    simp [List.getD_eq_getElem?_getD, hyn]
  beta_reduce
  rw [hrow]
  obtain ⟨b0, b1, b2, b3⟩ := flatMap_four_getD
    (fun i => encodeChannel (image.get (i : Int) (y : Int)).r)
    (fun i => encodeChannel (image.get (i : Int) (y : Int)).g)
    (fun i => encodeChannel (image.get (i : Int) (y : Int)).b)
    (fun i => encodeChannel (image.get (i : Int) (y : Int)).a) image.width.toNat x hxn
  unfold writePNGImage.row
  rw [b0, b1, b2, b3]
  obtain ⟨⟨r0, r1⟩, ⟨g0, g1⟩, ⟨c0, c1⟩, ⟨a0, a1⟩⟩ := hrange x y hx hy
  exact ⟨encodeChannel_near _ r0 r1, encodeChannel_near _ g0 g1, encodeChannel_near _ c0 c1,
    encodeChannel_near _ a0 a1⟩

theorem readRGBImage_writeRGBImage_near_witness :
    ∃ decoded : Image ℚ,
      readRGBImage rawCodec ((2 : Int), (1 : Int), writePNGImage.rows twoPixelImage) = some decoded ∧
      decoded.width = twoPixelImage.width ∧ decoded.height = twoPixelImage.height ∧
      ∀ x y : Nat, (x : Int) < twoPixelImage.width → (y : Int) < twoPixelImage.height →
        Color.near (4 / 1000) (decoded.get (x : Int) (y : Int))
          (twoPixelImage.get (x : Int) (y : Int)) :=
  readRGBImage_writeRGBImage_near rawCodec twoPixelImage
    ((2 : Int), (1 : Int), writePNGImage.rows twoPixelImage)
    (fun w h rows s hs => by
      simp only [rawCodec, Option.some.injEq] at hs
      subst hs
      rfl)
    ⟨by decide, by decide, by decide⟩
    (fun x y hx hy => by
      have hx2 : x < 2 := by
        have : (x : Int) < 2 := hx
        omega
      have hy1 : y = 0 := by
        have : (y : Int) < 1 := hy
        omega
      subst hy1
      interval_cases x
      · simp only [Image.get, twoPixelImage, Color.inUnitRange]
        norm_num
      · simp only [Image.get, twoPixelImage, Color.inUnitRange]
        norm_num)
    rfl

end ImageIOProofs

section LightTableProofs
variable {K R : Type} [LinearOrderedField K]

/-- The registration walk keeps the two member vectors aligned: the probabilities are the weights
of the registered objects and all of them are positive. -/
theorem Scene.registerEmissiveObjects_spec (m : FloatMath K) (probeEmission : Nat → Spectrum K)
    (aabb : AABB K) :
    ∀ members : List (Object K) × List K,
      members.2 = members.1.map (emissiveWeight m probeEmission) → (∀ p ∈ members.2, 0 < p) →
      (Scene.registerEmissiveObjects m probeEmission aabb members).2 =
        (Scene.registerEmissiveObjects m probeEmission aabb members).1.map
          (emissiveWeight m probeEmission) ∧
      (∀ p ∈ (Scene.registerEmissiveObjects m probeEmission aabb members).2, 0 < p) := by
  induction aabb with
  | leafNode area object =>
    intro members hmap hpos
    unfold Scene.registerEmissiveObjects
    simp only []
    split_ifs with h1 h2
    · exact ⟨hmap, hpos⟩
    · exact ⟨hmap, hpos⟩
    · refine ⟨?_, ?_⟩
      · rw [List.map_append, ← hmap]
        rfl
      · intro p hp
        rcases List.mem_append.mp hp with hp | hp
        · exact hpos p hp
        · rw [List.mem_singleton.mp hp]
          exact not_le.mp h2
  | innerNode area left right ihl ihr =>
    intro members hmap hpos
    unfold Scene.registerEmissiveObjects
    obtain ⟨l1, l2⟩ := ihl members hmap hpos
    exact ihr _ l1 l2

/-- The accumulation loop returns the total of the entries added to the start value. -/
theorem Scene.cumulate_total (ps : List K) : ∀ c : K, (Scene.cumulate ps c).2 = c + ps.sum := by
  induction ps with
  | nil => intro c; simp [Scene.cumulate]
  | cons p rest ih =>
    intro c
    simp only [Scene.cumulate, ih, List.sum_cons]
    ring

/-- The accumulation loop keeps the number of entries. -/
theorem Scene.cumulate_length (ps : List K) : ∀ c : K, (Scene.cumulate ps c).1.length = ps.length := by
  induction ps with
  | nil => intro c; rfl
  | cons p rest ih =>
    intro c
    simp only [Scene.cumulate, List.length_cons, ih]

/-- Entry `i` of the accumulated table is the start value plus the sum of the first `i + 1`
entries. -/
theorem Scene.cumulate_getD (ps : List K) :
    ∀ (c : K) (i : Nat), i < ps.length →
      (Scene.cumulate ps c).1.getD i 0 = c + (ps.take (i + 1)).sum := by
  induction ps with
  | nil => intro c i hi; simp at hi
  | cons p rest ih =>
    intro c i hi
    cases i with
    | zero =>
      simp only [Scene.cumulate, List.getD_cons_zero, List.take_succ_cons, List.take_zero,
        List.sum_cons, List.sum_nil]
      ring
    | succ i =>
      simp only [Scene.cumulate, List.getD_cons_succ, List.take_succ_cons, List.sum_cons]
      rw [ih (c + p) i (by simpa using hi)]
      ring

/-- With positive entries the accumulated table is strictly increasing and stays above the start
value. -/
theorem Scene.cumulate_sorted (ps : List K) :
    ∀ c : K, (∀ p ∈ ps, 0 < p) →
      (Scene.cumulate ps c).1.Pairwise (· < ·) ∧ ∀ x ∈ (Scene.cumulate ps c).1, c < x := by
  induction ps with
  | nil =>
    intro c _
    simp [Scene.cumulate]
  | cons p rest ih =>
    intro c hpos
    have hp : 0 < p := hpos p (List.mem_cons_self _ _)
    obtain ⟨s1, s2⟩ := ih (c + p) (fun q hq => hpos q (List.mem_cons_of_mem _ hq))
    simp only [Scene.cumulate]
    refine ⟨List.pairwise_cons.mpr ⟨fun x hx => ?_, s1⟩, fun x hx => ?_⟩
    · have := s2 x hx
      linarith
    · rcases List.mem_cons.mp hx with hx | hx
      · rw [hx]
        linarith
      · have := s2 x hx
        linarith

/-- The last entry of a non-empty accumulated table is the start value plus the total. -/
theorem Scene.cumulate_getLast (ps : List K) :
    ∀ c : K, ps ≠ [] → (Scene.cumulate ps c).1.getLast? = some (c + ps.sum) := by
  induction ps with
  | nil => intro c h; exact absurd rfl h
  | cons p rest ih =>
    intro c _
    cases rest with
    | nil =>
      simp only [Scene.cumulate, List.getLast?_singleton, List.sum_cons, List.sum_nil]
      congr 1
      ring
    | cons q rest2 =>
      have h2 := ih (c + p) (List.cons_ne_nil _ _)
      have hcons : (Scene.cumulate (p :: q :: rest2) c).1 =
          (p + c) :: (q + (c + p)) :: (Scene.cumulate rest2 (c + p + q)).1 := rfl
      have h3 : ((q + (c + p)) :: (Scene.cumulate rest2 (c + p + q)).1).getLast? =
          some (c + p + (q :: rest2).sum) := h2
      rw [hcons, List.getLast?_cons_cons, h3]
      congr 1
      simp only [List.sum_cons]
      ring

/-- Dividing every summand by a constant divides the sum. -/
theorem sum_map_div (f : Object K → K) (l : List (Object K)) (c : K) :
    (l.map fun o => f o / c).sum = (l.map f).sum / c := by
  induction l with
  | nil => simp
  | cons a l ih =>
    simp only [List.map_cons, List.sum_cons, ih]
    ring

/-- The sum of a non-empty list of positive numbers is positive. -/
theorem sum_pos_of_pos (ps : List K) (hne : ps ≠ []) (hpos : ∀ p ∈ ps, 0 < p) : 0 < ps.sum := by
  induction ps with
  | nil => exact absurd rfl hne
  | cons p rest ih =>
    rw [List.sum_cons]
    have hp : 0 < p := hpos p (List.mem_cons_self _ _)
    by_cases hr : rest = []
    · rw [hr]
      simpa using hp
    · have := ih hr (fun q hq => hpos q (List.mem_cons_of_mem _ hq))
      linarith

/-- Reading an entry of a table whose entries were divided by a constant. -/
theorem getD_map_div (l : List K) (c : K) (i : Nat) :
    (l.map fun p => p / c).getD i 0 = l.getD i 0 / c := by
  simp only [List.getD_eq_getElem?_getD, List.getElem?_map]
  cases l[i]? with
  | none => simp
  | some v => simp

/-- The light members built by the constructor `Scene::Scene`: the table has one entry per
registered object; and when an object is registered the table is strictly increasing, ends in 1,
consecutive differences are the normalised weights, and `std::lower_bound` finds an index inside
the table for every number that is at most 1. -/
theorem Scene.initLights_spec (m : FloatMath K) (probeEmission : Nat → Spectrum K)
    (light_sources : List (LightSource K)) (scene : Scene K) :
    (Scene.initLights m probeEmission light_sources scene).object_light_source_probabilities.length =
      (Scene.initLights m probeEmission light_sources scene).object_light_sources.length ∧
    ((Scene.initLights m probeEmission light_sources scene).object_light_sources ≠ [] →
      (Scene.initLights m probeEmission light_sources
        scene).object_light_source_probabilities.Pairwise (· < ·) ∧
      (Scene.initLights m probeEmission light_sources
        scene).object_light_source_probabilities.getLast? = some 1 ∧
      (∀ (i : Nat) (object : Object K),
        (Scene.initLights m probeEmission light_sources scene).object_light_sources.get? i =
          some object →
        (Scene.initLights m probeEmission light_sources scene).selectionProbability i =
          emissiveWeight m probeEmission object /
            ((Scene.initLights m probeEmission light_sources scene).object_light_sources.map
              (emissiveWeight m probeEmission)).sum) ∧
      ((Scene.initLights m probeEmission light_sources scene).object_light_sources.map fun o =>
        emissiveWeight m probeEmission o /
          ((Scene.initLights m probeEmission light_sources scene).object_light_sources.map
            (emissiveWeight m probeEmission)).sum).sum = 1 ∧
      ∀ r : K, r ≤ 1 →
        lower_bound
          (Scene.initLights m probeEmission light_sources scene).object_light_source_probabilities
          r <
        (Scene.initLights m probeEmission light_sources scene).object_light_sources.length) := by
  obtain ⟨hmap, hpos⟩ := Scene.registerEmissiveObjects_spec m probeEmission scene.bounding_box
    ([], []) rfl (fun p hp => by simp at hp)
  generalize hrec : Scene.registerEmissiveObjects m probeEmission scene.bounding_box ([], []) =
    members at hmap hpos
  have hobjs : (Scene.initLights m probeEmission light_sources scene).object_light_sources =
      members.1 := by
    unfold Scene.initLights
    rw [hrec]
  have htable : (Scene.initLights m probeEmission light_sources
      scene).object_light_source_probabilities =
      (Scene.cumulate members.2 0).1.map fun p => p / members.2.sum := by
    unfold Scene.initLights
    rw [hrec]
    simp only [Scene.cumulate_total, zero_add]
  have hlen : members.2.length = members.1.length := by rw [hmap, List.length_map]
  have hsel : ∀ i : Nat, (Scene.initLights m probeEmission light_sources
      scene).selectionProbability i =
      if i > 0 then
        (Scene.cumulate members.2 0).1.getD i 0 / members.2.sum -
          (Scene.cumulate members.2 0).1.getD (i - 1) 0 / members.2.sum
      else (Scene.cumulate members.2 0).1.getD i 0 / members.2.sum := by
    intro i
    unfold SceneLights.selectionProbability
    simp only [htable, getD_map_div]
  rw [hobjs, htable]
  refine ⟨by rw [List.length_map, Scene.cumulate_length, hlen], fun hne => ?_⟩
  have hne2 : members.2 ≠ [] := by
    intro h
    rw [h] at hlen
    exact hne (List.length_eq_zero.mp hlen.symm)
  have hT : 0 < members.2.sum := sum_pos_of_pos members.2 hne2 hpos
  have hsum : (members.1.map (emissiveWeight m probeEmission)).sum = members.2.sum := by rw [hmap]
  obtain ⟨hsorted, _⟩ := Scene.cumulate_sorted members.2 0 hpos
  have hlast : ((Scene.cumulate members.2 0).1.map fun p => p / members.2.sum).getLast? =
      some 1 := by
    rw [List.getLast?_map, Scene.cumulate_getLast members.2 0 hne2, zero_add]
    simp only [Option.map_some']
    rw [div_self (ne_of_gt hT)]
  refine ⟨?_, hlast, ?_, ?_, ?_⟩
  · exact List.Pairwise.map _ (fun a b hab => div_lt_div_of_pos_right hab hT) hsorted
  · intro i object hi
    rw [hsel i, hsum]
    have hilt : i < members.1.length := by
      rw [List.get?_eq_getElem?] at hi
      exact (List.getElem?_eq_some_iff.mp hi).1
    have hilt2 : i < members.2.length := by rw [hlen]; exact hilt
    have hval : members.2[i] = emissiveWeight m probeEmission object := by
      rw [List.get?_eq_getElem?] at hi
      obtain ⟨h1, h2⟩ := List.getElem?_eq_some_iff.mp hi
      simp only [hmap, List.getElem_map, h2]
    rw [← hval]
    by_cases hi0 : i > 0
    · rw [if_pos hi0, Scene.cumulate_getD members.2 0 i hilt2,
        Scene.cumulate_getD members.2 0 (i - 1) (by omega)]
      have : i - 1 + 1 = i := by omega
      rw [this, List.sum_take_succ members.2 i hilt2]
      ring
    · have : i = 0 := by omega
      subst this
      rw [if_neg hi0, Scene.cumulate_getD members.2 0 0 hilt2, List.sum_take_succ members.2 0 hilt2]
      simp
  · rw [sum_map_div, hsum, div_self (ne_of_gt hT)]
  · intro r hr
    have hl : ((Scene.cumulate members.2 0).1.map fun p => p / members.2.sum).length =
        members.1.length := by rw [List.length_map, Scene.cumulate_length, hlen]
    rw [← hl]
    unfold lower_bound
    rw [List.findIdx_lt_length]
    obtain ⟨x, hx⟩ := Option.isSome_iff_exists.mp (by rw [hlast]; rfl :
      (((Scene.cumulate members.2 0).1.map fun p => p / members.2.sum).getLast?).isSome = true)
    have hx1 : x = 1 := by
      rw [hlast] at hx
      exact (Option.some.inj hx).symm
    refine ⟨x, List.mem_of_getLast?_eq_some hx, ?_⟩
    rw [hx1]
    simpa using hr

/-- The unit sphere with a white probed emission is registered as the only emissive object of
its scene. -/
theorem unitSphereScene_registered :
    (Scene.initLights rationalMath whiteEmission [] unitSphereScene).object_light_sources =
      [unitSphere] := by
  have hp : emissivePower whiteEmission unitSphere = 3 := by
    simp only [emissivePower, whiteEmission]
    norm_num
  have ha : unitSphere.getSurfaceArea rationalMath = 88 / 7 := by
    simp only [Object.getSurfaceArea, unitSphere, Sphere.new, rationalMath]
    norm_num
  simp only [Scene.initLights, unitSphereScene, unitSphereLeaf, Scene.registerEmissiveObjects, hp, ha]
  norm_num

/-- C17. After constructing a scene with at least one registered emissive object, the
cumulative probability table has one entry per registered object, is strictly increasing and ends
in 1; the selection probability of each registered object (the difference of consecutive entries)
is its emissive power times surface area divided by the sum over all registered objects, these
probabilities sum to 1, and the binary search of `sampleLights` finds an index inside the table
for every number of `[0, 1]`. -/
theorem Scene_initLights_table_normalised (m : FloatMath K) (probeEmission : Nat → Spectrum K)
    (light_sources : List (LightSource K)) (scene : Scene K)
    (hne : (Scene.initLights m probeEmission light_sources scene).object_light_sources ≠ []) :
    (Scene.initLights m probeEmission light_sources scene).object_light_source_probabilities.length =
      (Scene.initLights m probeEmission light_sources scene).object_light_sources.length ∧
    (Scene.initLights m probeEmission light_sources
      scene).object_light_source_probabilities.Pairwise (· < ·) ∧
    (Scene.initLights m probeEmission light_sources
      scene).object_light_source_probabilities.getLast? = some 1 ∧
    (∀ (i : Nat) (object : Object K),
      (Scene.initLights m probeEmission light_sources scene).object_light_sources.get? i =
        some object →
      (Scene.initLights m probeEmission light_sources scene).selectionProbability i =
        emissiveWeight m probeEmission object /
          ((Scene.initLights m probeEmission light_sources scene).object_light_sources.map
            (emissiveWeight m probeEmission)).sum) ∧
    ((Scene.initLights m probeEmission light_sources scene).object_light_sources.map fun o =>
      emissiveWeight m probeEmission o /
        ((Scene.initLights m probeEmission light_sources scene).object_light_sources.map
          (emissiveWeight m probeEmission)).sum).sum = 1 ∧
    ∀ r : K, 0 ≤ r → r ≤ 1 →
      lower_bound
        (Scene.initLights m probeEmission light_sources scene).object_light_source_probabilities
        r <
      (Scene.initLights m probeEmission light_sources scene).object_light_sources.length := by
  obtain ⟨h1, h2⟩ := Scene.initLights_spec m probeEmission light_sources scene
  obtain ⟨h3, h4, h5, h6, h7⟩ := h2 hne
  exact ⟨h1, h3, h4, h5, h6, fun r _ hr => h7 r hr⟩

theorem Scene_initLights_table_normalised_witness :
    (Scene.initLights rationalMath whiteEmission []
      unitSphereScene).object_light_source_probabilities.length =
      (Scene.initLights rationalMath whiteEmission [] unitSphereScene).object_light_sources.length ∧
    (Scene.initLights rationalMath whiteEmission []
      unitSphereScene).object_light_source_probabilities.Pairwise (· < ·) ∧
    (Scene.initLights rationalMath whiteEmission []
      unitSphereScene).object_light_source_probabilities.getLast? = some 1 ∧
    (∀ (i : Nat) (object : Object ℚ),
      (Scene.initLights rationalMath whiteEmission [] unitSphereScene).object_light_sources.get? i =
        some object →
      (Scene.initLights rationalMath whiteEmission [] unitSphereScene).selectionProbability i =
        emissiveWeight rationalMath whiteEmission object /
          ((Scene.initLights rationalMath whiteEmission [] unitSphereScene).object_light_sources.map
            (emissiveWeight rationalMath whiteEmission)).sum) ∧
    ((Scene.initLights rationalMath whiteEmission [] unitSphereScene).object_light_sources.map
      fun o => emissiveWeight rationalMath whiteEmission o /
        ((Scene.initLights rationalMath whiteEmission [] unitSphereScene).object_light_sources.map
          (emissiveWeight rationalMath whiteEmission)).sum).sum = 1 ∧
    ∀ r : ℚ, 0 ≤ r → r ≤ 1 →
      lower_bound
        (Scene.initLights rationalMath whiteEmission [] unitSphereScene).object_light_source_probabilities
        r <
      (Scene.initLights rationalMath whiteEmission [] unitSphereScene).object_light_sources.length :=
  Scene_initLights_table_normalised rationalMath whiteEmission [] unitSphereScene
    (by rw [unitSphereScene_registered]; exact List.cons_ne_nil _ _)

end LightTableProofs

section LightSamplingProofs
variable {K R : Type} [LinearOrderedField K]

/-- A tuple emitted for a surface sample carries the sampled position and the density
`selection_p * surface_p * distance^2 / |cos|`. -/
theorem Scene.sampleLights.surfaceTuple_some (sqrt : K → K)
    (getEmission : Nat → Ray K → Vec3 K → Spectrum K) (pos : Vec3 K) (object : Object K)
    (selection_p : K) (sample : Vec3 K × K × Bool) (t : Vec3 K × Spectrum K × K)
    (h : Scene.sampleLights.surfaceTuple sqrt getEmission pos object selection_p sample = some t) :
    t.1 = sample.1 ∧
    t.2.2 = selection_p * sample.2.1 *
      ((sample.1.sub pos).getLengthSquared /
        |Vec3.dot ((sample.1.sub pos).normalize sqrt).neg (object.getSurfaceNormal sqrt sample.1)|) := by
  unfold Scene.sampleLights.surfaceTuple at h
  simp only [] at h
  split_ifs at h
  rw [← Option.some.inj h]
  exact ⟨rfl, rfl⟩

/-- The object sampling loop of `Scene::sampleLights` returns when every draw finds an index
inside the table: it appends at most one tuple per iteration, each built from a registered object
and a surface sample of it. -/
theorem Scene.sampleLights.objectLoop_spec (m : FloatMath K) (dist : R → K × R)
    (getEmission : Nat → Ray K → Vec3 K → Spectrum K) (lights : SceneLights K) (pos : Vec3 K)
    (hfind : ∀ re : R, lower_bound lights.object_light_source_probabilities (dist re).1 <
      lights.object_light_sources.length) :
    ∀ (remaining : Nat) (out : List (Vec3 K × Spectrum K × K)) (re : R),
      ∃ (extra : List (Vec3 K × Spectrum K × K)) (re1 : R),
        Scene.sampleLights.objectLoop m dist getEmission lights pos remaining out re =
          some (out ++ extra, re1) ∧
        extra.length ≤ remaining ∧
        ∀ t ∈ extra, ∃ (i : Nat) (object : Object K) (rs : R),
          lights.object_light_sources.get? i = some object ∧
          Scene.sampleLights.surfaceTuple m.sqrt getEmission pos object
            (lights.selectionProbability i * ((lights.object_sample_count : Nat) : K))
            (object.sampleSurface m dist rs).1 = some t := by
  intro remaining
  induction remaining with
  | zero =>
    intro out re
    exact ⟨[], re, by simp [Scene.sampleLights.objectLoop], le_refl _, fun t ht => by simp at ht⟩
  | succ remaining ih =>
    intro out re
    have hlt := hfind re
    obtain ⟨object, hobj⟩ : ∃ object, lights.object_light_sources.get?
        (lower_bound lights.object_light_source_probabilities (dist re).1) = some object := by
      rw [List.get?_eq_getElem?, List.getElem?_eq_getElem hlt]
      exact ⟨_, rfl⟩
    unfold Scene.sampleLights.objectLoop
    simp only [hobj]
    cases hs : Scene.sampleLights.surfaceTuple m.sqrt getEmission pos object
        (lights.selectionProbability (lower_bound lights.object_light_source_probabilities
          (dist re).1) * ((lights.object_sample_count : Nat) : K))
        (object.sampleSurface m dist (dist re).2).1 with
    | none =>
      obtain ⟨extra, re1, h1, h2, h3⟩ := ih out (object.sampleSurface m dist (dist re).2).2
      exact ⟨extra, re1, h1, Nat.le_succ_of_le h2, h3⟩
    | some tuple =>
      obtain ⟨extra, re1, h1, h2, h3⟩ := ih (out ++ [tuple])
        (object.sampleSurface m dist (dist re).2).2
      refine ⟨tuple :: extra, re1, ?_, ?_, ?_⟩
      · simp only [h1, List.append_assoc, List.singleton_append]
      · simp only [List.length_cons]
        omega
      · intro t ht
        rcases List.mem_cons.mp ht with ht | ht
        · rw [ht]
          exact ⟨_, object, (dist re).2, hobj, hs⟩
        · exact h3 t ht

/-- C16. For a scene with the explicit light sources `light_sources` and `E` registered
emissive objects, and uniform draws that are at most 1, `Scene::sampleLights` returns one tuple
for every explicit light source followed by at most `min(2 + floor(log10(E + 1)), E)` tuples of
emissive objects, and exactly the tuples of the light sources when `E = 0`; the density of each
emissive-object tuple is the object's selection probability multiplied by the number of object
samples drawn, the surface density and `distance^2 / |cos|`. -/
theorem Scene_sampleLights_tuples (m : FloatMath K) (dist : R → K × R)
    (getEmission : Nat → Ray K → Vec3 K → Spectrum K) (probeEmission : Nat → Spectrum K)
    (light_sources : List (LightSource K)) (scene : Scene K) (pos n : Vec3 K) (re : R)
    (hdist : ∀ re : R, (dist re).1 ≤ 1) :
    ∃ (lightTuples objectTuples : List (Vec3 K × Spectrum K × K)) (re1 : R),
      Scene.sampleLights m dist getEmission (Scene.initLights m probeEmission light_sources scene)
        pos n re = some (lightTuples ++ objectTuples, re1) ∧
      lightTuples.length = light_sources.length ∧
      objectTuples.length ≤
        min (2 + Nat.log 10
          ((Scene.initLights m probeEmission light_sources scene).object_light_sources.length + 1))
          (Scene.initLights m probeEmission light_sources scene).object_light_sources.length ∧
      ((Scene.initLights m probeEmission light_sources scene).object_light_sources.length = 0 →
        (lightTuples ++ objectTuples).length = light_sources.length) ∧
      ∀ t ∈ objectTuples, ∃ (i : Nat) (object : Object K) (rs : R),
        (Scene.initLights m probeEmission light_sources scene).object_light_sources.get? i =
          some object ∧
        t.1 = (object.sampleSurface m dist rs).1.1 ∧
        t.2.2 = (Scene.initLights m probeEmission light_sources scene).selectionProbability i *
          (((Scene.initLights m probeEmission light_sources scene).object_sample_count : Nat) : K) *
          (object.sampleSurface m dist rs).1.2.1 *
          (((object.sampleSurface m dist rs).1.1.sub pos).getLengthSquared /
            |Vec3.dot (((object.sampleSurface m dist rs).1.1.sub pos).normalize m.sqrt).neg
              (object.getSurfaceNormal m.sqrt (object.sampleSurface m dist rs).1.1)|) := by
  obtain ⟨hlen, hspec⟩ := Scene.initLights_spec m probeEmission light_sources scene
  by_cases hE : (Scene.initLights m probeEmission light_sources scene).object_light_sources = []
  · refine ⟨Scene.sampleLights.lightTuples m.sqrt
      (Scene.initLights m probeEmission light_sources scene) pos, [], re, ?_, ?_, ?_, ?_, ?_⟩
    · unfold Scene.sampleLights SceneLights.object_sample_count
      simp [hE, Scene.sampleLights.objectLoop]
    · simp [Scene.sampleLights.lightTuples, Scene.initLights]
    · simp
    · intro _
      simp [Scene.sampleLights.lightTuples, Scene.initLights]
    · intro t ht
      simp at ht
  · obtain ⟨_, _, _, _, hfind⟩ := hspec hE
    obtain ⟨extra, re1, h1, h2, h3⟩ := Scene.sampleLights.objectLoop_spec m dist getEmission
      (Scene.initLights m probeEmission light_sources scene) pos
      (fun re => hfind _ (hdist re))
      (Scene.initLights m probeEmission light_sources scene).object_sample_count
      (Scene.sampleLights.lightTuples m.sqrt
        (Scene.initLights m probeEmission light_sources scene) pos) re
    refine ⟨_, extra, re1, h1, ?_, h2, ?_, ?_⟩
    · simp [Scene.sampleLights.lightTuples, Scene.initLights]
    · intro h0
      exact absurd (List.length_eq_zero.mp h0) hE
    · intro t ht
      obtain ⟨i, object, rs, hi, hs⟩ := h3 t ht
      obtain ⟨e1, e2⟩ := Scene.sampleLights.surfaceTuple_some _ _ _ _ _ _ _ hs
      exact ⟨i, object, rs, hi, e1, e2⟩

theorem Scene_sampleLights_tuples_witness :
    ∃ (lightTuples objectTuples : List (Vec3 ℚ × Spectrum ℚ × ℚ)) (re1 : Unit),
      Scene.sampleLights rationalMath (constantDist (1 / 2)) (fun _ _ _ => Spectrum.dark)
        (Scene.initLights rationalMath whiteEmission [] unitSphereScene)
        ⟨0, 0, 5⟩ ⟨0, 0, 1⟩ () = some (lightTuples ++ objectTuples, re1) ∧
      lightTuples.length = ([] : List (LightSource ℚ)).length ∧
      objectTuples.length ≤
        min (2 + Nat.log 10
          ((Scene.initLights rationalMath whiteEmission []
            unitSphereScene).object_light_sources.length + 1))
          (Scene.initLights rationalMath whiteEmission [] unitSphereScene).object_light_sources.length ∧
      ((Scene.initLights rationalMath whiteEmission []
          unitSphereScene).object_light_sources.length = 0 →
        (lightTuples ++ objectTuples).length = ([] : List (LightSource ℚ)).length) ∧
      ∀ t ∈ objectTuples, ∃ (i : Nat) (object : Object ℚ) (rs : Unit),
        (Scene.initLights rationalMath whiteEmission [] unitSphereScene).object_light_sources.get? i =
          some object ∧
        t.1 = (object.sampleSurface rationalMath (constantDist (1 / 2)) rs).1.1 ∧
        t.2.2 =
          (Scene.initLights rationalMath whiteEmission [] unitSphereScene).selectionProbability i *
          (((Scene.initLights rationalMath whiteEmission []
            unitSphereScene).object_sample_count : Nat) : ℚ) *
          (object.sampleSurface rationalMath (constantDist (1 / 2)) rs).1.2.1 *
          (((object.sampleSurface rationalMath (constantDist (1 / 2)) rs).1.1.sub
              ⟨0, 0, 5⟩).getLengthSquared /
            |Vec3.dot (((object.sampleSurface rationalMath (constantDist (1 / 2)) rs).1.1.sub
                ⟨0, 0, 5⟩).normalize rationalMath.sqrt).neg
              (object.getSurfaceNormal rationalMath.sqrt
                (object.sampleSurface rationalMath (constantDist (1 / 2)) rs).1.1)|) :=
  Scene_sampleLights_tuples rationalMath (constantDist (1 / 2)) (fun _ _ _ => Spectrum.dark)
    whiteEmission [] unitSphereScene ⟨0, 0, 5⟩ ⟨0, 0, 1⟩ ()
    (fun _ => by
      show (1 / 2 : ℚ) ≤ 1
      norm_num)

end LightSamplingProofs

section MeshProofs
variable {K : Type} [LinearOrderedField K]

/-- Method `expect` never lengthens the stream. -/
theorem ObjParser.expect_length_le (c : Char) (s : List Char) :
    (ObjParser.expect c s).2.length ≤ s.length := by
  cases s with
  | nil => simp [ObjParser.expect]
  | cons d rest =>
    simp only [ObjParser.expect]
    split_ifs
    · simp
    · simp

/-- When `expect` succeeds it consumes a character. -/
theorem ObjParser.expect_length_lt (c : Char) (s : List Char) (h : (ObjParser.expect c s).1 = true) :
    (ObjParser.expect c s).2.length < s.length := by
  cases s with
  | nil => simp [ObjParser.expect] at h
  | cons d rest =>
    simp only [ObjParser.expect] at h ⊢
    split_ifs at h ⊢
    all_goals simp

/-- Method `eatSpace` never lengthens the stream. -/
theorem ObjParser.eatSpace_length_le (s : List Char) : (ObjParser.eatSpace s).length ≤ s.length := by
  induction s with
  | nil => simp [ObjParser.eatSpace]
  | cons d rest ih =>
    unfold ObjParser.eatSpace
    split_ifs
    · exact Nat.le_succ_of_le ih
    · exact le_refl _

/-- Method `skipLine` never lengthens the stream. -/
theorem ObjParser.skipLine_length_le (s : List Char) : (ObjParser.skipLine s).length ≤ s.length := by
  induction s with
  | nil => simp [ObjParser.skipLine]
  | cons d rest ih =>
    unfold ObjParser.skipLine
    split_ifs
    · simp
    · exact Nat.le_succ_of_le ih

/-- The reading loop never lengthens the stream. -/
theorem ObjParser.readWord_length_le (accept : Char → Bool) (s : List Char) :
    (ObjParser.readWord accept s).2.length ≤ s.length := by
  induction s with
  | nil => simp [ObjParser.readWord]
  | cons d rest ih =>
    unfold ObjParser.readWord
    split_ifs
    · exact Nat.le_succ_of_le ih
    · simp

/-- Method `readInt` never lengthens the stream. -/
theorem ObjParser.readInt_length_le (s : List Char) : (ObjParser.readInt s).2.length ≤ s.length := by
  have h : (ObjParser.readInt s).2 =
      (ObjParser.readWord ObjParser.isIntChar (ObjParser.eatSpace s)).2 := by
    unfold ObjParser.readInt
    simp only []
    split <;> rfl
  rw [h]
  exact le_trans (ObjParser.readWord_length_le _ _) (ObjParser.eatSpace_length_le s)

/-- Method `readFloat` never lengthens the stream. -/
theorem ObjParser.readFloat_length_le (s : List Char) :
    (ObjParser.readFloat s : Option K × List Char).2.length ≤ s.length :=
  le_trans (ObjParser.readWord_length_le _ _) (ObjParser.eatSpace_length_le s)

/-- The loop over the slash-separated references never lengthens the stream, and with fuel for
the whole stream it stops in front of a character that is not a slash. -/
theorem ObjParser.skipReferences_spec :
    ∀ (fuel : Nat) (s : List Char),
      (ObjParser.skipReferences fuel s).length ≤ s.length ∧
      (s.length ≤ fuel → (ObjParser.expect '/' (ObjParser.skipReferences fuel s)).1 = false) := by
  intro fuel
  induction fuel with
  | zero =>
    intro s
    refine ⟨le_refl _, fun h => ?_⟩
    have : s = [] := List.length_eq_zero.mp (Nat.le_zero.mp h)
    subst this
    rfl
  | succ fuel ih =>
    intro s
    unfold ObjParser.skipReferences
    simp only []
    by_cases he : (ObjParser.expect '/' s).1 = true
    · rw [if_pos he]
      obtain ⟨h1, h2⟩ := ih (ObjParser.readInt (ObjParser.expect '/' s).2).2
      have h3 := ObjParser.readInt_length_le (ObjParser.expect '/' s).2
      have h4 := ObjParser.expect_length_lt '/' s he
      exact ⟨by omega, fun h => h2 (by omega)⟩
    · rw [if_neg he]
      exact ⟨le_refl _, fun _ => by simpa using he⟩

/-- Method `processVertex` never lengthens the stream. -/
theorem ObjParser.processVertex_length_le (p : ObjParser K) :
    (ObjParser.processVertex p).stream.length ≤ p.stream.length := by
  unfold ObjParser.processVertex
  simp only []
  exact le_trans (ObjParser.readFloat_length_le _)
    (le_trans (ObjParser.readFloat_length_le _) (ObjParser.readFloat_length_le _))

/-- The statements that read one index never lengthen the stream. -/
theorem ObjParser.readIndex_length_le (s : List Char) :
    (ObjParser.readIndex s).2.length ≤ s.length := by
  unfold ObjParser.readIndex
  simp only []
  exact le_trans (ObjParser.skipReferences_spec _ _).1 (ObjParser.readInt_length_le s)

/-- The stream after `processFace` is the one left by the three index reads. -/
theorem ObjParser.processFace_stream (sqrt : K → K) (p : ObjParser K) :
    (ObjParser.processFace sqrt p).stream =
      (ObjParser.readIndex (ObjParser.readIndex (ObjParser.readIndex p.stream).2).2).2 := by
  unfold ObjParser.processFace
  lift_lets
  intro ra a rb b rc c p1 vertex_count
  change _ = rc.2
  clear_value rc a b c
  split_ifs
  · rfl
  · rfl
  · rfl
  · split
    · split_ifs <;> rfl
    · rfl

/-- Method `processFace` never lengthens the stream. -/
theorem ObjParser.processFace_length_le (sqrt : K → K) (p : ObjParser K) :
    (ObjParser.processFace sqrt p).stream.length ≤ p.stream.length := by
  rw [ObjParser.processFace_stream]
  exact le_trans (ObjParser.readIndex_length_le _)
    (le_trans (ObjParser.readIndex_length_le _) (ObjParser.readIndex_length_le _))

/-- Method `processLine` consumes at least one character of a stream that is not at its end. -/
theorem ObjParser.processLine_length_lt (sqrt : K → K) (p : ObjParser K) (h : p.stream ≠ []) :
    (ObjParser.processLine sqrt p).stream.length < p.stream.length := by
  have hpos : 0 < p.stream.length := List.length_pos.mpr h
  have he := ObjParser.eatSpace_length_le p.stream
  unfold ObjParser.processLine
  cases hs : ObjParser.eatSpace p.stream with
  | nil =>
    simp only []
    exact hpos
  | cons c rest =>
    rw [hs] at he
    simp only [List.length_cons] at he
    simp only []
    have hx := ObjParser.expect_length_le ' ' rest
    have hk := ObjParser.skipLine_length_le rest
    have hk2 := ObjParser.skipLine_length_le (ObjParser.expect ' ' rest).2
    have hv := ObjParser.processVertex_length_le
      { p with stream := (ObjParser.expect ' ' rest).2 }
    have hf := ObjParser.processFace_length_le sqrt
      { p with stream := (ObjParser.expect ' ' rest).2 }
    simp only [] at hv hf
    split_ifs
    all_goals first
      | (show rest.length < _; omega)
      | (show (ObjParser.skipLine rest).length < _; omega)
      | (show (ObjParser.skipLine (ObjParser.expect ' ' rest).2).length < _; omega)
      | omega

/-- With fuel for the whole stream the line loop of `parse` runs until the stream is at its
end. -/
theorem ObjParser.parseLines_consumes (sqrt : K → K) :
    ∀ (fuel : Nat) (p : ObjParser K), p.stream.length ≤ fuel →
      (ObjParser.parseLines sqrt fuel p).stream = [] := by
  intro fuel
  induction fuel with
  | zero =>
    intro p h
    exact List.length_eq_zero.mp (Nat.le_zero.mp h)
  | succ fuel ih =>
    intro p h
    unfold ObjParser.parseLines
    by_cases he : p.stream.isEmpty = true
    · rw [if_pos he]
      exact List.isEmpty_iff.mp he
    · rw [if_neg he]
      have hne : p.stream ≠ [] := fun h0 => he (List.isEmpty_iff.mpr h0)
      have := ObjParser.processLine_length_lt sqrt p hne
      exact ih _ (by omega)

/-- Assigning a vertex normal keeps the number of faces. -/
theorem ObjParser.setNormal_length (faces : List (Triangle K)) (vertex_normal : Vec3 K)
    (descriptor : Nat × Nat) :
    (ObjParser.setNormal faces vertex_normal descriptor).length = faces.length := by
  unfold ObjParser.setNormal
  split
  · rfl
  · split_ifs <;> simp

/-- Assigning a vertex normal to the faces of a vertex keeps the number of faces. -/
theorem ObjParser.foldl_setNormal_length (vertex_normal : Vec3 K)
    (face_descriptors : List (Nat × Nat)) :
    ∀ faces : List (Triangle K),
      (face_descriptors.foldl (fun (faces : List (Triangle K)) (descriptor : Nat × Nat) =>
        ObjParser.setNormal faces vertex_normal descriptor) faces).length = faces.length := by
  induction face_descriptors with
  | nil => intro faces; rfl
  | cons d rest ih =>
    intro faces
    rw [List.foldl_cons, ih, ObjParser.setNormal_length]

/-- The smoothing pass keeps the number of faces. -/
theorem ObjParser.smoothNormals_length (sqrt : K → K) (vertex_faces : List (List (Nat × Nat)))
    (faces : List (Triangle K)) :
    (ObjParser.smoothNormals sqrt vertex_faces faces).length = faces.length := by
  unfold ObjParser.smoothNormals
  simp only []
  generalize (faces.map fun face => (face.b.sub face.a).cross (face.c.sub face.a)) = face_normals
  induction vertex_faces generalizing faces with
  | nil => rfl
  | cons fd rest ih =>
    rw [List.foldl_cons, ih]
    split_ifs
    · rfl
    · exact ObjParser.foldl_setNormal_length _ _ _

/-- The number of triangles `loadMesh` returns is the number of faces the line loop collects. -/
theorem loadMesh_length (sqrt : K → K) (stream : List Char) (transformation : Mat4 K)
    (cull_backface smooth : Bool) :
    (loadMesh sqrt stream transformation cull_backface smooth).length =
      (ObjParser.parseLines sqrt stream.length
        (ObjParser.new stream transformation cull_backface smooth)).faces.length := by
  unfold loadMesh ObjParser.parse
  simp only []
  split_ifs
  · rw [ObjParser.smoothNormals_length]
    rfl
  · rfl

/-- The sources of the test `MeshTest.EmptyMeshTest` yield no triangle and the source of
`MeshTest.SimpleMeshTest` yields two. -/
theorem loadMesh_test_sources :
    (loadMesh Rat.sqrt "".toList mat4_identity true true).length = 0 ∧
    (loadMesh Rat.sqrt "  \t  \n\t  \r\n \r".toList mat4_identity true true).length = 0 ∧
    (loadMesh Rat.sqrt "\n# f 0 1 2\n".toList mat4_identity true true).length = 0 ∧
    (loadMesh Rat.sqrt "v 0 0 0\nv 1 0 0\nv 1 0 1\nv 0 0 1\nf 1 2 3\nf 3 4 1".toList mat4_identity
      true true).length = 2 := by
  simp only [loadMesh_length]
  refine ⟨by decide!, by decide!, by decide!, by decide!⟩

/-- C18 (failing input). The source `v 0 0 0 / v 1 0 0 / v 0 1 0 / f 1 2 3` yields one triangle.
With the line `f 1 2` placed before the face line the source yields none, although its line
`f 1 2 3` names three vertices that are in range, pairwise distinct and not collinear: the third
index read of the line `f 1 2` consumes the letter `f` of the next line, whose rest ` 1 2 3` is
then skipped. -/
theorem loadMesh_short_face_line_drops_next_face :
    (loadMesh Rat.sqrt "v 0 0 0\nv 1 0 0\nv 0 1 0\nf 1 2 3\n".toList mat4_identity true
      true).length = 1 ∧
    (loadMesh Rat.sqrt "v 0 0 0\nv 1 0 0\nv 0 1 0\nf 1 2\nf 1 2 3\n".toList mat4_identity true
      true).length = 0 ∧
    (ObjParser.processLine Rat.sqrt
      (ObjParser.new "f 1 2\nf 1 2 3\n".toList mat4_identity true true)).stream =
      " 1 2 3\n".toList := by
  simp only [loadMesh_length]
  refine ⟨by decide!, by decide!, by decide!⟩

end MeshProofs

section WorkerLoopProofs

/-- Reading the phase of a thread after the phase of thread `i` was replaced. -/
theorem phases_set_get (l : List WorkerPhase) (i j : Nat) (old new ph : WorkerPhase)
    (hi : l.get? i = some old) :
    (l.set i new).get? j = some ph ↔ (j = i ∧ ph = new) ∨ (j ≠ i ∧ l.get? j = some ph) := by
  have hlt : i < l.length := by
    rw [List.get?_eq_getElem?] at hi
    exact (List.getElem?_eq_some_iff.mp hi).1
  rw [List.get?_eq_getElem?, List.get?_eq_getElem?, List.getElem?_set]
  by_cases hij : i = j
  · subst hij
    simp [hlt, eq_comm]
  · have hji : j ≠ i := fun h => hij h.symm
    simp [hij, hji]

/-- Counting the threads with a property after the phase of thread `i` was replaced. -/
theorem countP_set (p : WorkerPhase → Bool) (l : List WorkerPhase) :
    ∀ (i : Nat) (old new : WorkerPhase), l.get? i = some old →
      (l.set i new).countP p + (if p old then 1 else 0) =
        l.countP p + (if p new then 1 else 0) := by
  induction l with
  | nil => intro i old new h; simp at h
  | cons a l ih =>
    intro i old new h
    cases i with
    | zero =>
      simp only [List.get?_cons_zero, Option.some.injEq] at h
      subst h
      simp only [List.set_cons_zero, List.countP_cons]
      omega
    | succ i =>
      simp only [List.get?_cons_succ] at h
      have := ih i old new h
      simp only [List.set_cons_succ, List.countP_cons]
      omega

/-- The invariant holds when `doWorkParallel` starts its threads. -/
theorem doWorkParallel.start_inv (total_tile_count : Int) (queue : List WorkItem)
    (extra_threads : Nat) :
    (doWorkParallel.start queue extra_threads).Inv total_tile_count queue.length := by
  refine ⟨?_, rfl, ?_, fun _ => rfl, ?_, ?_⟩
  · intro i ph hi hh
    simp only [doWorkParallel.start, List.get?_eq_getElem?] at hi
    have := List.getElem?_mem hi
    rw [List.eq_of_mem_replicate this] at hh
    simp [WorkerPhase.holdsCallback] at hh
  · intro i previous hi
    simp only [doWorkParallel.start, List.get?_eq_getElem?] at hi
    have := List.getElem?_mem hi
    have := List.eq_of_mem_replicate this
    simp at this
  · simp only [doWorkParallel.start, List.length_nil, add_zero]
    rw [List.countP_eq_zero.mpr]
    · rfl
    · intro a ha
      rw [List.eq_of_mem_replicate ha]
      simp [WorkerPhase.inFlight]
  · intro i hi
    simp only [doWorkParallel.start, List.get?_eq_getElem?] at hi
    have := List.getElem?_mem hi
    have := List.eq_of_mem_replicate this
    simp at this

/-- Every atomic action of a thread preserves the invariant of the worker loop. -/
theorem doWork.step_inv (total_tile_count : Int) (total : Nat) (s : WorkState) (i : Nat)
    (h : s.Inv total_tile_count total) : (doWork.step total_tile_count s i).Inv total_tile_count total := by
  obtain ⟨ha, hb, hc, hd, he, hf⟩ := h
  unfold doWork.step
  cases hph : s.phases.get? i with
  | none => exact ⟨ha, hb, hc, hd, he, hf⟩
  | some ph =>
    cases ph with
    | loopTop =>
      simp only []
      split_ifs
      · refine ⟨?_, hb, ?_, ?_, ?_, ?_⟩
        · intro j pj hj hh
          rcases (phases_set_get _ _ _ _ _ _ hph).mp hj with ⟨_, h2⟩ | ⟨_, h2⟩
          · rw [h2] at hh
            simp [WorkerPhase.holdsCallback] at hh
          · exact ha j pj h2 hh
        · intro j previous hj
          rcases (phases_set_get _ _ _ _ _ _ hph).mp hj with ⟨_, h2⟩ | ⟨_, h2⟩
          · simp at h2
          · exact hc j previous h2
        · intro hno
          apply hd
          intro j previous hj
          by_cases hji : j = i
          · rw [hji, hph] at hj
            simp at hj
          · exact hno j previous ((phases_set_get _ _ _ _ _ _ hph).mpr (Or.inr ⟨hji, hj⟩))
        · have := countP_set WorkerPhase.inFlight s.phases i _ .queueLocked hph
          simp [WorkerPhase.inFlight] at this
          simp only []
          omega
        · intro j hj
          rcases (phases_set_get _ _ _ _ _ _ hph).mp hj with ⟨_, h2⟩ | ⟨_, h2⟩
          · simp at h2
          · exact hf j h2
      · exact ⟨ha, hb, hc, hd, he, hf⟩
    | queueLocked =>
      simp only []
      cases hq : s.queue with
      | nil =>
        simp only []
        refine ⟨?_, hb, ?_, ?_, ?_, ?_⟩
        · intro j pj hj hh
          rcases (phases_set_get _ _ _ _ _ _ hph).mp hj with ⟨_, h2⟩ | ⟨_, h2⟩
          · rw [h2] at hh
            simp [WorkerPhase.holdsCallback] at hh
          · exact ha j pj h2 hh
        · intro j previous hj
          rcases (phases_set_get _ _ _ _ _ _ hph).mp hj with ⟨_, h2⟩ | ⟨_, h2⟩
          · simp at h2
          · exact hc j previous h2
        · intro hno
          apply hd
          intro j previous hj
          by_cases hji : j = i
          · rw [hji, hph] at hj
            simp at hj
          · exact hno j previous ((phases_set_get _ _ _ _ _ _ hph).mpr (Or.inr ⟨hji, hj⟩))
        · have := countP_set WorkerPhase.inFlight s.phases i _ .finished hph
          simp [WorkerPhase.inFlight] at this
          rw [hq] at he
          simp only [] at he ⊢
          omega
        · intro j hj
          rfl
      | cons item rest =>
        simp only []
        refine ⟨?_, hb, ?_, ?_, ?_, ?_⟩
        · intro j pj hj hh
          rcases (phases_set_get _ _ _ _ _ _ hph).mp hj with ⟨_, h2⟩ | ⟨_, h2⟩
          · rw [h2] at hh
            simp [WorkerPhase.holdsCallback] at hh
          · exact ha j pj h2 hh
        · intro j previous hj
          rcases (phases_set_get _ _ _ _ _ _ hph).mp hj with ⟨_, h2⟩ | ⟨_, h2⟩
          · simp at h2
          · exact hc j previous h2
        · intro hno
          apply hd
          intro j previous hj
          by_cases hji : j = i
          · rw [hji, hph] at hj
            simp at hj
          · exact hno j previous ((phases_set_get _ _ _ _ _ _ hph).mpr (Or.inr ⟨hji, hj⟩))
        · have := countP_set WorkerPhase.inFlight s.phases i _ .rendering hph
          simp [WorkerPhase.inFlight] at this
          rw [hq] at he
          simp only [List.length_cons] at he ⊢
          omega
        · intro j hj
          rcases (phases_set_get _ _ _ _ _ _ hph).mp hj with ⟨_, h2⟩ | ⟨_, h2⟩
          · simp at h2
          · have := hf j h2
            rw [hq] at this
            simp at this
    | rendering =>
      simp only []
      split_ifs with hfree
      · have hnone : s.mutex_callback = none := Option.isNone_iff_eq_none.mp hfree
        refine ⟨?_, hb, ?_, ?_, ?_, ?_⟩
        · intro j pj hj hh
          rcases (phases_set_get _ _ _ _ _ _ hph).mp hj with ⟨h1, _⟩ | ⟨_, h2⟩
          · rw [h1]
          · have := ha j pj h2 hh
            rw [hnone] at this
            simp at this
        · intro j previous hj
          rcases (phases_set_get _ _ _ _ _ _ hph).mp hj with ⟨_, h2⟩ | ⟨_, h2⟩
          · simp at h2
          · exact hc j previous h2
        · intro hno
          apply hd
          intro j previous hj
          by_cases hji : j = i
          · rw [hji, hph] at hj
            simp at hj
          · exact hno j previous ((phases_set_get _ _ _ _ _ _ hph).mpr (Or.inr ⟨hji, hj⟩))
        · have := countP_set WorkerPhase.inFlight s.phases i _ .callbackLocked hph
          simp [WorkerPhase.inFlight] at this
          simp only []
          omega
        · intro j hj
          rcases (phases_set_get _ _ _ _ _ _ hph).mp hj with ⟨_, h2⟩ | ⟨_, h2⟩
          · simp at h2
          · exact hf j h2
      · exact ⟨ha, hb, hc, hd, he, hf⟩
    | callbackLocked =>
      simp only []
      have hown : s.mutex_callback = some i := ha i _ hph rfl
      have hproc : s.processed_tiles = (s.calls.length : Int) := by
        apply hd
        intro j previous hj
        have := ha j _ hj rfl
        rw [hown] at this
        have hji : j = i := (Option.some.inj this).symm
        rw [hji, hph] at hj
        simp at hj
      refine ⟨?_, hb, ?_, ?_, ?_, ?_⟩
      · intro j pj hj hh
        rcases (phases_set_get _ _ _ _ _ _ hph).mp hj with ⟨h1, _⟩ | ⟨_, h2⟩
        · rw [h1]
          exact hown
        · exact ha j pj h2 hh
      · intro j previous hj
        rcases (phases_set_get _ _ _ _ _ _ hph).mp hj with ⟨_, h2⟩ | ⟨hji, h2⟩
        · have hp : previous = s.processed_tiles := by
            simpa using h2
          rw [hp, hproc]
          exact ⟨rfl, rfl⟩
        · exfalso
          have := ha j _ h2 rfl
          rw [hown] at this
          exact hji (Option.some.inj this).symm
      · intro hno
        exfalso
        exact hno i s.processed_tiles
          ((phases_set_get _ _ _ _ _ _ hph).mpr (Or.inl ⟨rfl, rfl⟩))
      · have := countP_set WorkerPhase.inFlight s.phases i _ (.fetched s.processed_tiles) hph
        simp [WorkerPhase.inFlight] at this
        simp only []
        omega
      · intro j hj
        rcases (phases_set_get _ _ _ _ _ _ hph).mp hj with ⟨_, h2⟩ | ⟨_, h2⟩
        · simp at h2
        · exact hf j h2
    | fetched previous_progress =>
      simp only []
      have hown : s.mutex_callback = some i := ha i _ hph rfl
      obtain ⟨hprev, hproc⟩ := hc i previous_progress hph
      have hnofetch : ∀ j previous,
          (s.phases.set i .inCallback).get? j ≠ some (.fetched previous) := by
        intro j previous hj
        rcases (phases_set_get _ _ _ _ _ _ hph).mp hj with ⟨_, h2⟩ | ⟨hji, h2⟩
        · simp at h2
        · have := ha j _ h2 rfl
          rw [hown] at this
          exact hji (Option.some.inj this).symm
      refine ⟨?_, ?_, ?_, ?_, ?_, ?_⟩
      · intro j pj hj hh
        rcases (phases_set_get _ _ _ _ _ _ hph).mp hj with ⟨h1, _⟩ | ⟨_, h2⟩
        · rw [h1]
          exact hown
        · exact ha j pj h2 hh
      · simp only [List.length_append, List.length_singleton]
        rw [List.range_succ, List.map_append, ← hb, hprev]
        rfl
      · intro j previous hj
        exact absurd hj (hnofetch j previous)
      · intro _
        simp only [List.length_append, List.length_singleton]
        rw [hproc]
        push_cast
        rfl
      · have := countP_set WorkerPhase.inFlight s.phases i _ .inCallback hph
        simp [WorkerPhase.inFlight] at this
        simp only [List.length_append, List.length_singleton]
        omega
      · intro j hj
        rcases (phases_set_get _ _ _ _ _ _ hph).mp hj with ⟨_, h2⟩ | ⟨_, h2⟩
        · simp at h2
        · exact hf j h2
    | inCallback =>
      simp only []
      have hown : s.mutex_callback = some i := ha i _ hph rfl
      refine ⟨?_, hb, ?_, ?_, ?_, ?_⟩
      · intro j pj hj hh
        rcases (phases_set_get _ _ _ _ _ _ hph).mp hj with ⟨_, h2⟩ | ⟨hji, h2⟩
        · rw [h2] at hh
          simp [WorkerPhase.holdsCallback] at hh
        · exfalso
          have := ha j pj h2 hh
          rw [hown] at this
          exact hji (Option.some.inj this).symm
      · intro j previous hj
        rcases (phases_set_get _ _ _ _ _ _ hph).mp hj with ⟨_, h2⟩ | ⟨_, h2⟩
        · simp at h2
        · exact hc j previous h2
      · intro hno
        apply hd
        intro j previous hj
        by_cases hji : j = i
        · rw [hji, hph] at hj
          simp at hj
        · exact hno j previous ((phases_set_get _ _ _ _ _ _ hph).mpr (Or.inr ⟨hji, hj⟩))
      · have := countP_set WorkerPhase.inFlight s.phases i _ .loopTop hph
        simp [WorkerPhase.inFlight] at this
        simp only []
        omega
      · intro j hj
        rcases (phases_set_get _ _ _ _ _ _ hph).mp hj with ⟨_, h2⟩ | ⟨_, h2⟩
        · simp at h2
        · exact hf j h2
    | finished => exact ⟨ha, hb, hc, hd, he, hf⟩

/-- The invariant holds in every state `doWorkParallel` reaches. -/
theorem doWorkParallel.run_inv (total_tile_count : Int) (queue : List WorkItem)
    (extra_threads : Nat) (schedule : List Nat) :
    (doWorkParallel.run total_tile_count queue extra_threads schedule).Inv total_tile_count
      queue.length := by
  unfold doWorkParallel.run
  have key : ∀ (sched : List Nat) (s : WorkState), s.Inv total_tile_count queue.length →
      (sched.foldl (doWork.step total_tile_count) s).Inv total_tile_count queue.length := by
    intro sched
    induction sched with
    | nil => intro s hs; exact hs
    | cons i rest ih =>
      intro s hs
      exact ih _ (doWork.step_inv total_tile_count queue.length s i hs)
  exact key schedule _ (doWorkParallel.start_inv total_tile_count queue extra_threads)

/-- Every action keeps the number of threads. -/
theorem doWork.step_phases_length (total_tile_count : Int) (s : WorkState) (i : Nat) :
    (doWork.step total_tile_count s i).phases.length = s.phases.length := by
  unfold doWork.step
  split
  · rfl
  · split_ifs <;> simp
  · split <;> simp
  · split_ifs <;> simp
  · simp
  · simp
  · simp
  · rfl

/-- The number of threads in every reached state is the number of spawned threads plus one. -/
theorem doWorkParallel.run_phases_length (total_tile_count : Int) (queue : List WorkItem)
    (extra_threads : Nat) (schedule : List Nat) :
    (doWorkParallel.run total_tile_count queue extra_threads schedule).phases.length =
      extra_threads + 1 := by
  unfold doWorkParallel.run
  have key : ∀ (sched : List Nat) (s : WorkState),
      (sched.foldl (doWork.step total_tile_count) s).phases.length = s.phases.length := by
    intro sched
    induction sched with
    | nil => intro s; rfl
    | cons i rest ih =>
      intro s
      rw [List.foldl_cons, ih, doWork.step_phases_length]
  rw [key]
  simp [doWorkParallel.start]

/-- The length of a list built by two nested loops with a fixed inner length. -/
theorem length_flatMap_const (l : List Nat) (f : Nat → List WorkItem) (n : Nat)
    (h : ∀ a, (f a).length = n) : (l.flatMap f).length = l.length * n := by
  induction l with
  | nil => simp
  | cons a l ih =>
    rw [List.flatMap_cons, List.length_append, ih, h a, List.length_cons]
    ring

/-- The queue built by `processJob` holds `total_tile_count` items. -/
theorem processJob_queue_length (width height : Int) (hw : 0 ≤ width) (hh : 0 ≤ height) :
    ((processJob_queue width height).length : Int) = total_tile_count width height := by
  have hts := tile_size_pos width height
  have h1 : 0 ≤ tile_count width (tile_size width height) := by
    unfold tile_count
    exact Int.tdiv_nonneg (by omega) (by omega)
  have h2 : 0 ≤ tile_count height (tile_size width height) := by
    unfold tile_count
    exact Int.tdiv_nonneg (by omega) (by omega)
  unfold processJob_queue total_tile_count
  simp only []
  rw [length_flatMap_const _ _ (tile_count width (tile_size width height)).toNat
    (fun a => by simp)]
  rw [List.length_range, Nat.cast_mul, Int.toNat_of_nonneg h1, Int.toNat_of_nonneg h2]
  ring

/-- With one spawned thread and the calling thread, a 2 x 1 image (two tiles) and the schedule in
which the threads alternate, both threads leave the loop and the callback has received `(1, 2)`
and `(2, 2)`. -/
theorem processJob_reached_example :
    (processJob.reached 2 1 1 [0, 0, 1, 1, 0, 0, 0, 0, 1, 1, 1, 1, 0, 0, 1, 1]).phases =
      [.finished, .finished] ∧
    (processJob.reached 2 1 1 [0, 0, 1, 1, 0, 0, 0, 0, 1, 1, 1, 1, 0, 0, 1, 1]).calls =
      [(1, 2), (2, 2)] := by
  decide

end WorkerLoopProofs

section ParallelProofs
variable {K R : Type} [LinearOrderedField K]

/-- The scene of the example is the one the constructor builds for the triangle alone. -/
theorem edgeScene_constructed : Scene.new zeroArea [edgeTriangle] = some edgeScene :=
  Scene.new_singleton zeroArea edgeTriangle

/-- C15 (counterexample). Two runs of `processJob` on the same job with two workers and the
same master seed 2 produce different images: when the first worker takes the first tile its
pixel has alpha 1, and when the second worker takes it the pixel has alpha 0. -/
theorem processJob_parallel_depends_on_assignment :
    processJob dyadicSqrt edgeShading edgeJob 8 2 4 2 [0, 1] =
      some ⟨2, 1, [⟨0, 0, 0, 1⟩, ⟨0, 0, 0, 0⟩]⟩ ∧
    processJob dyadicSqrt edgeShading edgeJob 8 2 4 2 [1, 0] =
      some ⟨2, 1, [⟨0, 0, 0, 0⟩, ⟨0, 0, 0, 0⟩]⟩ ∧
    processJob dyadicSqrt edgeShading edgeJob 8 2 4 2 [0, 1] ≠
      processJob dyadicSqrt edgeShading edgeJob 8 2 4 2 [1, 0] := by
  refine ⟨by decide!, by decide!, by decide!⟩

end ParallelProofs

section ThreadProofs
variable {K : Type} [LinearOrderedField K]

/-- One item of the loop of `doWorkParallel.render`. -/
theorem doWorkParallel.render_cons (sqrt : K → K) (sh : Shading K Nat) (job : FrameRenderJob K)
    (fuel : Nat) (item : WorkItem) (queue : List WorkItem) (worker : Nat)
    (assignment : List Nat) (engines : List Nat) (output_image : Image K) :
    doWorkParallel.render sqrt sh job fuel (item :: queue) (worker :: assignment) engines
      output_image =
      match engines.get? worker with
      | none => none
      | some re =>
        match processItem sqrt sh job fuel item re with
        | none => none
        | some (tile_image, re) =>
          doWorkParallel.render sqrt sh job fuel queue assignment (engines.set worker re)
            (copyTile item tile_image output_image) := by
  rw [doWorkParallel.render]
  cases engines.get? worker with
  | none => rfl
  | some re =>
    simp only []
    cases processItem sqrt sh job fuel item re with
    | none => rfl
    | some res => rfl

/-- In a scene without any intersection every tile is rendered, to a blank tile. -/
theorem processItem_miss (sqrt : K → K) (sh : Shading K Nat) (job : FrameRenderJob K)
    (fuel : Nat) (h : ∀ ray, (job.scene.getIntersection sqrt ray).1 < 0) (item : WorkItem)
    (re : Nat) :
    ∃ tile_image re2, processItem sqrt sh job (fuel + 1) item re = some (tile_image, re2) ∧
      tile_image.isBlank item.width item.height := by
  unfold processItem
  exact processItem.rows_miss sqrt sh job fuel h item item.width item.height
    (List.range item.height.toNat) (Image.new item.width item.height) re (Image.isBlank_new _ _)

/-- In a scene without any intersection the workers of `doWorkParallel` leave a blank image,
whichever worker takes which item. -/
theorem doWorkParallel.render_miss (sqrt : K → K) (sh : Shading K Nat) (job : FrameRenderJob K)
    (fuel : Nat) (h : ∀ ray, (job.scene.getIntersection sqrt ray).1 < 0) (w ht : Int)
    (queue : List WorkItem) :
    ∀ (assignment engines : List Nat) (output_image : Image K), output_image.isBlank w ht →
      (∀ worker ∈ assignment, worker < engines.length) → queue.length ≤ assignment.length →
      ∃ image, doWorkParallel.render sqrt sh job (fuel + 1) queue assignment engines
        output_image = some image ∧ image.isBlank w ht := by
  induction queue with
  | nil =>
    intro assignment engines output_image hb _ _
    exact ⟨output_image, by rw [doWorkParallel.render], hb⟩
  | cons item rest ih =>
    intro assignment engines output_image hb hw hl
    cases assignment with
    | nil => simp at hl
    | cons worker assignment =>
      have hlt : worker < engines.length := hw worker (List.mem_cons_self _ _)
      obtain ⟨tile, re2, h1, hb1⟩ := processItem_miss sqrt sh job fuel h item (engines.get ⟨worker, hlt⟩)
      obtain ⟨image, h2, hb2⟩ := ih assignment (engines.set worker re2)
        (copyTile item tile output_image)
        (copyTile_blank item tile output_image _ _ w ht hb1 hb)
        (fun x hx => by
          rw [List.length_set]
          exact hw x (List.mem_cons_of_mem _ hx))
        (by simpa using hl)
      refine ⟨image, ?_, hb2⟩
      rw [doWorkParallel.render_cons, List.get?_eq_get hlt]
      simp only [h1]
      exact h2

/-- The number of engines `doWorkParallel` creates. -/
theorem doWorkParallel.engines_length (workers re : Nat) :
    (doWorkParallel.engines workers re).length = workers := by
  induction workers generalizing re with
  | zero => rfl
  | succ n ih => simp [doWorkParallel.engines, ih]

/-- The positions of the threads and the queue evolve as in `doWork.step`. -/
theorem doWork.renderStep_work (sqrt : K → K) (sh : Shading K Nat) (job : FrameRenderJob K)
    (fuel : Nat) (total_tile_count : Int) (s : RenderState K) (i : Nat) :
    (doWork.renderStep sqrt sh job fuel total_tile_count s i).work =
      doWork.step total_tile_count s.work i := by
  unfold doWork.renderStep
  split <;> rfl

/-- The positions of the threads and the queue under a schedule are those of
`doWorkParallel.run`. -/
theorem doWorkParallel.runRender_work (sqrt : K → K) (sh : Shading K Nat)
    (job : FrameRenderJob K) (fuel : Nat) (total_tile_count : Int) (queue : List WorkItem)
    (extra_threads : Nat) (engines : List Nat) (output_image : Image K) (schedule : List Nat) :
    (doWorkParallel.runRender sqrt sh job fuel total_tile_count queue extra_threads engines
      output_image schedule).work =
      doWorkParallel.run total_tile_count queue extra_threads schedule := by
  unfold doWorkParallel.runRender doWorkParallel.run
  have key : ∀ (sched : List Nat) (s : RenderState K),
      (sched.foldl (doWork.renderStep sqrt sh job fuel total_tile_count) s).work =
        sched.foldl (doWork.step total_tile_count) s.work := by
    intro sched
    induction sched with
    | nil => intro s; rfl
    | cons i rest ih =>
      intro s
      rw [List.foldl_cons, List.foldl_cons, ih, doWork.renderStep_work]
  rw [key]
  rfl

/-- An action changes the queue only by taking its first item, which only a thread holding
`mutex_queue` does. -/
theorem doWork.step_queue (total_tile_count : Int) (s : WorkState) (i : Nat) :
    (doWork.step total_tile_count s i).queue =
      if s.phases.get? i = some .queueLocked then s.queue.tail else s.queue := by
  unfold doWork.step
  cases hph : s.phases.get? i with
  | none => simp
  | some ph =>
    cases ph with
    | loopTop => simp only []; split_ifs <;> simp_all
    | queueLocked =>
      simp only []
      cases s.queue <;> simp
    | rendering => simp only []; split_ifs <;> simp_all
    | callbackLocked => simp
    | fetched p => simp
    | inCallback => simp
    | finished => simp

/-- Every action of a thread keeps the invariant that ties the threads to the loop of
`doWorkParallel.render`. -/
theorem doWork.renderStep_inv (sqrt : K → K) (sh : Shading K Nat) (job : FrameRenderJob K)
    (fuel : Nat) (total_tile_count : Int) (queue : List WorkItem) (engines : List Nat)
    (output_image : Image K) (s : RenderState K) (i : Nat)
    (h : s.Inv sqrt sh job fuel queue engines output_image) :
    (doWork.renderStep sqrt sh job fuel total_tile_count s i).Inv sqrt sh job fuel queue engines
      output_image := by
  obtain ⟨h1, h0, h2, h3⟩ := h
  have hlen := doWork.step_phases_length total_tile_count s.work i
  have hq := doWork.step_queue total_tile_count s.work i
  unfold RenderState.Inv doWork.renderStep
  split
  · rename_i item tail hph hqueue
    simp only []
    rw [hq, if_pos hph, hqueue, List.tail_cons, hlen]
    have hlt : s.taken.length < queue.length := by
      by_contra hcon
      rw [List.drop_eq_nil_of_le (by omega)] at h1
      rw [h1] at hqueue
      exact absurd hqueue (by simp)
    refine ⟨?_, ?_, ?_, ?_⟩
    · rw [List.length_append, List.length_singleton, ← List.drop_drop, ← h1, hqueue]
      rfl
    · rw [List.length_append, List.length_singleton]
      omega
    · intro worker hw
      rw [List.mem_append, List.mem_singleton] at hw
      rcases hw with hw | hw
      · exact h2 worker hw
      · rw [hw]
        by_contra hcon
        rw [List.get?_eq_none.mpr (by omega)] at hph
        exact absurd hph (by simp)
    · intro rest
      rw [List.append_assoc, List.singleton_append, h3 (i :: rest), hqueue]
      cases s.render with
      | none => rfl
      | some r =>
        obtain ⟨img, e⟩ := r
        simp only []
        rw [doWorkParallel.render_cons]
        cases e.get? i with
        | none => rfl
        | some re =>
          simp only []
          cases processItem sqrt sh job fuel item re with
          | none => rfl
          | some res => rfl
  · rename_i hneg
    simp only []
    have hsame : (doWork.step total_tile_count s.work i).queue = s.work.queue := by
      rw [hq]
      split_ifs with hph
      · cases hqueue : s.work.queue with
        | nil => rfl
        | cons item tail => exact absurd hqueue (hneg item tail hph)
      · rfl
    rw [hsame, hlen]
    exact ⟨h1, h0, h2, h3⟩

/-- The invariant holds in every state the threads reach. -/
theorem doWorkParallel.runRender_inv (sqrt : K → K) (sh : Shading K Nat)
    (job : FrameRenderJob K) (fuel : Nat) (total_tile_count : Int) (queue : List WorkItem)
    (extra_threads : Nat) (engines : List Nat) (output_image : Image K) (schedule : List Nat) :
    (doWorkParallel.runRender sqrt sh job fuel total_tile_count queue extra_threads engines
      output_image schedule).Inv sqrt sh job fuel queue engines output_image := by
  unfold doWorkParallel.runRender
  have key : ∀ (sched : List Nat) (s : RenderState K),
      s.Inv sqrt sh job fuel queue engines output_image →
      (sched.foldl (doWork.renderStep sqrt sh job fuel total_tile_count) s).Inv sqrt sh job fuel
        queue engines output_image := by
    intro sched
    induction sched with
    | nil => intro s hs; exact hs
    | cons i rest ih =>
      intro s hs
      rw [List.foldl_cons]
      exact ih _ (doWork.renderStep_inv sqrt sh job fuel total_tile_count queue engines
        output_image s i hs)
  apply key
  refine ⟨rfl, Nat.zero_le _, fun worker hw => ?_, fun rest => rfl⟩
  simp [doWorkParallel.startRender] at hw

/-- Once every thread has left the loop, every item has left the queue, each taken by one of
the threads, and the output image is the image of `doWorkParallel.render` under the log of the
threads that took the items. -/
theorem doWorkParallel.runRender_joined (sqrt : K → K) (sh : Shading K Nat)
    (job : FrameRenderJob K) (fuel : Nat) (total_tile_count : Int) (queue : List WorkItem)
    (extra_threads : Nat) (engines : List Nat) (output_image : Image K) (schedule : List Nat)
    (hj : (doWorkParallel.runRender sqrt sh job fuel total_tile_count queue extra_threads engines
      output_image schedule).joined) :
    (doWorkParallel.runRender sqrt sh job fuel total_tile_count queue extra_threads engines
      output_image schedule).taken.length = queue.length ∧
    (∀ worker ∈ (doWorkParallel.runRender sqrt sh job fuel total_tile_count queue extra_threads
      engines output_image schedule).taken, worker < extra_threads + 1) ∧
    (doWorkParallel.runRender sqrt sh job fuel total_tile_count queue extra_threads engines
      output_image schedule).output_image =
      doWorkParallel.render sqrt sh job fuel queue
        (doWorkParallel.runRender sqrt sh job fuel total_tile_count queue extra_threads engines
          output_image schedule).taken engines output_image := by
  obtain ⟨h1, h0, h2, h3⟩ := doWorkParallel.runRender_inv sqrt sh job fuel total_tile_count queue
    extra_threads engines output_image schedule
  have hwork := doWorkParallel.runRender_work sqrt sh job fuel total_tile_count queue
    extra_threads engines output_image schedule
  have hinv := doWorkParallel.run_inv total_tile_count queue extra_threads schedule
  have hlen := doWorkParallel.run_phases_length total_tile_count queue extra_threads schedule
  rw [← hwork] at hinv hlen
  generalize doWorkParallel.runRender sqrt sh job fuel total_tile_count queue extra_threads
    engines output_image schedule = s at h1 h0 h2 h3 hinv hlen hj
  have hfirst : s.work.phases.get? 0 = some .finished := by
    cases hp : s.work.phases with
    | nil => rw [hp] at hlen; simp at hlen
    | cons ph rest =>
      have := hj ph (by rw [hp]; exact List.mem_cons_self _ _)
      rw [this]
      rfl
  have hempty : s.work.queue = [] := hinv.2.2.2.2.2 0 hfirst
  have hge : queue.length ≤ s.taken.length := by
    rw [hempty] at h1
    exact List.drop_eq_nil_iff.mp h1.symm
  refine ⟨by omega, fun worker hw => by rw [← hlen]; exact h2 worker hw, ?_⟩
  have h4 := h3 []
  rw [List.append_nil, hempty] at h4
  rw [h4]
  unfold RenderState.output_image
  cases s.render with
  | none => rfl
  | some r => simp [doWorkParallel.render]

/-- In a scene without any intersection the output image is blank in every state the threads
reach, under every schedule. -/
theorem doWorkParallel.runRender_miss (sqrt : K → K) (sh : Shading K Nat)
    (job : FrameRenderJob K) (fuel : Nat) (h : ∀ ray, (job.scene.getIntersection sqrt ray).1 < 0)
    (total_tile_count : Int) (queue : List WorkItem) (extra_threads : Nat) (engines : List Nat)
    (he : engines.length = extra_threads + 1) (w ht : Int) (output_image : Image K)
    (hb : output_image.isBlank w ht) (schedule : List Nat) :
    ∃ image, (doWorkParallel.runRender sqrt sh job (fuel + 1) total_tile_count queue
      extra_threads engines output_image schedule).output_image = some image ∧
      image.isBlank w ht := by
  unfold doWorkParallel.runRender
  have key : ∀ (sched : List Nat) (s : RenderState K),
      (∃ image e, s.render = some (image, e) ∧ image.isBlank w ht ∧
        e.length = s.work.phases.length) →
      ∃ image e, (sched.foldl (doWork.renderStep sqrt sh job (fuel + 1) total_tile_count)
        s).render = some (image, e) ∧ image.isBlank w ht ∧
        e.length = (sched.foldl (doWork.renderStep sqrt sh job (fuel + 1) total_tile_count)
          s).work.phases.length := by
    intro sched
    induction sched with
    | nil => intro s hs; exact hs
    | cons i rest ih =>
      intro s hs
      rw [List.foldl_cons]
      apply ih
      obtain ⟨image, e, hr, hbl, hel⟩ := hs
      have hlen := doWork.step_phases_length total_tile_count s.work i
      unfold doWork.renderStep
      split
      · rename_i item tail hph hqueue
        simp only []
        have hi : i < e.length := by
          by_contra hcon
          rw [List.get?_eq_none.mpr (by omega)] at hph
          exact absurd hph (by simp)
        obtain ⟨tile, re2, hp, hbt⟩ := processItem_miss sqrt sh job fuel h item (e.get ⟨i, hi⟩)
        refine ⟨copyTile item tile image, e.set i re2, ?_,
          copyTile_blank item tile image _ _ w ht hbt hbl, ?_⟩
        · rw [hr]
          simp only []
          rw [List.get?_eq_get hi]
          simp only [hp]
        · rw [List.length_set, hlen, hel]
      · simp only []
        exact ⟨image, e, hr, hbl, by rw [hlen, hel]⟩
  obtain ⟨image, e, hr, hbl, _⟩ := key schedule
    (doWorkParallel.startRender queue extra_threads engines output_image)
    ⟨output_image, engines, rfl, hb, by simp [doWorkParallel.startRender,
      doWorkParallel.start, he]⟩
  exact ⟨image, by unfold RenderState.output_image; rw [hr]; rfl, hbl⟩

end ThreadProofs

section EmptySceneProofs
variable {K : Type} [LinearOrderedField K]

/-- On a machine whose hardware concurrency is 0 or 1, the default `worker_count <= 0` makes
`doWorkParallel` call `extra_threads.reserve` with a negative count, which throws. -/
theorem doWorkParallel_extra_threads_single_core (worker_count : Int)
    (hardware_concurrency : Nat) (hw : worker_count ≤ 0) (hc : hardware_concurrency ≤ 1) :
    doWorkParallel_extra_threads worker_count hardware_concurrency = none := by
  unfold doWorkParallel_extra_threads
  simp only [hw, if_true]
  rw [if_pos (by omega)]

/-- C4 (failing input and what holds otherwise). A scene built from an empty object list reports
no intersection for every ray. Whenever `doWorkParallel` gets to start its threads, `processJob`
on that scene returns, for every image size, all sample counts, every master seed and whichever
worker takes which tile, an image of the requested extent in which every pixel is exactly
`(0, 0, 0, 0)`, and the output image is all zero in every state the threads reach under every
schedule. With the default `worker_count <= 0` on a machine whose hardware concurrency is 0 or
1, `processJob` returns no image for any positive image size: `doWorkParallel` throws
`std::length_error` before it starts a thread. -/
theorem empty_scene_renders_all_zero (sqrt : K → K) (sh : Shading K Nat) (uninit : AABBArea K)
    (options : RenderOptions K) (fuel : Nat) (master_seed : Nat) :
    ∃ scene, Scene.new uninit ([] : List (Object K)) = some scene ∧
      (∀ ray, (scene.getIntersection sqrt ray).1 < 0) ∧
      (∀ (worker_count : Int) (hardware_concurrency extra_threads : Nat)
        (assignment : List Nat),
        doWorkParallel_extra_threads worker_count hardware_concurrency = some extra_threads →
        (∀ worker ∈ assignment, worker < extra_threads + 1) →
        (processJob_queue (max options.image_width 0) (max options.image_height 0)).length ≤
          assignment.length →
        ∃ image, processJob sqrt sh ⟨scene, options⟩ (fuel + 1) worker_count
            hardware_concurrency master_seed assignment = some image ∧
          image.width = max options.image_width 0 ∧ image.height = max options.image_height 0 ∧
          image.data.length = (image.width * image.height).toNat ∧
          ∀ x y : Int, image.get x y = Color.zero) ∧
      (∀ (worker_count : Int) (hardware_concurrency : Nat) (schedule : List Nat)
        (s : RenderState K),
        processJob.threads sqrt sh ⟨scene, options⟩ (fuel + 1) worker_count
          hardware_concurrency master_seed schedule = some s →
        ∃ image, s.output_image = some image ∧
          image.width = max options.image_width 0 ∧ image.height = max options.image_height 0 ∧
          image.data.length = (image.width * image.height).toNat ∧
          ∀ x y : Int, image.get x y = Color.zero) ∧
      (∀ (worker_count : Int) (hardware_concurrency : Nat) (assignment : List Nat),
        0 < options.image_width → 0 < options.image_height → worker_count ≤ 0 →
        hardware_concurrency ≤ 1 →
        processJob sqrt sh ⟨scene, options⟩ (fuel + 1) worker_count hardware_concurrency
          master_seed assignment = none ∧
        processJob.threads sqrt sh ⟨scene, options⟩ (fuel + 1) worker_count
          hardware_concurrency master_seed assignment = none) := by
  have hmiss := Scene.getIntersection_null_leaf sqrt uninit
  refine ⟨_, Scene.new_nil uninit, hmiss, ?_, ?_, ?_⟩
  · intro worker_count hardware_concurrency extra_threads assignment hx hw hl
    have hres : ∃ image, processJob sqrt sh ⟨⟨.leafNode uninit NullObject⟩, options⟩ (fuel + 1)
        worker_count hardware_concurrency master_seed assignment = some image ∧
        image.isBlank (max options.image_width 0) (max options.image_height 0) := by
      unfold processJob
      simp only []
      split_ifs
      · exact ⟨_, rfl, Image.isBlank_new _ _⟩
      · rw [hx]
        simp only []
        exact doWorkParallel.render_miss sqrt sh ⟨⟨.leafNode uninit NullObject⟩, options⟩ fuel
          hmiss _ _ _ assignment _ _ (Image.isBlank_new _ _)
          (fun worker hwk => by
            rw [doWorkParallel.engines_length]
            exact hw worker hwk) hl
    obtain ⟨image, h1, hb⟩ := hres
    refine ⟨image, h1, hb.1, hb.2.1, ?_, fun x y => Image.get_of_isBlank image _ _ x y hb⟩
    rw [hb.1, hb.2.1]
    exact hb.2.2.1
  · intro worker_count hardware_concurrency schedule s hs
    have hres : ∃ image, s.output_image = some image ∧
        image.isBlank (max options.image_width 0) (max options.image_height 0) := by
      unfold processJob.threads at hs
      simp only [] at hs
      split_ifs at hs
      · simp only [Option.some.injEq] at hs
        rw [← hs]
        exact ⟨_, rfl, Image.isBlank_new _ _⟩
      · cases hx : doWorkParallel_extra_threads worker_count hardware_concurrency with
        | none => rw [hx] at hs; exact absurd hs (by simp)
        | some extra_threads =>
          rw [hx] at hs
          simp only [Option.some.injEq] at hs
          obtain ⟨image, h1, hb⟩ := doWorkParallel.runRender_miss sqrt sh
            ⟨⟨.leafNode uninit NullObject⟩, options⟩ fuel hmiss
            (total_tile_count (max options.image_width 0) (max options.image_height 0))
            (processJob_queue (max options.image_width 0) (max options.image_height 0))
            extra_threads
            (doWorkParallel.engines (extra_threads + 1) (xorshift.new master_seed))
            (doWorkParallel.engines_length _ _) _ _ (Image.new _ _) (Image.isBlank_new _ _)
            schedule
          rw [hs] at h1
          exact ⟨image, h1, hb⟩
    obtain ⟨image, h1, hb⟩ := hres
    refine ⟨image, h1, hb.1, hb.2.1, ?_, fun x y => Image.get_of_isBlank image _ _ x y hb⟩
    rw [hb.1, hb.2.1]
    exact hb.2.2.1
  · intro worker_count hardware_concurrency assignment hw hh hwc hhc
    have hx := doWorkParallel_extra_threads_single_core worker_count hardware_concurrency hwc hhc
    constructor
    · unfold processJob
      simp only []
      rw [if_neg (by
        intro hz
        rcases hz with hz | hz
        · rw [max_eq_left (le_of_lt hw)] at hz; omega
        · rw [max_eq_left (le_of_lt hh)] at hz; omega), hx]
    · unfold processJob.threads
      simp only []
      rw [if_neg (by
        intro hz
        rcases hz with hz | hz
        · rw [max_eq_left (le_of_lt hw)] at hz; omega
        · rw [max_eq_left (le_of_lt hh)] at hz; omega), hx]

/-- The call `processJob(job)` of the test `RenderTest.EmptySceneRenderTest` (default
`worker_count = 0`): on a machine with hardware concurrency 1 it returns no image; with hardware
concurrency 2 the calling thread renders the one tile and the pixel is `(0, 0, 0, 0)`. -/
theorem emptySceneJob_single_core :
    processJob dyadicSqrt edgeShading emptySceneJob 1 0 1 2 [0] = none ∧
    processJob dyadicSqrt edgeShading emptySceneJob 1 0 0 2 [0] = none ∧
    processJob dyadicSqrt edgeShading emptySceneJob 1 0 2 2 [0] =
      some ⟨1, 1, [⟨0, 0, 0, 0⟩]⟩ := by
  refine ⟨by decide!, by decide!, by decide!⟩

end EmptySceneProofs

section ReproducibilityProofs
variable {K : Type} [LinearOrderedField K]

/-- The k-th engine `doWorkParallel` creates is seeded with the k-th output of the master
engine (counting from 0). -/
theorem doWorkParallel.engines_get (workers : Nat) :
    ∀ (re k : Nat), k < workers →
      (doWorkParallel.engines workers re).get? k =
        some (xorshift.new (xorshift.next ((fun s => (xorshift.next s).2)^[k] re)).1) := by
  induction workers with
  | zero => intro re k hk; omega
  | succ n ih =>
    intro re k hk
    cases k with
    | zero => rfl
    | succ k =>
      rw [Function.iterate_succ_apply]
      exact ih _ k (by omega)

/-- The image the threads of `processJob` leave when all of them have left the loop is the
image of `processJob` under the log of the threads that took the tiles; the log has an entry for
every tile, and with a single worker every entry is 0. -/
theorem processJob.threads_joined (sqrt : K → K) (sh : Shading K Nat) (job : FrameRenderJob K)
    (fuel : Nat) (worker_count : Int) (hardware_concurrency master_seed : Nat)
    (schedule : List Nat) (s : RenderState K)
    (h : processJob.threads sqrt sh job fuel worker_count hardware_concurrency master_seed
      schedule = some s) (hj : s.joined) :
    s.output_image = processJob sqrt sh job fuel worker_count hardware_concurrency master_seed
      s.taken ∧
    (doWorkParallel_extra_threads worker_count hardware_concurrency = some 0 →
      s.taken = List.replicate s.taken.length 0) ∧
    (s.taken.length = 0 ∨ s.taken.length = (processJob_queue (max job.options.image_width 0)
      (max job.options.image_height 0)).length) := by
  unfold processJob.threads at h
  unfold processJob
  simp only [] at h ⊢
  split_ifs at h ⊢ with hz
  · simp only [Option.some.injEq] at h
    rw [← h]
    exact ⟨rfl, fun _ => rfl, Or.inl rfl⟩
  · cases hx : doWorkParallel_extra_threads worker_count hardware_concurrency with
    | none => rw [hx] at h; exact absurd h (by simp)
    | some extra_threads =>
      rw [hx] at h
      simp only [Option.some.injEq] at h ⊢
      rw [← h] at hj ⊢
      obtain ⟨j1, j2, j3⟩ := doWorkParallel.runRender_joined sqrt sh job fuel _ _ extra_threads
        _ _ schedule hj
      refine ⟨j3, fun hone => ?_, Or.inr j1⟩
      have hzero : extra_threads = 0 := hone
      exact List.eq_replicate_iff.mpr ⟨rfl, fun w hw => by have := j2 w hw; omega⟩

/-- C15 (amended). Every worker's engine is seeded from the single master engine: for every
number of workers, the k-th worker created is seeded with the k-th output of the master engine
(both counted from 0). For two runs of `processJob` on the same job with the same master seed, under any two schedules
of the threads after which all threads have left the loop: the image each run leaves is the
image of `processJob` under the assignment of tiles to workers that the run produced; the two
images are identical if every tile was taken by the same worker in both runs; and they are
identical if there is a single worker (no thread is spawned besides the calling thread). -/
theorem processJob_reproducible_given_assignment (sqrt : K → K) (sh : Shading K Nat)
    (job : FrameRenderJob K) (fuel : Nat) (worker_count : Int)
    (hardware_concurrency master_seed : Nat) (schedule1 schedule2 : List Nat)
    (s1 s2 : RenderState K)
    (h1 : processJob.threads sqrt sh job fuel worker_count hardware_concurrency master_seed
      schedule1 = some s1)
    (h2 : processJob.threads sqrt sh job fuel worker_count hardware_concurrency master_seed
      schedule2 = some s2)
    (hj1 : s1.joined) (hj2 : s2.joined) :
    (∀ (workers k : Nat), k < workers →
      (doWorkParallel.engines workers (xorshift.new master_seed)).get? k =
        some (xorshift.new (xorshift.next
          ((fun s => (xorshift.next s).2)^[k] (xorshift.new master_seed))).1)) ∧
    s1.output_image = processJob sqrt sh job fuel worker_count hardware_concurrency
      master_seed s1.taken ∧
    s2.output_image = processJob sqrt sh job fuel worker_count hardware_concurrency
      master_seed s2.taken ∧
    (s1.taken = s2.taken → s1.output_image = s2.output_image) ∧
    (doWorkParallel_extra_threads worker_count hardware_concurrency = some 0 →
      s1.output_image = s2.output_image) := by
  obtain ⟨o1, r1, l1⟩ := processJob.threads_joined sqrt sh job fuel worker_count
    hardware_concurrency master_seed schedule1 s1 h1 hj1
  obtain ⟨o2, r2, l2⟩ := processJob.threads_joined sqrt sh job fuel worker_count
    hardware_concurrency master_seed schedule2 s2 h2 hj2
  have hsame : s1.taken = s2.taken → s1.output_image = s2.output_image := by
    intro ht
    rw [o1, o2, ht]
  refine ⟨fun workers k hk => doWorkParallel.engines_get workers _ k hk, o1, o2, hsame,
    fun hone => hsame ?_⟩
  have hlen : s1.taken.length = s2.taken.length := by
    unfold processJob.threads at h1 h2
    simp only [] at h1 h2
    split_ifs at h1 h2 with hz
    · simp only [Option.some.injEq] at h1 h2
      rw [← h1, ← h2]
    · cases hx : doWorkParallel_extra_threads worker_count hardware_concurrency with
      | none => rw [hx] at h1; exact absurd h1 (by simp)
      | some extra_threads =>
        rw [hx] at h1 h2
        simp only [Option.some.injEq] at h1 h2
        rw [← h1] at hj1
        rw [← h2] at hj2
        have j1 := (doWorkParallel.runRender_joined sqrt sh job fuel _ _ extra_threads _ _
          schedule1 hj1).1
        have j2 := (doWorkParallel.runRender_joined sqrt sh job fuel _ _ extra_threads _ _
          schedule2 hj2).1
        rw [← h1, ← h2, j1, j2]
  rw [r1 hone, r2 hone, hlen]

/-- C15 (amended) at two runs of `edgeJob` with a single worker and master seed 2 under two
different schedules: in the second the worker is interrupted by turns of threads that do not
exist and is scheduled again after it has finished. Both runs leave the same image. -/
theorem processJob_reproducible_given_assignment_witness :
    processJob.threads dyadicSqrt edgeShading edgeJob 8 1 4 2 oneThread =
      some (edgeThreads 0 oneThread) ∧
    processJob.threads dyadicSqrt edgeShading edgeJob 8 1 4 2 oneThreadInterrupted =
      some (edgeThreads 0 oneThreadInterrupted) ∧
    (edgeThreads 0 oneThread).joined ∧ (edgeThreads 0 oneThreadInterrupted).joined ∧
    oneThread ≠ oneThreadInterrupted ∧ doWorkParallel_extra_threads 1 4 = some 0 ∧
    (edgeThreads 0 oneThread).output_image = some ⟨2, 1, [⟨0, 0, 0, 1⟩, ⟨0, 0, 0, 0⟩]⟩ ∧
    ((∀ (workers k : Nat), k < workers →
      (doWorkParallel.engines workers (xorshift.new 2)).get? k =
        some (xorshift.new (xorshift.next
          ((fun s => (xorshift.next s).2)^[k] (xorshift.new 2))).1)) ∧
    (edgeThreads 0 oneThread).output_image = processJob dyadicSqrt edgeShading edgeJob 8 1 4 2
      (edgeThreads 0 oneThread).taken ∧
    (edgeThreads 0 oneThreadInterrupted).output_image =
      processJob dyadicSqrt edgeShading edgeJob 8 1 4 2
        (edgeThreads 0 oneThreadInterrupted).taken ∧
    ((edgeThreads 0 oneThread).taken = (edgeThreads 0 oneThreadInterrupted).taken →
      (edgeThreads 0 oneThread).output_image =
        (edgeThreads 0 oneThreadInterrupted).output_image) ∧
    (doWorkParallel_extra_threads 1 4 = some 0 → (edgeThreads 0 oneThread).output_image =
      (edgeThreads 0 oneThreadInterrupted).output_image)) :=
  ⟨rfl, rfl, by decide!, by decide!, by decide, by decide, by decide!,
    processJob_reproducible_given_assignment dyadicSqrt edgeShading edgeJob 8 1 4 2 oneThread
      oneThreadInterrupted (edgeThreads 0 oneThread) (edgeThreads 0 oneThreadInterrupted) rfl rfl
      (by decide!) (by decide!)⟩

/-- Runs of `edgeJob` with two workers and master seed 2: under two different schedules in
which thread 0 takes the first tile the threads leave the same image, which is the image of
`processJob` under the assignment `[0, 1]`; under a schedule in which thread 1 takes the first
tile they leave the image of `processJob` under the assignment `[1, 0]`, which is another
image. -/
theorem processJob_threads_two_workers :
    processJob.threads dyadicSqrt edgeShading edgeJob 8 2 4 2 firstThreadFirst =
      some (edgeThreads 1 firstThreadFirst) ∧
    (edgeThreads 1 firstThreadFirst).joined ∧ (edgeThreads 1 firstThreadAlone).joined ∧
    (edgeThreads 1 secondThreadFirst).joined ∧
    (edgeThreads 1 firstThreadFirst).taken = [0, 1] ∧
    (edgeThreads 1 firstThreadAlone).taken = [0, 1] ∧
    (edgeThreads 1 secondThreadFirst).taken = [1, 0] ∧
    (edgeThreads 1 firstThreadFirst).output_image =
      some ⟨2, 1, [⟨0, 0, 0, 1⟩, ⟨0, 0, 0, 0⟩]⟩ ∧
    (edgeThreads 1 firstThreadAlone).output_image =
      some ⟨2, 1, [⟨0, 0, 0, 1⟩, ⟨0, 0, 0, 0⟩]⟩ ∧
    (edgeThreads 1 secondThreadFirst).output_image =
      some ⟨2, 1, [⟨0, 0, 0, 0⟩, ⟨0, 0, 0, 0⟩]⟩ := by
  refine ⟨rfl, by decide!, by decide!, by decide!, by decide!, by decide!, by decide!,
    by decide!, by decide!, by decide!⟩

end ReproducibilityProofs

section SlashGroups

/-- The three index reads of `processFace` on the face line ` 1/1/1 2/2/2 3/3/3`: each call of
`readInt` consumes the slash that ends its number, so the loop `while(expect('/'))` finds a digit
and the next index is read from the same group. -/
theorem ObjParser.readIndex_slash_group :
    ObjParser.readIndex " 1/1/1 2/2/2 3/3/3\n".toList = (0, "1/1 2/2/2 3/3/3\n".toList) ∧
    ObjParser.readIndex "1/1 2/2/2 3/3/3\n".toList = (0, "1 2/2/2 3/3/3\n".toList) ∧
    ObjParser.readIndex "1 2/2/2 3/3/3\n".toList = (0, "2/2/2 3/3/3\n".toList) := by
  refine ⟨by decide, by decide, by decide⟩

/-- C30 (failing input). The source `v 0 0 0 / v 1 0 0 / v 0 1 0 / f 1 2 3` yields one triangle.
With the face line written with slash groups, `f 1/1/1 2/2/2 3/3/3`, the source yields none: the
slash that ends the first index is consumed by `readInt`, the three indices are all read from the
first group (they are 0, 0, 0 after the subtraction of 1), and the face is rejected because they
coincide. With the groups `1/2/3 2/3/1 3/1/2` the three indices 0, 1, 2 are again the members of
the first group. -/
theorem loadMesh_slash_groups_read_first_group :
    (loadMesh Rat.sqrt "v 0 0 0\nv 1 0 0\nv 0 1 0\nf 1 2 3\n".toList mat4_identity true
      true).length = 1 ∧
    (loadMesh Rat.sqrt "v 0 0 0\nv 1 0 0\nv 0 1 0\nf 1/1/1 2/2/2 3/3/3\n".toList mat4_identity true
      true).length = 0 ∧
    ObjParser.readIndex " 1/1/1 2/2/2 3/3/3\n".toList = (0, "1/1 2/2/2 3/3/3\n".toList) ∧
    ObjParser.readIndex "1/1 2/2/2 3/3/3\n".toList = (0, "1 2/2/2 3/3/3\n".toList) ∧
    ObjParser.readIndex "1 2/2/2 3/3/3\n".toList = (0, "2/2/2 3/3/3\n".toList) ∧
    (ObjParser.readIndex " 1/2/3 2/3/1 3/1/2\n".toList).1 = 0 ∧
    (ObjParser.readIndex (ObjParser.readIndex " 1/2/3 2/3/1 3/1/2\n".toList).2).1 = 1 ∧
    (ObjParser.readIndex (ObjParser.readIndex
      (ObjParser.readIndex " 1/2/3 2/3/1 3/1/2\n".toList).2).2).1 = 2 := by
  simp only [loadMesh_length]
  refine ⟨by decide!, by decide!, by decide!, by decide!, by decide!, by decide!, by decide!,
    by decide!⟩

end SlashGroups

section Xorshift

/-- A right shift by a positive amount changes a non-zero word, so the exclusive or of the word
with its shift is not zero. -/
theorem xorshift.xor_shiftRight_ne_zero (x k : Nat) (hx : x ≠ 0) (hk : 0 < k) :
    x ^^^ (x >>> k) ≠ 0 := by
  intro h
  rw [Nat.xor_eq_zero] at h
  rw [Nat.shiftRight_eq_div_pow] at h
  have h2 : 2 ≤ 2 ^ k := by
    calc 2 = 2 ^ 1 := by norm_num
      _ ≤ 2 ^ k := Nat.pow_le_pow_right (by norm_num) hk
  have := Nat.div_lt_self (Nat.pos_of_ne_zero hx) h2
  omega

/-- A left shift by 31 within 64 bits changes a non-zero word, so the exclusive or of the word
with its shift is not zero. -/
theorem xorshift.xor_shiftLeft_ne_zero (x : Nat) (hx : x ≠ 0) (hlt : x < 2 ^ 64) :
    x ^^^ ((x <<< 31) % 2 ^ 64) ≠ 0 := by
  intro h
  rw [Nat.xor_eq_zero, Nat.shiftLeft_eq] at h
  have e1 : (2 : Nat) ^ 64 = 18446744073709551616 := by norm_num
  have e2 : (2 : Nat) ^ 31 = 2147483648 := by norm_num
  rw [e1] at h hlt
  rw [e2] at h
  omega

/-- The state of the generator stays a non-zero 64-bit word across a call. -/
theorem xorshift.next_state (m_seed : Nat) (hx : m_seed ≠ 0) (hlt : m_seed < 2 ^ 64) :
    (xorshift.next m_seed).2 ≠ 0 ∧ (xorshift.next m_seed).2 < 2 ^ 64 := by
  unfold xorshift.next
  simp only []
  have hshr : ∀ (x k : Nat), x < 2 ^ 64 → x >>> k < 2 ^ 64 := by
    intro x k hx
    rw [Nat.shiftRight_eq_div_pow]
    exact lt_of_le_of_lt (Nat.div_le_self _ _) hx
  have h1 := xorshift.xor_shiftRight_ne_zero m_seed 11 hx (by norm_num)
  have l1 : m_seed ^^^ (m_seed >>> 11) < 2 ^ 64 := Nat.xor_lt_two_pow hlt (hshr _ _ hlt)
  have h2 := xorshift.xor_shiftLeft_ne_zero _ h1 l1
  have l2 : (m_seed ^^^ (m_seed >>> 11)) ^^^ (((m_seed ^^^ (m_seed >>> 11)) <<< 31) % 2 ^ 64) <
      2 ^ 64 := Nat.xor_lt_two_pow l1 (Nat.mod_lt _ (by norm_num))
  exact ⟨xorshift.xor_shiftRight_ne_zero _ 18 h2 (by norm_num),
    Nat.xor_lt_two_pow l2 (hshr _ _ l2)⟩

/-- The constructor yields a non-zero 64-bit state for every seed below `2 ^ 32`. -/
theorem xorshift.new_state (seed : Nat) (hseed : seed < 2 ^ 32) :
    xorshift.new seed ≠ 0 ∧ xorshift.new seed < 2 ^ 64 := by
  unfold xorshift.new
  simp only []
  have hs : seed % 2 ^ 64 = seed := Nat.mod_eq_of_lt (lt_trans hseed (by norm_num))
  rw [hs]
  constructor
  · intro h
    rw [Nat.xor_eq_zero, Nat.shiftLeft_eq] at h
    have e1 : (2 : Nat) ^ 64 = 18446744073709551616 := by norm_num
    have e2 : (2 : Nat) ^ 32 = 4294967296 := by norm_num
    rw [e1] at h
    rw [e2] at h hseed
    omega
  · exact Nat.xor_lt_two_pow (lt_trans hseed (by norm_num)) (Nat.mod_lt _ (by norm_num))

/-- The state after any number of calls is a non-zero 64-bit word if the first state is. -/
theorem xorshift.iterate_state (m_seed : Nat) (hx : m_seed ≠ 0) (hlt : m_seed < 2 ^ 64)
    (calls : Nat) :
    (fun s => (xorshift.next s).2)^[calls] m_seed ≠ 0 ∧
      (fun s => (xorshift.next s).2)^[calls] m_seed < 2 ^ 64 := by
  induction calls with
  | zero => exact ⟨hx, hlt⟩
  | succ n ih =>
    rw [Function.iterate_succ_apply']
    exact xorshift.next_state _ ih.1 ih.2

/-- Every output of the generator fits in 32 bits. -/
theorem xorshift.next_output_lt (m_seed : Nat) : (xorshift.next m_seed).1 < 2 ^ 32 := by
  unfold xorshift.next
  exact Nat.mod_lt _ (by norm_num)

/-- Every engine handed to a worker starts in a non-zero 64-bit state. -/
theorem doWorkParallel.engines_state (workers re : Nat) :
    ∀ engine ∈ doWorkParallel.engines workers re, engine ≠ 0 ∧ engine < 2 ^ 64 := by
  induction workers generalizing re with
  | zero => intro engine h; simp [doWorkParallel.engines] at h
  | succ n ih =>
    intro engine h
    simp only [doWorkParallel.engines, List.mem_cons] at h
    rcases h with h | h
    · rw [h]
      exact xorshift.new_state _ (xorshift.next_output_lt re)
    · exact ih _ engine h

/-- C29. For every seed below `2 ^ 32` the state of the xorshift generator is non-zero after
construction and after every number of calls; the seeds of the engines that `doWorkParallel`
hands to its workers are outputs of the master engine, which are below `2 ^ 32`, so the state of
every worker engine is non-zero after every number of calls. -/
theorem xorshift_state_never_zero (seed : Nat) (hseed : seed < 2 ^ 32) :
    xorshift.new seed ≠ 0 ∧
    (∀ calls : Nat, (fun s => (xorshift.next s).2)^[calls] (xorshift.new seed) ≠ 0) ∧
    (∀ m_seed : Nat, (xorshift.next m_seed).1 < 2 ^ 32) ∧
    (∀ (workers calls : Nat), ∀ engine ∈ doWorkParallel.engines workers (xorshift.new seed),
      (fun s => (xorshift.next s).2)^[calls] engine ≠ 0) := by
  have h := xorshift.new_state seed hseed
  refine ⟨h.1, fun calls => (xorshift.iterate_state _ h.1 h.2 calls).1, xorshift.next_output_lt,
    ?_⟩
  intro workers calls engine he
  have h2 := doWorkParallel.engines_state workers _ engine he
  exact (xorshift.iterate_state _ h2.1 h2.2 calls).1

/-- C29 at the seed 0: the constructed state is `0xFFFFFFFF00000000`. -/
theorem xorshift_state_never_zero_witness :
    (0 : Nat) < 2 ^ 32 ∧ xorshift.new 0 = 0xFFFFFFFF00000000 ∧
    xorshift.new 0 ≠ 0 ∧
    (∀ calls : Nat, (fun s => (xorshift.next s).2)^[calls] (xorshift.new 0) ≠ 0) ∧
    (∀ m_seed : Nat, (xorshift.next m_seed).1 < 2 ^ 32) ∧
    (∀ (workers calls : Nat), ∀ engine ∈ doWorkParallel.engines workers (xorshift.new 0),
      (fun s => (xorshift.next s).2)^[calls] engine ≠ 0) :=
  ⟨by decide, by decide, xorshift_state_never_zero 0 (by decide)⟩

end Xorshift

section BounceProofs
variable {K R : Type} [LinearOrderedField K]

/-- The decision `do_bounce` of one iteration of the loop of `getSample` compares the drawn
number with `getSample.bounce_probability` at the incremented path length: when the number is not
below it, the iteration ends the path with the density of stopping. -/
theorem getSample.loop_stop (sqrt : K → K) (sh : Shading K R) (job : FrameRenderJob K)
    (fuel : Nat) (st : PathState K) (re : R) (object : Object K)
    (ht : ¬ (job.scene.getIntersection sqrt st.ray).1 < 0)
    (ho : (job.scene.getIntersection sqrt st.ray).2 = some object)
    (hd : ¬ (sh.dist re).1 < getSample.bounce_probability (st.path_length + 1)
      st.contribution_unweighted st.sample_spectrum) :
    ∃ out_spectrum re2, getSample.loop sqrt sh job (fuel + 1) st re =
      some ({ st with sample_collected := true, path_length := st.path_length + 1,
                      out_spectrum := out_spectrum,
                      sample_bounce_pd := st.sample_bounce_pd *
                        (1 - getSample.bounce_probability (st.path_length + 1)
                          st.contribution_unweighted st.sample_spectrum) }, re2) := by
  unfold getSample.bounce_probability at hd ⊢
  rw [getSample.loop]
  simp only [if_neg ht, ho]
  simp only [decide_eq_false hd]
  exact ⟨_, _, rfl⟩

/-- C26. The continuation probability of `getSample` is 1 while the path length is at most 4;
afterwards it is `0.1 + 0.1 * min(c, 1)` for the product `c` of the unweighted throughput and the
contribution of the current spectrum; for every non-negative `c` that value lies between 0.1 and
0.2, and the probability lies between 0 and 1 at every path length, as the assertion after its
computation demands. -/
theorem getSample_bounce_probability_range (path_length : Int) (contribution_unweighted : K)
    (sample_spectrum : Spectrum K) :
    (path_length ≤ 4 →
      getSample.bounce_probability path_length contribution_unweighted sample_spectrum = 1) ∧
    (4 < path_length →
      getSample.bounce_probability path_length contribution_unweighted sample_spectrum =
        1 / 10 + 1 / 10 *
          min (contribution_unweighted * getContribution sample_spectrum.color) 1) ∧
    (4 < path_length → 0 ≤ contribution_unweighted * getContribution sample_spectrum.color →
      1 / 10 ≤ getSample.bounce_probability path_length contribution_unweighted
        sample_spectrum ∧
      getSample.bounce_probability path_length contribution_unweighted sample_spectrum ≤
        2 / 10) ∧
    (0 ≤ contribution_unweighted * getContribution sample_spectrum.color →
      0 ≤ getSample.bounce_probability path_length contribution_unweighted sample_spectrum ∧
      getSample.bounce_probability path_length contribution_unweighted sample_spectrum ≤ 1) := by
  have hmin1 := min_le_right (contribution_unweighted * getContribution sample_spectrum.color) 1
  refine ⟨fun h => ?_, fun h => ?_, fun h hc => ?_, fun hc => ?_⟩
  · unfold getSample.bounce_probability
    rw [if_pos h]
  · unfold getSample.bounce_probability
    rw [if_neg (not_le.mpr h)]
  · have hmin0 := le_min hc (zero_le_one : (0 : K) ≤ 1)
    unfold getSample.bounce_probability
    rw [if_neg (not_le.mpr h)]
    constructor <;> linarith
  · have hmin0 := le_min hc (zero_le_one : (0 : K) ≤ 1)
    unfold getSample.bounce_probability
    split_ifs
    · exact ⟨zero_le_one, le_refl _⟩
    · constructor <;> linarith

end BounceProofs

section TileNumbers

/-- The tile count along one axis is the ceiling of the quotient of the extent by the edge. -/
theorem tile_count_eq_ceil (extent ts : Int) (he : 0 ≤ extent) (hts : 1 ≤ ts) :
    tile_count extent ts = ⌈(extent : ℚ) / (ts : ℚ)⌉ := by
  have hpos : 0 < ts := by omega
  have hcnt : tile_count extent ts = (extent + (ts - 1)) / ts := by
    unfold tile_count
    rw [Int.tdiv_eq_ediv] <;> omega
  have hmod := Int.emod_nonneg (extent + (ts - 1)) (show ts ≠ 0 by omega)
  have hmodlt := Int.emod_lt_of_pos (extent + (ts - 1)) hpos
  have hdiv := Int.ediv_add_emod (extent + (ts - 1)) ts
  have hposq : (0 : ℚ) < (ts : ℚ) := by exact_mod_cast hpos
  rw [hcnt]
  symm
  rw [Int.ceil_eq_iff]
  constructor
  · rw [lt_div_iff₀ hposq]
    have h : ((extent + (ts - 1)) / ts - 1) * ts < extent := by nlinarith
    exact_mod_cast h
  · rw [div_le_iff₀ hposq]
    have h : extent ≤ (extent + (ts - 1)) / ts * ts := by nlinarith
    exact_mod_cast h

/-- Every tile index below the tile count of an axis starts inside the extent. -/
theorem tile_offset_lt (extent ts : Int) (i : Nat) (he : 0 ≤ extent) (hts : 1 ≤ ts)
    (hi : i < (tile_count extent ts).toNat) : (i : Int) * ts < extent := by
  have hpos : 0 < ts := by omega
  have hcnt : tile_count extent ts = (extent + (ts - 1)) / ts := by
    unfold tile_count
    rw [Int.tdiv_eq_ediv] <;> omega
  have hmod := Int.emod_nonneg (extent + (ts - 1)) (show ts ≠ 0 by omega)
  have hdiv := Int.ediv_add_emod (extent + (ts - 1)) ts
  rw [hcnt] at hi
  have h1 : (i : Int) + 1 ≤ (extent + (ts - 1)) / ts := by omega
  have := mul_le_mul_of_nonneg_left h1 (show 0 ≤ ts by omega)
  nlinarith

/-- The edge of the tiles is the truncated quotient clamped to the interval from 1 to 32. -/
theorem tile_size_eq_clamp (width height : Int) (hw : 0 ≤ width) (hh : 0 ≤ height) :
    tile_size width height = max 1 (min 32 (min width height / 4)) := by
  unfold tile_size
  rw [Int.tdiv_eq_ediv (le_min hw hh) (by norm_num), max_comm, min_comm]

/-- C22. For every width >= 1 and height >= 1 the tile edge of `processJob` is
`min(width, height) / 4` (integer division) clamped to the interval from 1 to 32; the number of
queued tiles is `ceil(width / edge) * ceil(height / edge)`, which is the value `total_tile_count`
bound into the progress callback; and the width and the height of every queued tile lie between
1 and the edge. -/
theorem processJob_tile_edge_and_count (width height : Int) (hw : 1 ≤ width) (hh : 1 ≤ height) :
    tile_size width height = max 1 (min 32 (min width height / 4)) ∧
    1 ≤ tile_size width height ∧ tile_size width height ≤ 32 ∧
    ((processJob_queue width height).length : Int) =
      ⌈(width : ℚ) / (tile_size width height : ℚ)⌉ *
        ⌈(height : ℚ) / (tile_size width height : ℚ)⌉ ∧
    ((processJob_queue width height).length : Int) = total_tile_count width height ∧
    ∀ t ∈ processJob_queue width height,
      1 ≤ t.width ∧ t.width ≤ tile_size width height ∧
      1 ≤ t.height ∧ t.height ≤ tile_size width height := by
  have hts := tile_size_pos width height
  have hclamp := tile_size_eq_clamp width height (by omega) (by omega)
  refine ⟨hclamp, hts, ?_, ?_, processJob_queue_length width height (by omega) (by omega), ?_⟩
  · rw [hclamp]
    exact max_le (by norm_num) (min_le_left _ _)
  · rw [processJob_queue_length width height (by omega) (by omega), total_tile_count,
      tile_count_eq_ceil width _ (by omega) hts, tile_count_eq_ceil height _ (by omega) hts]
  · intro t ht
    unfold processJob_queue at ht
    simp only [List.mem_flatMap, List.mem_map, List.mem_range] at ht
    obtain ⟨tile_y, hy, tile_x, hx, rfl⟩ := ht
    have hx' := tile_offset_lt width _ tile_x (by omega) hts hx
    have hy' := tile_offset_lt height _ tile_y (by omega) hts hy
    refine ⟨?_, min_le_right _ _, ?_, min_le_right _ _⟩
    · exact le_min (by omega) hts
    · exact le_min (by omega) hts

/-- C22 at a 100 x 50 image: the edge is 12 and the queue holds 9 * 5 tiles. -/
theorem processJob_tile_edge_and_count_witness :
    tile_size 100 50 = max 1 (min 32 (min 100 50 / 4)) ∧
    1 ≤ tile_size 100 50 ∧ tile_size 100 50 ≤ 32 ∧
    ((processJob_queue 100 50).length : Int) =
      ⌈((100 : Int) : ℚ) / (tile_size 100 50 : ℚ)⌉ *
        ⌈((50 : Int) : ℚ) / (tile_size 100 50 : ℚ)⌉ ∧
    ((processJob_queue 100 50).length : Int) = total_tile_count 100 50 ∧
    ∀ t ∈ processJob_queue 100 50,
      1 ≤ t.width ∧ t.width ≤ tile_size 100 50 ∧
      1 ≤ t.height ∧ t.height ≤ tile_size 100 50 :=
  processJob_tile_edge_and_count 100 50 (by decide) (by decide)

end TileNumbers

section PostProcessingProofs
variable {K : Type} [LinearOrderedField K]

/-- Writing back the value a list holds at an index leaves the list unchanged. -/
theorem List.set_getD_self {α : Type} (l : List α) (i : Nat) (d : α) :
    l.set i (l.getD i d) = l := by
  induction l generalizing i with
  | nil => rfl
  | cons a l ih =>
    cases i with
    | zero => rfl
    | succ i =>
      rw [List.set_cons_succ, List.getD_cons_succ, ih]

/-- The alpha channels of the stored pixels after a write that keeps the alpha channel of the
pixel it overwrites. -/
theorem Image.set_alpha (img : Image K) (x y : Int) (v : Color K)
    (hv : v.a = (img.get x y).a) :
    (img.set x y v).width = img.width ∧ (img.set x y v).height = img.height ∧
    (img.set x y v).data.map Color.a = img.data.map Color.a := by
  unfold Image.set
  split_ifs
  · refine ⟨rfl, rfl, ?_⟩
    show (img.data.set (y * img.width + x).toNat v).map Color.a = _
    rw [List.map_set, hv]
    unfold Image.get
    have h : (img.data.getD (y * img.width + x).toNat Color.zero).a =
        (img.data.map Color.a).getD (y * img.width + x).toNat 0 := by
      rw [List.getD_eq_getElem?_getD, List.getD_eq_getElem?_getD, List.getElem?_map]
      cases img.data[(y * img.width + x).toNat]? <;> rfl
    rw [h, List.set_getD_self]
  · exact ⟨rfl, rfl, rfl⟩

/-- The alpha channel of a pixel is read off the list of the alpha channels of the image. -/
theorem Image.get_alpha (img img2 : Image K) (x y : Int) (hw : img.width = img2.width)
    (hd : img.data.map Color.a = img2.data.map Color.a) : (img.get x y).a = (img2.get x y).a := by
  have h : ∀ (im : Image K), (im.get x y).a =
      (im.data.map Color.a).getD (y * im.width + x).toNat 0 := by
    intro im
    unfold Image.get
    rw [List.getD_eq_getElem?_getD, List.getD_eq_getElem?_getD, List.getElem?_map]
    cases im.data[(y * im.width + x).toNat]? <;> rfl
  rw [h img, h img2, hw, hd]

/-- The body of the pixel loop keeps the extents and the alpha channels. -/
theorem gammaCorrect.pixel_alpha (pow : K → K → K) (gamma : K) (image : Image K) (x y : Int) :
    (gammaCorrect.pixel pow gamma image x y).width = image.width ∧
    (gammaCorrect.pixel pow gamma image x y).height = image.height ∧
    (gammaCorrect.pixel pow gamma image x y).data.map Color.a = image.data.map Color.a := by
  have step : ∀ (im : Image K) (v : Color K), v.a = (im.get x y).a →
      (im.width = image.width ∧ im.height = image.height ∧
        im.data.map Color.a = image.data.map Color.a) →
      ((im.set x y v).width = image.width ∧ (im.set x y v).height = image.height ∧
        (im.set x y v).data.map Color.a = image.data.map Color.a) := by
    intro im v hv h
    obtain ⟨a1, a2, a3⟩ := Image.set_alpha im x y v hv
    exact ⟨a1.trans h.1, a2.trans h.2.1, a3.trans h.2.2⟩
  unfold gammaCorrect.pixel
  simp only []
  refine step _ _ ?_ (step _ _ ?_ (step _ _ ?_ ⟨rfl, rfl, rfl⟩)) <;> rfl

/-- A loop over pixels keeps what each of its iterations keeps. -/
theorem gammaCorrect.foldl_keeps {α : Type} (P : Image K → Prop) (f : Image K → α → Image K)
    (hf : ∀ im a, P im → P (f im a)) (l : List α) (image : Image K) (h : P image) :
    P (l.foldl f image) := by
  induction l generalizing image with
  | nil => exact h
  | cons a l ih => exact ih _ (hf _ _ h)

/-- The function `gammaCorrect` keeps the extents and the alpha channels for every exponent. -/
theorem gammaCorrect_alpha (pow : K → K → K) (image : Image K) (gamma : K) :
    (gammaCorrect pow image gamma).width = image.width ∧
    (gammaCorrect pow image gamma).height = image.height ∧
    (gammaCorrect pow image gamma).data.map Color.a = image.data.map Color.a := by
  unfold gammaCorrect
  apply gammaCorrect.foldl_keeps (fun im => im.width = image.width ∧ im.height = image.height ∧
    im.data.map Color.a = image.data.map Color.a)
  · intro im y h
    apply gammaCorrect.foldl_keeps (fun im => im.width = image.width ∧
      im.height = image.height ∧ im.data.map Color.a = image.data.map Color.a)
    · intro im2 x h2
      obtain ⟨p1, p2, p3⟩ := gammaCorrect.pixel_alpha pow gamma im2 (x : Int) (y : Int)
      exact ⟨p1.trans h2.1, p2.trans h2.2.1, p3.trans h2.2.2⟩
    · exact h
  · exact ⟨rfl, rfl, rfl⟩

/-- Writing back the pixel an image holds leaves the image unchanged. -/
theorem Image.set_get_self (img : Image K) (x y : Int) : img.set x y (img.get x y) = img := by
  unfold Image.set Image.get
  split_ifs
  · rw [List.set_getD_self]
  · rfl

/-- With the factor 1 the body of the pixel loop leaves the image unchanged. -/
theorem gammaCorrect.pixel_one (pow : K → K → K) (hpow : ∀ x : K, pow x 0 = 1)
    (image : Image K) (x y : Int) : gammaCorrect.pixel pow 1 image x y = image := by
  unfold gammaCorrect.pixel
  simp only [div_one, sub_self, hpow, mul_one]
  rw [Image.set_get_self, Image.set_get_self, Image.set_get_self]

/-- C21. With `gamma = 1`, `gammaCorrect` returns the image it was given: every channel of every
pixel is unchanged (the factor `std::pow(brightness, 0)` is 1). For every `gamma` and every
`std::pow` the width, the height and the alpha channel of every pixel are unchanged. -/
theorem gammaCorrect_identity_and_alpha (pow : K → K → K) (hpow : ∀ x : K, pow x 0 = 1)
    (image : Image K) :
    gammaCorrect pow image 1 = image ∧
    (∀ x y : Int, (gammaCorrect pow image 1).get x y = image.get x y) ∧
    ∀ (pow2 : K → K → K) (gamma : K),
      (gammaCorrect pow2 image gamma).width = image.width ∧
      (gammaCorrect pow2 image gamma).height = image.height ∧
      ∀ x y : Int, ((gammaCorrect pow2 image gamma).get x y).a = (image.get x y).a := by
  have h1 : gammaCorrect pow image 1 = image := by
    unfold gammaCorrect
    apply gammaCorrect.foldl_keeps (fun im => im = image)
    · intro im y h
      apply gammaCorrect.foldl_keeps (fun im => im = image)
      · intro im2 x h2
        rw [gammaCorrect.pixel_one pow hpow]
        exact h2
      · exact h
    · rfl
  refine ⟨h1, fun x y => by rw [h1], fun pow2 gamma => ?_⟩
  obtain ⟨a1, a2, a3⟩ := gammaCorrect_alpha pow2 image gamma
  exact ⟨a1, a2, fun x y => Image.get_alpha _ _ x y a1 a3⟩

/-- C21 at a 2 x 1 image with the rational stand-in of `std::pow`; with `gamma = 2` the grey
pixel is brightened and its alpha channel is kept. -/
theorem gammaCorrect_identity_and_alpha_witness :
    (∀ x : ℚ, rationalMath.pow x 0 = 1) ∧
    (gammaCorrect rationalMath.pow twoPixelImage 1 = twoPixelImage ∧
    (∀ x y : Int, (gammaCorrect rationalMath.pow twoPixelImage 1).get x y =
      twoPixelImage.get x y) ∧
    ∀ (pow2 : ℚ → ℚ → ℚ) (gamma : ℚ),
      (gammaCorrect pow2 twoPixelImage gamma).width = twoPixelImage.width ∧
      (gammaCorrect pow2 twoPixelImage gamma).height = twoPixelImage.height ∧
      ∀ x y : Int, ((gammaCorrect pow2 twoPixelImage gamma).get x y).a =
        (twoPixelImage.get x y).a) ∧
    gammaCorrect (fun x y => if y = 0 then 1 else 2) twoPixelImage 2 =
      { width := 2, height := 1, data := [⟨1, 1, 1, 1⟩, ⟨2, 2, 2, 1⟩] } :=
  ⟨fun x => by simp [rationalMath],
    gammaCorrect_identity_and_alpha rationalMath.pow (fun x => by simp [rationalMath])
      twoPixelImage,
    by decide!⟩

end PostProcessingProofs

section TriangleNormalProofs
variable {K : Type} [LinearOrderedField K]

/-- The weights `Triangle::getSurfaceNormal` computes at the point `a + v*(b - a) + w*(c - a)`
of a non-degenerate triangle are `1 - v - w`, `v` and `w`. -/
theorem Triangle.getSurfaceNormal_pointAt (sqrt : K → K) (t : Triangle K)
    (hnd : t.nonDegenerate) (v w : K) :
    t.getSurfaceNormal sqrt (t.pointAt v w) = t.interpolatedNormal sqrt (1 - v - w) v w := by
  have hD : (t.b.sub t.a).dot (t.b.sub t.a) * (t.c.sub t.a).dot (t.c.sub t.a) -
      (t.b.sub t.a).dot (t.c.sub t.a) * (t.b.sub t.a).dot (t.c.sub t.a) ≠ 0 := by
    intro h
    apply hnd
    rw [← h]
    simp only [Vec3.getLengthSquared, Vec3.dot, Vec3.cross, Vec3.sub]
    ring
  have hv : ((t.c.sub t.a).dot (t.c.sub t.a) * ((t.pointAt v w).sub t.a).dot (t.b.sub t.a) -
      (t.b.sub t.a).dot (t.c.sub t.a) * ((t.pointAt v w).sub t.a).dot (t.c.sub t.a)) *
      (1 / ((t.b.sub t.a).dot (t.b.sub t.a) * (t.c.sub t.a).dot (t.c.sub t.a) -
        (t.b.sub t.a).dot (t.c.sub t.a) * (t.b.sub t.a).dot (t.c.sub t.a))) = v := by
    rw [mul_one_div, div_eq_iff hD]
    simp only [Triangle.pointAt, Vec3.dot, Vec3.sub, Vec3.add, Vec3.scale]
    ring
  have hw : ((t.b.sub t.a).dot (t.b.sub t.a) * ((t.pointAt v w).sub t.a).dot (t.c.sub t.a) -
      (t.b.sub t.a).dot (t.c.sub t.a) * ((t.pointAt v w).sub t.a).dot (t.b.sub t.a)) *
      (1 / ((t.b.sub t.a).dot (t.b.sub t.a) * (t.c.sub t.a).dot (t.c.sub t.a) -
        (t.b.sub t.a).dot (t.c.sub t.a) * (t.b.sub t.a).dot (t.c.sub t.a))) = w := by
    rw [mul_one_div, div_eq_iff hD]
    simp only [Triangle.pointAt, Vec3.dot, Vec3.sub, Vec3.add, Vec3.scale]
    ring
  unfold Triangle.getSurfaceNormal Triangle.interpolatedNormal
  simp only []
  rw [hv, hw]

/-- The weights `Triangle::getSurfaceNormal` computes always add up to 1, so with three equal
vertex normals of unit length the result is that normal. -/
theorem Triangle.getSurfaceNormal_flat (sqrt : K → K) (h1 : sqrt 1 = 1) (t : Triangle K)
    (n : Vec3 K) (hn : n.getLengthSquared = 1) (ha : t.normal_a = n) (hb : t.normal_b = n)
    (hc : t.normal_c = n) (pos : Vec3 K) : t.getSurfaceNormal sqrt pos = n := by
  unfold Triangle.getSurfaceNormal
  simp only []
  rw [ha, hb, hc]
  generalize ((t.c.sub t.a).dot (t.c.sub t.a) * (pos.sub t.a).dot (t.b.sub t.a) -
      (t.b.sub t.a).dot (t.c.sub t.a) * (pos.sub t.a).dot (t.c.sub t.a)) *
      (1 / ((t.b.sub t.a).dot (t.b.sub t.a) * (t.c.sub t.a).dot (t.c.sub t.a) -
        (t.b.sub t.a).dot (t.c.sub t.a) * (t.b.sub t.a).dot (t.c.sub t.a))) = v
  generalize ((t.b.sub t.a).dot (t.b.sub t.a) * (pos.sub t.a).dot (t.c.sub t.a) -
      (t.b.sub t.a).dot (t.c.sub t.a) * (pos.sub t.a).dot (t.b.sub t.a)) *
      (1 / ((t.b.sub t.a).dot (t.b.sub t.a) * (t.c.sub t.a).dot (t.c.sub t.a) -
        (t.b.sub t.a).dot (t.c.sub t.a) * (t.b.sub t.a).dot (t.c.sub t.a))) = w
  have hsum : ((n.scale (1 - v - w)).add (n.scale v)).add (n.scale w) = n := by
    cases n
    simp only [Vec3.scale, Vec3.add, Vec3.mk.injEq]
    refine ⟨?_, ?_, ?_⟩ <;> ring
  rw [hsum]
  unfold Vec3.normalize Vec3.getLength
  rw [hn, h1]
  cases n
  simp [Vec3.scale]

/-- The normal the constructor stores has unit length when the square root is exact at the
squared length of `cross(b - a, c - a)`. -/
theorem Triangle.new_normal_unit (sqrt : K → K) (a b c : Vec3 K)
    (hL : sqrt ((b.sub a).cross (c.sub a)).getLengthSquared *
      sqrt ((b.sub a).cross (c.sub a)).getLengthSquared =
      ((b.sub a).cross (c.sub a)).getLengthSquared)
    (hnd : ((b.sub a).cross (c.sub a)).getLengthSquared ≠ 0) :
    (((b.sub a).cross (c.sub a)).normalize sqrt).getLengthSquared = 1 := by
  have hs : sqrt ((b.sub a).cross (c.sub a)).getLengthSquared ≠ 0 := by
    intro h
    rw [h, mul_zero] at hL
    exact hnd hL.symm
  unfold Vec3.normalize Vec3.getLength
  generalize (b.sub a).cross (c.sub a) = N at hL hs ⊢
  have : (N.scale (1 / sqrt N.getLengthSquared)).getLengthSquared =
      N.getLengthSquared / (sqrt N.getLengthSquared * sqrt N.getLengthSquared) := by
    simp only [Vec3.scale, Vec3.getLengthSquared]
    field_simp
  rw [this, hL]
  exact div_self (by rw [← hL]; exact mul_ne_zero hs hs)

/-- C27. At the point `a + v*(b - a) + w*(c - a)` of a non-degenerate triangle,
`Triangle::getSurfaceNormal` returns the normalised combination of the vertex normals with the
weights `1 - v - w` for `a`, `v` for `b` and `w` for `c`; at the hit point of a ray that passes
the tests of `Triangle::getIntersection` these are the coordinates `u` and `v` computed there.
A triangle that keeps the normals of its constructor returns `normalize(cross(b - a, c - a))` at
every point (the square root being exact at 1 and at the squared length of the cross product). -/
theorem Triangle_getSurfaceNormal_barycentric (sqrt : K → K) (t : Triangle K)
    (hnd : t.nonDegenerate) :
    (∀ v w : K, t.getSurfaceNormal sqrt (t.pointAt v w) =
      (((t.normal_a.scale (1 - v - w)).add (t.normal_b.scale v)).add
        (t.normal_c.scale w)).normalize sqrt) ∧
    (∀ ray : Ray K, t.passesTests ray →
      t.getSurfaceNormal sqrt (ray.pointAt (t.getIntersection ray)) =
        (((t.normal_a.scale (1 - t.baryU ray - t.baryV ray)).add
          (t.normal_b.scale (t.baryU ray))).add
            (t.normal_c.scale (t.baryV ray))).normalize sqrt) ∧
    (sqrt 1 = 1 →
      sqrt ((t.b.sub t.a).cross (t.c.sub t.a)).getLengthSquared *
        sqrt ((t.b.sub t.a).cross (t.c.sub t.a)).getLengthSquared =
        ((t.b.sub t.a).cross (t.c.sub t.a)).getLengthSquared →
      ∀ pos : Vec3 K, (Triangle.new sqrt t.a t.b t.c t.cull_backface).getSurfaceNormal sqrt pos =
        ((t.b.sub t.a).cross (t.c.sub t.a)).normalize sqrt) := by
  refine ⟨fun v w => Triangle.getSurfaceNormal_pointAt sqrt t hnd v w, fun ray hp => ?_,
    fun h1 hL pos => ?_⟩
  · rw [Triangle.getIntersection_of_passesTests t ray hp,
      Triangle.pointAt_hitDistance t ray (Triangle.det_ne_zero_of_not_detRejects t ray hp.1)]
    exact Triangle.getSurfaceNormal_pointAt sqrt t hnd _ _
  · exact Triangle.getSurfaceNormal_flat sqrt h1 _ _
      (Triangle.new_normal_unit sqrt t.a t.b t.c hL hnd) rfl rfl rfl pos

/-- C27 at the triangle `(0,0,0), (1,0,0), (0,1,0)`, whose cross product `(0,0,1)` has length 1,
and at the ray straight down onto it. -/
theorem Triangle_getSurfaceNormal_barycentric_witness :
    (flatTriangle true).nonDegenerate ∧ (flatTriangle true).passesTests downRay ∧
    (id (1 : ℚ) = 1) ∧
    (∀ pos : Vec3 ℚ, (flatTriangle true).getSurfaceNormal id pos = ⟨0, 0, 1⟩) ∧
    ((∀ v w : ℚ, (flatTriangle true).getSurfaceNormal id ((flatTriangle true).pointAt v w) =
      ((((flatTriangle true).normal_a.scale (1 - v - w)).add
        ((flatTriangle true).normal_b.scale v)).add
        ((flatTriangle true).normal_c.scale w)).normalize id) ∧
    (∀ ray : Ray ℚ, (flatTriangle true).passesTests ray →
      (flatTriangle true).getSurfaceNormal id
        (ray.pointAt ((flatTriangle true).getIntersection ray)) =
        ((((flatTriangle true).normal_a.scale
          (1 - (flatTriangle true).baryU ray - (flatTriangle true).baryV ray)).add
          ((flatTriangle true).normal_b.scale ((flatTriangle true).baryU ray))).add
            ((flatTriangle true).normal_c.scale
              ((flatTriangle true).baryV ray))).normalize id) ∧
    (id (1 : ℚ) = 1 →
      id (((flatTriangle true).b.sub (flatTriangle true).a).cross
          ((flatTriangle true).c.sub (flatTriangle true).a)).getLengthSquared *
        id (((flatTriangle true).b.sub (flatTriangle true).a).cross
          ((flatTriangle true).c.sub (flatTriangle true).a)).getLengthSquared =
        (((flatTriangle true).b.sub (flatTriangle true).a).cross
          ((flatTriangle true).c.sub (flatTriangle true).a)).getLengthSquared →
      ∀ pos : Vec3 ℚ, (Triangle.new id (flatTriangle true).a (flatTriangle true).b
          (flatTriangle true).c (flatTriangle true).cull_backface).getSurfaceNormal id pos =
        (((flatTriangle true).b.sub (flatTriangle true).a).cross
          ((flatTriangle true).c.sub (flatTriangle true).a)).normalize id)) := by
  have hnd : (flatTriangle true).nonDegenerate := by
    unfold Triangle.nonDegenerate
    decide!
  have h := Triangle_getSurfaceNormal_barycentric id (flatTriangle true) hnd
  refine ⟨hnd, by unfold Triangle.passesTests; decide!, rfl, fun pos => ?_, h⟩
  have h3 := h.2.2 rfl (by decide!) pos
  have e : ((flatTriangle true).b.sub (flatTriangle true).a).cross
      ((flatTriangle true).c.sub (flatTriangle true).a) = (⟨0, 0, 1⟩ : Vec3 ℚ) := by decide!
  have e2 : (⟨0, 0, 1⟩ : Vec3 ℚ).normalize id = ⟨0, 0, 1⟩ := by decide!
  rw [e, e2] at h3
  exact h3

end TriangleNormalProofs

section HierarchyProofs
variable {K : Type} [LinearOrderedField K]

/-- At least `size / 2` of the coordinates are at most the median of rank `size / 2 - 1`. -/
theorem median_count (coords : List K) (h : 2 ≤ coords.length) :
    coords.length / 2 ≤ coords.countP (fun x => decide (x ≤ median coords)) := by
  have hperm := List.perm_insertionSort (· ≤ ·) coords
  have hsorted := List.sorted_insertionSort (· ≤ ·) coords
  have hlen : (coords.insertionSort (· ≤ ·)).length = coords.length := hperm.length_eq
  have hk : coords.length / 2 - 1 < (coords.insertionSort (· ≤ ·)).length := by omega
  have hmed : median coords = (coords.insertionSort (· ≤ ·))[coords.length / 2 - 1] := by
    unfold median
    exact List.getD_eq_getElem _ _ hk
  rw [← hperm.countP_eq, hmed]
  have hkk : coords.length / 2 ≤ (coords.length / 2 - 1) + 1 := by omega
  clear hmed hlen hperm
  generalize coords.insertionSort (· ≤ ·) = s at hsorted hk
  generalize coords.length / 2 - 1 = k at hk hkk
  have hall : ∀ x ∈ s.take (k + 1), decide (x ≤ s[k]) = true := by
    intro x hx
    rw [List.take_succ, List.mem_append] at hx
    rw [decide_eq_true_eq]
    rcases hx with hx | hx
    · exact hsorted.rel_of_mem_take_of_mem_drop hx
        (by rw [List.drop_eq_getElem_cons hk]; exact List.mem_cons_self _ _)
    · rw [List.getElem?_eq_getElem hk] at hx
      simp at hx
      rw [hx]
  have hcount : (s.take (k + 1)).countP (fun x => decide (x ≤ s[k])) = k + 1 := by
    rw [List.countP_eq_length.mpr hall, List.length_take]
    omega
  calc coords.length / 2 ≤ k + 1 := hkk
    _ = (s.take (k + 1)).countP (fun x => decide (x ≤ s[k])) := hcount.symm
    _ ≤ (s.take (k + 1) ++ s.drop (k + 1)).countP (fun x => decide (x ≤ s[k])) := by
        rw [List.countP_append]; omega
    _ = s.countP (fun x => decide (x ≤ s[k])) := by rw [List.take_append_drop]

/-- The rebalancing loop with enough iterations: the two sides keep the elements they had
together, the left side stays non-empty, the right side stays at most twice the left side, and
the loop condition is false at the end. -/
theorem rebalance_spec {α : Type} (fuel : Nat) :
    ∀ (left right : List α), left.length ≤ fuel → 1 ≤ left.length →
      right.length ≤ 2 * left.length →
      ((rebalance fuel left right).1 ++ (rebalance fuel left right).2).Perm (left ++ right) ∧
      1 ≤ (rebalance fuel left right).1.length ∧
      (rebalance fuel left right).2.length ≤ 2 * (rebalance fuel left right).1.length ∧
      ¬ ((rebalance fuel left right).1.length > 1 ∧
        (rebalance fuel left right).1.length > 2 * (rebalance fuel left right).2.length) := by
  induction fuel with
  | zero =>
    intro left right hf hl hr
    omega
  | succ n ih =>
    intro left right hf hl hr
    unfold rebalance
    by_cases hc : left.length > 1 ∧ left.length > 2 * right.length
    · rw [if_pos hc]
      cases hlast : left.getLast? with
      | none =>
        rw [List.getLast?_eq_none_iff] at hlast
        rw [hlast] at hl
        simp at hl
      | some last =>
        simp only []
        have hsplit : left.dropLast ++ [last] = left :=
          List.dropLast_append_getLast? last (by rw [hlast]; exact rfl)
        have hdl : left.dropLast.length = left.length - 1 := List.length_dropLast left
        have hrl : (right ++ [last]).length = right.length + 1 := by simp
        obtain ⟨p1, p2, p3, p4⟩ := ih left.dropLast (right ++ [last]) (by omega) (by omega)
          (by omega)
        refine ⟨p1.trans ?_, p2, p3, p4⟩
        have : (left.dropLast ++ (right ++ [last])).Perm ((left.dropLast ++ [last]) ++ right) := by
          rw [List.append_assoc]
          exact List.Perm.append_left _ List.perm_append_comm
        rw [hsplit] at this
        exact this
    · rw [if_neg hc]
      exact ⟨List.Perm.refl _, hl, hr, hc⟩

/-- The partition of at least two boxes at the median of any dimension: the left side holds at
least half of the boxes (rounded down) and the two sides hold all boxes. -/
theorem median_partition (boxes : List (AABB K)) (dim : Nat) (h : 2 ≤ boxes.length) :
    boxes.length / 2 ≤ (boxes.filter fun aabb => decide (aabb.area.low.get dim ≤
      median (boxes.map fun aabb => aabb.area.low.get dim))).length ∧
    ((boxes.filter fun aabb => decide (aabb.area.low.get dim ≤
      median (boxes.map fun aabb => aabb.area.low.get dim))) ++
    (boxes.filter fun aabb => !decide (aabb.area.low.get dim ≤
      median (boxes.map fun aabb => aabb.area.low.get dim)))).Perm boxes := by
  constructor
  · have hc := median_count (boxes.map fun aabb => aabb.area.low.get dim)
      (by rw [List.length_map]; exact h)
    rw [List.length_map, List.countP_map] at hc
    rw [← List.countP_eq_length_filter]
    exact hc
  · exact List.filter_append_perm _ boxes

/-- The two sides one call of `constructBVH` recurses on, for at least two boxes. -/
theorem constructBVH.split_spec (boxes : List (AABB K)) (h : 2 ≤ boxes.length) :
    ((constructBVH.split boxes).1 ++ (constructBVH.split boxes).2).Perm boxes ∧
    1 ≤ (constructBVH.split boxes).1.length ∧ 1 ≤ (constructBVH.split boxes).2.length ∧
    (constructBVH.split boxes).1.length ≤ 2 * (constructBVH.split boxes).2.length ∧
    (constructBVH.split boxes).2.length ≤ 2 * (constructBVH.split boxes).1.length := by
  unfold constructBVH.split
  simp only []
  generalize (if surfaceLt (splitSurface boxes 2 (median (boxes.map fun aabb => aabb.area.low.get 2)))
      (if surfaceLt (splitSurface boxes 1 (median (boxes.map fun aabb => aabb.area.low.get 1)))
          (splitSurface boxes 0 (median (boxes.map fun aabb => aabb.area.low.get 0))) = true then
        splitSurface boxes 1 (median (boxes.map fun aabb => aabb.area.low.get 1))
      else splitSurface boxes 0 (median (boxes.map fun aabb => aabb.area.low.get 0))) = true then 2
    else if surfaceLt (splitSurface boxes 1 (median (boxes.map fun aabb => aabb.area.low.get 1)))
        (splitSurface boxes 0 (median (boxes.map fun aabb => aabb.area.low.get 0))) = true then 1
      else 0) = dim
  obtain ⟨hleft, hperm⟩ := median_partition boxes dim h
  generalize (boxes.filter fun aabb => decide (aabb.area.low.get dim ≤
      median (boxes.map fun aabb => aabb.area.low.get dim))) = left at hleft hperm ⊢
  generalize (boxes.filter fun aabb => !decide (aabb.area.low.get dim ≤
      median (boxes.map fun aabb => aabb.area.low.get dim))) = right at hperm ⊢
  have hlen := hperm.length_eq
  rw [List.length_append] at hlen
  obtain ⟨p1, p2, p3, p4⟩ := rebalance_spec left.length left right (le_refl _) (by omega)
    (by omega)
  have hlen2 := p1.length_eq
  rw [List.length_append, List.length_append] at hlen2
  refine ⟨p1.trans hperm, p2, ?_, ?_, p3⟩
  · by_contra hcon
    omega
  · by_contra hcon
    omega

/-- One call of `constructBVH` on at least two boxes combines the results of the recursive calls
on the two sides of the split. -/
theorem constructBVH_cons_cons (uninit : AABBArea K) (fuel : Nat) (b0 b1 : AABB K)
    (rest : List (AABB K)) :
    constructBVH uninit (fuel + 1) (b0 :: b1 :: rest) =
      match constructBVH uninit fuel (constructBVH.split (b0 :: b1 :: rest)).1,
        constructBVH uninit fuel (constructBVH.split (b0 :: b1 :: rest)).2 with
      | some left_child, some right_child => some (AABB.combine left_child right_child)
      | _, _ => none := by
  rw [constructBVH]
  rfl

/-- C23. In every call of `constructBVH` on n >= 2 boxes, the two sides handed to the recursive
calls (the partition at the median of the chosen dimension after the rebalancing loop) hold all
boxes of the call, both are non-empty, and neither holds more than twice as many boxes as the
other. -/
theorem constructBVH_split_balanced (uninit : AABBArea K) (fuel : Nat) (b0 b1 : AABB K)
    (rest : List (AABB K)) :
    (constructBVH uninit (fuel + 1) (b0 :: b1 :: rest) =
      match constructBVH uninit fuel (constructBVH.split (b0 :: b1 :: rest)).1,
        constructBVH uninit fuel (constructBVH.split (b0 :: b1 :: rest)).2 with
      | some left_child, some right_child => some (AABB.combine left_child right_child)
      | _, _ => none) ∧
    ((constructBVH.split (b0 :: b1 :: rest)).1 ++
      (constructBVH.split (b0 :: b1 :: rest)).2).Perm (b0 :: b1 :: rest) ∧
    (constructBVH.split (b0 :: b1 :: rest)).1 ≠ [] ∧
    (constructBVH.split (b0 :: b1 :: rest)).2 ≠ [] ∧
    (constructBVH.split (b0 :: b1 :: rest)).1.length ≤
      2 * (constructBVH.split (b0 :: b1 :: rest)).2.length ∧
    (constructBVH.split (b0 :: b1 :: rest)).2.length ≤
      2 * (constructBVH.split (b0 :: b1 :: rest)).1.length := by
  obtain ⟨p1, p2, p3, p4, p5⟩ := constructBVH.split_spec (b0 :: b1 :: rest)
    (by simp)
  refine ⟨constructBVH_cons_cons uninit fuel b0 b1 rest, p1, ?_, ?_, p4, p5⟩
  · intro h
    rw [h] at p2
    simp at p2
  · intro h
    rw [h] at p3
    simp at p3

end HierarchyProofs

section TreeProofs
variable {K : Type} [LinearOrderedField K]

/-- The box of a combined node contains the boxes of both children. -/
theorem combineAreas_includes (a b : AABBArea K) :
    (combineAreas a b).includes a ∧ (combineAreas a b).includes b := by
  unfold combineAreas AABBArea.includes Vec3.min Vec3.max
  simp

/-- Containment of boxes is transitive. -/
theorem AABBArea.includes_trans (a b c : AABBArea K) (hab : a.includes b) (hbc : b.includes c) :
    a.includes c := by
  unfold AABBArea.includes at *
  obtain ⟨⟨h1, h2, h3⟩, h4, h5, h6⟩ := hab
  obtain ⟨⟨g1, g2, g3⟩, g4, g5, g6⟩ := hbc
  exact ⟨⟨le_trans h1 g1, le_trans h2 g2, le_trans h3 g3⟩,
    le_trans g4 h4, le_trans g5 h5, le_trans g6 h6⟩

/-- In a hierarchy whose inner boxes are the unions of their children, the box of the root
contains the box of every leaf. -/
theorem AABB.area_includes_leaves (tree : AABB K) (h : tree.boxesAreUnions) :
    ∀ leaf ∈ tree.leaves, tree.area.includes leaf.1 := by
  induction tree with
  | leafNode area child =>
    intro leaf hl
    simp only [AABB.leaves, List.mem_singleton] at hl
    rw [hl]
    exact ⟨⟨le_refl _, le_refl _, le_refl _⟩, le_refl _, le_refl _, le_refl _⟩
  | innerNode area left right ihl ihr =>
    intro leaf hl
    simp only [AABB.boxesAreUnions] at h
    obtain ⟨harea, hleft, hright⟩ := h
    simp only [AABB.leaves, List.mem_append] at hl
    show area.includes leaf.1
    rw [harea]
    rcases hl with hl | hl
    · exact AABBArea.includes_trans _ _ _ (combineAreas_includes _ _).1 (ihl hleft leaf hl)
    · exact AABBArea.includes_trans _ _ _ (combineAreas_includes _ _).2 (ihr hright leaf hl)

/-- Fuel `n` suffices for at most `n + 1` boxes: `constructBVH` returns a hierarchy, the same
for every larger fuel, whose leaves are the leaves of the given boxes and whose new inner boxes
are the unions of their children. -/
theorem constructBVH_spec (uninit : AABBArea K) (n : Nat) :
    ∀ (boxes : List (AABB K)), boxes ≠ [] → boxes.length ≤ n + 1 →
      ∃ tree : AABB K, (∀ fuel, n ≤ fuel → constructBVH uninit fuel boxes = some tree) ∧
        tree.leaves.Perm (boxes.flatMap AABB.leaves) ∧
        ((∀ b ∈ boxes, b.boxesAreUnions) → tree.boxesAreUnions) := by
  induction n with
  | zero =>
    intro boxes hne hlen
    match boxes, hne, hlen with
    | [b], _, _ =>
      refine ⟨b, fun fuel _ => ?_, by simp, fun h => h b (List.mem_singleton_self b)⟩
      cases fuel <;> rfl
    | _ :: _ :: _, _, hlen => simp at hlen
  | succ m ih =>
    intro boxes hne hlen
    match boxes, hne, hlen with
    | [b], _, _ =>
      refine ⟨b, fun fuel _ => ?_, by simp, fun h => h b (List.mem_singleton_self b)⟩
      cases fuel <;> rfl
    | b0 :: b1 :: rest, _, hlen =>
      obtain ⟨p1, p2, p3, p4, p5⟩ := constructBVH.split_spec (b0 :: b1 :: rest) (by simp)
      have hl := p1.length_eq
      rw [List.length_append] at hl
      obtain ⟨lt, l1, l2, l3⟩ := ih (constructBVH.split (b0 :: b1 :: rest)).1
        (by intro h; rw [h] at p2; simp at p2) (by omega)
      obtain ⟨rt, r1, r2, r3⟩ := ih (constructBVH.split (b0 :: b1 :: rest)).2
        (by intro h; rw [h] at p3; simp at p3) (by omega)
      refine ⟨AABB.combine lt rt, fun fuel hf => ?_, ?_, fun h => ?_⟩
      · obtain ⟨f, rfl⟩ : ∃ f, fuel = f + 1 := ⟨fuel - 1, by omega⟩
        rw [constructBVH_cons_cons, l1 f (by omega), r1 f (by omega)]
      · show (lt.leaves ++ rt.leaves).Perm _
        refine (List.Perm.append l2 r2).trans ?_
        rw [← List.flatMap_append]
        exact List.Perm.flatMap_right _ p1
      · show combineAreas lt.area rt.area = combineAreas lt.area rt.area ∧ _
        refine ⟨rfl, l3 fun b hb => h b (p1.subset (List.mem_append_left _ hb)),
          r3 fun b hb => h b (p1.subset (List.mem_append_right _ hb))⟩

/-- The leaves of the leaf nodes the constructor of the scene builds from its objects. -/
theorem AABB.leaves_leafNodes (objects : List (Object K)) :
    (objects.map fun object => AABB.leafNode object.getBoundingVolume object).flatMap
      AABB.leaves = objects.map fun object => (object.getBoundingVolume, object) := by
  induction objects with
  | nil => rfl
  | cons o os ih =>
    rw [List.map_cons, List.flatMap_cons, ih]
    rfl

/-- C24. For every non-empty list of n objects the constructor of the scene, which calls
`constructBVH` on the n leaves, returns a hierarchy (and so does every call with fuel at least
n - 1, with the same result): its leaves are the given objects, each once and each with its
bounding volume as box, so there are n of them; every inner node has its two children and the
box that is the component-wise minimum and maximum of their boxes; and the box of the root
contains the bounding volume of every object. -/
theorem constructBVH_builds_tree (uninit : AABBArea K) (objects : List (Object K))
    (hne : objects ≠ []) :
    ∃ tree : AABB K, Scene.new uninit objects = some { bounding_box := tree } ∧
      (∀ fuel, objects.length ≤ fuel + 1 →
        constructBVH uninit fuel
          (objects.map fun object => AABB.leafNode object.getBoundingVolume object) =
            some tree) ∧
      tree.leaves.Perm (objects.map fun object => (object.getBoundingVolume, object)) ∧
      tree.leaves.length = objects.length ∧
      tree.boxesAreUnions ∧
      ∀ object ∈ objects, tree.area.includes object.getBoundingVolume := by
  obtain ⟨tree, h1, h2, h3⟩ := constructBVH_spec uninit (objects.length - 1)
    (objects.map fun object => AABB.leafNode object.getBoundingVolume object)
    (by simpa using hne) (by rw [List.length_map]; omega)
  rw [AABB.leaves_leafNodes] at h2
  have hunion : tree.boxesAreUnions := by
    apply h3
    intro b hb
    rw [List.mem_map] at hb
    obtain ⟨o, _, rfl⟩ := hb
    exact True.intro
  refine ⟨tree, ?_, fun fuel hf => h1 fuel (by omega), h2, ?_, hunion, fun object ho => ?_⟩
  · unfold Scene.new
    simp only []
    rw [h1 _ (by rw [List.length_map]; omega)]
    rfl
  · rw [h2.length_eq, List.length_map]
  · exact AABB.area_includes_leaves tree hunion (object.getBoundingVolume, object)
      (h2.symm.subset (List.mem_map.mpr ⟨object, ho, rfl⟩))

/-- C24 at three unit spheres along the x axis: the hierarchy has the first sphere on its left
and an inner node over the other two on its right. -/
theorem constructBVH_builds_tree_witness :
    threeSpheres ≠ [] ∧
    (Scene.new ⟨⟨0, 0, 0⟩, ⟨0, 0, 0⟩⟩ threeSpheres).map (fun scene =>
      scene.bounding_box.leaves.map fun leaf => leaf.2.geometry) =
      some (threeSpheres.map fun object => object.geometry) ∧
    (Scene.new ⟨⟨0, 0, 0⟩, ⟨0, 0, 0⟩⟩ threeSpheres).map (fun scene =>
      scene.bounding_box.area) = some ⟨⟨-1, -1, -1⟩, ⟨9, 1, 1⟩⟩ ∧
    ∃ tree : AABB ℚ, Scene.new ⟨⟨0, 0, 0⟩, ⟨0, 0, 0⟩⟩ threeSpheres =
        some { bounding_box := tree } ∧
      (∀ fuel, threeSpheres.length ≤ fuel + 1 →
        constructBVH ⟨⟨0, 0, 0⟩, ⟨0, 0, 0⟩⟩ fuel
          (threeSpheres.map fun object => AABB.leafNode object.getBoundingVolume object) =
            some tree) ∧
      tree.leaves.Perm (threeSpheres.map fun object => (object.getBoundingVolume, object)) ∧
      tree.leaves.length = threeSpheres.length ∧
      tree.boxesAreUnions ∧
      ∀ object ∈ threeSpheres, tree.area.includes object.getBoundingVolume :=
  ⟨by decide, by decide!, by decide!,
    constructBVH_builds_tree ⟨⟨0, 0, 0⟩, ⟨0, 0, 0⟩⟩ threeSpheres (by decide)⟩

end TreeProofs

section StatisticsProofs
variable {K R : Type} [LinearOrderedField K]

/-- The online update of the mean: appending `x` to a list moves its mean by the quotient of the
difference by the new length. -/
theorem arithmeticMean_append (xs : List K) (x : K) :
    arithmeticMean (xs ++ [x]) =
      arithmeticMean xs + (x - arithmeticMean xs) / ((xs.length : K) + 1) := by
  unfold arithmeticMean
  rw [List.sum_append, List.length_append, List.sum_singleton, List.length_singleton]
  push_cast
  rcases xs with _ | ⟨y, ys⟩
  · simp
  · have h1 : ((List.length (y :: ys) : Nat) : K) ≠ 0 := by
      rw [List.length_cons]
      push_cast
      positivity
    have h2 : ((List.length (y :: ys) : Nat) : K) + 1 ≠ 0 := by positivity
    field_simp
    ring

/-- The sum of the squared deviations from any centre, by sums of squares. -/
theorem sum_squares_centre (xs : List K) (c : K) :
    (xs.map fun x => (x - c) * (x - c)).sum =
      (xs.map fun x => x * x).sum - 2 * c * xs.sum + (xs.length : K) * (c * c) := by
  induction xs with
  | nil => simp
  | cons y ys ih =>
    simp only [List.map_cons, List.sum_cons, List.length_cons]
    rw [ih]
    push_cast
    ring

/-- The online update of the sum of squared deviations (Welford). -/
theorem squaredDeviations_append (xs : List K) (x : K) :
    squaredDeviations (xs ++ [x]) =
      squaredDeviations xs + (x - arithmeticMean xs) * (x - arithmeticMean (xs ++ [x])) := by
  unfold squaredDeviations
  rw [sum_squares_centre, sum_squares_centre xs]
  unfold arithmeticMean
  rw [List.sum_append, List.length_append, List.sum_singleton, List.length_singleton,
    List.map_append, List.sum_append]
  simp only [List.map_cons, List.map_nil, List.sum_cons, List.sum_nil, add_zero]
  push_cast
  rcases xs with _ | ⟨y, ys⟩
  · simp
    ring
  · have h1 : ((List.length (y :: ys) : Nat) : K) ≠ 0 := by
      rw [List.length_cons]
      push_cast
      positivity
    have h2 : ((List.length (y :: ys) : Nat) : K) + 1 ≠ 0 := by positivity
    generalize ((List.length (y :: ys) : Nat) : K) = k at h1 h2
    generalize (List.map (fun x => x * x) (y :: ys)).sum = Q
    generalize (y :: ys).sum = S
    field_simp
    ring

/-- The online update of the mean of colours, as `processItem` writes it. -/
theorem Color.mean_concat (xs : List (Color K)) (x : Color K) (n : Int)
    (hn : n = (xs.length : Int) + 1) :
    (Color.mean xs).add ((x.sub (Color.mean xs)).div ((n : Int) : K)) =
      Color.mean (xs ++ [x]) := by
  have hc : ((n : Int) : K) = (xs.length : K) + 1 := by rw [hn]; push_cast; ring
  simp only [Color.mean, Color.add, Color.sub, Color.div, List.map_append, List.map_cons,
    List.map_nil, Color.mk.injEq]
  rw [hc]
  refine ⟨?_, ?_, ?_, ?_⟩ <;>
  · rw [PathTrace.arithmeticMean_append, List.length_map]

/-- The online update of the sum of squared deviations of colours, as `processItem` writes it. -/
theorem Color.squaredDeviations_concat (xs : List (Color K)) (x : Color K) :
    (Color.squaredDeviations xs).add ((x.sub (Color.mean xs)).mul
      (x.sub (Color.mean (xs ++ [x])))) = Color.squaredDeviations (xs ++ [x]) := by
  simp only [Color.squaredDeviations, Color.mean, Color.add, Color.sub, Color.mul,
    List.map_append, List.map_cons, List.map_nil, Color.mk.injEq]
  refine ⟨?_, ?_, ?_, ?_⟩ <;>
  · rw [PathTrace.squaredDeviations_append]

end StatisticsProofs

section WelfordProofs
variable {K R : Type} [LinearOrderedField K]

/-- The mean and the sum of squared deviations of no colour are zero. -/
theorem Color.mean_nil : Color.mean ([] : List (Color K)) = Color.zero ∧
    Color.squaredDeviations ([] : List (Color K)) = Color.zero := by
  simp [Color.mean, Color.squaredDeviations, Color.zero, arithmeticMean,
    PathTrace.squaredDeviations]

/-- The initial values of the per-pixel variables satisfy the invariant of the statistics. -/
theorem PixelState.init_welford (options : RenderOptions K) :
    (PixelState.init options).Welford options [] [] [] := by
  have hs := stats_sample_count_pos options
  have hc := candidate_batch_count_ge options
  unfold PixelState.Welford PixelState.init
  refine ⟨le_refl _, by show (0 : Int) < _; omega, by simp, Color.mean_nil.1.symm,
    Color.mean_nil.2.symm, rfl, fun g hg => by simp at hg, by simp; omega, fun h => h, rfl, rfl,
    rfl, Color.mean_nil.1.symm, Color.mean_nil.2.symm, by simp⟩

/-- One completed batch keeps the invariant of the statistics, with the average of the batch
appended to the averages. -/
theorem PixelState.completeBatch_welford (options : RenderOptions K) (st : PixelState K)
    (xs : List (Color K)) (groups : List (List (Color K))) (current : List (Color K))
    (hmean : st.contribution_mean = Color.mean xs)
    (hm2 : st.contribution_m2 = Color.squaredDeviations xs)
    (hcount : st.contribution_count =
      stats_sample_count options * (((xs.length : Nat) : Int) + 1))
    (hxs : xs = groups.flatten ++ current)
    (hgroups : ∀ g ∈ groups, ((g.length : Nat) : Int) = candidate_batch_count options)
    (hcur : ((current.length : Nat) : Int) ≤ candidate_batch_count options)
    (hne : xs ≠ [] → current ≠ [])
    (hmeans : st.candidate_means = groups.map Color.mean)
    (hm2s : st.candidate_m2s = groups.map Color.squaredDeviations)
    (hcounts : st.candidate_counts =
      groups.map (fun (g : List (Color K)) => ((g.length : Nat) : Int)))
    (hcmean : st.candidate_mean = Color.mean current)
    (hcm2 : st.candidate_m2 = Color.squaredDeviations current)
    (hccount : st.candidate_count = ((current.length : Nat) : Int)) :
    ∃ groups2 current2, (st.completeBatch options).Welford options
      (xs ++ [st.sample_aggregate.div ((stats_sample_count options : Int) : K)])
      groups2 current2 := by
  have hs := stats_sample_count_pos options
  have hc := candidate_batch_count_ge options
  have hdiv : st.contribution_count.tdiv (stats_sample_count options) =
      ((xs.length : Nat) : Int) + 1 := by
    rw [hcount]
    exact Int.mul_tdiv_cancel_left _ (by omega)
  have hmean2 : (st.completeBatch options).contribution_mean =
      Color.mean (xs ++ [st.sample_aggregate.div ((stats_sample_count options : Int) : K)]) := by
    show st.contribution_mean.add (((st.sample_aggregate.div _).sub st.contribution_mean).div _)
      = _
    rw [hmean]
    exact Color.mean_concat xs _ _ hdiv
  have hm22 : (st.completeBatch options).contribution_m2 =
      Color.squaredDeviations
        (xs ++ [st.sample_aggregate.div ((stats_sample_count options : Int) : K)]) := by
    rw [← Color.squaredDeviations_concat, ← hm2, ← hmean2, ← hmean]
    rfl
  by_cases hp : st.candidate_count = candidate_batch_count options
  · refine ⟨groups ++ [current],
      [st.sample_aggregate.div ((stats_sample_count options : Int) : K)], ?_⟩
    have hcm : (st.completeBatch options).candidate_mean =
        Color.mean [st.sample_aggregate.div ((stats_sample_count options : Int) : K)] := by
      have := Color.mean_concat ([] : List (Color K))
        (st.sample_aggregate.div ((stats_sample_count options : Int) : K)) (0 + 1) (by simp)
      rw [Color.mean_nil.1, List.nil_append] at this
      rw [← this]
      unfold PixelState.completeBatch
      simp only [hp, decide_True, if_true]
    have hcmB2 : (st.completeBatch options).candidate_m2 =
        Color.squaredDeviations
          [st.sample_aggregate.div ((stats_sample_count options : Int) : K)] := by
      have := Color.squaredDeviations_concat ([] : List (Color K))
        (st.sample_aggregate.div ((stats_sample_count options : Int) : K))
      rw [Color.mean_nil.1, Color.mean_nil.2, List.nil_append, ← hcm] at this
      rw [← this]
      unfold PixelState.completeBatch
      simp only [hp, decide_True, if_true]
    refine ⟨le_refl _, by show (0 : Int) < _; omega, ?_, hmean2, hm22, ?_, ?_, ?_, ?_, ?_, ?_,
      ?_, hcm, hcmB2, ?_⟩
    · have hidx : (st.completeBatch options).stats_sample_index = 0 := rfl
      rw [hidx]
      show st.contribution_count = _
      rw [hcount, List.length_append, List.length_singleton]
      push_cast
      ring
    · rw [List.flatten_concat, hxs]
    · intro g hg
      rw [List.mem_append, List.mem_singleton] at hg
      rcases hg with hg | hg
      · exact hgroups g hg
      · rw [hg, ← hccount, hp]
    · simp only [List.length_singleton]
      omega
    · intro _
      exact List.cons_ne_nil _ _
    · unfold PixelState.completeBatch
      simp only [hp, decide_True, if_true, hmeans, hcmean, List.map_append, List.map_cons,
        List.map_nil]
    · unfold PixelState.completeBatch
      simp only [hp, decide_True, if_true, hm2s, hcm2, List.map_append, List.map_cons,
        List.map_nil]
    · unfold PixelState.completeBatch
      simp only [hp, decide_True, if_true, hcounts, hccount.symm, List.map_append,
        List.map_cons, List.map_nil]
    · unfold PixelState.completeBatch
      simp only [hp, decide_True, if_true, List.length_singleton]
      rfl
  · refine ⟨groups, current ++ [st.sample_aggregate.div ((stats_sample_count options : Int) : K)],
      ?_⟩
    have hcm : (st.completeBatch options).candidate_mean =
        Color.mean
          (current ++ [st.sample_aggregate.div ((stats_sample_count options : Int) : K)]) := by
      rw [← Color.mean_concat current _ (st.candidate_count + 1) (by rw [hccount]), ← hcmean]
      unfold PixelState.completeBatch
      simp only [hp, decide_False, if_false, Bool.false_eq_true]
    have hcmB2 : (st.completeBatch options).candidate_m2 =
        Color.squaredDeviations
          (current ++ [st.sample_aggregate.div ((stats_sample_count options : Int) : K)]) := by
      rw [← Color.squaredDeviations_concat, ← hcm, ← hcm2, ← hcmean]
      unfold PixelState.completeBatch
      simp only [hp, decide_False, if_false, Bool.false_eq_true]
    refine ⟨le_refl _, by show (0 : Int) < _; omega, ?_, hmean2, hm22, ?_, hgroups, ?_, ?_, ?_,
      ?_, ?_, hcm, hcmB2, ?_⟩
    · have hidx : (st.completeBatch options).stats_sample_index = 0 := rfl
      rw [hidx]
      show st.contribution_count = _
      rw [hcount, List.length_append, List.length_singleton]
      push_cast
      ring
    · rw [hxs, List.append_assoc]
    · rw [List.length_append, List.length_singleton]
      push_cast
      have : st.candidate_count ≠ candidate_batch_count options := hp
      omega
    · intro _ h
      simp at h
    · unfold PixelState.completeBatch
      simp only [hp, decide_False, if_false, Bool.false_eq_true, hmeans]
    · unfold PixelState.completeBatch
      simp only [hp, decide_False, if_false, Bool.false_eq_true, hm2s]
    · unfold PixelState.completeBatch
      simp only [hp, decide_False, if_false, Bool.false_eq_true, hcounts]
    · have hp2 : ¬ ((current.length : Nat) : Int) = candidate_batch_count options := by
        rw [← hccount]
        exact hp
      unfold PixelState.completeBatch
      simp only [hp2, decide_False, if_false, Bool.false_eq_true, hccount, List.length_append,
        List.length_singleton]
      push_cast
      rfl

end WelfordProofs

section WelfordLoop
variable {K R : Type} [LinearOrderedField K]

/-- Recording one collected sample keeps the invariant of the statistics; the average of the
batch is appended when the sample completes a batch. -/
theorem PixelState.recordSample_welford (options : RenderOptions K) (st : PixelState K)
    (color_contribution : Color K) (xs : List (Color K)) (groups : List (List (Color K)))
    (current : List (Color K)) (h : st.Welford options xs groups current) :
    ∃ groups2 current2, (st.recordSample options color_contribution).Welford options
      (xs ++ (if st.stats_sample_index + 1 = stats_sample_count options then
        [(st.sample_aggregate.add color_contribution).div ((stats_sample_count options : Int) : K)]
      else [])) groups2 current2 := by
  obtain ⟨h1, h2, h3, h4, h5, h6, h7, h8, h9, h10, h11, h12, h13, h14, h15⟩ := h
  by_cases hb : st.stats_sample_index + 1 = stats_sample_count options
  · rw [if_pos hb]
    obtain ⟨groups2, current2, hw⟩ := PixelState.completeBatch_welford options
      { st with contribution_count := st.contribution_count + 1,
                stats_sample_index := st.stats_sample_index + 1,
                sample_aggregate := st.sample_aggregate.add color_contribution }
      xs groups current h4 h5
      (by show st.contribution_count + 1 = _; rw [h3, mul_add, mul_one, ← hb]; ring)
      h6 h7 h8 h9 h10 h11 h12 h13 h14 h15
    refine ⟨groups2, current2, ?_⟩
    have he : st.recordSample options color_contribution =
        { PixelState.completeBatch options
            { st with contribution_count := st.contribution_count + 1,
                      stats_sample_index := st.stats_sample_index + 1,
                      sample_aggregate := st.sample_aggregate.add color_contribution } with
          previous_pixel_value := st.pixel_value,
          pixel_value := st.pixel_value.add color_contribution,
          collected_sample_count := st.collected_sample_count + 1 } := by
      unfold PixelState.recordSample
      simp only [hb, if_true]
      rfl
    rw [he]
    exact hw
  · rw [if_neg hb, List.append_nil]
    refine ⟨groups, current, ?_⟩
    have he : st.recordSample options color_contribution =
        { st with contribution_count := st.contribution_count + 1,
                  stats_sample_index := st.stats_sample_index + 1,
                  sample_aggregate := st.sample_aggregate.add color_contribution,
                  previous_pixel_value := st.pixel_value,
                  pixel_value := st.pixel_value.add color_contribution,
                  collected_sample_count := st.collected_sample_count + 1 } := by
      unfold PixelState.recordSample
      simp only [hb, if_false]
    rw [he]
    refine ⟨?_, ?_, ?_, h4, h5, h6, h7, h8, h9, h10, h11, h12, h13, h14, h15⟩
    · show 0 ≤ st.stats_sample_index + 1
      omega
    · show st.stats_sample_index + 1 < _
      omega
    · show st.contribution_count + 1 = _ + (st.stats_sample_index + 1)
      rw [h3]
      ring

/-- Recording the colours of collected samples one after the other keeps the invariant of the
statistics, with the averages of the completed batches appended. -/
theorem PixelState.recordSamples_welford (options : RenderOptions K)
    (samples : List (Color K)) :
    ∀ (st : PixelState K) (xs : List (Color K)) (groups : List (List (Color K)))
      (current : List (Color K)), st.Welford options xs groups current →
      ∃ groups2 current2, (st.recordSamples options samples).Welford options
        (xs ++ st.batchAverages options samples) groups2 current2 := by
  induction samples with
  | nil =>
    intro st xs groups current h
    exact ⟨groups, current, by
      rw [PixelState.batchAverages, List.append_nil]
      exact h⟩
  | cons c rest ih =>
    intro st xs groups current h
    obtain ⟨g1, c1, h1⟩ := PixelState.recordSample_welford options st c xs groups current h
    obtain ⟨g2, c2, h2⟩ := ih _ _ g1 c1 h1
    refine ⟨g2, c2, ?_⟩
    rw [PixelState.batchAverages, ← List.append_assoc]
    exact h2

/-- The statistics after a recorded sample do not depend on the variables of the convergence
check. -/
theorem PixelState.recordSample_statistics (options : RenderOptions K) (st : PixelState K)
    (color_contribution : Color K) :
    (st.recordSample options color_contribution).statistics =
      (st.statistics.recordSample options color_contribution).statistics := by
  unfold PixelState.recordSample PixelState.statistics
  simp only []
  split_ifs <;> rfl

/-- The statistics after recorded samples do not depend on the variables of the convergence
check. -/
theorem PixelState.recordSamples_statistics (options : RenderOptions K)
    (samples : List (Color K)) :
    ∀ (st st2 : PixelState K), st.statistics = st2.statistics →
      (st.recordSamples options samples).statistics =
        (st2.recordSamples options samples).statistics := by
  induction samples with
  | nil => intro st st2 h; exact h
  | cons c rest ih =>
    intro st st2 h
    unfold PixelState.recordSamples
    rw [List.foldl_cons, List.foldl_cons]
    apply ih
    rw [PixelState.recordSample_statistics, h, ← PixelState.recordSample_statistics]

/-- The convergence check changes none of the statistics. -/
theorem PixelState.checkConvergence_statistics (sqrt : K → K) (options : RenderOptions K)
    (st : PixelState K) : (st.checkConvergence sqrt options).1.statistics = st.statistics := by
  unfold PixelState.checkConvergence
  simp only []
  split_ifs <;> rfl

/-- The statistics at the end of the sample loop are those of recording the colours of the
collected samples one after the other. -/
theorem samplePixel_statistics (sqrt : K → K) (sh : Shading K R) (job : FrameRenderJob K)
    (fuel : Nat) (x_camera y_camera : K) (remaining : Nat) :
    ∀ (st st2 : PixelState K) (re re2 : R),
      samplePixel sqrt sh job fuel x_camera y_camera remaining st re = some (st2, re2) →
      st2.statistics = (st.recordSamples job.options
        (samplePixel.colors sqrt sh job fuel x_camera y_camera remaining st re)).statistics := by
  induction remaining with
  | zero =>
    intro st st2 re re2 hs
    simp only [samplePixel, Option.some.injEq, Prod.mk.injEq] at hs
    rw [← hs.1]
    rfl
  | succ n ih =>
    intro st st2 re re2 hs
    rw [samplePixel] at hs
    rw [samplePixel.colors]
    cases hg : getSample sqrt sh job fuel x_camera y_camera re with
    | none => rw [hg] at hs; exact absurd hs (by simp)
    | some res =>
      obtain ⟨⟨out, collected⟩, re1⟩ := res
      rw [hg] at hs
      simp only [] at hs ⊢
      cases collected with
      | false =>
        simp only [Bool.false_eq_true, if_false] at hs ⊢
        exact ih st st2 re1 re2 hs
      | true =>
        simp only [if_true] at hs ⊢
        have hadd : (st.addSample sqrt job.options out.color).1.statistics =
            (st.recordSample job.options out.color).statistics :=
          PixelState.checkConvergence_statistics sqrt job.options _
        by_cases hbrk : (st.addSample sqrt job.options out.color).2 = true
        · simp only [hbrk, if_true, Option.some.injEq, Prod.mk.injEq] at hs ⊢
          rw [← hs.1, hadd]
          rfl
        · simp only [hbrk, if_false, Bool.false_eq_true] at hs ⊢
          rw [ih _ st2 re1 re2 hs]
          show _ = (PixelState.recordSamples job.options (st.recordSample job.options out.color)
            _).statistics
          exact PixelState.recordSamples_statistics job.options _ _ _ hadd

/-- C28. After the batches completed while the colours of the collected samples of a pixel are
recorded, at least one, the running mean of `processItem` is the arithmetic mean, per channel,
of the batch averages and the running M2 is the sum of the squared deviations of the batch
averages from that mean. The batch averages split into the candidate batches already pushed,
each of `candidate_batch_count` batch averages, and the non-empty candidate batch being filled;
the stored mean, M2 and count of each candidate batch are the mean, the sum of squared
deviations and the number of the batch averages it contains. The statistics at the end of the
sample loop are those of recording the colours of its collected samples. -/
theorem processItem_welford_statistics (options : RenderOptions K) (samples : List (Color K))
    (hk : 1 ≤ ((PixelState.init options).batchAverages options samples).length) :
    ((PixelState.init options).recordSamples options samples).contribution_mean =
      Color.mean ((PixelState.init options).batchAverages options samples) ∧
    ((PixelState.init options).recordSamples options samples).contribution_m2 =
      Color.squaredDeviations ((PixelState.init options).batchAverages options samples) ∧
    (∃ (groups : List (List (Color K))) (current : List (Color K)),
      (PixelState.init options).batchAverages options samples = groups.flatten ++ current ∧
      (∀ g ∈ groups, ((g.length : Nat) : Int) = candidate_batch_count options) ∧
      1 ≤ current.length ∧ ((current.length : Nat) : Int) ≤ candidate_batch_count options ∧
      ((PixelState.init options).recordSamples options samples).candidate_means =
        groups.map Color.mean ∧
      ((PixelState.init options).recordSamples options samples).candidate_m2s =
        groups.map Color.squaredDeviations ∧
      ((PixelState.init options).recordSamples options samples).candidate_counts =
        groups.map (fun (g : List (Color K)) => ((g.length : Nat) : Int)) ∧
      ((PixelState.init options).recordSamples options samples).candidate_mean =
        Color.mean current ∧
      ((PixelState.init options).recordSamples options samples).candidate_m2 =
        Color.squaredDeviations current ∧
      ((PixelState.init options).recordSamples options samples).candidate_count =
        ((current.length : Nat) : Int)) ∧
    (∀ (sqrt : K → K) (sh : Shading K R) (scene : Scene K) (fuel : Nat) (x_camera y_camera : K)
      (re re2 : R) (st2 : PixelState K),
      samplePixel sqrt sh { scene := scene, options := options } fuel x_camera y_camera
        options.max_sample_count.toNat (PixelState.init options) re = some (st2, re2) →
      st2.statistics = ((PixelState.init options).recordSamples options
        (samplePixel.colors sqrt sh { scene := scene, options := options } fuel x_camera
          y_camera options.max_sample_count.toNat (PixelState.init options) re)).statistics) := by
  obtain ⟨groups, current, h⟩ := PixelState.recordSamples_welford options samples
    (PixelState.init options) [] [] [] (PixelState.init_welford options)
  rw [List.nil_append] at h
  obtain ⟨h1, h2, h3, h4, h5, h6, h7, h8, h9, h10, h11, h12, h13, h14, h15⟩ := h
  refine ⟨h4, h5, ⟨groups, current, h6, h7, ?_, h8, h10, h11, h12, h13, h14, h15⟩, ?_⟩
  · have hne : current ≠ [] := h9 (by
      intro he
      rw [he] at hk
      simp at hk)
    exact List.length_pos.mpr hne
  · intro sqrt sh scene fuel x_camera y_camera re re2 st2 hs
    exact samplePixel_statistics sqrt sh { scene := scene, options := options } fuel x_camera
      y_camera _ _ st2 re re2 hs

/-- C28 at `stats_sample_count = 2` and `candidate_batch_count = 4` with eleven samples: five
completed batches, of which the first four form a pushed candidate batch. -/
theorem processItem_welford_statistics_witness :
    1 ≤ ((PixelState.init pairedOptions).batchAverages pairedOptions elevenSamples).length ∧
    (PixelState.init pairedOptions).batchAverages pairedOptions elevenSamples =
      [⟨2, 1, 0, 1⟩, ⟨6, 1, 2, 1⟩, ⟨1, 3, 2, 1⟩, ⟨5, 2, 3, 1⟩, ⟨2, 3, 4, 1⟩] ∧
    ((PixelState.init pairedOptions).recordSamples pairedOptions elevenSamples).contribution_mean =
      ⟨16 / 5, 2, 11 / 5, 1⟩ ∧
    ((PixelState.init pairedOptions).recordSamples pairedOptions elevenSamples).candidate_means =
      [⟨7 / 2, 7 / 4, 7 / 4, 1⟩] ∧
    (((PixelState.init pairedOptions).recordSamples pairedOptions elevenSamples).contribution_mean =
      Color.mean ((PixelState.init pairedOptions).batchAverages pairedOptions elevenSamples) ∧
    ((PixelState.init pairedOptions).recordSamples pairedOptions elevenSamples).contribution_m2 =
      Color.squaredDeviations
        ((PixelState.init pairedOptions).batchAverages pairedOptions elevenSamples) ∧
    (∃ (groups : List (List (Color ℚ))) (current : List (Color ℚ)),
      (PixelState.init pairedOptions).batchAverages pairedOptions elevenSamples =
        groups.flatten ++ current ∧
      (∀ g ∈ groups, ((g.length : Nat) : Int) = candidate_batch_count pairedOptions) ∧
      1 ≤ current.length ∧
      ((current.length : Nat) : Int) ≤ candidate_batch_count pairedOptions ∧
      ((PixelState.init pairedOptions).recordSamples pairedOptions elevenSamples).candidate_means =
        groups.map Color.mean ∧
      ((PixelState.init pairedOptions).recordSamples pairedOptions elevenSamples).candidate_m2s =
        groups.map Color.squaredDeviations ∧
      ((PixelState.init pairedOptions).recordSamples pairedOptions elevenSamples).candidate_counts =
        groups.map (fun (g : List (Color ℚ)) => ((g.length : Nat) : Int)) ∧
      ((PixelState.init pairedOptions).recordSamples pairedOptions elevenSamples).candidate_mean =
        Color.mean current ∧
      ((PixelState.init pairedOptions).recordSamples pairedOptions elevenSamples).candidate_m2 =
        Color.squaredDeviations current ∧
      ((PixelState.init pairedOptions).recordSamples pairedOptions elevenSamples).candidate_count =
        ((current.length : Nat) : Int)) ∧
    (∀ (sqrt : ℚ → ℚ) (sh : Shading ℚ Unit) (scene : Scene ℚ) (fuel : Nat)
      (x_camera y_camera : ℚ) (re re2 : Unit) (st2 : PixelState ℚ),
      samplePixel sqrt sh { scene := scene, options := pairedOptions } fuel x_camera y_camera
        pairedOptions.max_sample_count.toNat (PixelState.init pairedOptions) re =
          some (st2, re2) →
      st2.statistics = ((PixelState.init pairedOptions).recordSamples pairedOptions
        (samplePixel.colors sqrt sh { scene := scene, options := pairedOptions } fuel x_camera
          y_camera pairedOptions.max_sample_count.toNat (PixelState.init pairedOptions)
          re)).statistics)) :=
  ⟨by decide!, by decide!, by decide!, by decide!,
    @processItem_welford_statistics ℚ Unit _ pairedOptions elevenSamples (by decide!)⟩

end WelfordLoop

section CheckProofs
variable {K R : Type} [LinearOrderedField K]

/-- The constant `check_sample_count` of `processItem` is at least 1. -/
theorem check_sample_count_pos (options : RenderOptions K) : 1 ≤ check_sample_count options := by
  have hs := stats_sample_count_pos options
  have hs64 : stats_sample_count options ≤ 64 := by
    unfold stats_sample_count
    exact min_le_right _ _
  unfold check_sample_count
  have hn : stats_sample_count options ≤
      min (max (max (max (options.min_sample_count.tdiv 2)
        ((options.max_sample_count - options.min_sample_count).tdiv 8)) 8)
        (stats_sample_count options)) 1024 :=
    le_min (le_max_right _ _) (by omega)
  generalize min (max (max (max (options.min_sample_count.tdiv 2)
        ((options.max_sample_count - options.min_sample_count).tdiv 8)) 8)
        (stats_sample_count options)) 1024 = n at hn
  rw [Int.tdiv_eq_ediv (by omega) (by omega)]
  exact Int.le_ediv_of_mul_le (by omega) (by omega)

theorem trailingPasses_nil : trailingPasses [] = 0 := rfl

/-- A passed check extends the streak at the end of the history. -/
theorem trailingPasses_append_true (checks : List Bool) :
    trailingPasses (checks ++ [true]) = trailingPasses checks + 1 := by
  simp [trailingPasses, List.takeWhile_cons]

/-- A failed check ends the streak at the end of the history. -/
theorem trailingPasses_append_false (checks : List Bool) :
    trailingPasses (checks ++ [false]) = 0 := by
  simp [trailingPasses, List.takeWhile_cons]

/-- A history with a streak of at least `n` passed checks at its end ends with `n` passed
checks. -/
theorem trailingPasses_ends (checks : List Bool) (n : Nat) (h : n ≤ trailingPasses checks) :
    ∃ front, checks = front ++ List.replicate n true := by
  unfold trailingPasses at h
  have hsplit := List.takeWhile_append_dropWhile (fun passed => passed) checks.reverse
  have hall : ∀ b ∈ checks.reverse.takeWhile (fun passed => passed), b = true := by
    intro b hb
    exact List.mem_takeWhile_imp hb
  have hrep : checks.reverse.takeWhile (fun passed => passed) =
      List.replicate (checks.reverse.takeWhile (fun passed => passed)).length true :=
    List.eq_replicate_iff.mpr ⟨rfl, hall⟩
  generalize checks.reverse.takeWhile (fun passed => passed) = taken at h hsplit hrep
  generalize checks.reverse.dropWhile (fun passed => passed) = dropped at hsplit
  have hrev : checks = dropped.reverse ++ taken.reverse := by
    rw [← List.reverse_append, hsplit, List.reverse_reverse]
  rw [hrep, List.reverse_replicate] at hrev
  obtain ⟨m, hm⟩ : ∃ m, taken.length = m + n := ⟨taken.length - n, by omega⟩
  rw [hm, List.replicate_add, ← List.append_assoc] at hrev
  exact ⟨_, hrev⟩

/-- Recording a sample changes neither variable of the convergence check. -/
theorem PixelState.recordSample_checks (options : RenderOptions K) (st : PixelState K)
    (color_contribution : Color K) :
    (st.recordSample options color_contribution).remaining_checks = st.remaining_checks ∧
    (st.recordSample options color_contribution).accepted_candidate = st.accepted_candidate := by
  unfold PixelState.recordSample
  simp only []
  split_ifs <;> exact ⟨rfl, rfl⟩

/-- The four ways through the convergence check of `processItem`: no check; a passed check that
exhausts the counter and leaves the loop; a passed check that decrements the counter; a failed
check that resets the counter. -/
theorem PixelState.checkConvergence_cases (sqrt : K → K) (options : RenderOptions K)
    (st : PixelState K) :
    (st.checkOutcome sqrt options = [] ∧ st.checkConvergence sqrt options = (st, false)) ∨
    (st.checkOutcome sqrt options = [true] ∧
      max options.min_sample_count 2 ≤ st.collected_sample_count ∧
      st.remaining_checks - 1 ≤ 0 ∧
      st.checkConvergence sqrt options =
        ({ st with remaining_checks := st.remaining_checks - 1, accepted_candidate := true },
          true)) ∨
    (st.checkOutcome sqrt options = [true] ∧ ¬ st.remaining_checks - 1 ≤ 0 ∧
      st.checkConvergence sqrt options =
        ({ st with remaining_checks := st.remaining_checks - 1 }, false)) ∨
    (st.checkOutcome sqrt options = [false] ∧
      st.checkConvergence sqrt options =
        ({ st with remaining_checks := check_sample_count options }, false)) := by
  unfold PixelState.checkOutcome PixelState.checkConvergence
  by_cases hc : st.stats_sample_index = 0 ∧
      st.collected_sample_count ≥ max options.min_sample_count 2
  · rw [if_pos hc, if_pos hc]
    right
    by_cases hp : st.passesCheck sqrt options = true
    · rw [if_pos hp, hp]
      simp only []
      by_cases hr : st.remaining_checks - 1 ≤ 0
      · left
        exact ⟨trivial, hc.2, hr, by rw [if_pos hr]⟩
      · right
        left
        exact ⟨trivial, hr, by rw [if_neg hr]⟩
    · right
      right
      rw [if_neg hp]
      rw [Bool.not_eq_true] at hp
      rw [hp]
      exact ⟨rfl, rfl⟩
  · left
    rw [if_neg hc, if_neg hc]
    exact ⟨rfl, rfl⟩

/-- The sample loop of `processItem` from a state in which the loop has not been left: the
number of drawn samples, the streak counter and the conditions of an early stop. -/
theorem samplePixel_checks (sqrt : K → K) (sh : Shading K R) (job : FrameRenderJob K)
    (fuel : Nat) (x_camera y_camera : K) (remaining : Nat) :
    ∀ (st st2 : PixelState K) (re re2 : R) (history : List Bool),
      st.remaining_checks =
        check_sample_count job.options - ((trailingPasses history : Nat) : Int) →
      st.accepted_candidate = false →
      samplePixel sqrt sh job fuel x_camera y_camera remaining st re = some (st2, re2) →
      (samplePixel.flags sqrt sh job fuel x_camera y_camera remaining st re).length ≤
        remaining ∧
      st2.remaining_checks = check_sample_count job.options -
        ((trailingPasses (history ++
          samplePixel.checks sqrt sh job fuel x_camera y_camera remaining st re) : Nat) : Int) ∧
      ((samplePixel.flags sqrt sh job fuel x_camera y_camera remaining st re).length <
        remaining → st2.accepted_candidate = true) ∧
      (st2.accepted_candidate = true →
        max job.options.min_sample_count 2 ≤ st2.collected_sample_count ∧
        st2.remaining_checks ≤ 0) := by
  induction remaining with
  | zero =>
    intro st st2 re re2 history hrem hacc hs
    simp only [samplePixel, Option.some.injEq, Prod.mk.injEq] at hs
    rw [← hs.1]
    simp only [samplePixel.flags, samplePixel.checks, List.append_nil, List.length_nil]
    refine ⟨le_refl _, hrem, fun h => absurd h (lt_irrefl _), fun h => ?_⟩
    rw [hacc] at h
    exact absurd h (by simp)
  | succ n ih =>
    intro st st2 re re2 history hrem hacc hs
    rw [samplePixel] at hs
    rw [samplePixel.flags, samplePixel.checks]
    cases hg : getSample sqrt sh job fuel x_camera y_camera re with
    | none => rw [hg] at hs; exact absurd hs (by simp)
    | some res =>
      obtain ⟨⟨out, collected⟩, re1⟩ := res
      rw [hg] at hs
      simp only [] at hs ⊢
      cases collected with
      | false =>
        simp only [Bool.false_eq_true, if_false] at hs ⊢
        obtain ⟨i1, i2, i3, i4⟩ := ih st st2 re1 re2 history hrem hacc hs
        refine ⟨?_, i2, fun h => i3 ?_, i4⟩
        · rw [List.length_cons]
          omega
        · rw [List.length_cons] at h
          omega
      | true =>
        simp only [if_true] at hs ⊢
        obtain ⟨r1, r2⟩ := PixelState.recordSample_checks job.options st out.color
        have hadd : st.addSample sqrt job.options out.color =
            (st.recordSample job.options out.color).checkConvergence sqrt job.options := rfl
        rcases PixelState.checkConvergence_cases sqrt job.options
          (st.recordSample job.options out.color) with
          ⟨c1, c2⟩ | ⟨c1, c2, c3, c4⟩ | ⟨c1, c2, c3⟩ | ⟨c1, c2⟩
        · rw [hadd, c2] at hs ⊢
          rw [c1]
          simp only [Bool.false_eq_true, if_false, List.nil_append] at hs ⊢
          obtain ⟨i1, i2, i3, i4⟩ := ih _ st2 re1 re2 history (by rw [r1]; exact hrem)
            (by rw [r2]; exact hacc) hs
          refine ⟨?_, i2, fun h => i3 ?_, i4⟩
          · rw [List.length_cons]
            omega
          · rw [List.length_cons] at h
            omega
        · rw [hadd, c4] at hs ⊢
          rw [c1]
          simp only [if_true, Option.some.injEq, Prod.mk.injEq] at hs ⊢
          rw [← hs.1]
          refine ⟨by simp, ?_, fun _ => rfl, fun _ => ⟨c2, c3⟩⟩
          show (st.recordSample job.options out.color).remaining_checks - 1 = _
          rw [trailingPasses_append_true, r1, hrem]
          push_cast
          ring
        · rw [hadd, c3] at hs ⊢
          rw [c1]
          simp only [Bool.false_eq_true, if_false] at hs ⊢
          obtain ⟨i1, i2, i3, i4⟩ := ih _ st2 re1 re2 (history ++ [true])
            (by
              show (st.recordSample job.options out.color).remaining_checks - 1 = _
              rw [trailingPasses_append_true, r1, hrem]
              push_cast
              ring)
            (by
              show (st.recordSample job.options out.color).accepted_candidate = false
              rw [r2]; exact hacc) hs
          rw [List.append_assoc] at i2
          refine ⟨?_, i2, fun h => i3 ?_, i4⟩
          · rw [List.length_cons]
            omega
          · rw [List.length_cons] at h
            omega
        · rw [hadd, c2] at hs ⊢
          rw [c1]
          simp only [Bool.false_eq_true, if_false] at hs ⊢
          obtain ⟨i1, i2, i3, i4⟩ := ih _ st2 re1 re2 (history ++ [false])
            (by
              show check_sample_count job.options = _
              rw [trailingPasses_append_false]
              simp)
            (by
              show (st.recordSample job.options out.color).accepted_candidate = false
              rw [r2]; exact hacc) hs
          rw [List.append_assoc] at i2
          refine ⟨?_, i2, fun h => i3 ?_, i4⟩
          · rw [List.length_cons]
            omega
          · rw [List.length_cons] at h
            omega

/-- C25. For every pixel the sample loop of `processItem` draws at most `max_sample_count`
samples. It draws fewer only when it is left through `break`, and it is left through `break`
only when at least `max(min_sample_count, 2)` samples are collected and the history of the
convergence checks, one per completed batch once that many samples are collected, ends with
`check_sample_count >= 1` passed checks. The counter `remaining_checks` is `check_sample_count`
minus the number of passed checks at the end of the history, which a failed check makes zero:
a failed check resets the counter to `check_sample_count`. -/
theorem processItem_sample_budget_and_early_stop (sqrt : K → K) (sh : Shading K R)
    (job : FrameRenderJob K) (fuel : Nat) (x_camera y_camera : K) (re re2 : R)
    (st : PixelState K)
    (hs : samplePixel sqrt sh job fuel x_camera y_camera job.options.max_sample_count.toNat
      (PixelState.init job.options) re = some (st, re2)) :
    (samplePixel.flags sqrt sh job fuel x_camera y_camera job.options.max_sample_count.toNat
      (PixelState.init job.options) re).length ≤ job.options.max_sample_count.toNat ∧
    1 ≤ check_sample_count job.options ∧
    ((samplePixel.flags sqrt sh job fuel x_camera y_camera job.options.max_sample_count.toNat
      (PixelState.init job.options) re).length < job.options.max_sample_count.toNat →
      st.accepted_candidate = true) ∧
    (st.accepted_candidate = true →
      max job.options.min_sample_count 2 ≤ st.collected_sample_count ∧
      ∃ front, samplePixel.checks sqrt sh job fuel x_camera y_camera
        job.options.max_sample_count.toNat (PixelState.init job.options) re =
          front ++ List.replicate (check_sample_count job.options).toNat true) ∧
    st.remaining_checks = check_sample_count job.options -
      ((trailingPasses (samplePixel.checks sqrt sh job fuel x_camera y_camera
        job.options.max_sample_count.toNat (PixelState.init job.options) re) : Nat) : Int) ∧
    (∀ checks : List Bool, trailingPasses (checks ++ [false]) = 0 ∧
      trailingPasses (checks ++ [true]) = trailingPasses checks + 1) ∧
    (∀ recorded : PixelState K, recorded.checkOutcome sqrt job.options = [false] →
      (recorded.checkConvergence sqrt job.options).1.remaining_checks =
        check_sample_count job.options ∧
      (recorded.checkConvergence sqrt job.options).2 = false) := by
  have hpos := check_sample_count_pos job.options
  obtain ⟨i1, i2, i3, i4⟩ := samplePixel_checks sqrt sh job fuel x_camera y_camera _
    (PixelState.init job.options) st re re2 [] (by simp [PixelState.init, trailingPasses_nil])
    rfl hs
  rw [List.nil_append] at i2
  refine ⟨i1, hpos, i3, fun h => ⟨(i4 h).1, ?_⟩, i2,
    fun checks => ⟨trailingPasses_append_false checks, trailingPasses_append_true checks⟩,
    fun recorded ho => ?_⟩
  · apply trailingPasses_ends
    have := (i4 h).2
    rw [i2] at this
    omega
  · rcases PixelState.checkConvergence_cases sqrt job.options recorded with
      ⟨c1, c2⟩ | ⟨c1, c2, c3, c4⟩ | ⟨c1, c2, c3⟩ | ⟨c1, c2⟩
    · rw [c1] at ho; exact absurd ho (by simp)
    · rw [c1] at ho; exact absurd ho (by simp)
    · rw [c1] at ho; exact absurd ho (by simp)
    · rw [c2]
      exact ⟨rfl, rfl⟩

/-- C25 at a pixel whose samples all have the same colour, with up to 20 samples and
`check_sample_count = 8`: the loop is left after 9 samples, the first check being made after the
second sample. -/
theorem processItem_sample_budget_and_early_stop_witness :
    samplePixel id plainShading steadyJob 1 0 0 steadyJob.options.max_sample_count.toNat
      (PixelState.init steadyJob.options) () = some (steadyState, ()) ∧
    (samplePixel.flags id plainShading steadyJob 1 0 0 steadyJob.options.max_sample_count.toNat
      (PixelState.init steadyJob.options) ()).length = 9 ∧
    check_sample_count steadyJob.options = 8 ∧
    samplePixel.checks id plainShading steadyJob 1 0 0 steadyJob.options.max_sample_count.toNat
      (PixelState.init steadyJob.options) () = List.replicate 8 true ∧
    ((samplePixel.flags id plainShading steadyJob 1 0 0 steadyJob.options.max_sample_count.toNat
      (PixelState.init steadyJob.options) ()).length ≤ steadyJob.options.max_sample_count.toNat ∧
    1 ≤ check_sample_count steadyJob.options ∧
    ((samplePixel.flags id plainShading steadyJob 1 0 0 steadyJob.options.max_sample_count.toNat
      (PixelState.init steadyJob.options) ()).length < steadyJob.options.max_sample_count.toNat →
      steadyState.accepted_candidate = true) ∧
    (steadyState.accepted_candidate = true →
      max steadyJob.options.min_sample_count 2 ≤ steadyState.collected_sample_count ∧
      ∃ front, samplePixel.checks id plainShading steadyJob 1 0 0
        steadyJob.options.max_sample_count.toNat (PixelState.init steadyJob.options) () =
          front ++ List.replicate (check_sample_count steadyJob.options).toNat true) ∧
    steadyState.remaining_checks = check_sample_count steadyJob.options -
      ((trailingPasses (samplePixel.checks id plainShading steadyJob 1 0 0
        steadyJob.options.max_sample_count.toNat (PixelState.init steadyJob.options) ()) : Nat) :
          Int) ∧
    (∀ checks : List Bool, trailingPasses (checks ++ [false]) = 0 ∧
      trailingPasses (checks ++ [true]) = trailingPasses checks + 1) ∧
    (∀ recorded : PixelState ℚ, recorded.checkOutcome id steadyJob.options = [false] →
      (recorded.checkConvergence id steadyJob.options).1.remaining_checks =
        check_sample_count steadyJob.options ∧
      (recorded.checkConvergence id steadyJob.options).2 = false)) :=
  ⟨by decide!, by decide!, by decide!, by decide!,
    processItem_sample_budget_and_early_stop id plainShading steadyJob 1 0 0 () () steadyState
      (by decide!)⟩

end CheckProofs

end PathTrace
